import Mathlib

/-!
# FOEDUS transaction manager: commit protocol

A shallow embedding of `foedus/xct/xct_manager_pimpl.cpp` (the optimistic
commit protocol of the transaction manager) together with the pieces of the
data model it manipulates.

Conventions of the embedding.

* Pointers (`storage::Storage*`, `storage::Record*`, `void* log_entry_`) are
  natural numbers (addresses).  Record memory is a map from addresses to
  records.
* One call of `precommit_xct` is one atomic step on a snapshot of the shared
  memory: memory fences have no counterpart and other workers do not
  interleave inside a call.
* `ASSERT_ND` is compiled out in release builds and is not part of the
  behaviour that is modelled, except in `initialize_once`, whose model takes
  the build as a parameter.  `LOG(FATAL)` and a spin on a key-lock that no
  one will ever release end the call without a return value (`Halt`).
* Logging statements (`LOG`, `DLOG`, `DVLOG`) are dropped.
-/

namespace foedus

/-! ## Error codes -/

/-- The error codes returned by the functions of the transaction manager. -/
inductive ErrorCode where
  | kErrorCodeOk
  | kErrorCodeXctNoXct
  | kErrorCodeXctAlreadyRunning
  | kErrorCodeXctRaceAbort
  | kErrorCodeXctReadSetOverflow
  | kErrorCodeXctWriteSetOverflow
  | kErrorCodeLogInvalidLogType
  | kErrorCodeDepedentModuleUnavailableInit
  | kErrorCodeTimeout
  | kErrorCodeMemoryNoFreePages
  deriving DecidableEq, Repr

/-- Ways in which a call ends without returning to its caller. -/
inductive Halt where
  /-- `keylock_unconditional` spins on a lock bit that stays set. -/
  | spin
  /-- A `LOG(FATAL)` statement was reached, or an assertion failed where
  assertions are compiled in: the process is aborted. -/
  | fatal
  deriving DecidableEq, Repr

/-! ## Epoch -/

/-- Modelled from the spec: the class `Epoch` (`foedus/epoch.hpp` is not among the
sources).  "A 32-bit wrap-around counter with a reserved invalid value." -/
structure Epoch where
  epoch_ : Nat
  deriving DecidableEq, Repr

/-- Modelled from the spec: the reserved invalid value of `Epoch`. -/
def kEpochInvalid : Nat := 0

/-- Modelled from the spec: half of the 32-bit range, the guard of the modular
less-than. -/
def kEpochIntHalf : Nat := 2 ^ 31

/-- Modelled from the spec: the size of the 32-bit range. -/
def kEpochIntOverflow : Nat := 2 ^ 32

namespace Epoch

/-- Modelled from the spec: the default-constructed `Epoch()`, the invalid epoch. -/
def invalid : Epoch := ⟨kEpochInvalid⟩

/-- Modelled from the spec: `Epoch::is_valid`. -/
def is_valid (e : Epoch) : Bool := e.epoch_ != kEpochInvalid

/-- Modelled from the spec: `Epoch::one_more`, "wrapping successor skipping invalid". -/
def one_more (e : Epoch) : Epoch :=
  let tmp := (e.epoch_ + 1) % kEpochIntOverflow
  if tmp = kEpochInvalid then ⟨tmp + 1⟩ else ⟨tmp⟩

/-- Modelled from the spec: `Epoch::before`, the less-than of epochs, "modular with a
half-range guard": `a` is before `b` when `b` is less than half the range ahead
of `a`, going around the 32-bit range. -/
def before (a b : Epoch) : Bool :=
  let diff : Int := (b.epoch_ : Int) - (a.epoch_ : Int)
  decide (diff ≤ -(kEpochIntHalf : Int)) || (decide (0 < diff) && decide (diff < (kEpochIntHalf : Int)))

/-- Modelled from the spec: `Epoch::store_max`: the receiver takes the value of `other`
when the receiver is invalid or before `other`. -/
def store_max (self other : Epoch) : Epoch :=
  if !self.is_valid || self.before other then other else self

end Epoch

/-! ## Owner identifier -/

/-- Modelled from the spec: the struct `XctId` (`foedus/xct/xct_id.hpp` is not among the
sources).  The 64-bit word `data_` is "partitioned into" the epoch, the
per-epoch ordinal, the thread id and the status bits; the fields below are the
parts of that partition, so two ids carry the same word exactly when all their
fields agree. -/
structure XctId where
  /-- The commit epoch of the last writer. -/
  epoch_ : Epoch
  /-- The per-epoch ordinal. -/
  ordinal_ : Nat
  /-- The thread id of the writer. -/
  thread_id_ : Nat
  /-- The status bit "key-lock". -/
  keylock_ : Bool
  /-- The status bit "delete". -/
  deleted_ : Bool
  /-- The remaining status bits. -/
  other_status_ : Nat
  deriving DecidableEq, Repr

/-- Modelled from the spec: the number of values of the ordinal field of the 64-bit
word.  The spec gives the width of the word and of the epoch (32 bits) and not
the widths of the parts that share the other 32 bits; a comment in
`precommit_xct_lock` has the key-lock bit as "the highest bit of
ordinal_and_status_", a field that the ordinal shares with the status bits.
The model takes that field as 16 bits, beside 16 bits of thread id: the
key-lock bit, the delete bit and 14 bits of ordinal.  What is proved below
uses of the number only that it is greater than 1. -/
def kOrdinalOverflow : Nat := 2 ^ 14

namespace XctId

/-- Modelled from the spec: `XctId::get_epoch`. -/
def get_epoch (x : XctId) : Epoch := x.epoch_

/-- Modelled from the spec: `XctId::get_ordinal`. -/
def get_ordinal (x : XctId) : Nat := x.ordinal_

/-- Modelled from the spec: `XctId::get_thread_id`. -/
def get_thread_id (x : XctId) : Nat := x.thread_id_

/-- Modelled from the spec: `XctId::is_keylocked`, the key-lock bit. -/
def is_keylocked (x : XctId) : Bool := x.keylock_

/-- Modelled from the spec: `XctId::is_status_bits_off`: all status bits are zero. -/
def is_status_bits_off (x : XctId) : Bool :=
  !x.keylock_ && !x.deleted_ && x.other_status_ == 0

/-- Modelled from the spec: `XctId::equals_serial_order` "compares only (epoch, ordinal,
thread) ignoring status". -/
def equals_serial_order (x y : XctId) : Bool :=
  x.epoch_ == y.epoch_ && x.ordinal_ == y.ordinal_ && x.thread_id_ == y.thread_id_

/-- Modelled from the spec: `XctId::equals_all` "compares the full word".  The commit
protocol writes the same test as `a.data_ != b.data_`. -/
def equals_all (x y : XctId) : Bool := x == y

/-- Modelled from the spec: `XctId::set_clean(epoch, thread_id, ordinal)`: an id with the
given serial-order part and all status bits zero. -/
def set_clean (epoch_int thread_id ordinal : Nat) : XctId :=
  { epoch_ := ⟨epoch_int⟩, ordinal_ := ordinal, thread_id_ := thread_id,
    keylock_ := false, deleted_ := false, other_status_ := 0 }

/-- Modelled from the spec: the word left by `XctId::release_keylock`, an "atomic store
clearing only the lock bit, preserving the rest of the word". -/
def release_keylock (x : XctId) : XctId := { x with keylock_ := false }

/-- Modelled from the spec: the word left by a successful compare-exchange of
`XctId::keylock_unconditional`, which "sets the bit". -/
def with_keylock (x : XctId) : XctId := { x with keylock_ := true }

end XctId

/-! ## Read set and write set entries -/

/-- Modelled from the spec: the struct `XctAccess` (`foedus/xct/xct_access.hpp` is not
among the sources): `(storage_handle, record_handle, observed_owner_id)`.  The
field names are those used by `xct_manager_pimpl.cpp`. -/
structure XctAccess where
  observed_owner_id_ : XctId
  storage_ : Nat
  record_ : Nat
  deriving DecidableEq, Repr

/-- Modelled from the spec: the struct `WriteXctAccess`: `(storage_handle, record_handle,
observed_owner_id, log_entry_pointer)`. -/
structure WriteXctAccess where
  observed_owner_id_ : XctId
  storage_ : Nat
  record_ : Nat
  log_entry_ : Nat
  deriving DecidableEq, Repr

/-- Modelled from the spec: `XctAccess::compare`, the order of read-set entries by
record address. -/
def XctAccess.compare (left right : XctAccess) : Bool :=
  decide (left.record_ < right.record_)

/-- Modelled from the spec: `WriteXctAccess::compare`: "primary key = record_handle
address; tie-break = log_entry_pointer address". -/
def WriteXctAccess.compare (left right : WriteXctAccess) : Bool :=
  if left.record_ ≠ right.record_ then decide (left.record_ < right.record_)
  else decide (left.log_entry_ < right.log_entry_)

/-! ## `std::sort` and `std::binary_search` -/

/-- Insertion of one element into a list ordered by `comp`, after the elements
that are not greater. -/
def std_sort_insert {α : Type} (comp : α → α → Bool) (x : α) : List α → List α
  | [] => [x]
  | y :: ys => if comp x y then x :: y :: ys else y :: std_sort_insert comp x ys

/-- `std::sort(first, last, comp)`: the range rearranged into ascending order of
`comp`.  The library fixes the result up to the order of equivalent elements;
the arrangement is computed here by insertion. -/
def std_sort {α : Type} (comp : α → α → Bool) : List α → List α
  | [] => []
  | x :: xs => std_sort_insert comp x (std_sort comp xs)

/-- The loop of `std::lower_bound`: `first` and `len` delimit the range still
searched; each round halves `len`.  `fuel` bounds the number of rounds. -/
def std_lower_bound_loop {α : Type} (comp : α → α → Bool) (l : List α) (val : α) :
    Nat → Nat → Nat → Nat
  | 0, first, _ => first
  | fuel + 1, first, len =>
    if len = 0 then first
    else
      let half := len / 2
      let middle := first + half
      match l[middle]? with
      | none => first
      | some m =>
        if comp m val then std_lower_bound_loop comp l val fuel (middle + 1) (len - half - 1)
        else std_lower_bound_loop comp l val fuel first half

/-- `std::lower_bound(first, last, val, comp)` on the whole range, as an index. -/
def std_lower_bound {α : Type} (comp : α → α → Bool) (l : List α) (val : α) : Nat :=
  std_lower_bound_loop comp l val (l.length + 1) 0 l.length

/-- `std::binary_search(first, last, val, comp)`: the lower bound is not the end
of the range and `val` is not less than the element found there. -/
def std_binary_search {α : Type} (comp : α → α → Bool) (l : List α) (val : α) : Bool :=
  let i := std_lower_bound comp l val
  match l[i]? with
  | none => false
  | some x => !comp val x

/-! ## Records, logs and the shared state -/

/-- Modelled from the spec: the struct `storage::Record` (`foedus/storage/record.hpp` is
not among the sources): a record "owns an owner_id (atomic 64-bit) and a payload
range". -/
structure Record where
  owner_id_ : XctId
  payload_ : List Nat
  deriving DecidableEq, Repr

/-- Modelled from the spec: the kinds of log types, `log::LogCodeKind`: "each log type
belongs to exactly one kind: Marker, Engine, Storage, Record". -/
inductive LogCodeKind where
  | kMarkerLogs
  | kEngineLogs
  | kStorageLogs
  | kRecordLogs
  deriving DecidableEq, Repr

/-- Modelled from the spec: the invalid log type code, `LOG_TYPE_INVALID` (written
`kLogCodeInvalid` by the commit protocol). -/
def LOG_TYPE_INVALID : Nat := 0

/-- Modelled from the spec: the struct `log::LogHeader`: "a header containing
log_type_code, log_length, storage_id". -/
structure LogHeader where
  log_type_code_ : Nat
  log_length_ : Nat
  storage_id_ : Nat
  deriving DecidableEq, Repr

/-- One buffered log record: the header and the bytes after it. -/
structure LogEntry where
  header : LogHeader
  body : List Nat
  deriving DecidableEq, Repr

/-- Modelled from the spec: the state of the `StorageManager` seen by the commit protocol:
`get_storage(id)` as a map from storage ids to storage addresses. -/
structure StorageManager where
  storages_ : Nat → Option Nat

/-- One row `X(a, b, c)` of `log_type.xmacro` (not among the sources): the three
apply entry points of the log class `c` registered under the code `a`.  An
engine or storage apply acts on the storage manager, a record apply on the
record it is given; each returns an error code besides its effect. -/
structure LogType where
  apply_engine : XctId → LogEntry → StorageManager → ErrorCode × StorageManager
  apply_storage : XctId → LogEntry → Option Nat → StorageManager → ErrorCode × StorageManager
  apply_record : XctId → LogEntry → Nat → Record → ErrorCode × Record

/-- The log-type registry, "closed at build time": the rows of `log_type.xmacro`
by code, and `log::get_log_code_kind` (`foedus/log/log_type.hpp` is not among
the sources). -/
structure LogTypes where
  xmacro : Nat → Option LogType
  get_log_code_kind : Nat → LogCodeKind

/-- An invocation of an apply entry point, recorded in the order of the calls. -/
inductive ApplyCall where
  | engine (xct_id : XctId) (entry : Nat)
  | storage (xct_id : XctId) (entry : Nat) (storage : Option Nat)
  | record (xct_id : XctId) (entry : Nat) (storage : Nat) (record : Nat)
  deriving DecidableEq, Repr

/-- The state shared by all workers: record memory, the global epoch clock of
`XctManagerPimpl`, the durable epoch of the log manager, the storage manager,
and the history of the apply invocations made so far. -/
structure World where
  /-- Record memory, by record address. -/
  records_ : Nat → Record
  /-- The field `current_global_epoch_` of `XctManagerPimpl`. -/
  current_global_epoch_ : Epoch
  /-- The value of `get_durable_global_epoch_weak()` of the log manager. -/
  durable_global_epoch_ : Epoch
  storage_manager_ : StorageManager
  /-- The apply invocations made so far, oldest first. -/
  applied_ : List ApplyCall

namespace World

/-- The owner id stored in the record at address `r`. -/
def owner_id (w : World) (r : Nat) : XctId := (w.records_ r).owner_id_

/-- A store to the record at address `r`. -/
def set_record (w : World) (r : Nat) (v : Record) : World :=
  { w with records_ := fun a => if a = r then v else w.records_ a }

/-- A store to the owner id of the record at address `r`. -/
def set_owner_id (w : World) (r : Nat) (x : XctId) : World :=
  w.set_record r { w.records_ r with owner_id_ := x }

end World

/-! ## The per-worker context -/

/-- Modelled from the spec: the isolation levels of a transaction. -/
inductive IsolationLevel where
  | kDirtyRead
  | kSnapshot
  | kSerializable
  deriving DecidableEq, Repr

/-- Modelled from the spec: the class `log::ThreadLogBuffer`
(`foedus/log/thread_log_buffer_impl.hpp` is not among the sources): "an
append-only ring with three cursors: head (oldest unflushed), committed (last
byte published to logger), tail (next free)".  `entries_` gives the log record
that starts at an address of the buffer; `published_` lists what was handed to
the logger so far: the epoch given to `publish_committed_log` with the offset
up to which the log was published under it, oldest first. -/
structure ThreadLogBuffer where
  offset_head_ : Nat
  offset_committed_ : Nat
  offset_tail_ : Nat
  entries_ : Nat → LogEntry
  published_ : List (Epoch × Nat)

namespace ThreadLogBuffer

/-- Modelled from the spec: `ThreadLogBuffer::get_offset_tail`. -/
def get_offset_tail (b : ThreadLogBuffer) : Nat := b.offset_tail_

/-- Modelled from the spec: `ThreadLogBuffer::get_offset_committed`. -/
def get_offset_committed (b : ThreadLogBuffer) : Nat := b.offset_committed_

/-- Modelled from the spec: `ThreadLogBuffer::publish_committed_log(epoch)`: the bytes up
to the tail become committed, published under the epoch given. -/
def publish_committed_log (b : ThreadLogBuffer) (commit_epoch : Epoch) : ThreadLogBuffer :=
  { b with offset_committed_ := b.offset_tail_,
           published_ := b.published_ ++ [(commit_epoch, b.offset_tail_)] }

/-- Modelled from the spec: `ThreadLogBuffer::discard_current_xct_log`: the in-flight
bytes are dropped, the tail returns to the committed cursor. -/
def discard_current_xct_log (b : ThreadLogBuffer) : ThreadLogBuffer :=
  { b with offset_tail_ := b.offset_committed_ }

/-- The walk of `list_uncommitted_logs` from address `cur` to the tail, one log
record at a time by the length in its header. -/
def list_from (b : ThreadLogBuffer) : Nat → Nat → List Nat
  | 0, _ => []
  | fuel + 1, cur =>
    if cur < b.offset_tail_ then
      cur :: list_from b fuel (cur + (b.entries_ cur).header.log_length_)
    else []

/-- Modelled from the spec: `ThreadLogBuffer::list_uncommitted_logs`: the addresses of the
log records between the committed cursor and the tail, in insertion order. -/
def list_uncommitted_logs (b : ThreadLogBuffer) : List Nat :=
  b.list_from (b.offset_tail_ - b.offset_committed_) b.offset_committed_

end ThreadLogBuffer

/-- Modelled from the spec: the class `Xct` (`foedus/xct/xct.hpp` is not among the
sources), the transaction context of one worker. -/
structure Xct where
  active_ : Bool
  schema_xct_ : Bool
  isolation_level_ : IsolationLevel
  /-- The most recently issued id of this worker. -/
  id_ : XctId
  read_set_ : List XctAccess
  write_set_ : List WriteXctAccess
  max_read_set_size_ : Nat
  max_write_set_size_ : Nat
  in_commit_log_epoch_ : Epoch
  /-- The id of the worker that owns the context. -/
  thread_id_ : Nat

namespace Xct

/-- Modelled from the spec: `Xct::is_active`. -/
def is_active (x : Xct) : Bool := x.active_

/-- Modelled from the spec: `Xct::is_schema_xct`. -/
def is_schema_xct (x : Xct) : Bool := x.schema_xct_

/-- Modelled from the spec: `Xct::get_read_set_size`. -/
def get_read_set_size (x : Xct) : Nat := x.read_set_.length

/-- Modelled from the spec: `Xct::get_write_set_size`. -/
def get_write_set_size (x : Xct) : Nat := x.write_set_.length

/-- Modelled from the spec: `Xct::activate(isolation, schema = false)`: "sets flags, zeros
set sizes". -/
def activate (x : Xct) (isolation_level : IsolationLevel) (schema_xct : Bool) : Xct :=
  { x with active_ := true, schema_xct_ := schema_xct, isolation_level_ := isolation_level,
           read_set_ := [], write_set_ := [] }

/-- Modelled from the spec: `Xct::deactivate`: "clears active, sets are truncated"; "does
not release locks". -/
def deactivate (x : Xct) : Xct :=
  { x with active_ := false, read_set_ := [], write_set_ := [] }

/-- Modelled from the spec: `Xct::issue_next_id(epoch)`: "computes a fresh XctId with
(epoch, ordinal = thread-local counter bumped for this epoch, thread_id), status
bits zero"; "side-effect: stored on the context".  The counter is the ordinal of
the last id of the worker when that id is of the same epoch, and starts again
for a new epoch.  The counter is bumped inside the ordinal field of the word:
after the last ordinal of the field, `kOrdinalOverflow - 1`, it is 0 again. -/
def issue_next_id (x : Xct) (epoch : Epoch) : Xct :=
  let ordinal :=
    if x.id_.epoch_ = epoch then (x.id_.ordinal_ + 1) % kOrdinalOverflow else 1
  { x with id_ := { epoch_ := epoch, ordinal_ := ordinal, thread_id_ := x.thread_id_,
                    keylock_ := false, deleted_ := false, other_status_ := 0 } }

/-- Modelled from the spec: `Xct::get_id`. -/
def get_id (x : Xct) : XctId := x.id_

/-- Modelled from the spec: the constructor of `Xct::InCommitLogEpochGuard`: "install
in_commit_log_epoch" on the context. -/
def guard_enter (x : Xct) (epoch : Epoch) : Xct := { x with in_commit_log_epoch_ := epoch }

/-- Modelled from the spec: the destructor of `Xct::InCommitLogEpochGuard`: "clear
in_commit_log_epoch := invalid on any exit path". -/
def guard_exit (x : Xct) : Xct := { x with in_commit_log_epoch_ := Epoch.invalid }

end Xct

/-- The worker context `thread::Thread` as the transaction manager uses it: the
thread id, the current transaction and the private log buffer. -/
structure Thread where
  thread_id_ : Nat
  current_xct_ : Xct
  thread_log_buffer_ : ThreadLogBuffer

/-- What a call leaves behind when it returns: the return value, the worker
context, the shared state and the value behind the pointer `commit_epoch`. -/
structure Result (α : Type) where
  ret : α
  context : Thread
  world : World
  commit_epoch : Epoch

/-! ## Log apply dispatch (`foedus/log/log_type_invoke.hpp`) -/

namespace log

/-- `log::invoke_apply_engine`: the switch over the type code of the header.
`LOG_TYPE_INVALID` and every code without a row in `log_type.xmacro` return the
invalid-log-type error; a registered code calls `apply_engine` of its class. -/
def invoke_apply_engine (types : LogTypes) (xct_id : XctId) (buffer : Nat)
    (context : Thread) (w : World) : ErrorCode × World :=
  let entry := context.thread_log_buffer_.entries_ buffer
  let code := entry.header.log_type_code_
  if code = LOG_TYPE_INVALID then (ErrorCode.kErrorCodeLogInvalidLogType, w)
  else
    match types.xmacro code with
    | some c =>
      let r := c.apply_engine xct_id entry w.storage_manager_
      (r.1, { w with storage_manager_ := r.2,
                     applied_ := w.applied_ ++ [ApplyCall.engine xct_id buffer] })
    | none => (ErrorCode.kErrorCodeLogInvalidLogType, w)

/-- `log::invoke_apply_storage`: as `invoke_apply_engine`, calling
`apply_storage` of the registered class on the given storage. -/
def invoke_apply_storage (types : LogTypes) (xct_id : XctId) (buffer : Nat)
    (context : Thread) (storage : Option Nat) (w : World) : ErrorCode × World :=
  let entry := context.thread_log_buffer_.entries_ buffer
  let code := entry.header.log_type_code_
  if code = LOG_TYPE_INVALID then (ErrorCode.kErrorCodeLogInvalidLogType, w)
  else
    match types.xmacro code with
    | some c =>
      let r := c.apply_storage xct_id entry storage w.storage_manager_
      (r.1, { w with storage_manager_ := r.2,
                     applied_ := w.applied_ ++ [ApplyCall.storage xct_id buffer storage] })
    | none => (ErrorCode.kErrorCodeLogInvalidLogType, w)

/-- `log::invoke_apply_record`: as `invoke_apply_engine`, calling `apply_record`
of the registered class on the given storage and record. -/
def invoke_apply_record (types : LogTypes) (xct_id : XctId) (buffer : Nat)
    (context : Thread) (storage : Nat) (record : Nat) (w : World) : ErrorCode × World :=
  let entry := context.thread_log_buffer_.entries_ buffer
  let code := entry.header.log_type_code_
  if code = LOG_TYPE_INVALID then (ErrorCode.kErrorCodeLogInvalidLogType, w)
  else
    match types.xmacro code with
    | some c =>
      let r := c.apply_record xct_id entry storage (w.records_ record)
      (r.1, { w.set_record record r.2 with
                applied_ := w.applied_ ++ [ApplyCall.record xct_id buffer storage record] })
    | none => (ErrorCode.kErrorCodeLogInvalidLogType, w)

end log

/-! ## The transaction manager (`foedus/xct/xct_manager_pimpl.cpp`) -/

namespace XctManagerPimpl

/-- `XctManagerPimpl::get_current_global_epoch_weak`. -/
def get_current_global_epoch_weak (w : World) : Epoch := w.current_global_epoch_

/-- `XctManagerPimpl::get_current_global_epoch`. -/
def get_current_global_epoch (w : World) : Epoch := w.current_global_epoch_

/-- `XctManagerPimpl::begin_xct`. -/
def begin_xct (context : Thread) (isolation_level : IsolationLevel) : ErrorCode × Thread :=
  let current_xct := context.current_xct_
  if current_xct.is_active then (ErrorCode.kErrorCodeXctAlreadyRunning, context)
  else
    (ErrorCode.kErrorCodeOk,
      { context with current_xct_ := current_xct.activate isolation_level false })

/-- `XctManagerPimpl::begin_schema_xct`. -/
def begin_schema_xct (context : Thread) : ErrorCode × Thread :=
  let current_xct := context.current_xct_
  if current_xct.is_active then (ErrorCode.kErrorCodeXctAlreadyRunning, context)
  else
    (ErrorCode.kErrorCodeOk,
      { context with current_xct_ := current_xct.activate IsolationLevel.kSerializable true })

/-- Modelled from the spec: `XctId::keylock_unconditional` on the owner id of the record at
address `r`: it "spins with atomic compare-exchange until it sets the bit".  On
the snapshot a set bit stays set, and the spin does not end. -/
def keylock_unconditional (w : World) (r : Nat) : Except Halt World :=
  if (w.owner_id r).is_keylocked then Except.error Halt.spin
  else Except.ok (w.set_owner_id r (w.owner_id r).with_keylock)

/-- The locking loop of `precommit_xct_lock` over the sorted write set. -/
def lock_loop : List WriteXctAccess → World → Except Halt World
  | [], w => Except.ok w
  | write :: rest, w =>
    match keylock_unconditional w write.record_ with
    | Except.error h => Except.error h
    | Except.ok w1 => lock_loop rest w1

/-- The context after `std::sort(write_set, write_set + write_set_size,
WriteXctAccess::compare)`: the write set is sorted in place. -/
def sort_write_set (context : Thread) : Thread :=
  { context with
    current_xct_ := { context.current_xct_ with
      write_set_ := std_sort WriteXctAccess.compare context.current_xct_.write_set_ } }

/-- `XctManagerPimpl::precommit_xct_lock`: phase 1, sort the write set in place
and lock its records in that order. -/
def precommit_xct_lock (context : Thread) (w : World) : Except Halt (Thread × World) :=
  let context1 := sort_write_set context
  match lock_loop context1.current_xct_.write_set_ w with
  | Except.error h => Except.error h
  | Except.ok w1 => Except.ok (context1, w1)

/-- The loop of `precommit_xct_verify_readonly`: `false` at the first entry
whose record no longer carries the observed word, otherwise the epoch
accumulated with `store_max`. -/
def verify_readonly_loop (w : World) : List XctAccess → Epoch → Bool × Epoch
  | [], commit_epoch => (true, commit_epoch)
  | access :: rest, commit_epoch =>
    if access.observed_owner_id_ ≠ w.owner_id access.record_ then (false, commit_epoch)
    else verify_readonly_loop w rest (commit_epoch.store_max access.observed_owner_id_.get_epoch)

/-- `XctManagerPimpl::precommit_xct_verify_readonly`. -/
def precommit_xct_verify_readonly (context : Thread) (w : World) (commit_epoch : Epoch) :
    Bool × Epoch :=
  let read_set := context.current_xct_.read_set_
  match verify_readonly_loop w read_set commit_epoch with
  | (false, e) => (false, e)
  | (true, e) =>
    if !e.is_valid then (true, w.durable_global_epoch_) else (true, e)

/-- `XctManagerPimpl::precommit_xct_readonly`. -/
def precommit_xct_readonly (context : Thread) (w : World) (_commit_epoch : Epoch) :
    Bool × Epoch :=
  precommit_xct_verify_readonly context w Epoch.invalid

/-- The loop of `precommit_xct_verify_readwrite`.  `dummy` is the
default-initialised local `WriteXctAccess dummy;`, of which only the field
`record_` is assigned before the binary search. -/
def verify_readwrite_loop (dummy : WriteXctAccess) (w : World)
    (write_set : List WriteXctAccess) : List XctAccess → Bool
  | [] => true
  | access :: rest =>
    if !access.observed_owner_id_.equals_serial_order (w.owner_id access.record_) then false
    else if (w.owner_id access.record_).is_keylocked then
      let dummy1 := { dummy with record_ := access.record_ }
      let found := std_binary_search WriteXctAccess.compare write_set dummy1
      if !found then false
      else verify_readwrite_loop dummy w write_set rest
    else verify_readwrite_loop dummy w write_set rest

/-- `XctManagerPimpl::precommit_xct_verify_readwrite`: phase 2. -/
def precommit_xct_verify_readwrite (dummy : WriteXctAccess) (context : Thread) (w : World) :
    Bool :=
  let current_xct := context.current_xct_
  verify_readwrite_loop dummy w current_xct.write_set_ current_xct.read_set_

/-- The loop of `precommit_xct_apply`; the value returned by
`invoke_apply_record` is not looked at. -/
def apply_loop (types : LogTypes) (new_xct_id : XctId) (context : Thread) :
    List WriteXctAccess → World → World
  | [], w => w
  | write :: rest, w =>
    apply_loop types new_xct_id context rest
      (log.invoke_apply_record types new_xct_id write.log_entry_ context
        write.storage_ write.record_ w).2

/-- `XctManagerPimpl::precommit_xct_apply`: phase 3, issue the new id and apply
the write set in its (sorted) order. -/
def precommit_xct_apply (types : LogTypes) (context : Thread) (w : World)
    (commit_epoch : Epoch) : Thread × World :=
  let current_xct := context.current_xct_.issue_next_id commit_epoch
  let context1 := { context with current_xct_ := current_xct }
  let new_xct_id := current_xct.get_id
  (context1, apply_loop types new_xct_id context1 current_xct.write_set_ w)

/-- The loop of `precommit_xct_unlock`. -/
def unlock_loop : List WriteXctAccess → World → World
  | [], w => w
  | write :: rest, w =>
    unlock_loop rest (w.set_owner_id write.record_ (w.owner_id write.record_).release_keylock)

/-- `XctManagerPimpl::precommit_xct_unlock`. -/
def precommit_xct_unlock (context : Thread) (w : World) : World :=
  unlock_loop context.current_xct_.write_set_ w

/-- The body of `precommit_xct_readwrite` between the construction and the
destruction of the `InCommitLogEpochGuard`: the state in which phase 2 and
phase 3 run, and what they leave. -/
def readwrite_guarded (types : LogTypes) (dummy : WriteXctAccess) (context : Thread)
    (w : World) : Result Bool :=
  let commit_epoch := get_current_global_epoch_weak w
  let verified := precommit_xct_verify_readwrite dummy context w
  if verified then
    let r := precommit_xct_apply types context w commit_epoch
    let context1 := { r.1 with
      thread_log_buffer_ := r.1.thread_log_buffer_.publish_committed_log commit_epoch }
    { ret := verified, context := context1, world := r.2, commit_epoch := commit_epoch }
  else
    { ret := verified, context := context, world := precommit_xct_unlock context w,
      commit_epoch := commit_epoch }

/-- The construction of the `InCommitLogEpochGuard` in `precommit_xct_readwrite`
and `precommit_xct_schema`, with the global epoch read at that point. -/
def guard_enter (context : Thread) (w : World) : Thread :=
  { context with
    current_xct_ := context.current_xct_.guard_enter (get_current_global_epoch_weak w) }

/-- The destruction of the `InCommitLogEpochGuard` when the function returns. -/
def guard_exit (r : Result Bool) : Result Bool :=
  { r with context := { r.context with current_xct_ := r.context.current_xct_.guard_exit } }

/-- `XctManagerPimpl::precommit_xct_readwrite`. -/
def precommit_xct_readwrite (types : LogTypes) (dummy : WriteXctAccess) (context : Thread)
    (w : World) (_commit_epoch : Epoch) : Except Halt (Result Bool) :=
  match precommit_xct_lock context w with
  | Except.error h => Except.error h
  | Except.ok (context1, w1) =>
    Except.ok (guard_exit (readwrite_guarded types dummy (guard_enter context1 w1) w1))

/-- The loop of `precommit_xct_schema` over the uncommitted log entries. -/
def schema_loop (types : LogTypes) (new_xct_id : XctId) (context : Thread) :
    List Nat → World → Except Halt World
  | [], w => Except.ok w
  | entry :: rest, w =>
    let header := (context.thread_log_buffer_.entries_ entry).header
    let code := header.log_type_code_
    let kind := types.get_log_code_kind code
    if kind = LogCodeKind.kMarkerLogs then schema_loop types new_xct_id context rest w
    else if kind = LogCodeKind.kEngineLogs then
      schema_loop types new_xct_id context rest
        (log.invoke_apply_engine types new_xct_id entry context w).2
    else if kind = LogCodeKind.kStorageLogs then
      let storage_id := header.storage_id_
      let storage := w.storage_manager_.storages_ storage_id
      schema_loop types new_xct_id context rest
        (log.invoke_apply_storage types new_xct_id entry context storage w).2
    else Except.error Halt.fatal

/-- `XctManagerPimpl::precommit_xct_schema`. -/
def precommit_xct_schema (types : LogTypes) (context : Thread) (w : World)
    (_commit_epoch : Epoch) : Except Halt (Result Bool) :=
  let context1 := guard_enter context w
  let commit_epoch := get_current_global_epoch_weak w
  let current_xct := context1.current_xct_.issue_next_id commit_epoch
  let context2 := { context1 with current_xct_ := current_xct }
  let new_xct_id := current_xct.get_id
  let logs := context2.thread_log_buffer_.list_uncommitted_logs
  match schema_loop types new_xct_id context2 logs w with
  | Except.error h => Except.error h
  | Except.ok w1 =>
    let context3 := { context2 with
      thread_log_buffer_ := context2.thread_log_buffer_.publish_committed_log commit_epoch }
    Except.ok (guard_exit
      { ret := true, context := context3, world := w1, commit_epoch := commit_epoch })

/-- The end of `precommit_xct` after the commit path returned `success`:
deactivate, and on failure discard the log of the transaction. -/
def precommit_finish (r : Result Bool) : Result ErrorCode :=
  let context1 := { r.context with current_xct_ := r.context.current_xct_.deactivate }
  if r.ret then
    { ret := ErrorCode.kErrorCodeOk, context := context1, world := r.world,
      commit_epoch := r.commit_epoch }
  else
    { ret := ErrorCode.kErrorCodeXctRaceAbort,
      context := { context1 with
        thread_log_buffer_ := context1.thread_log_buffer_.discard_current_xct_log },
      world := r.world, commit_epoch := r.commit_epoch }

/-- `XctManagerPimpl::precommit_xct`.  `commit_epoch` is the value behind the
out-pointer on entry. -/
def precommit_xct (types : LogTypes) (dummy : WriteXctAccess) (context : Thread) (w : World)
    (commit_epoch : Epoch) : Except Halt (Result ErrorCode) :=
  let current_xct := context.current_xct_
  if !current_xct.is_active then
    Except.ok { ret := ErrorCode.kErrorCodeXctNoXct, context := context, world := w,
                commit_epoch := commit_epoch }
  else if current_xct.is_schema_xct then
    match precommit_xct_schema types context w commit_epoch with
    | Except.error h => Except.error h
    | Except.ok r => Except.ok (precommit_finish r)
  else
    let read_only := decide (context.current_xct_.get_write_set_size = 0)
    if read_only then
      let r := precommit_xct_readonly context w commit_epoch
      Except.ok (precommit_finish
        { ret := r.1, context := context, world := w, commit_epoch := r.2 })
    else
      match precommit_xct_readwrite types dummy context w commit_epoch with
      | Except.error h => Except.error h
      | Except.ok r => Except.ok (precommit_finish r)

/-- `XctManagerPimpl::abort_xct`. -/
def abort_xct (context : Thread) : ErrorCode × Thread :=
  let current_xct := context.current_xct_
  if !current_xct.is_active then (ErrorCode.kErrorCodeXctNoXct, context)
  else
    (ErrorCode.kErrorCodeOk,
      { context with
        current_xct_ := current_xct.deactivate,
        thread_log_buffer_ := context.thread_log_buffer_.discard_current_xct_log })

end XctManagerPimpl

/-! ## The system of workers around the transaction manager -/

namespace Xct

/-- Modelled from the spec: `record_read(storage, record, observed)`: "appends to read set;
fails with ReadSetOverflow when full". -/
def add_to_read_set (x : Xct) (storage record : Nat) (observed : XctId) : ErrorCode × Xct :=
  if x.max_read_set_size_ ≤ x.read_set_.length then (ErrorCode.kErrorCodeXctReadSetOverflow, x)
  else (ErrorCode.kErrorCodeOk,
    { x with read_set_ := x.read_set_ ++ [⟨observed, storage, record⟩] })

/-- Modelled from the spec: `record_write(storage, record, observed, log_ptr)`: "appends to
write set; fails with WriteSetOverflow when full". -/
def add_to_write_set (x : Xct) (storage record : Nat) (observed : XctId) (log_entry : Nat) :
    ErrorCode × Xct :=
  if x.max_write_set_size_ ≤ x.write_set_.length then
    (ErrorCode.kErrorCodeXctWriteSetOverflow, x)
  else (ErrorCode.kErrorCodeOk,
    { x with write_set_ := x.write_set_ ++ [⟨observed, storage, record, log_entry⟩] })

end Xct

/-- Modelled from the spec: `ThreadLogBuffer::reserve_new_log` followed by the write of the
log record: `append(bytes) → pointer`, the record is placed at the tail and the
tail moves past it. -/
def ThreadLogBuffer.append (b : ThreadLogBuffer) (entry : LogEntry) : Nat × ThreadLogBuffer :=
  (b.offset_tail_,
    { b with offset_tail_ := b.offset_tail_ + entry.header.log_length_,
             entries_ := fun a => if a = b.offset_tail_ then entry else b.entries_ a })

/-- Modelled from the spec: a read operation of a storage on the record at address
`record`: it waits out the key-lock ("reads spin past key-locked owner ids
before recording the observation") and records the read access with the owner
id observed. -/
def storage_read (context : Thread) (w : World) (storage record : Nat) :
    Except Halt (ErrorCode × Thread) :=
  if (w.owner_id record).is_keylocked then Except.error Halt.spin
  else
    let r := context.current_xct_.add_to_read_set storage record (w.owner_id record)
    Except.ok (r.1, { context with current_xct_ := r.2 })

/-- Modelled from the spec: a write operation of a storage on the record at address
`record`: it appends the log record to the log buffer of the worker,
"simultaneously recording" the write access that points at the record and at
the buffered log entry. -/
def storage_write (context : Thread) (w : World) (storage record : Nat) (entry : LogEntry) :
    ErrorCode × Thread :=
  let a := context.thread_log_buffer_.append entry
  let r := context.current_xct_.add_to_write_set storage record (w.owner_id record) a.1
  if r.1 = ErrorCode.kErrorCodeOk then
    (r.1, { context with current_xct_ := r.2, thread_log_buffer_ := a.2 })
  else (r.1, context)

/-- One round of the loop of `XctManagerPimpl::handle_epoch_advance`: the
global epoch becomes its successor `one_more()`. -/
def XctManagerPimpl.handle_epoch_advance_step (w : World) : World :=
  { w with current_global_epoch_ := (XctManagerPimpl.get_current_global_epoch w).one_more }

/-- The engine as the transaction manager sees it: the shared state and the
context of every worker, by thread id. -/
structure System where
  world : World
  threads : Nat → Thread

namespace System

/-- The system after worker `t` replaced its context. -/
def set_thread (s : System) (t : Nat) (c : Thread) : System :=
  { s with threads := fun i => if i = t then c else s.threads i }

/-- The system after one round of the epoch advancer. -/
def advance (s : System) : System :=
  { s with world := XctManagerPimpl.handle_epoch_advance_step s.world }

end System

/-- The context that `storage_read` leaves when it returns, and the context of
the call otherwise. -/
def storage_read_context (context : Thread) (w : World) (storage record : Nat) : Thread :=
  match storage_read context w storage record with
  | Except.ok r => r.2
  | Except.error _ => context

/-! ## Predicates of the statements -/

namespace Epoch

/-- The distance of `e` ahead of `base`, going around the 32-bit range. -/
def window_offset (base e : Epoch) : Nat :=
  (e.epoch_ + kEpochIntOverflow - base.epoch_) % kEpochIntOverflow

/-- The epoch `e` is a valid 32-bit value that lies less than half the range
ahead of the 32-bit value `base`. -/
def in_window (base e : Epoch) : Prop :=
  e.is_valid = true ∧ e.epoch_ < kEpochIntOverflow ∧ base.epoch_ < kEpochIntOverflow ∧
    window_offset base e < kEpochIntHalf

instance (base e : Epoch) : Decidable (in_window base e) := by
  unfold in_window
  exact inferInstance

end Epoch

/-- The accumulation of `precommit_xct_verify_readonly`: `store_max` of the
observed epochs of the read set, in order, starting from `commit_epoch`. -/
def observed_epoch_max (read_set : List XctAccess) (commit_epoch : Epoch) : Epoch :=
  read_set.foldl (fun e a => e.store_max a.observed_owner_id_.get_epoch) commit_epoch

namespace Epoch

/-- The number of `one_more()` steps that lead from the valid epoch `e` to the
valid epoch `g`: the valid epochs `1 .. 2^32 - 1` form one cycle. -/
def steps_to (e g : Epoch) : Nat :=
  (g.epoch_ + (kEpochIntOverflow - 1) - e.epoch_) % (kEpochIntOverflow - 1)

/-- The epoch `e` is a valid 32-bit epoch at most `d` steps of `one_more()`
behind `g`. -/
def within (d : Nat) (g e : Epoch) : Prop :=
  e.is_valid = true ∧ e.epoch_ < kEpochIntOverflow ∧ steps_to e g ≤ d

instance (d : Nat) (g e : Epoch) : Decidable (within d g e) := by
  unfold within
  exact inferInstance

end Epoch

/-- The epochs of the system are within `d` steps of the global epoch: the
global epoch is a valid 32-bit epoch, and the epoch of the owner id of every
record and of every observation in a read set is at most `d` steps behind it. -/
structure System.epochs_within (d : Nat) (s : System) : Prop where
  global_valid : s.world.current_global_epoch_.is_valid = true
  global_lt : s.world.current_global_epoch_.epoch_ < kEpochIntOverflow
  records : ∀ x, Epoch.within d s.world.current_global_epoch_ (s.world.owner_id x).get_epoch
  read_sets : ∀ t, ∀ a ∈ (s.threads t).current_xct_.read_set_,
    Epoch.within d s.world.current_global_epoch_ a.observed_owner_id_.get_epoch

/-- A state right after initialisation: the global epoch is the valid epoch of
the savepoint, no worker runs a transaction or holds a read-set entry, and the
owner id of every record is of an epoch at most `d0` steps behind the global
epoch (`d0 = 0` when all records are created in the initial epoch). -/
structure System.initial (d0 : Nat) (s : System) : Prop where
  epochs : s.epochs_within d0
  idle : ∀ t, (s.threads t).current_xct_.is_active = false
  no_reads : ∀ t, (s.threads t).current_xct_.read_set_ = []

/-- The apply contract of the record log types: "publish new_id into
record.owner_id": the owner id of the record after `apply_record` is the id
given. -/
def LogTypes.apply_record_publishes (types : LogTypes) : Prop :=
  ∀ code c, types.xmacro code = some c →
    ∀ id entry storage rec, (c.apply_record id entry storage rec).2.owner_id_ = id

/-! ## The runs of the system -/

/-- The steps of the workers: the operations exposed to worker code and the
storage operations.  Owner ids are written by `precommit_xct` only. -/
inductive System.step (types : LogTypes) : System → System → Prop where
  | begin_xct (s : System) (t : Nat) (isolation_level : IsolationLevel) :
      System.step types s
        (s.set_thread t (XctManagerPimpl.begin_xct (s.threads t) isolation_level).2)
  | begin_schema_xct (s : System) (t : Nat) :
      System.step types s (s.set_thread t (XctManagerPimpl.begin_schema_xct (s.threads t)).2)
  | read (s : System) (t storage record : Nat) (code : ErrorCode) (c : Thread) :
      storage_read (s.threads t) s.world storage record = Except.ok (code, c) →
      System.step types s (s.set_thread t c)
  | write (s : System) (t storage record : Nat) (entry : LogEntry) :
      System.step types s
        (s.set_thread t (storage_write (s.threads t) s.world storage record entry).2)
  | precommit_xct (s : System) (t : Nat) (dummy : WriteXctAccess) (commit_epoch : Epoch)
      (r : Result ErrorCode) :
      XctManagerPimpl.precommit_xct types dummy (s.threads t) s.world commit_epoch
        = Except.ok r →
      System.step types s ({ s with world := r.world }.set_thread t r.context)
  | abort_xct (s : System) (t : Nat) :
      System.step types s (s.set_thread t (XctManagerPimpl.abort_xct (s.threads t)).2)

/-- The states reachable from an initial state, with the number of rounds of
the epoch advancer on the way. -/
inductive System.reachable (types : LogTypes) (d0 : Nat) : Nat → System → Prop where
  | init (s : System) : s.initial d0 → System.reachable types d0 0 s
  | step (n : Nat) (s s1 : System) :
      System.reachable types d0 n s → System.step types s s1 → System.reachable types d0 n s1
  | advance (n : Nat) (s : System) :
      System.reachable types d0 n s → System.reachable types d0 (n + 1) s.advance

/-! ## Concrete states used to exercise the model -/

namespace Examples

/-- An unlocked owner id: epoch 5, thread 1, ordinal 1. -/
def idA : XctId := XctId.set_clean 5 1 1

/-- A log class whose record apply stores the body of the log entry and
publishes the new id. -/
def rec_type : LogType where
  apply_engine := fun _ _ s => (ErrorCode.kErrorCodeOk, s)
  apply_storage := fun _ _ _ s => (ErrorCode.kErrorCodeOk, s)
  apply_record := fun id e _ _ => (ErrorCode.kErrorCodeOk, ⟨id, e.body⟩)

/-- A registry with the single record log type `rec_type` under code 1. -/
def types0 : LogTypes where
  xmacro := fun c => if c = 1 then some rec_type else none
  get_log_code_kind := fun _ => LogCodeKind.kRecordLogs

/-- A world in which every record carries `idA`; global epoch 7, durable epoch 6. -/
def w0 : World where
  records_ := fun _ => ⟨idA, []⟩
  current_global_epoch_ := ⟨7⟩
  durable_global_epoch_ := ⟨6⟩
  storage_manager_ := ⟨fun _ => none⟩
  applied_ := []

/-- A log buffer holding one in-flight record log of class 1 at address 8. -/
def buf0 : ThreadLogBuffer where
  offset_head_ := 8
  offset_committed_ := 8
  offset_tail_ := 24
  entries_ := fun _ => ⟨⟨1, 16, 3⟩, [42]⟩
  published_ := []

/-- An empty log buffer. -/
def buf_empty : ThreadLogBuffer where
  offset_head_ := 8
  offset_committed_ := 8
  offset_tail_ := 8
  entries_ := fun _ => ⟨⟨1, 16, 3⟩, [42]⟩
  published_ := []

/-- An active read-modify-write transaction of worker 0 on the record at address
100: it read the record (observing `idA`) and wrote it, the log entry being at
address 8. -/
def xct_rmw : Xct where
  active_ := true
  schema_xct_ := false
  isolation_level_ := IsolationLevel.kSerializable
  id_ := XctId.set_clean 7 0 3
  read_set_ := [⟨idA, 1000, 100⟩]
  write_set_ := [⟨idA, 1000, 100, 8⟩]
  max_read_set_size_ := 10
  max_write_set_size_ := 10
  in_commit_log_epoch_ := Epoch.invalid
  thread_id_ := 0

/-- The worker context of the read-modify-write transaction `xct_rmw`. -/
def ctx_rmw : Thread := ⟨0, xct_rmw, buf0⟩

/-- An active read-only transaction that read the record at address 100. -/
def ctx_ro : Thread := ⟨0, { xct_rmw with write_set_ := [] }, buf_empty⟩

/-- An active read-only transaction whose read of the record at address 100
observed an id that the record no longer carries. -/
def ctx_ro_stale : Thread :=
  ⟨0, { xct_rmw with write_set_ := [], read_set_ := [⟨XctId.set_clean 4 1 1, 1000, 100⟩] },
    buf_empty⟩

/-- An inactive context. -/
def ctx_idle : Thread :=
  ⟨0, { xct_rmw with active_ := false, write_set_ := [], read_set_ := [] }, buf_empty⟩

/-- A value of the local `dummy` of `precommit_xct_verify_readwrite` before its
field `record_` is assigned: all fields zero. -/
def dummy0 : WriteXctAccess := ⟨XctId.set_clean 0 0 0, 0, 0, 0⟩

/-- An active read-write transaction with a stale read: it read the record at
address 100 when it carried another id, and wrote the record at address 200. -/
def ctx_rw_stale : Thread :=
  ⟨0, { xct_rmw with read_set_ := [⟨XctId.set_clean 4 1 1, 1000, 100⟩],
                     write_set_ := [⟨idA, 1000, 200, 8⟩] }, buf0⟩

/-- An active transaction that wrote the record at address 100 without reading
it. -/
def ctx_w : Thread := ⟨0, { xct_rmw with read_set_ := [] }, buf0⟩

/-- A world whose records at the addresses 100, 200 and 300 were last written
in the epochs 1, 2^31 and 2^32 - 1, and whose record at address 400 carries an
owner id with the invalid epoch. -/
def w_epochs : World where
  records_ := fun r =>
    if r = 100 then ⟨XctId.set_clean 1 1 1, []⟩
    else if r = 200 then ⟨XctId.set_clean 2147483648 1 1, []⟩
    else if r = 300 then ⟨XctId.set_clean 4294967295 1 1, []⟩
    else if r = 400 then ⟨XctId.set_clean 0 1 1, []⟩
    else ⟨idA, []⟩
  current_global_epoch_ := ⟨7⟩
  durable_global_epoch_ := ⟨6⟩
  storage_manager_ := ⟨fun _ => none⟩
  applied_ := []

/-- An active read-only transaction that read the records at the addresses
100, 200 and 300 of `w_epochs` and observed the ids they carry. -/
def ctx_ro_wrap : Thread :=
  ⟨0, { xct_rmw with
        write_set_ := [],
        read_set_ := [⟨XctId.set_clean 1 1 1, 1000, 100⟩,
                      ⟨XctId.set_clean 2147483648 1 1, 1000, 200⟩,
                      ⟨XctId.set_clean 4294967295 1 1, 1000, 300⟩] },
    buf_empty⟩

/-- An active read-only transaction that read the record at address 400 of
`w_epochs` and observed the id it carries. -/
def ctx_ro_invalid : Thread :=
  ⟨0, { xct_rmw with write_set_ := [], read_set_ := [⟨XctId.set_clean 0 1 1, 1000, 400⟩] },
    buf_empty⟩

/-- A world right after initialisation in epoch 1: the global epoch is 1 and
every record carries an unlocked owner id of epoch 1. -/
def w_one : World where
  records_ := fun _ => ⟨XctId.set_clean 1 0 0, []⟩
  current_global_epoch_ := ⟨1⟩
  durable_global_epoch_ := ⟨1⟩
  storage_manager_ := ⟨fun _ => none⟩
  applied_ := []

/-- The system right after initialisation: the world `w_one`, all workers idle. -/
def sys_init : System := ⟨w_one, fun _ => ctx_idle⟩

/-- Worker 0 began a transaction. -/
def sys_begun : System :=
  sys_init.set_thread 0 (XctManagerPimpl.begin_xct (sys_init.threads 0)
    IsolationLevel.kSerializable).2

/-- Worker 0 then read the record at address 100. -/
def sys_read : System :=
  sys_begun.set_thread 0 (storage_read_context (sys_begun.threads 0) sys_begun.world 1000 100)

/-- Worker 0 then wrote the record at address 200, with a log record of class 1. -/
def sys_written : System :=
  sys_read.set_thread 0
    (storage_write (sys_read.threads 0) sys_read.world 1000 200 ⟨⟨1, 16, 3⟩, [42]⟩).2

/-- The state of `sys_written` after the epoch advancer made 2^31 rounds while
the transaction of worker 0 stayed open. -/
def sys_late : System :=
  { sys_written with
    world := { sys_written.world with current_global_epoch_ := ⟨2147483649⟩ } }

end Examples

/-! ## The schema path as the spec words it -/

namespace ApplyCall

/-- The log entry an apply invocation was made on. -/
def entry : ApplyCall → Nat
  | ApplyCall.engine _ e => e
  | ApplyCall.storage _ e _ => e
  | ApplyCall.record _ e _ _ => e

/-- The transaction id an apply invocation was given. -/
def xct_id : ApplyCall → XctId
  | ApplyCall.engine i _ => i
  | ApplyCall.storage i _ _ => i
  | ApplyCall.record i _ _ _ => i

end ApplyCall

/-- The storage manager after the apply entry point of the class registered
under the code of `e` ran on it (`engine = true`: `apply_engine`, otherwise
`apply_storage` on the storage looked up by the storage id of the header). -/
def schema_apply_effect (types : LogTypes) (new_xct_id : XctId) (e : LogEntry) (engine : Bool)
    (sm : StorageManager) : StorageManager :=
  match types.xmacro e.header.log_type_code_ with
  | none => sm
  | some c =>
    if engine then (c.apply_engine new_xct_id e sm).2
    else (c.apply_storage new_xct_id e (sm.storages_ e.header.storage_id_) sm).2

/-- The apply invocations of the schema path in the words of the spec: "iterate
the log buffer's uncommitted entries in insertion order; for each: Marker kind:
skip. Engine kind: invoke apply_engine(new_id, entry, ctx). Storage kind: look
up the storage by id from the entry header, invoke apply_storage(new_id, entry,
ctx, storage)."  The list is that of the invocations, from the storage manager
`sm` on. -/
def schema_apply_calls (types : LogTypes) (new_xct_id : XctId) (b : ThreadLogBuffer) :
    List Nat → StorageManager → List ApplyCall
  | [], _ => []
  | entry :: rest, sm =>
    match types.get_log_code_kind (b.entries_ entry).header.log_type_code_ with
    | LogCodeKind.kMarkerLogs => schema_apply_calls types new_xct_id b rest sm
    | LogCodeKind.kEngineLogs =>
      ApplyCall.engine new_xct_id entry ::
        schema_apply_calls types new_xct_id b rest
          (schema_apply_effect types new_xct_id (b.entries_ entry) true sm)
    | LogCodeKind.kStorageLogs =>
      ApplyCall.storage new_xct_id entry (sm.storages_ (b.entries_ entry).header.storage_id_) ::
        schema_apply_calls types new_xct_id b rest
          (schema_apply_effect types new_xct_id (b.entries_ entry) false sm)
    | LogCodeKind.kRecordLogs => []

/-- The log entry at address `entry` of the buffer `b` is of Marker kind, or of
Engine or Storage kind with the code of a registered log type. -/
def schema_entry_ok (types : LogTypes) (b : ThreadLogBuffer) (entry : Nat) : Prop :=
  types.get_log_code_kind (b.entries_ entry).header.log_type_code_ = LogCodeKind.kMarkerLogs ∨
  ((types.get_log_code_kind (b.entries_ entry).header.log_type_code_ = LogCodeKind.kEngineLogs ∨
    types.get_log_code_kind (b.entries_ entry).header.log_type_code_
      = LogCodeKind.kStorageLogs) ∧
   (b.entries_ entry).header.log_type_code_ ≠ LOG_TYPE_INVALID ∧
   (types.xmacro (b.entries_ entry).header.log_type_code_).isSome = true)

instance (types : LogTypes) (b : ThreadLogBuffer) (entry : Nat) :
    Decidable (schema_entry_ok types b entry) := by
  unfold schema_entry_ok
  exact inferInstance

namespace Examples

/-- A log class for schema logs: its storage apply registers the storage of the
header at address 5000, its engine apply leaves the storage manager as it is. -/
def schema_type : LogType where
  apply_engine := fun _ _ s => (ErrorCode.kErrorCodeOk, s)
  apply_storage := fun _ e _ s =>
    (ErrorCode.kErrorCodeOk,
      ⟨fun i => if i = e.header.storage_id_ then some 5000 else s.storages_ i⟩)
  apply_record := fun _ _ _ r => (ErrorCode.kErrorCodeOk, r)

/-- A registry with the marker code 10, the engine log type 20 and the storage
log type 30; every other code is of Record kind and not registered. -/
def types_schema : LogTypes where
  xmacro := fun c => if c = 20 ∨ c = 30 then some schema_type else none
  get_log_code_kind := fun c =>
    if c = 10 then LogCodeKind.kMarkerLogs
    else if c = 20 then LogCodeKind.kEngineLogs
    else if c = 30 then LogCodeKind.kStorageLogs
    else LogCodeKind.kRecordLogs

/-- A log buffer holding three in-flight logs: a marker at address 8, a storage
log for storage 3 at address 24 and an engine log at address 40. -/
def buf_schema : ThreadLogBuffer where
  offset_head_ := 8
  offset_committed_ := 8
  offset_tail_ := 48
  entries_ := fun a =>
    if a = 8 then ⟨⟨10, 16, 0⟩, []⟩
    else if a = 24 then ⟨⟨30, 16, 3⟩, []⟩
    else ⟨⟨20, 8, 0⟩, []⟩
  published_ := []

/-- An active schema transaction of worker 0 with the log buffer `buf_schema`. -/
def ctx_schema : Thread :=
  ⟨0, { xct_rmw with schema_xct_ := true, read_set_ := [], write_set_ := [] }, buf_schema⟩

end Examples

namespace Examples

/-- The helper `create_access(i)` of `test_xct_access.cpp`. -/
def create_access (i : Nat) : XctAccess :=
  { observed_owner_id_ := XctId.set_clean (i * 20) (i * 12) (i + 3),
    storage_ := i * 1234, record_ := i * 8452 }

/-- The helper `create_write_access(i)` of `test_xct_access.cpp`. -/
def create_write_access (i : Nat) : WriteXctAccess :=
  { observed_owner_id_ := XctId.set_clean (i * 43) (i * 4) (i + 1),
    storage_ := i * 52223, record_ := i * 14325, log_entry_ := i * 5423423 }

/-- The array `sets` of the tests `SortReadSet` and `SortWriteSet`, by the
arguments of the helper. -/
def test_order : List Nat := [19, 4, 7, 40, 9, 20, 11]

end Examples

/-! ## The epoch clock operations of the manager -/

/-- The handle `epoch_advance_thread_` of the manager as `wait_for_commit` and
`advance_current_global_epoch` use it: `wakeup()` asks the advancer to run
early; the requests made so far are counted. -/
structure StoppableThread where
  wakeups_ : Nat
  deriving DecidableEq, Repr

/-- The call `epoch_advance_thread_.wakeup()`. -/
def StoppableThread.wakeup (t : StoppableThread) : StoppableThread :=
  { t with wakeups_ := t.wakeups_ + 1 }

namespace XctManagerPimpl

/-- `XctManagerPimpl::wait_for_commit`.  `wait_until_durable` is the function
of that name of the log manager; `commit_epoch < get_current_global_epoch()` is
the less-than of epochs. -/
def wait_for_commit (wait_until_durable : Epoch → Int → ErrorCode) (w : World)
    (epoch_advance_thread : StoppableThread) (commit_epoch : Epoch) (wait_microseconds : Int) :
    ErrorCode × StoppableThread :=
  let epoch_advance_thread1 :=
    if commit_epoch.before (get_current_global_epoch w) then epoch_advance_thread.wakeup
    else epoch_advance_thread
  (wait_until_durable commit_epoch wait_microseconds, epoch_advance_thread1)

/-- The wait on the condition `current_global_epoch_advanced_` with the
predicate `now != get_current_global_epoch()`: the predicate is looked at from
the `i`-th look on, `epoch_at` giving the global epoch at each look, and the
wait ends at the first look at which it holds.  `fuel` bounds the number of
looks; `none` stands for a wait that does not end within them. -/
def wait_epoch_differs (epoch_at : Nat → Epoch) (now : Epoch) : Nat → Nat → Option Nat
  | 0, _ => none
  | fuel + 1, i =>
    if now ≠ epoch_at i then some i else wait_epoch_differs epoch_at now fuel (i + 1)

/-- `XctManagerPimpl::advance_current_global_epoch`.  The global epoch is
written by the advancer thread while the call runs: `epoch_at i` is the value
that the `i`-th call of `get_current_global_epoch()` returns (`i = 0` for the
first).  The result is the look after which the call returns, and the handle of
the advancer. -/
def advance_current_global_epoch (epoch_at : Nat → Epoch) (fuel : Nat)
    (epoch_advance_thread : StoppableThread) : Option Nat × StoppableThread :=
  let now := epoch_at 0
  if now = epoch_at 1 then
    let epoch_advance_thread1 := epoch_advance_thread.wakeup
    if now ≠ epoch_at 2 then
      (wait_epoch_differs epoch_at now fuel 3, epoch_advance_thread1)
    else (some 2, epoch_advance_thread1)
  else (some 1, epoch_advance_thread)

end XctManagerPimpl

namespace Examples

/-- A log manager whose `wait_until_durable` times out. -/
def wait_times_out : Epoch → Int → ErrorCode := fun _ _ => ErrorCode.kErrorCodeTimeout

/-- The global epoch seen by a caller while the advancer, woken up, takes until
the fifth look to publish the next epoch: 7, then 8. -/
def epoch_slow : Nat → Epoch := fun i => if i < 5 then ⟨7⟩ else ⟨8⟩

end Examples

/-! ## Runs between two states, and the ids issued along them -/

/-- The state `s1` is reached from the state `s` by steps of the workers and
`n` rounds of the epoch advancer. -/
inductive System.reaches (types : LogTypes) (s : System) : Nat → System → Prop where
  | refl : System.reaches types s 0 s
  | step (n : Nat) (s1 s2 : System) :
      System.reaches types s n s1 → System.step types s1 s2 → System.reaches types s n s2
  | advance (n : Nat) (s1 : System) :
      System.reaches types s n s1 → System.reaches types s (n + 1) s1.advance

/-- The system after worker `t` called `precommit_xct` and the call returned;
the system as it was when the call does not return. -/
def System.precommit (types : LogTypes) (dummy : WriteXctAccess) (s : System) (t : Nat)
    (commit_epoch : Epoch) : System :=
  match XctManagerPimpl.precommit_xct types dummy (s.threads t) s.world commit_epoch with
  | Except.ok r => { s with world := r.world }.set_thread t r.context
  | Except.error _ => s

/-- The id `o` is not newer than the id `c` held by the worker that `o` names,
in a run that started at the epoch `base` and saw `n` rounds of the epoch
advancer: both epochs are valid 32-bit epochs, the epoch of `o` is at most as
many `one_more()` steps after `base` as the epoch of `c`, which is at most `n`
steps after `base`, and within one epoch the ordinal of `o` is at most that of
`c`. -/
def XctId.covered_by (base : Epoch) (n : Nat) (o c : XctId) : Prop :=
  o.epoch_.is_valid = true ∧ o.epoch_.epoch_ < kEpochIntOverflow ∧
  c.epoch_.is_valid = true ∧ c.epoch_.epoch_ < kEpochIntOverflow ∧
  Epoch.steps_to base o.epoch_ ≤ Epoch.steps_to base c.epoch_ ∧
  Epoch.steps_to base c.epoch_ ≤ n ∧
  (o.epoch_ = c.epoch_ → o.ordinal_ ≤ c.ordinal_)

/-- The clock of a run that started at the epoch `base` and saw `n` rounds of
the epoch advancer: worker `t` runs with the thread id `t`, and the global
epoch is the valid 32-bit epoch `n` steps of `one_more()` after `base`. -/
structure System.clock (base : Epoch) (n : Nat) (s : System) : Prop where
  thread_ids : ∀ t, (s.threads t).thread_id_ = t ∧ (s.threads t).current_xct_.thread_id_ = t
  base_lt : base.epoch_ < kEpochIntOverflow
  global_valid : s.world.current_global_epoch_.is_valid = true
  global_lt : s.world.current_global_epoch_.epoch_ < kEpochIntOverflow
  global_steps : Epoch.steps_to base s.world.current_global_epoch_ = n

/-- The id `o` was never issued by a commit (its ordinal is 0, as in a record
that no transaction wrote yet), or it is not newer than the id held by the
worker it names. -/
def System.covers (base : Epoch) (n : Nat) (s : System) (o : XctId) : Prop :=
  o.ordinal_ = 0 ∨ XctId.covered_by base n o (s.threads o.thread_id_).current_xct_.id_

/-- Every owner id of a record and every observation of a read set is covered. -/
structure System.ids_covered (base : Epoch) (n : Nat) (s : System) : Prop where
  records : ∀ x, s.covers base n (s.world.owner_id x)
  read_sets : ∀ t, ∀ a ∈ (s.threads t).current_xct_.read_set_,
    s.covers base n a.observed_owner_id_

/-- A state right after initialisation, as far as ids go: worker `t` runs with
the thread id `t`, the global epoch is a valid 32-bit epoch, no read set holds
an entry, and the owner id of every record has the ordinal 0 (a page is zeroed
and the epoch of its owner ids is set, `ArrayPage::initialize_data_page`). -/
structure System.fresh_start (s : System) : Prop where
  thread_ids : ∀ t, (s.threads t).thread_id_ = t ∧ (s.threads t).current_xct_.thread_id_ = t
  global_valid : s.world.current_global_epoch_.is_valid = true
  global_lt : s.world.current_global_epoch_.epoch_ < kEpochIntOverflow
  no_reads : ∀ t, (s.threads t).current_xct_.read_set_ = []
  ordinals : ∀ x, (s.world.owner_id x).ordinal_ = 0

namespace Examples

/-- The idle worker `t` right after initialisation. -/
def ctx_worker (t : Nat) : Thread :=
  ⟨t, { active_ := false, schema_xct_ := false,
        isolation_level_ := IsolationLevel.kSerializable,
        id_ := XctId.set_clean 1 t 0, read_set_ := [], write_set_ := [],
        max_read_set_size_ := 10, max_write_set_size_ := 10,
        in_commit_log_epoch_ := Epoch.invalid, thread_id_ := t }, buf_empty⟩

/-- The system right after initialisation in epoch 1, every worker idle. -/
def sys_workers : System := ⟨w_one, ctx_worker⟩

/-- The system after worker `t` began a transaction and wrote the record at
address `record` with a log record of class 1. -/
def begin_write (s : System) (t record : Nat) : System :=
  (s.set_thread t (XctManagerPimpl.begin_xct (s.threads t) IsolationLevel.kSerializable).2).set_thread
    t (storage_write (XctManagerPimpl.begin_xct (s.threads t) IsolationLevel.kSerializable).2
        s.world 1000 record ⟨⟨1, 16, 3⟩, [42]⟩).2

/-- The system after worker `t` began a transaction and read the record at
address `record`. -/
def begin_read (s : System) (t record : Nat) : System :=
  (s.set_thread t (XctManagerPimpl.begin_xct (s.threads t) IsolationLevel.kSerializable).2).set_thread
    t (storage_read_context
        (XctManagerPimpl.begin_xct (s.threads t) IsolationLevel.kSerializable).2
        s.world 1000 record)

/-- Worker 0 wrote the record at address 200, in epoch 1, and is about to
commit. -/
def sys_c1_pre : System := begin_write sys_workers 0 200

/-- Worker 0 committed the write of the record at address 200 in epoch 1. -/
def sys_c1 : System := sys_c1_pre.precommit types0 dummy0 0 ⟨0⟩

/-- Worker 1 then began a transaction and read the record at address 200. -/
def sys_c1_read : System := begin_read sys_c1 1 200

/-- The epoch advanced to 2 and worker 0 wrote the record at address 300. -/
def sys_c2_pre : System := begin_write sys_c1_read.advance 0 300

/-- Worker 0 committed the write of the record at address 300 in epoch 2. -/
def sys_c2 : System := sys_c2_pre.precommit types0 dummy0 0 ⟨0⟩

/-- The state of `sys_c2` after the epoch advancer made 2^32 - 2 more rounds:
the global epoch went from 2 up to 2^32 - 1 and on to 1 again. -/
def sys_wrap : System :=
  { sys_c2 with world := { sys_c2.world with current_global_epoch_ := ⟨1⟩ } }

/-- Worker 0 then wrote the record at address 200 again and is about to commit. -/
def sys_c3_pre : System := begin_write sys_wrap 0 200

/-- Worker 0 committed the second write of the record at address 200, in epoch
1 again. -/
def sys_c3 : System := sys_c3_pre.precommit types0 dummy0 0 ⟨0⟩

end Examples

namespace Examples

/-- From `sys_c1_read`, where worker 1 holds a read of the record at address
200: worker 0 wrote the record again, still in epoch 1, and is about to commit. -/
def sys_b_pre : System := begin_write sys_c1_read 0 200

/-- Worker 0 committed its second write of the record at address 200. -/
def sys_b : System := sys_b_pre.precommit types0 dummy0 0 ⟨0⟩

/-- Worker 1 then called `precommit_xct`, began a transaction again and read
the record at address 200 again. -/
def sys_retry : System := begin_read (sys_b.precommit types0 dummy0 1 ⟨0⟩) 1 200

/-- In the retry worker 1 also wrote the record at address 200, the record it
read: its transaction being active, the `begin_xct` inside `begin_write` answers
`kErrorCodeXctAlreadyRunning` and leaves the transaction as it is, and the
write is added to it. -/
def sys_retry_rmw : System := begin_write sys_retry 1 200

end Examples

/-! ## Initialisation of the transaction manager -/

/-- Modelled from the spec: the macro `ASSERT_ND` (`foedus/assert_nd.hpp` is not among the
sources), "an assertion during debug builds": where assertions are compiled in
a false condition aborts the process, where they are compiled out the macro
does nothing. -/
def ASSERT_ND (assertions_enabled : Bool) (cond : Bool) : Except Halt Unit :=
  if assertions_enabled && !cond then Except.error Halt.fatal else Except.ok ()

/-- Modelled from the spec: the savepoint as `initialize_once` reads it
(`foedus/savepoint/savepoint.hpp` is not among the sources): the value of
`get_current_epoch()`. -/
structure Savepoint where
  current_epoch_ : Epoch
  deriving DecidableEq, Repr

/-- What `initialize_once` leaves when it returns: the error code of the
`ErrorStack` returned, the shared state, and whether the epoch advance thread
was started. -/
structure InitResult where
  error_code : ErrorCode
  world : World
  epoch_advance_thread_started : Bool

namespace XctManagerPimpl

/-- `XctManagerPimpl::initialize_once`.  `assertions_enabled` tells whether the
build compiles `ASSERT_ND` in; `storage_manager_initialized` is the value of
`engine_->get_storage_manager().is_initialized()`. -/
def initialize_once (assertions_enabled : Bool) (storage_manager_initialized : Bool)
    (savepoint : Savepoint) (w : World) : Except Halt InitResult :=
  if !storage_manager_initialized then
    Except.ok { error_code := ErrorCode.kErrorCodeDepedentModuleUnavailableInit, world := w,
                epoch_advance_thread_started := false }
  else
    let w1 := { w with current_global_epoch_ := savepoint.current_epoch_ }
    match ASSERT_ND assertions_enabled (get_current_global_epoch w1).is_valid with
    | Except.error h => Except.error h
    | Except.ok _ =>
      Except.ok { error_code := ErrorCode.kErrorCodeOk, world := w1,
                  epoch_advance_thread_started := true }

end XctManagerPimpl

/-! ## Observations of the read sets -/

/-- Every observation of a read set was recorded without the key-lock bit:
"recorded immediately after the read, with observed_owner_id.keylock == false
(reads wait out the lock)". -/
def System.reads_unlocked (s : System) : Prop :=
  ∀ t, ∀ a ∈ (s.threads t).current_xct_.read_set_, a.observed_owner_id_.is_keylocked = false

namespace Examples

/-- The world `w0` after the record at address 100 was marked deleted: its owner
id is `idA` with the delete bit set. -/
def w_deleted : World :=
  { w0 with
    records_ := fun r => if r = 100 then ⟨{ idA with deleted_ := true }, []⟩ else w0.records_ r }

/-- An active transaction that read the record at address 100, observing `idA`,
and wrote the record at address 200. -/
def ctx_rw : Thread :=
  ⟨0, { xct_rmw with write_set_ := [⟨idA, 1000, 200, 8⟩] }, buf0⟩

end Examples

/-! ## Runs in which the storage operations run inside a transaction -/

/-- The steps of the workers when worker code keeps the protocol of the storage
operations: a read or a write runs inside an active transaction, and "each
write appends one log entry together with one write-set entry". -/
inductive System.xct_step (types : LogTypes) : System → System → Prop where
  | begin_xct (s : System) (t : Nat) (isolation_level : IsolationLevel) :
      System.xct_step types s
        (s.set_thread t (XctManagerPimpl.begin_xct (s.threads t) isolation_level).2)
  | begin_schema_xct (s : System) (t : Nat) :
      System.xct_step types s
        (s.set_thread t (XctManagerPimpl.begin_schema_xct (s.threads t)).2)
  | read (s : System) (t storage record : Nat) (code : ErrorCode) (c : Thread) :
      (s.threads t).current_xct_.is_active = true →
      storage_read (s.threads t) s.world storage record = Except.ok (code, c) →
      System.xct_step types s (s.set_thread t c)
  | write (s : System) (t storage record : Nat) (entry : LogEntry) :
      (s.threads t).current_xct_.is_active = true →
      System.xct_step types s
        (s.set_thread t (storage_write (s.threads t) s.world storage record entry).2)
  | precommit_xct (s : System) (t : Nat) (dummy : WriteXctAccess) (commit_epoch : Epoch)
      (r : Result ErrorCode) :
      XctManagerPimpl.precommit_xct types dummy (s.threads t) s.world commit_epoch
        = Except.ok r →
      System.xct_step types s (({ s with world := r.world } : System).set_thread t r.context)
  | abort_xct (s : System) (t : Nat) :
      System.xct_step types s (s.set_thread t (XctManagerPimpl.abort_xct (s.threads t)).2)

/-- The state `s1` is reached from the state `s` by such steps of the workers
and rounds of the epoch advancer. -/
inductive System.xct_reaches (types : LogTypes) (s : System) : System → Prop where
  | refl : System.xct_reaches types s s
  | step (s1 s2 : System) :
      System.xct_reaches types s s1 → System.xct_step types s1 s2 →
      System.xct_reaches types s s2
  | advance (s1 : System) :
      System.xct_reaches types s s1 → System.xct_reaches types s s1.advance

/-- The log-buffer invariant of a context: outside a transaction, and in a
transaction that is not a schema transaction and has written nothing yet, the
tail of the log buffer is at the committed cursor. -/
def Thread.log_buffer_ok (c : Thread) : Prop :=
  (c.current_xct_.is_active = false ∨
    (c.current_xct_.is_schema_xct = false ∧ c.current_xct_.write_set_ = [])) →
  c.thread_log_buffer_.get_offset_tail = c.thread_log_buffer_.get_offset_committed

/-! ## The free-page chunk of a core (`foedus/memory/numa_core_memory.cpp`) -/

/-- Modelled from the spec: the class `PagePoolOffsetChunk` (`foedus/memory/page_pool.hpp`
is not among the sources), the "local free-page chunk obtained from the NUMA
node's page pool": a stack of page offsets with a fixed capacity. -/
structure PagePoolOffsetChunk where
  capacity_ : Nat
  chunk_ : List Nat
  deriving DecidableEq, Repr

namespace PagePoolOffsetChunk

/-- Modelled from the spec: `PagePoolOffsetChunk::capacity`. -/
def capacity (c : PagePoolOffsetChunk) : Nat := c.capacity_

/-- Modelled from the spec: `PagePoolOffsetChunk::size`. -/
def size (c : PagePoolOffsetChunk) : Nat := c.chunk_.length

/-- Modelled from the spec: `PagePoolOffsetChunk::empty`. -/
def empty (c : PagePoolOffsetChunk) : Bool := c.size == 0

/-- Modelled from the spec: `PagePoolOffsetChunk::full`. -/
def full (c : PagePoolOffsetChunk) : Bool := c.size == c.capacity

/-- Modelled from the spec: `PagePoolOffsetChunk::push_back` on a chunk that is not
full: the offset becomes the last element. -/
def push_back (c : PagePoolOffsetChunk) (offset : Nat) : PagePoolOffsetChunk :=
  { c with chunk_ := c.chunk_ ++ [offset] }

/-- Modelled from the spec: `PagePoolOffsetChunk::pop_back` on a chunk that is not
empty: the last element is returned and removed. -/
def pop_back (c : PagePoolOffsetChunk) : Nat × PagePoolOffsetChunk :=
  (c.chunk_.getLastD 0, { c with chunk_ := c.chunk_.dropLast })

end PagePoolOffsetChunk

/-- Modelled from the spec: the page pool of the engine as a core uses it, "PagePool:
`grab(n, chunk) → Result`, `release(n, chunk)`" (`foedus/memory/page_pool.hpp`
is not among the sources): what a call makes of the chunk it is given. -/
structure PagePool where
  grab : Nat → PagePoolOffsetChunk → ErrorCode × PagePoolOffsetChunk
  release : Nat → PagePoolOffsetChunk → PagePoolOffsetChunk

/-- Modelled from the spec: the contract of the page pool.  A `grab(n, chunk)` that
succeeds puts at most `n` pages on top of the chunk, at least one when `n` is
not 0, none of them the null offset 0; a `grab` that fails leaves the chunk as
it was; `release(n, chunk)` takes the `n` top pages of the chunk back. -/
structure PagePool.contract (pool : PagePool) : Prop where
  grab_ok : ∀ n c, (pool.grab n c).1 = ErrorCode.kErrorCodeOk →
    ∃ pages : List Nat, (pool.grab n c).2 = { c with chunk_ := c.chunk_ ++ pages } ∧
      pages.length ≤ n ∧ (0 < n → pages ≠ []) ∧ ∀ p ∈ pages, p ≠ 0
  grab_error : ∀ n c, (pool.grab n c).1 ≠ ErrorCode.kErrorCodeOk → (pool.grab n c).2 = c
  release_top : ∀ n c,
    pool.release n c = { c with chunk_ := c.chunk_.take (c.chunk_.length - n) }

namespace NumaCoreMemory

/-- `NumaCoreMemory::grab_free_pages_from_engine`. -/
def grab_free_pages_from_engine (pool : PagePool) (free_pool_chunk : PagePoolOffsetChunk) :
    ErrorCode × PagePoolOffsetChunk :=
  let desired := (free_pool_chunk.capacity - free_pool_chunk.size) / 2
  pool.grab desired free_pool_chunk

/-- `NumaCoreMemory::release_free_pages_to_engine`. -/
def release_free_pages_to_engine (pool : PagePool) (free_pool_chunk : PagePoolOffsetChunk) :
    PagePoolOffsetChunk :=
  let desired := free_pool_chunk.size / 2
  pool.release desired free_pool_chunk

/-- The end of `grab_free_page`: `assert(!free_pool_chunk_->empty())` and
`return free_pool_chunk_->pop_back()`.  `none` when the assertion fails; with
the assertion compiled out the `pop_back` on the empty chunk is undefined. -/
def grab_free_page_pop (free_pool_chunk : PagePoolOffsetChunk) :
    Option (Nat × PagePoolOffsetChunk) :=
  if free_pool_chunk.empty then none else some free_pool_chunk.pop_back

/-- `NumaCoreMemory::grab_free_page`: the offset returned and the chunk left, or
`none` when the assertion fails.  The file compares with `ERROR_CODE_OK`, its
name for the code `kErrorCodeOk`. -/
def grab_free_page (pool : PagePool) (free_pool_chunk : PagePoolOffsetChunk) :
    Option (Nat × PagePoolOffsetChunk) :=
  if free_pool_chunk.empty then
    let r := grab_free_pages_from_engine pool free_pool_chunk
    if r.1 ≠ ErrorCode.kErrorCodeOk then some (0, r.2)
    else grab_free_page_pop r.2
  else grab_free_page_pop free_pool_chunk

/-- `NumaCoreMemory::release_free_page`: the chunk left, or `none` when
`assert(!free_pool_chunk_->full())` fails; with the assertion compiled out the
`push_back` on the full chunk is undefined. -/
def release_free_page (pool : PagePool) (free_pool_chunk : PagePoolOffsetChunk)
    (offset : Nat) : Option PagePoolOffsetChunk :=
  let chunk1 :=
    if free_pool_chunk.full then release_free_pages_to_engine pool free_pool_chunk
    else free_pool_chunk
  if chunk1.full then none else some (chunk1.push_back offset)

end NumaCoreMemory

namespace Examples

/-- A page pool that never runs out: `grab(n, chunk)` puts the `n` offsets
`100, 101, ...` on top of the chunk. -/
def page_pool : PagePool where
  grab := fun n c =>
    (ErrorCode.kErrorCodeOk, { c with chunk_ := c.chunk_ ++ (List.range n).map (fun i => i + 100) })
  release := fun n c => { c with chunk_ := c.chunk_.take (c.chunk_.length - n) }

/-- A page pool without free pages: every `grab` fails. -/
def page_pool_empty : PagePool where
  grab := fun _ c => (ErrorCode.kErrorCodeMemoryNoFreePages, c)
  release := fun n c => { c with chunk_ := c.chunk_.take (c.chunk_.length - n) }

end Examples

/-! ## Workers in the lock phase at the same time -/

/-- Workers that run `precommit_xct_readwrite` at the same time: the shared
state, the context of each worker (its write set is the one sorted by
`precommit_xct_lock`), the loop variable `i` of the locking loop of each worker,
and the value that `precommit_xct` returned to the worker once it has. -/
structure Committing where
  world : World
  threads : Nat → Thread
  i : Nat → Nat
  ret : Nat → Option ErrorCode

namespace Committing

/-- The workers enter `precommit_xct_lock` with the contexts `contexts`: each
sorted its write set and stands before the first round of its locking loop. -/
def start (w : World) (contexts : Nat → Thread) : Committing :=
  { world := w, threads := fun t => XctManagerPimpl.sort_write_set (contexts t),
    i := fun _ => 0, ret := fun _ => none }

/-- The (sorted) write set of worker `t`. -/
def write_set (s : Committing) (t : Nat) : List WriteXctAccess :=
  (s.threads t).current_xct_.write_set_

/-- The state after worker `t` completed one round of its locking loop, which
left the shared state `w1`: `++i`. -/
def lock (s : Committing) (t : Nat) (w1 : World) : Committing :=
  { s with world := w1, i := fun u => if u = t then s.i t + 1 else s.i u }

/-- The state after worker `t` ran what follows its locking loop: the rest of
`precommit_xct_readwrite` (which takes no lock) and the end of `precommit_xct`. -/
def finish (types : LogTypes) (dummy : WriteXctAccess) (s : Committing) (t : Nat) : Committing :=
  let r := XctManagerPimpl.precommit_finish (XctManagerPimpl.guard_exit
    (XctManagerPimpl.readwrite_guarded types dummy
      (XctManagerPimpl.guard_enter (s.threads t) s.world) s.world))
  { world := r.world,
    threads := fun u => if u = t then r.context else s.threads u,
    i := s.i,
    ret := fun u => if u = t then some r.ret else s.ret u }

/-- The steps of the workers `t < n`.  A round of the locking loop of
`precommit_xct_lock` is a step when `keylock_unconditional` gets the lock; while
the bit is set by somebody the worker spins and has no step.  When the loop is
over (`i < write_set_size` is false) the rest of the commit is one step. -/
inductive step (types : LogTypes) (dummy : WriteXctAccess) (n : Nat) :
    Committing → Committing → Prop where
  | lock (s : Committing) (t : Nat) (a : WriteXctAccess) (w1 : World) :
      t < n → s.ret t = none → (s.write_set t)[s.i t]? = some a →
      XctManagerPimpl.keylock_unconditional s.world a.record_ = Except.ok w1 →
      step types dummy n s (s.lock t w1)
  | finish (s : Committing) (t : Nat) :
      t < n → s.ret t = none → ¬ s.i t < (s.write_set t).length →
      step types dummy n s (s.finish types dummy t)

/-- The states at the end of a run of `k` steps from `s`. -/
inductive reaches (types : LogTypes) (dummy : WriteXctAccess) (n : Nat) (s : Committing) :
    Nat → Committing → Prop where
  | refl : reaches types dummy n s 0 s
  | step (k : Nat) (s1 s2 : Committing) :
      reaches types dummy n s k s1 → step types dummy n s1 s2 →
      reaches types dummy n s (k + 1) s2

/-- Worker `t` holds the key-lock of the record at address `r`: it is in its
commit and one of the completed rounds of its locking loop locked `r`. -/
def holds (s : Committing) (t r : Nat) : Prop :=
  s.ret t = none ∧ ∃ j a, j < s.i t ∧ (s.write_set t)[j]? = some a ∧ a.record_ = r

/-- Worker `t` waits for a key-lock held by worker `u`: the next round of the
locking loop of `t` is for a record of which `u` holds the key-lock. -/
def waits_for (s : Committing) (t u : Nat) : Prop :=
  s.ret t = none ∧ ∃ a, (s.write_set t)[s.i t]? = some a ∧ s.holds u a.record_

/-- The number of steps worker `t` still has to take. -/
def remaining (s : Committing) (t : Nat) : Nat :=
  match s.ret t with
  | some _ => 0
  | none => (s.write_set t).length - s.i t + 1

/-- The number of steps the workers `t < n` still have to take. -/
def steps_left (s : Committing) : Nat → Nat
  | 0 => 0
  | n + 1 => steps_left s n + s.remaining n

/-- The type code in the header of the log entry that the write access `a` of
worker context `context` points at. -/
def log_type_code (context : Thread) (a : WriteXctAccess) : Nat :=
  (context.thread_log_buffer_.entries_ a.log_entry_).header.log_type_code_

/-- The bookkeeping of the key-locks that the workers `t < n` took: a worker
that has not entered is before its first round, the loop variable is within the
write set, the write set is strictly ascending in the record address, what a
worker holds is key-locked, and no two workers hold one record. -/
structure locks_sound (n : Nat) (s : Committing) : Prop where
  outside : ∀ t, n ≤ t → s.i t = 0
  bound : ∀ t, s.ret t = none → s.i t ≤ (s.write_set t).length
  sorted : ∀ t, t < n → s.ret t = none →
    ((s.write_set t).map (fun a => a.record_)).Pairwise (fun x y => x < y)
  locked : ∀ t r, s.holds t r → (s.world.owner_id r).is_keylocked = true
  exclusive : ∀ t u r, s.holds t r → s.holds u r → t = u

/-- Every key-lock has a holder among the workers `t < n`, whose writes all
point at log entries of registered types. -/
structure locks_held (types : LogTypes) (n : Nat) (s : Committing) : Prop where
  sound : s.locks_sound n
  registered : ∀ t, t < n → s.ret t = none → ∀ a ∈ s.write_set t,
    log_type_code (s.threads t) a ≠ LOG_TYPE_INVALID ∧
    (types.xmacro (log_type_code (s.threads t) a)).isSome = true
  holder : ∀ r, (s.world.owner_id r).is_keylocked = true → ∃ t, s.holds t r

end Committing

namespace Examples

/-- An active transaction of worker `t` that wrote the record at address
`first` and then the record at address `second`. -/
def ctx_two_writes (t first second : Nat) : Thread :=
  ⟨t, { xct_rmw with read_set_ := [],
                     write_set_ := [⟨idA, 1000, first, 8⟩, ⟨idA, 1000, second, 24⟩],
                     thread_id_ := t }, buf0⟩

/-- Worker 0 wrote the records at 100 and 200 in this order, worker 1 in the
opposite order. -/
def ctx_opposite (t : Nat) : Thread :=
  if t = 0 then ctx_two_writes 0 100 200 else ctx_two_writes 1 200 100

/-- Worker 0 wrote the record at address 100 twice. -/
def ctx_twice (_t : Nat) : Thread := ctx_two_writes 0 100 100

end Examples
namespace Committing

/-- The state after the round of the locking loop of worker `t` that finds the
record at address `r` without key-lock and sets the bit. -/
def lock_free (s : Committing) (t r : Nat) : Committing :=
  s.lock t (s.world.set_owner_id r (s.world.owner_id r).with_keylock)

end Committing

namespace Examples

/-- The workers 0 and 1 enter the lock phase with the same pair of records
written in opposite order. -/
def commit_start : Committing := Committing.start w0 ctx_opposite

/-- Worker 0 got the key-lock of the record at address 100; worker 1 spins on
it. -/
def commit_0_first : Committing := commit_start.lock_free 0 100

/-- Worker 0 locked both records and returned from `precommit_xct`. -/
def commit_0_done : Committing := (commit_0_first.lock_free 0 200).finish types0 dummy0 0

/-- Worker 1 locked both records after worker 0 returned, and returned too. -/
def commit_done : Committing :=
  ((commit_0_done.lock_free 1 100).lock_free 1 200).finish types0 dummy0 1

/-- The only worker wrote the record at address 100 twice and got its key-lock
in the first round of the locking loop. -/
def commit_twice : Committing := (Committing.start w0 ctx_twice).lock_free 0 100

end Examples

namespace Examples

/-- A log buffer holding one in-flight log record at address 8 whose type code 2
has no row in `types0`. -/
def buf_unregistered : ThreadLogBuffer where
  offset_head_ := 8
  offset_committed_ := 8
  offset_tail_ := 24
  entries_ := fun _ => ⟨⟨2, 16, 3⟩, [42]⟩
  published_ := []

/-- An active transaction that wrote the record at address 100 without reading
it, its log record carrying the unregistered type code 2. -/
def ctx_w_unregistered : Thread := ⟨0, { xct_rmw with read_set_ := [] }, buf_unregistered⟩

end Examples

namespace Examples

/-- The registry `types_schema` with one more code of Engine kind, 21, that has
no row in the table of log types. -/
def types_schema_gap : LogTypes where
  xmacro := types_schema.xmacro
  get_log_code_kind := fun c =>
    if c = 21 then LogCodeKind.kEngineLogs else types_schema.get_log_code_kind c

/-- A log buffer holding one in-flight log at address 8, of the code 21. -/
def buf_schema_gap : ThreadLogBuffer where
  offset_head_ := 8
  offset_committed_ := 8
  offset_tail_ := 24
  entries_ := fun _ => ⟨⟨21, 16, 0⟩, []⟩
  published_ := []

/-- An active schema transaction of worker 0 with the log buffer
`buf_schema_gap`. -/
def ctx_schema_gap : Thread :=
  ⟨0, { xct_rmw with schema_xct_ := true, read_set_ := [], write_set_ := [] }, buf_schema_gap⟩

end Examples

namespace Examples

/-- Worker 0 wrote the records at 100 and 200 in this order, with log records
that carry the type code 2, which has no row in `types0`; worker 1 wrote the
two records in the opposite order, with log records of class 1. -/
def ctx_stuck (t : Nat) : Thread :=
  if t = 0 then
    ⟨0, { xct_rmw with read_set_ := [],
                       write_set_ := [⟨idA, 1000, 100, 8⟩, ⟨idA, 1000, 200, 24⟩] },
      buf_unregistered⟩
  else ctx_two_writes 1 200 100

/-- Worker 0 locked both records and returned from `precommit_xct`; worker 1 is
before the first round of its locking loop. -/
def commit_stuck : Committing :=
  (((Committing.start w0 ctx_stuck).lock_free 0 100).lock_free 0 200).finish types0 dummy0 0

end Examples

/-! ## Runs that stay inside the ordinal field -/

/-- The context has an ordinal left in the epoch `g`: its last id is of another
epoch, or the ordinal of its last id is not the last ordinal of the field, so
that `issue_next_id(g)` bumps the counter without going round to 0. -/
def Xct.ordinal_left (x : Xct) (g : Epoch) : Prop :=
  x.id_.epoch_ = g → x.id_.ordinal_ + 1 < kOrdinalOverflow

instance (x : Xct) (g : Epoch) : Decidable (x.ordinal_left g) := by
  unfold Xct.ordinal_left
  exact inferInstance

/-- In the step from `s` to `s1` every worker whose id changed had an ordinal
left in the global epoch. -/
def System.ordinals_kept (s s1 : System) : Prop :=
  ∀ t, (s1.threads t).current_xct_.id_ ≠ (s.threads t).current_xct_.id_ →
    (s.threads t).current_xct_.ordinal_left s.world.current_global_epoch_

/-- The states at the end of a run from `s` in which no id is issued to a
worker that has used up the ordinals of the global epoch, with the number of
rounds of the epoch advancer on the way. -/
inductive System.reaches_ordinals (types : LogTypes) (s : System) : Nat → System → Prop where
  | refl : System.reaches_ordinals types s 0 s
  | step (n : Nat) (s1 s2 : System) :
      System.reaches_ordinals types s n s1 → System.step types s1 s2 →
      System.ordinals_kept s1 s2 → System.reaches_ordinals types s n s2
  | advance (n : Nat) (s1 : System) :
      System.reaches_ordinals types s n s1 →
      System.reaches_ordinals types s (n + 1) s1.advance

namespace Examples

/-- Worker 0 begins a transaction, writes the record at address 200 with a log
record of class 1 and commits. -/
def commit_write (s : System) : System :=
  (begin_write s 0 200).precommit types0 dummy0 0 ⟨0⟩

/-- The system after `n` such commits of worker 0 from the state `s`. -/
def commits (s : System) (n : Nat) : System := Nat.iterate commit_write n s

/-- Worker 0 is idle in epoch 1, its last id being of that epoch, and the record
at address 200 is not key-locked. -/
structure idle_in_epoch_one (s : System) : Prop where
  epoch : s.world.current_global_epoch_ = ⟨1⟩
  inactive : (s.threads 0).current_xct_.active_ = false
  thread : (s.threads 0).current_xct_.thread_id_ = 0
  id_epoch : (s.threads 0).current_xct_.id_.epoch_ = ⟨1⟩
  room : (s.threads 0).current_xct_.max_write_set_size_ = 10
  unlocked : (s.world.owner_id 200).is_keylocked = false

end Examples

/-! ## The read-write path over the order of the write set -/

/-- The order of write-set entries by record address alone, under which a probe
that carries a record address is equivalent to every entry on that record. -/
def WriteXctAccess.compare_record (left right : WriteXctAccess) : Bool :=
  decide (left.record_ < right.record_)

namespace XctManagerPimpl

/-- The context after `std::sort(write_set, write_set + write_set_size,
WriteXctAccess::compare)`, with the function `WriteXctAccess::compare` (declared
in `foedus/xct/xct_access.hpp`, which is not among the sources) as the
parameter `comp`. -/
def sort_write_set_by (comp : WriteXctAccess → WriteXctAccess → Bool) (context : Thread) :
    Thread :=
  { context with
    current_xct_ := { context.current_xct_ with
      write_set_ := std_sort comp context.current_xct_.write_set_ } }

/-- `XctManagerPimpl::precommit_xct_lock` over the order `comp`. -/
def precommit_xct_lock_by (comp : WriteXctAccess → WriteXctAccess → Bool) (context : Thread)
    (w : World) : Except Halt (Thread × World) :=
  let context1 := sort_write_set_by comp context
  match lock_loop context1.current_xct_.write_set_ w with
  | Except.error h => Except.error h
  | Except.ok w1 => Except.ok (context1, w1)

/-- The loop of `precommit_xct_verify_readwrite` over the order `comp`. -/
def verify_readwrite_loop_by (comp : WriteXctAccess → WriteXctAccess → Bool)
    (dummy : WriteXctAccess) (w : World) (write_set : List WriteXctAccess) :
    List XctAccess → Bool
  | [] => true
  | access :: rest =>
    if !access.observed_owner_id_.equals_serial_order (w.owner_id access.record_) then false
    else if (w.owner_id access.record_).is_keylocked then
      let dummy1 := { dummy with record_ := access.record_ }
      let found := std_binary_search comp write_set dummy1
      if !found then false
      else verify_readwrite_loop_by comp dummy w write_set rest
    else verify_readwrite_loop_by comp dummy w write_set rest

/-- `XctManagerPimpl::precommit_xct_verify_readwrite` over the order `comp`. -/
def precommit_xct_verify_readwrite_by (comp : WriteXctAccess → WriteXctAccess → Bool)
    (dummy : WriteXctAccess) (context : Thread) (w : World) : Bool :=
  let current_xct := context.current_xct_
  verify_readwrite_loop_by comp dummy w current_xct.write_set_ current_xct.read_set_

/-- The body of `precommit_xct_readwrite` between the construction and the
destruction of the `InCommitLogEpochGuard`, over the order `comp`. -/
def readwrite_guarded_by (types : LogTypes) (comp : WriteXctAccess → WriteXctAccess → Bool)
    (dummy : WriteXctAccess) (context : Thread) (w : World) : Result Bool :=
  let commit_epoch := get_current_global_epoch_weak w
  let verified := precommit_xct_verify_readwrite_by comp dummy context w
  if verified then
    let r := precommit_xct_apply types context w commit_epoch
    let context1 := { r.1 with
      thread_log_buffer_ := r.1.thread_log_buffer_.publish_committed_log commit_epoch }
    { ret := verified, context := context1, world := r.2, commit_epoch := commit_epoch }
  else
    { ret := verified, context := context, world := precommit_xct_unlock context w,
      commit_epoch := commit_epoch }

/-- `XctManagerPimpl::precommit_xct_readwrite` over the order `comp`. -/
def precommit_xct_readwrite_by (types : LogTypes)
    (comp : WriteXctAccess → WriteXctAccess → Bool) (dummy : WriteXctAccess) (context : Thread)
    (w : World) (_commit_epoch : Epoch) : Except Halt (Result Bool) :=
  match precommit_xct_lock_by comp context w with
  | Except.error h => Except.error h
  | Except.ok (context1, w1) =>
    Except.ok (guard_exit (readwrite_guarded_by types comp dummy (guard_enter context1 w1) w1))

/-- `XctManagerPimpl::precommit_xct` over the order `comp` of the write set. -/
def precommit_xct_by (types : LogTypes) (comp : WriteXctAccess → WriteXctAccess → Bool)
    (dummy : WriteXctAccess) (context : Thread) (w : World) (commit_epoch : Epoch) :
    Except Halt (Result ErrorCode) :=
  let current_xct := context.current_xct_
  if !current_xct.is_active then
    Except.ok { ret := ErrorCode.kErrorCodeXctNoXct, context := context, world := w,
                commit_epoch := commit_epoch }
  else if current_xct.is_schema_xct then
    match precommit_xct_schema types context w commit_epoch with
    | Except.error h => Except.error h
    | Except.ok r => Except.ok (precommit_finish r)
  else
    let read_only := decide (context.current_xct_.get_write_set_size = 0)
    if read_only then
      let r := precommit_xct_readonly context w commit_epoch
      Except.ok (precommit_finish
        { ret := r.1, context := context, world := w, commit_epoch := r.2 })
    else
      match precommit_xct_readwrite_by types comp dummy context w commit_epoch with
      | Except.error h => Except.error h
      | Except.ok r => Except.ok (precommit_finish r)

end XctManagerPimpl

/-- A strict weak order: asymmetric, transitive, and with the property that an
element less than another is less than any third element or the third is less
than the other. -/
structure strict_weak_order {α : Type} (comp : α → α → Bool) : Prop where
  asymm : ∀ a b, comp a b = true → comp b a = false
  trans : ∀ a b c, comp a b = true → comp b c = true → comp a c = true
  cotrans : ∀ a b c, comp a c = true → comp a b = true ∨ comp b c = true

/-- The probe of the binary search for the record of a read-set entry: the local
`dummy` with the field `record_` assigned. -/
def WriteXctAccess.probe (dummy : WriteXctAccess) (access : XctAccess) : WriteXctAccess :=
  { dummy with record_ := access.record_ }

/-- The order `comp` makes the entries `a` and `b` equivalent: neither is less
than the other. -/
def WriteXctAccess.equiv_by (comp : WriteXctAccess → WriteXctAccess → Bool)
    (a b : WriteXctAccess) : Prop :=
  comp a b = false ∧ comp b a = false

instance (comp : WriteXctAccess → WriteXctAccess → Bool) (a b : WriteXctAccess) :
    Decidable (WriteXctAccess.equiv_by comp a b) := by
  unfold WriteXctAccess.equiv_by
  infer_instance

end foedus

/-! # Properties -/

namespace foedus

open XctManagerPimpl

/-! ## The read-only path -/

theorem verify_readonly_loop_false_iff (w : World) (rs : List XctAccess) (e : Epoch) :
    (verify_readonly_loop w rs e).1 = false ↔
      ∃ a ∈ rs, a.observed_owner_id_ ≠ w.owner_id a.record_ := by
  induction rs generalizing e with
  | nil => simp [verify_readonly_loop]
  | cons a rest ih =>
    by_cases h : a.observed_owner_id_ = w.owner_id a.record_
    · simp [verify_readonly_loop, h, ih]
    · simp [verify_readonly_loop, h]

theorem precommit_xct_verify_readonly_fst (context : Thread) (w : World) (e : Epoch) :
    (precommit_xct_verify_readonly context w e).1
      = (verify_readonly_loop w context.current_xct_.read_set_ e).1 := by
  unfold precommit_xct_verify_readonly
  rcases h : verify_readonly_loop w context.current_xct_.read_set_ e with ⟨b, e1⟩
  cases b
  · simp [h]
  · by_cases hv : e1.is_valid = true <;> simp [h, hv]

theorem precommit_finish_ret (r : Result Bool) :
    (precommit_finish r).ret
      = if r.ret then ErrorCode.kErrorCodeOk else ErrorCode.kErrorCodeXctRaceAbort := by
  unfold precommit_finish
  by_cases h : r.ret = true <;> simp [h]

theorem precommit_xct_readonly_eq (types : LogTypes) (dummy : WriteXctAccess) (context : Thread)
    (w : World) (commit_epoch : Epoch)
    (hactive : context.current_xct_.is_active = true)
    (hschema : context.current_xct_.is_schema_xct = false)
    (hwrite : context.current_xct_.write_set_ = []) :
    precommit_xct types dummy context w commit_epoch
      = Except.ok (precommit_finish
          { ret := (precommit_xct_readonly context w commit_epoch).1, context := context,
            world := w, commit_epoch := (precommit_xct_readonly context w commit_epoch).2 }) := by
  simp [precommit_xct, hactive, hschema, Xct.get_write_set_size, hwrite]

/-- C1. Read-only verification: for an active, non-schema transaction whose
write set is empty, `precommit_xct` returns, and it returns
`kErrorCodeXctRaceAbort` if and only if some read-set entry's record currently
carries an owner id that differs from the observed owner id as a whole word
(status and key-lock bits included); when there is no such entry it returns
`kErrorCodeOk`. -/
theorem readonly_precommit_race_abort_iff (types : LogTypes) (dummy : WriteXctAccess)
    (context : Thread) (w : World) (commit_epoch : Epoch)
    (hactive : context.current_xct_.is_active = true)
    (hschema : context.current_xct_.is_schema_xct = false)
    (hwrite : context.current_xct_.write_set_ = []) :
    ∃ r, precommit_xct types dummy context w commit_epoch = Except.ok r ∧
      (r.ret = ErrorCode.kErrorCodeXctRaceAbort ↔
        ∃ a ∈ context.current_xct_.read_set_, a.observed_owner_id_ ≠ w.owner_id a.record_) ∧
      ((¬ ∃ a ∈ context.current_xct_.read_set_, a.observed_owner_id_ ≠ w.owner_id a.record_) →
        r.ret = ErrorCode.kErrorCodeOk) := by
  refine ⟨_, precommit_xct_readonly_eq types dummy context w commit_epoch hactive hschema hwrite,
    ?_, ?_⟩
  · rw [precommit_finish_ret, ← verify_readonly_loop_false_iff w _ Epoch.invalid]
    simp only [precommit_xct_readonly, precommit_xct_verify_readonly_fst]
    cases (verify_readonly_loop w context.current_xct_.read_set_ Epoch.invalid).1 <;> simp
  · intro hno
    rw [precommit_finish_ret]
    simp only [precommit_xct_readonly, precommit_xct_verify_readonly_fst]
    have := (verify_readonly_loop_false_iff w context.current_xct_.read_set_ Epoch.invalid).not.mpr hno
    simp at this
    simp [this]

/-- Witness of C1: the stale read-only transaction `ctx_ro_stale` on `w0`. -/
theorem readonly_precommit_race_abort_iff_witness :
    ∃ r, precommit_xct Examples.types0 Examples.dummy0 Examples.ctx_ro_stale Examples.w0 ⟨0⟩
          = Except.ok r ∧
      (r.ret = ErrorCode.kErrorCodeXctRaceAbort ↔
        ∃ a ∈ Examples.ctx_ro_stale.current_xct_.read_set_,
          a.observed_owner_id_ ≠ Examples.w0.owner_id a.record_) ∧
      ((¬ ∃ a ∈ Examples.ctx_ro_stale.current_xct_.read_set_,
          a.observed_owner_id_ ≠ Examples.w0.owner_id a.record_) →
        r.ret = ErrorCode.kErrorCodeOk) :=
  readonly_precommit_race_abort_iff Examples.types0 Examples.dummy0 Examples.ctx_ro_stale
    Examples.w0 ⟨0⟩ rfl rfl rfl

theorem Epoch.before_self (e : Epoch) : e.before e = false := by
  simp [Epoch.before, kEpochIntHalf]

/-- C8. A non-schema transaction that is active with an empty read set and an
empty write set (begun and precommitted with no operations) always commits:
`precommit_xct` returns `kErrorCodeOk`, and the commit epoch is the durable
global epoch of the log manager, which is not before the durable epoch. -/
theorem empty_xct_commits_at_durable_epoch (types : LogTypes) (dummy : WriteXctAccess)
    (context : Thread) (w : World) (commit_epoch : Epoch)
    (hactive : context.current_xct_.is_active = true)
    (hschema : context.current_xct_.is_schema_xct = false)
    (hread : context.current_xct_.read_set_ = [])
    (hwrite : context.current_xct_.write_set_ = []) :
    ∃ r, precommit_xct types dummy context w commit_epoch = Except.ok r ∧
      r.ret = ErrorCode.kErrorCodeOk ∧
      r.commit_epoch = w.durable_global_epoch_ ∧
      r.commit_epoch.before w.durable_global_epoch_ = false := by
  refine ⟨_, precommit_xct_readonly_eq types dummy context w commit_epoch hactive hschema hwrite,
    ?_, ?_, ?_⟩
  · simp [precommit_finish, precommit_xct_readonly, precommit_xct_verify_readonly, hread,
      verify_readonly_loop, Epoch.invalid, Epoch.is_valid]
  · simp [precommit_finish, precommit_xct_readonly, precommit_xct_verify_readonly, hread,
      verify_readonly_loop, Epoch.invalid, Epoch.is_valid]
  · simp [precommit_finish, precommit_xct_readonly, precommit_xct_verify_readonly, hread,
      verify_readonly_loop, Epoch.invalid, Epoch.is_valid, Epoch.before_self]

/-- Witness of C8: `begin_xct` on the idle context `ctx_idle`, then
`precommit_xct` at once. -/
theorem empty_xct_commits_at_durable_epoch_witness :
    (begin_xct Examples.ctx_idle IsolationLevel.kSerializable).1 = ErrorCode.kErrorCodeOk ∧
    ∃ r, precommit_xct Examples.types0 Examples.dummy0
          (begin_xct Examples.ctx_idle IsolationLevel.kSerializable).2 Examples.w0 ⟨0⟩
          = Except.ok r ∧
      r.ret = ErrorCode.kErrorCodeOk ∧
      r.commit_epoch = Examples.w0.durable_global_epoch_ ∧
      r.commit_epoch.before Examples.w0.durable_global_epoch_ = false :=
  ⟨rfl, empty_xct_commits_at_durable_epoch Examples.types0 Examples.dummy0
    (begin_xct Examples.ctx_idle IsolationLevel.kSerializable).2 Examples.w0 ⟨0⟩
    rfl rfl rfl rfl⟩

/-! ## What every return of `precommit_xct` looks like -/

theorem precommit_xct_ok_cases (types : LogTypes) (dummy : WriteXctAccess) (context : Thread)
    (w : World) (commit_epoch : Epoch) (r : Result ErrorCode)
    (h : precommit_xct types dummy context w commit_epoch = Except.ok r) :
    r.ret = ErrorCode.kErrorCodeXctNoXct ∨ ∃ r0 : Result Bool, r = precommit_finish r0 := by
  unfold precommit_xct at h
  by_cases hactive : context.current_xct_.is_active = true
  · simp only [hactive, Bool.not_true, Bool.false_eq_true, if_false] at h
    right
    by_cases hschema : context.current_xct_.is_schema_xct = true
    · simp only [hschema, if_true] at h
      cases hs : precommit_xct_schema types context w commit_epoch with
      | error e => simp [hs] at h
      | ok r0 =>
        simp only [hs, Except.ok.injEq] at h
        exact ⟨r0, h.symm⟩
    · simp only [hschema, Bool.false_eq_true, if_false] at h
      by_cases hro : context.current_xct_.get_write_set_size = 0
      · simp only [hro, decide_True, if_true, Except.ok.injEq] at h
        exact ⟨_, h.symm⟩
      · simp only [hro, decide_False, Bool.false_eq_true, if_false] at h
        cases hs : precommit_xct_readwrite types dummy context w commit_epoch with
        | error e => simp [hs] at h
        | ok r0 =>
          simp only [hs, Except.ok.injEq] at h
          exact ⟨r0, h.symm⟩
  · simp only [hactive, Bool.not_false, if_true, Except.ok.injEq] at h
    left
    rw [← h]

/-- C9. `kErrorCodeXctRaceAbort` leaves a clean context: whenever
`precommit_xct` returns it (from either path), the transaction context is
inactive, the tail of the log buffer equals the committed cursor (the in-flight
log is discarded) and `begin_xct` on the context returned returns
`kErrorCodeOk`. -/
theorem race_abort_leaves_clean_context (types : LogTypes) (dummy : WriteXctAccess)
    (context : Thread) (w : World) (commit_epoch : Epoch) (r : Result ErrorCode)
    (isolation_level : IsolationLevel)
    (h : precommit_xct types dummy context w commit_epoch = Except.ok r)
    (hr : r.ret = ErrorCode.kErrorCodeXctRaceAbort) :
    r.context.current_xct_.is_active = false ∧
    r.context.thread_log_buffer_.get_offset_tail
      = r.context.thread_log_buffer_.get_offset_committed ∧
    (begin_xct r.context isolation_level).1 = ErrorCode.kErrorCodeOk := by
  rcases precommit_xct_ok_cases types dummy context w commit_epoch r h with h1 | ⟨r0, h0⟩
  · rw [hr] at h1
    cases h1
  · subst h0
    rw [precommit_finish_ret] at hr
    have hf : r0.ret = false := by
      cases hb : r0.ret
      · rfl
      · simp [hb] at hr
    simp [precommit_finish, hf, Xct.deactivate, Xct.is_active, begin_xct,
      ThreadLogBuffer.discard_current_xct_log, ThreadLogBuffer.get_offset_tail,
      ThreadLogBuffer.get_offset_committed]

/-- Witness of C9: the stale read-only transaction `ctx_ro_stale` on `w0`. -/
theorem race_abort_leaves_clean_context_witness :
    ∃ r, precommit_xct Examples.types0 Examples.dummy0 Examples.ctx_ro_stale Examples.w0 ⟨0⟩
          = Except.ok r ∧
      r.ret = ErrorCode.kErrorCodeXctRaceAbort ∧
      r.context.current_xct_.is_active = false ∧
      r.context.thread_log_buffer_.get_offset_tail
        = r.context.thread_log_buffer_.get_offset_committed ∧
      (begin_xct r.context IsolationLevel.kSerializable).1 = ErrorCode.kErrorCodeOk :=
  ⟨_, rfl, rfl,
    race_abort_leaves_clean_context Examples.types0 Examples.dummy0 Examples.ctx_ro_stale
      Examples.w0 ⟨0⟩ _ IsolationLevel.kSerializable rfl rfl⟩

/-- C10. `precommit_xct` on a context without an active transaction returns
`kErrorCodeXctNoXct` and changes nothing: the context (flags, sets, log buffer
cursors), the shared state (every record's owner id) and the value behind
`commit_epoch` are those of the call. -/
theorem precommit_without_xct_changes_nothing (types : LogTypes) (dummy : WriteXctAccess)
    (context : Thread) (w : World) (commit_epoch : Epoch)
    (hidle : context.current_xct_.is_active = false) :
    precommit_xct types dummy context w commit_epoch
      = Except.ok { ret := ErrorCode.kErrorCodeXctNoXct, context := context, world := w,
                    commit_epoch := commit_epoch } := by
  simp [precommit_xct, hidle]

/-- Witness of C10: the idle context `ctx_idle`. -/
theorem precommit_without_xct_changes_nothing_witness :
    precommit_xct Examples.types0 Examples.dummy0 Examples.ctx_idle Examples.w0 ⟨3⟩
      = Except.ok { ret := ErrorCode.kErrorCodeXctNoXct, context := Examples.ctx_idle,
                    world := Examples.w0, commit_epoch := ⟨3⟩ } :=
  precommit_without_xct_changes_nothing Examples.types0 Examples.dummy0 Examples.ctx_idle
    Examples.w0 ⟨3⟩ rfl

/-! ## Sorting and searching -/

theorem std_sort_insert_perm {α : Type} (comp : α → α → Bool) (x : α) (l : List α) :
    (std_sort_insert comp x l).Perm (x :: l) := by
  induction l with
  | nil => simp [std_sort_insert]
  | cons y ys ih =>
    unfold std_sort_insert
    by_cases h : comp x y = true
    · simp [h]
    · simp only [h, Bool.false_eq_true, if_false]
      exact (List.Perm.cons y ih).trans (List.Perm.swap x y ys)

theorem std_sort_perm {α : Type} (comp : α → α → Bool) (l : List α) :
    (std_sort comp l).Perm l := by
  induction l with
  | nil => simp [std_sort]
  | cons x xs ih =>
    unfold std_sort
    exact (std_sort_insert_perm comp x _).trans (List.Perm.cons x ih)

theorem std_lower_bound_loop_spec {α : Type} (comp : α → α → Bool) (l : List α) (val : α)
    (fuel first len : Nat) (hfuel : len ≤ fuel) (hlen : first + len ≤ l.length) :
    std_lower_bound_loop comp l val fuel first len ≤ first + len ∧
    (std_lower_bound_loop comp l val fuel first len = first + len ∨
      ∃ x, l[std_lower_bound_loop comp l val fuel first len]? = some x ∧ comp x val = false) := by
  induction fuel generalizing first len with
  | zero =>
    have : len = 0 := by omega
    subst this
    simp [std_lower_bound_loop]
  | succ fuel ih =>
    unfold std_lower_bound_loop
    by_cases h0 : len = 0
    · subst h0
      simp
    · simp only [h0, if_false]
      have hmid : first + len / 2 < l.length := by
        have : len / 2 < len := Nat.div_lt_self (Nat.pos_of_ne_zero h0) (by decide)
        omega
      have hget : l[first + len / 2]? = some (l.get ⟨first + len / 2, hmid⟩) := by
        simp [List.getElem?_eq_getElem hmid]
      rw [hget]
      simp only
      have hhalf : len / 2 < len := Nat.div_lt_self (Nat.pos_of_ne_zero h0) (by decide)
      by_cases hc : comp (l.get ⟨first + len / 2, hmid⟩) val = true
      · simp only [hc, if_true]
        have := ih (first + len / 2 + 1) (len - len / 2 - 1) (by omega) (by omega)
        have heq : first + len / 2 + 1 + (len - len / 2 - 1) = first + len := by omega
        rw [heq] at this
        exact this
      · simp only [hc, Bool.false_eq_true, if_false]
        have := ih first (len / 2) (by omega) (by omega)
        rcases this with ⟨hle, hor⟩
        refine ⟨by omega, ?_⟩
        rcases hor with heq | hx
        · right
          rw [heq, hget]
          exact ⟨_, rfl, by simpa using hc⟩
        · right
          exact hx

/-- Whenever `std::binary_search` answers `true`, the range holds an element
equivalent to the probe: neither is less than the other. -/
theorem std_binary_search_sound {α : Type} (comp : α → α → Bool) (l : List α) (val : α)
    (h : std_binary_search comp l val = true) :
    ∃ x ∈ l, comp x val = false ∧ comp val x = false := by
  unfold std_binary_search at h
  have hspec := std_lower_bound_loop_spec comp l val (l.length + 1) 0 l.length (by omega) (by omega)
  simp only [Nat.zero_add] at hspec
  change _ ∧ (std_lower_bound comp l val = _ ∨ ∃ x, l[std_lower_bound comp l val]? = _ ∧ _) at hspec
  simp only at h
  cases hi : l[std_lower_bound comp l val]? with
  | none => simp [hi] at h
  | some x =>
    simp only [hi, Bool.not_eq_true'] at h
    rcases hspec.2 with heq | ⟨y, hy, hcy⟩
    · rw [heq] at hi
      simp at hi
    · rw [hi] at hy
      cases hy
      exact ⟨x, List.getElem?_mem hi, hcy, h⟩

theorem WriteXctAccess.compare_equiv (a b : WriteXctAccess)
    (h1 : WriteXctAccess.compare a b = false) (h2 : WriteXctAccess.compare b a = false) :
    a.record_ = b.record_ ∧ a.log_entry_ = b.log_entry_ := by
  unfold WriteXctAccess.compare at h1 h2
  by_cases hr : a.record_ = b.record_
  · simp [hr] at h1 h2
    exact ⟨hr, by omega⟩
  · have hr2 : ¬ b.record_ = a.record_ := fun h => hr h.symm
    simp [hr, hr2] at h1 h2
    omega

/-! ## Phase 1: the lock loop -/

theorem World.owner_id_set_owner_id (w : World) (r : Nat) (x : XctId) (a : Nat) :
    (w.set_owner_id r x).owner_id a = if a = r then x else w.owner_id a := by
  unfold World.set_owner_id World.set_record World.owner_id
  by_cases h : a = r <;> simp [h]

theorem lock_loop_records (ws : List WriteXctAccess) (w w1 : World)
    (h : lock_loop ws w = Except.ok w1) (r : Nat) :
    w1.records_ r
      = if r ∈ ws.map (fun a => a.record_) then
          { w.records_ r with owner_id_ := (w.owner_id r).with_keylock }
        else w.records_ r := by
  induction ws generalizing w with
  | nil =>
    simp only [lock_loop, Except.ok.injEq] at h
    simp [h]
  | cons a rest ih =>
    unfold lock_loop keylock_unconditional at h
    by_cases hl : (w.owner_id a.record_).is_keylocked = true
    · simp [hl] at h
    · simp only [hl, Bool.false_eq_true, if_false] at h
      rw [ih _ h]
      by_cases hr : r = a.record_
      · subst hr
        simp [World.set_owner_id, World.set_record, World.owner_id, XctId.with_keylock]
      · simp [World.set_owner_id, World.set_record, World.owner_id, hr]

theorem lock_loop_frame (ws : List WriteXctAccess) (w w1 : World)
    (h : lock_loop ws w = Except.ok w1) :
    w1.current_global_epoch_ = w.current_global_epoch_ ∧
    w1.durable_global_epoch_ = w.durable_global_epoch_ ∧
    w1.storage_manager_ = w.storage_manager_ ∧
    w1.applied_ = w.applied_ := by
  induction ws generalizing w with
  | nil =>
    simp only [lock_loop, Except.ok.injEq] at h
    simp [h]
  | cons a rest ih =>
    unfold lock_loop keylock_unconditional at h
    by_cases hl : (w.owner_id a.record_).is_keylocked = true
    · simp [hl] at h
    · simp only [hl, Bool.false_eq_true, if_false] at h
      have := ih _ h
      simpa [World.set_owner_id, World.set_record] using this

/-- The lock loop returns only when the records of the write set are pairwise
distinct and none of them was key-locked on entry. -/
theorem lock_loop_ok_pre (ws : List WriteXctAccess) (w w1 : World)
    (h : lock_loop ws w = Except.ok w1) :
    (ws.map (fun a => a.record_)).Nodup ∧
    ∀ a ∈ ws, (w.owner_id a.record_).is_keylocked = false := by
  induction ws generalizing w with
  | nil => simp
  | cons a rest ih =>
    unfold lock_loop keylock_unconditional at h
    by_cases hl : (w.owner_id a.record_).is_keylocked = true
    · simp [hl] at h
    · simp only [hl, Bool.false_eq_true, if_false] at h
      have hih := ih _ h
      have hrest : ∀ b ∈ rest, b.record_ ≠ a.record_ ∧ (w.owner_id b.record_).is_keylocked = false := by
        intro b hb
        have hb2 := hih.2 b hb
        rw [World.owner_id_set_owner_id] at hb2
        by_cases hba : b.record_ = a.record_
        · simp [hba, XctId.with_keylock, XctId.is_keylocked] at hb2
        · simp only [hba, if_false] at hb2
          exact ⟨hba, hb2⟩
      refine ⟨?_, ?_⟩
      · simp only [List.map_cons, List.nodup_cons, List.mem_map, not_exists, not_and]
        exact ⟨fun b hb hba => (hrest b hb).1 hba, hih.1⟩
      · intro b hb
        rcases List.mem_cons.mp hb with hba | hb
        · subst hba
          simpa using hl
        · exact (hrest b hb).2

/-- The lock loop returns when the records of the write set are pairwise
distinct and none of them is key-locked on entry. -/
theorem lock_loop_ok_of_pre (ws : List WriteXctAccess) (w : World)
    (hnodup : (ws.map (fun a => a.record_)).Nodup)
    (hfree : ∀ a ∈ ws, (w.owner_id a.record_).is_keylocked = false) :
    ∃ w1, lock_loop ws w = Except.ok w1 := by
  induction ws generalizing w with
  | nil => exact ⟨w, rfl⟩
  | cons a rest ih =>
    unfold lock_loop keylock_unconditional
    have ha := hfree a (List.mem_cons_self _ _)
    simp only [ha, Bool.false_eq_true, if_false]
    simp only [List.map_cons, List.nodup_cons, List.mem_map, not_exists, not_and] at hnodup
    apply ih _ hnodup.2
    intro b hb
    rw [World.owner_id_set_owner_id]
    have hba : b.record_ ≠ a.record_ := hnodup.1 b hb
    simp only [hba, if_false]
    exact hfree b (List.mem_cons_of_mem _ hb)

/-! ## Phase 2 of the read-write path -/

/-- When the read-write verification loop answers `true`, every read-set entry
still equals its record in serial order, and every key-locked record of the
read set has an entry of the write set equivalent to the probe. -/
theorem verify_readwrite_loop_true (dummy : WriteXctAccess) (w : World)
    (ws : List WriteXctAccess) (rs : List XctAccess)
    (h : verify_readwrite_loop dummy w ws rs = true) :
    ∀ a ∈ rs, a.observed_owner_id_.equals_serial_order (w.owner_id a.record_) = true ∧
      ((w.owner_id a.record_).is_keylocked = true →
        ∃ wr ∈ ws, wr.record_ = a.record_ ∧ wr.log_entry_ = dummy.log_entry_) := by
  induction rs with
  | nil => simp
  | cons b rest ih =>
    unfold verify_readwrite_loop at h
    by_cases hs : b.observed_owner_id_.equals_serial_order (w.owner_id b.record_) = true
    · simp only [hs, Bool.not_true, Bool.false_eq_true, if_false] at h
      by_cases hk : (w.owner_id b.record_).is_keylocked = true
      · simp only [hk, if_true] at h
        by_cases hf : std_binary_search WriteXctAccess.compare ws
            { dummy with record_ := b.record_ } = true
        · simp only [hf, Bool.not_true, Bool.false_eq_true, if_false] at h
          intro a ha
          rcases List.mem_cons.mp ha with hab | ha
          · subst hab
            refine ⟨hs, fun _ => ?_⟩
            obtain ⟨x, hx, h1, h2⟩ := std_binary_search_sound _ _ _ hf
            have := WriteXctAccess.compare_equiv _ _ h1 h2
            exact ⟨x, hx, this.1, this.2⟩
          · exact ih h a ha
        · simp [hf] at h
      · simp only [hk, Bool.false_eq_true, if_false] at h
        intro a ha
        rcases List.mem_cons.mp ha with hab | ha
        · subst hab
          exact ⟨hs, fun hk2 => absurd hk2 hk⟩
        · exact ih h a ha
    · simp [hs] at h

theorem XctId.equals_serial_order_with_keylock (x y : XctId) :
    x.equals_serial_order y.with_keylock = x.equals_serial_order y := by
  simp [XctId.equals_serial_order, XctId.with_keylock]

theorem lock_loop_owner_id (ws : List WriteXctAccess) (w w1 : World)
    (h : lock_loop ws w = Except.ok w1) (r : Nat) :
    w1.owner_id r
      = if r ∈ ws.map (fun a => a.record_) then (w.owner_id r).with_keylock
        else w.owner_id r := by
  unfold World.owner_id
  rw [lock_loop_records ws w w1 h r]
  by_cases hr : r ∈ ws.map (fun a => a.record_) <;> simp [hr, World.owner_id]

theorem mem_sorted_write_set (context : Thread) (a : WriteXctAccess) :
    a ∈ (sort_write_set context).current_xct_.write_set_ ↔ a ∈ context.current_xct_.write_set_ :=
  (std_sort_perm WriteXctAccess.compare context.current_xct_.write_set_).mem_iff

/-- The shape of a read-write `precommit_xct` that returns: phase 1 locked the
sorted write set and the rest ran on the locked state. -/
theorem precommit_xct_readwrite_ok (types : LogTypes) (dummy : WriteXctAccess) (context : Thread)
    (w : World) (commit_epoch : Epoch) (r : Result ErrorCode)
    (hactive : context.current_xct_.is_active = true)
    (hschema : context.current_xct_.is_schema_xct = false)
    (hwrite : context.current_xct_.write_set_ ≠ [])
    (h : precommit_xct types dummy context w commit_epoch = Except.ok r) :
    ∃ w1, lock_loop (sort_write_set context).current_xct_.write_set_ w = Except.ok w1 ∧
      r = precommit_finish (guard_exit
            (readwrite_guarded types dummy (guard_enter (sort_write_set context) w1) w1)) := by
  have hsz : ¬ context.current_xct_.get_write_set_size = 0 := by
    simpa [Xct.get_write_set_size] using hwrite
  simp only [precommit_xct, hactive, hschema, hsz, Bool.not_true, Bool.false_eq_true, if_false,
    decide_False, precommit_xct_readwrite, precommit_xct_lock] at h
  cases hl : lock_loop (sort_write_set context).current_xct_.write_set_ w with
  | error e => simp [hl] at h
  | ok w1 =>
    simp only [hl, Except.ok.injEq] at h
    exact ⟨w1, rfl, h.symm⟩

/-- A read-write `precommit_xct` returns as soon as phase 1 gets its locks. -/
theorem precommit_xct_readwrite_of_lock (types : LogTypes) (dummy : WriteXctAccess)
    (context : Thread) (w w1 : World) (commit_epoch : Epoch)
    (hactive : context.current_xct_.is_active = true)
    (hschema : context.current_xct_.is_schema_xct = false)
    (hwrite : context.current_xct_.write_set_ ≠ [])
    (hl : lock_loop (sort_write_set context).current_xct_.write_set_ w = Except.ok w1) :
    precommit_xct types dummy context w commit_epoch
      = Except.ok (precommit_finish (guard_exit
          (readwrite_guarded types dummy (guard_enter (sort_write_set context) w1) w1))) := by
  have hsz : ¬ context.current_xct_.get_write_set_size = 0 := by
    simpa [Xct.get_write_set_size] using hwrite
  simp [precommit_xct, hactive, hschema, hsz, precommit_xct_readwrite, precommit_xct_lock, hl]

/-- Phase 1 gets its locks when the records of the write set are pairwise
distinct and not key-locked. -/
theorem lock_sorted_of_pre (context : Thread) (w : World)
    (hnodup : (context.current_xct_.write_set_.map (fun a => a.record_)).Nodup)
    (hfree : ∀ a ∈ context.current_xct_.write_set_, (w.owner_id a.record_).is_keylocked = false) :
    ∃ w1, lock_loop (sort_write_set context).current_xct_.write_set_ w = Except.ok w1 := by
  apply lock_loop_ok_of_pre
  · have hp := std_sort_perm WriteXctAccess.compare context.current_xct_.write_set_
    exact ((hp.map (fun a => a.record_)).nodup_iff).mpr hnodup
  · intro a ha
    exact hfree a ((mem_sorted_write_set context a).mp ha)

theorem readwrite_guarded_ret (types : LogTypes) (dummy : WriteXctAccess) (context : Thread)
    (w : World) :
    (readwrite_guarded types dummy context w).ret
      = precommit_xct_verify_readwrite dummy context w := by
  unfold readwrite_guarded
  by_cases h : precommit_xct_verify_readwrite dummy context w = true <;> simp [h]

/-- C2. Read-write verification aborts on interference: for an active
non-schema transaction with a non-empty write set, if some read-set entry's
record no longer equals the observed owner id in serial order, or is key-locked
while the record is not in the write set of the transaction, then every return
of `precommit_xct` is `kErrorCodeXctRaceAbort`; and `precommit_xct` does return
when the records of the write set are pairwise distinct and not key-locked (so
that phase 1 gets its locks). -/
theorem readwrite_precommit_aborts_on_interference (types : LogTypes) (dummy : WriteXctAccess)
    (context : Thread) (w : World) (commit_epoch : Epoch)
    (hactive : context.current_xct_.is_active = true)
    (hschema : context.current_xct_.is_schema_xct = false)
    (hwrite : context.current_xct_.write_set_ ≠ [])
    (hinterference : ∃ a ∈ context.current_xct_.read_set_,
      a.observed_owner_id_.equals_serial_order (w.owner_id a.record_) = false ∨
      ((w.owner_id a.record_).is_keylocked = true ∧
        ∀ wr ∈ context.current_xct_.write_set_, wr.record_ ≠ a.record_)) :
    (∀ r, precommit_xct types dummy context w commit_epoch = Except.ok r →
      r.ret = ErrorCode.kErrorCodeXctRaceAbort) ∧
    ((context.current_xct_.write_set_.map (fun a => a.record_)).Nodup →
      (∀ a ∈ context.current_xct_.write_set_, (w.owner_id a.record_).is_keylocked = false) →
      ∃ r, precommit_xct types dummy context w commit_epoch = Except.ok r ∧
        r.ret = ErrorCode.kErrorCodeXctRaceAbort) := by
  have part1 : ∀ r, precommit_xct types dummy context w commit_epoch = Except.ok r →
      r.ret = ErrorCode.kErrorCodeXctRaceAbort := by
    intro r h
    obtain ⟨w1, hl, hr⟩ :=
      precommit_xct_readwrite_ok types dummy context w commit_epoch r hactive hschema hwrite h
    subst hr
    rw [precommit_finish_ret]
    have hv : precommit_xct_verify_readwrite dummy (guard_enter (sort_write_set context) w1) w1
        = false := by
      cases hv : precommit_xct_verify_readwrite dummy (guard_enter (sort_write_set context) w1) w1
      · rfl
      · exfalso
        obtain ⟨a, ha, hcase⟩ := hinterference
        have hspec := verify_readwrite_loop_true dummy w1 _ _ hv a ha
        have ho := lock_loop_owner_id _ w w1 hl a.record_
        rcases hcase with hser | ⟨hlocked, hnot⟩
        · have h1 := hspec.1
          rw [ho] at h1
          by_cases hm : a.record_ ∈ (sort_write_set context).current_xct_.write_set_.map
              (fun a => a.record_)
          · simp only [hm, if_true, XctId.equals_serial_order_with_keylock] at h1
            rw [hser] at h1
            cases h1
          · simp only [hm, if_false] at h1
            rw [hser] at h1
            cases h1
        · have hm : a.record_ ∉ (sort_write_set context).current_xct_.write_set_.map
              (fun a => a.record_) := by
            intro hm
            obtain ⟨wr, hwr, heq⟩ := List.mem_map.mp hm
            exact hnot wr ((mem_sorted_write_set context wr).mp hwr) heq
          simp only [hm, if_false] at ho
          obtain ⟨wr, hwr, heq, _⟩ := hspec.2 (by rw [ho]; exact hlocked)
          exact hnot wr ((mem_sorted_write_set context wr).mp hwr) heq
    simp [guard_exit, readwrite_guarded_ret, hv]
  refine ⟨part1, fun hnodup hfree => ?_⟩
  obtain ⟨w1, hl⟩ := lock_sorted_of_pre context w hnodup hfree
  have h := precommit_xct_readwrite_of_lock types dummy context w w1 commit_epoch hactive hschema
    hwrite hl
  exact ⟨_, h, part1 _ h⟩

/-- Witness of C2: the read-write transaction `ctx_rw_stale` with a stale read,
on `w0`; its single write-set record is not key-locked, and `precommit_xct`
returns `kErrorCodeXctRaceAbort`. -/
theorem readwrite_precommit_aborts_on_interference_witness :
    ∃ r, precommit_xct Examples.types0 Examples.dummy0 Examples.ctx_rw_stale Examples.w0 ⟨0⟩
        = Except.ok r ∧ r.ret = ErrorCode.kErrorCodeXctRaceAbort :=
  (readwrite_precommit_aborts_on_interference Examples.types0 Examples.dummy0
    Examples.ctx_rw_stale Examples.w0 ⟨0⟩ rfl rfl (List.cons_ne_nil _ _)
    ⟨⟨XctId.set_clean 4 1 1, 1000, 100⟩, List.mem_cons_self _ _, Or.inl rfl⟩).2
    (by decide) (by decide)

/-- A read-write `precommit_xct` commits a transaction that read one of the
records it writes only if the write set has an entry for that record whose log
address equals the value of the unassigned field `log_entry_` of the probe. -/
theorem readwrite_commit_needs_probe_match (types : LogTypes) (dummy : WriteXctAccess)
    (context : Thread) (w : World) (commit_epoch : Epoch) (r : Result ErrorCode)
    (hactive : context.current_xct_.is_active = true)
    (hschema : context.current_xct_.is_schema_xct = false)
    (hwrite : context.current_xct_.write_set_ ≠ [])
    (h : precommit_xct types dummy context w commit_epoch = Except.ok r)
    (hok : r.ret = ErrorCode.kErrorCodeOk)
    (a : XctAccess) (ha : a ∈ context.current_xct_.read_set_)
    (hself : ∃ wr ∈ context.current_xct_.write_set_, wr.record_ = a.record_) :
    ∃ wr ∈ context.current_xct_.write_set_,
      wr.record_ = a.record_ ∧ wr.log_entry_ = dummy.log_entry_ := by
  obtain ⟨w1, hl, hr⟩ :=
    precommit_xct_readwrite_ok types dummy context w commit_epoch r hactive hschema hwrite h
  subst hr
  rw [precommit_finish_ret] at hok
  have hv : precommit_xct_verify_readwrite dummy (guard_enter (sort_write_set context) w1) w1
      = true := by
    cases hv : precommit_xct_verify_readwrite dummy (guard_enter (sort_write_set context) w1) w1
    · simp [guard_exit, readwrite_guarded_ret, hv] at hok
    · rfl
  have hspec := verify_readwrite_loop_true dummy w1 _ _ hv a ha
  have hm : a.record_ ∈ (sort_write_set context).current_xct_.write_set_.map
      (fun a => a.record_) := by
    obtain ⟨wr, hwr, heq⟩ := hself
    exact List.mem_map.mpr ⟨wr, (mem_sorted_write_set context wr).mpr hwr, heq⟩
  have hlocked : (w1.owner_id a.record_).is_keylocked = true := by
    rw [lock_loop_owner_id _ w w1 hl a.record_]
    simp [hm, XctId.with_keylock, XctId.is_keylocked]
  obtain ⟨wr, hwr, h1, h2⟩ := hspec.2 hlocked
  exact ⟨wr, (mem_sorted_write_set context wr).mp hwr, h1, h2⟩

/-- The return of a transaction that read one record and writes that record,
nothing interfering, for every value of the local `dummy`: it is decided by the
field `log_entry_` alone. -/
theorem precommit_xct_read_modify_write (types : LogTypes) (d : WriteXctAccess)
    (context : Thread) (w : World) (commit_epoch : Epoch) (a : XctAccess) (wr : WriteXctAccess)
    (hactive : context.current_xct_.is_active = true)
    (hschema : context.current_xct_.is_schema_xct = false)
    (hrs : context.current_xct_.read_set_ = [a])
    (hws : context.current_xct_.write_set_ = [wr])
    (hrec : wr.record_ = a.record_)
    (hserial : a.observed_owner_id_.equals_serial_order (w.owner_id a.record_) = true)
    (hfree : (w.owner_id a.record_).is_keylocked = false) :
    ∃ r, precommit_xct types d context w commit_epoch = Except.ok r ∧
      r.ret = if d.log_entry_ = wr.log_entry_ then ErrorCode.kErrorCodeOk
        else ErrorCode.kErrorCodeXctRaceAbort := by
  have hsort : (sort_write_set context).current_xct_.write_set_ = [wr] := by
    simp [sort_write_set, hws, std_sort, std_sort_insert]
  have hl : lock_loop (sort_write_set context).current_xct_.write_set_ w
      = Except.ok (w.set_owner_id a.record_ (w.owner_id a.record_).with_keylock) := by
    rw [hsort]
    simp [lock_loop, keylock_unconditional, hrec, hfree]
  refine ⟨_, precommit_xct_readwrite_of_lock types d context w _ commit_epoch hactive hschema
    (by rw [hws]; exact List.cons_ne_nil _ _) hl, ?_⟩
  rw [precommit_finish_ret]
  simp only [guard_exit, readwrite_guarded_ret]
  have hv : precommit_xct_verify_readwrite d (guard_enter (sort_write_set context)
      (w.set_owner_id a.record_ (w.owner_id a.record_).with_keylock))
      (w.set_owner_id a.record_ (w.owner_id a.record_).with_keylock)
      = decide (d.log_entry_ = wr.log_entry_) := by
    have hrs1 : (guard_enter (sort_write_set context)
        (w.set_owner_id a.record_ (w.owner_id a.record_).with_keylock)).current_xct_.read_set_
        = [a] := hrs
    have hws1 : (guard_enter (sort_write_set context)
        (w.set_owner_id a.record_ (w.owner_id a.record_).with_keylock)).current_xct_.write_set_
        = [wr] := hsort
    have hw : (w.set_owner_id a.record_ (w.owner_id a.record_).with_keylock).owner_id a.record_
        = (w.owner_id a.record_).with_keylock := by
      rw [World.owner_id_set_owner_id, if_pos rfl]
    unfold precommit_xct_verify_readwrite
    simp only [hrs1, hws1, verify_readwrite_loop, hw, XctId.equals_serial_order_with_keylock,
      hserial]
    have h2 : (w.owner_id a.record_).with_keylock.is_keylocked = true := rfl
    simp only [h2, Bool.not_true, Bool.false_eq_true, if_false, if_true]
    simp only [std_binary_search, std_lower_bound, std_lower_bound_loop, WriteXctAccess.compare,
      hrec]
    by_cases h8 : wr.log_entry_ < d.log_entry_
    · have hne : ¬ d.log_entry_ = wr.log_entry_ := by omega
      simp [h8, hne, hrec]
    · by_cases he : d.log_entry_ = wr.log_entry_
      · simp [he, hrec]
      · have hlt : d.log_entry_ < wr.log_entry_ := by omega
        simp [h8, he, hlt, hrec]
  rw [hv]
  by_cases he : d.log_entry_ = wr.log_entry_ <;> simp [he]

theorem Examples.ctx_rmw_probe (d : WriteXctAccess) :
    ∃ r, precommit_xct Examples.types0 d Examples.ctx_rmw Examples.w0 ⟨0⟩ = Except.ok r ∧
      r.ret = if d.log_entry_ = 8 then ErrorCode.kErrorCodeOk
        else ErrorCode.kErrorCodeXctRaceAbort :=
  precommit_xct_read_modify_write Examples.types0 d Examples.ctx_rmw Examples.w0 ⟨0⟩
    ⟨Examples.idA, 1000, 100⟩ ⟨Examples.idA, 1000, 100, 8⟩ rfl rfl rfl rfl rfl rfl rfl

theorem unlock_loop_records (ws : List WriteXctAccess) (w : World) (r : Nat) :
    (unlock_loop ws w).records_ r
      = if r ∈ ws.map (fun a => a.record_) then
          { w.records_ r with owner_id_ := (w.owner_id r).release_keylock }
        else w.records_ r := by
  induction ws generalizing w with
  | nil => simp [unlock_loop]
  | cons a rest ih =>
    unfold unlock_loop
    rw [ih]
    by_cases hr : r = a.record_
    · subst hr
      simp [World.set_owner_id, World.set_record, World.owner_id, XctId.release_keylock]
    · simp [World.set_owner_id, World.set_record, World.owner_id, hr]

theorem unlock_loop_frame (ws : List WriteXctAccess) (w : World) :
    (unlock_loop ws w).current_global_epoch_ = w.current_global_epoch_ ∧
    (unlock_loop ws w).durable_global_epoch_ = w.durable_global_epoch_ ∧
    (unlock_loop ws w).storage_manager_ = w.storage_manager_ ∧
    (unlock_loop ws w).applied_ = w.applied_ := by
  induction ws generalizing w with
  | nil => simp [unlock_loop]
  | cons a rest ih =>
    unfold unlock_loop
    simpa [World.set_owner_id, World.set_record] using ih _

/-- Unlocking what the lock loop locked gives back the state before phase 1. -/
theorem unlock_loop_lock_loop (ws : List WriteXctAccess) (w w1 : World)
    (h : lock_loop ws w = Except.ok w1) : unlock_loop ws w1 = w := by
  have hpre := lock_loop_ok_pre ws w w1 h
  have hfr := lock_loop_frame ws w w1 h
  have hufr := unlock_loop_frame ws w1
  have hrec : (unlock_loop ws w1).records_ = w.records_ := by
    funext r
    rw [unlock_loop_records, lock_loop_owner_id ws w w1 h, lock_loop_records ws w w1 h]
    by_cases hr : r ∈ ws.map (fun a => a.record_)
    · simp only [hr, if_true]
      obtain ⟨a, ha, har⟩ := List.mem_map.mp hr
      have hk := hpre.2 a ha
      rw [har] at hk
      have hk2 : (w.records_ r).owner_id_.keylock_ = false := by
        simpa [World.owner_id, XctId.is_keylocked] using hk
      cases hrr : w.records_ r with
      | mk o p =>
        cases o with
        | mk e ord t k d os =>
          rw [hrr] at hk2
          simp only at hk2
          subst hk2
          simp [World.owner_id, hrr, XctId.with_keylock, XctId.release_keylock]
    · simp [hr]
  cases hw : unlock_loop ws w1 with
  | mk recs g d sm ap =>
    cases w with
    | mk recs0 g0 d0 sm0 ap0 =>
      rw [hw] at hrec hufr
      simp only at hrec hufr hfr
      obtain ⟨h1, h2, h3, h4⟩ := hufr
      obtain ⟨k1, k2, k3, k4⟩ := hfr
      subst hrec
      rw [h1, h2, h3, h4, k1, k2, k3, k4]

/-- C5. Abort atomicity on records: after a read-write `precommit_xct` returns
`kErrorCodeXctRaceAbort`, no apply entry point was invoked, and every record of
the write set carries no key-lock and holds the owner id and the payload it
held before the call; the shared state as a whole is the one before the call. -/
theorem readwrite_abort_restores_records (types : LogTypes) (dummy : WriteXctAccess)
    (context : Thread) (w : World) (commit_epoch : Epoch) (r : Result ErrorCode)
    (hactive : context.current_xct_.is_active = true)
    (hschema : context.current_xct_.is_schema_xct = false)
    (hwrite : context.current_xct_.write_set_ ≠ [])
    (h : precommit_xct types dummy context w commit_epoch = Except.ok r)
    (hr : r.ret = ErrorCode.kErrorCodeXctRaceAbort) :
    r.world.applied_ = w.applied_ ∧
    (∀ wr ∈ context.current_xct_.write_set_,
      (r.world.owner_id wr.record_).is_keylocked = false ∧
      r.world.records_ wr.record_ = w.records_ wr.record_) ∧
    r.world = w := by
  obtain ⟨w1, hl, hreq⟩ :=
    precommit_xct_readwrite_ok types dummy context w commit_epoch r hactive hschema hwrite h
  subst hreq
  rw [precommit_finish_ret] at hr
  have hv : precommit_xct_verify_readwrite dummy (guard_enter (sort_write_set context) w1) w1
      = false := by
    cases hv : precommit_xct_verify_readwrite dummy (guard_enter (sort_write_set context) w1) w1
    · rfl
    · simp [guard_exit, readwrite_guarded_ret, hv] at hr
  have hworld : (precommit_finish (guard_exit
      (readwrite_guarded types dummy (guard_enter (sort_write_set context) w1) w1))).world = w := by
    simp only [precommit_finish, guard_exit, readwrite_guarded, hv, Bool.false_eq_true, if_false,
      precommit_xct_unlock]
    exact unlock_loop_lock_loop _ w w1 hl
  rw [hworld]
  refine ⟨rfl, fun wr hwr => ⟨?_, rfl⟩, rfl⟩
  exact (lock_loop_ok_pre _ w w1 hl).2 wr ((mem_sorted_write_set context wr).mpr hwr)

/-- Witness of C5: the read-write transaction `ctx_rw_stale` with a stale read,
on `w0`. -/
theorem readwrite_abort_restores_records_witness :
    ∃ r, precommit_xct Examples.types0 Examples.dummy0 Examples.ctx_rw_stale Examples.w0 ⟨0⟩
          = Except.ok r ∧
      r.ret = ErrorCode.kErrorCodeXctRaceAbort ∧
      r.world.applied_ = Examples.w0.applied_ ∧
      (∀ wr ∈ Examples.ctx_rw_stale.current_xct_.write_set_,
        (r.world.owner_id wr.record_).is_keylocked = false ∧
        r.world.records_ wr.record_ = Examples.w0.records_ wr.record_) ∧
      r.world = Examples.w0 :=
  ⟨_, rfl, rfl,
    readwrite_abort_restores_records Examples.types0 Examples.dummy0 Examples.ctx_rw_stale
      Examples.w0 ⟨0⟩ _ rfl rfl (List.cons_ne_nil _ _) rfl rfl⟩

/-- After the apply loop, every record of the write set carries the new id, and
so does every record that carried it before, provided each entry's log is of a
registered type whose `apply_record` publishes the id it is given. -/
theorem apply_loop_owner_id (types : LogTypes) (new_xct_id : XctId) (context : Thread)
    (ws : List WriteXctAccess) (w : World)
    (happly : ∀ wr ∈ ws, ∃ c,
      (context.thread_log_buffer_.entries_ wr.log_entry_).header.log_type_code_
        ≠ LOG_TYPE_INVALID ∧
      types.xmacro (context.thread_log_buffer_.entries_ wr.log_entry_).header.log_type_code_
        = some c ∧
      ∀ rec, (c.apply_record new_xct_id (context.thread_log_buffer_.entries_ wr.log_entry_)
                wr.storage_ rec).2.owner_id_ = new_xct_id)
    (r : Nat)
    (hr : r ∈ ws.map (fun a => a.record_) ∨ w.owner_id r = new_xct_id) :
    (apply_loop types new_xct_id context ws w).owner_id r = new_xct_id := by
  induction ws generalizing w with
  | nil =>
    simp only [List.map_nil, List.not_mem_nil, false_or] at hr
    simpa [apply_loop] using hr
  | cons a rest ih =>
    unfold apply_loop
    obtain ⟨c, hcode, hc, hpub⟩ := happly a (List.mem_cons_self _ _)
    have hstep : ∀ x,
        (log.invoke_apply_record types new_xct_id a.log_entry_ context a.storage_ a.record_
          w).2.owner_id x = if x = a.record_ then new_xct_id else w.owner_id x := by
      intro x
      simp only [log.invoke_apply_record, hcode, if_false, hc]
      by_cases hx : x = a.record_
      · subst hx
        simp [World.owner_id, World.set_record, hpub]
      · simp [World.owner_id, World.set_record, hx]
    apply ih _ (fun wr hwr => happly wr (List.mem_cons_of_mem _ hwr))
    by_cases hra : r = a.record_
    · right
      rw [hstep, if_pos hra]
    · rcases hr with hr | hr
      · left
        simp only [List.map_cons, List.mem_cons] at hr
        rcases hr with hr | hr
        · exact absurd hr hra
        · exact hr
      · right
        rw [hstep, if_neg hra]
        exact hr

theorem readwrite_guarded_of_verified (types : LogTypes) (dummy : WriteXctAccess)
    (context : Thread) (w : World)
    (hv : precommit_xct_verify_readwrite dummy context w = true) :
    readwrite_guarded types dummy context w
      = { ret := true,
          context := { (precommit_xct_apply types context w w.current_global_epoch_).1 with
            thread_log_buffer_ :=
              (precommit_xct_apply types context w w.current_global_epoch_).1.thread_log_buffer_.publish_committed_log
                w.current_global_epoch_ },
          world := (precommit_xct_apply types context w w.current_global_epoch_).2,
          commit_epoch := w.current_global_epoch_ } := by
  simp [readwrite_guarded, hv, get_current_global_epoch_weak]

theorem readwrite_guarded_of_failed (types : LogTypes) (dummy : WriteXctAccess)
    (context : Thread) (w : World)
    (hv : precommit_xct_verify_readwrite dummy context w = false) :
    readwrite_guarded types dummy context w
      = { ret := false, context := context, world := precommit_xct_unlock context w,
          commit_epoch := w.current_global_epoch_ } := by
  simp [readwrite_guarded, hv, get_current_global_epoch_weak]

theorem Epoch.before_iff_offset (base a b : Epoch)
    (ha : Epoch.in_window base a) (hb : Epoch.in_window base b) :
    a.before b = decide (Epoch.window_offset base a < Epoch.window_offset base b) := by
  obtain ⟨_, ha1, hbase, ha2⟩ := ha
  obtain ⟨_, hb1, _, hb2⟩ := hb
  unfold Epoch.window_offset at *
  unfold Epoch.before
  simp only [kEpochIntOverflow, kEpochIntHalf, Nat.reducePow] at *
  generalize a.epoch_ = x at *
  generalize b.epoch_ = y at *
  generalize base.epoch_ = z at *
  rw [Bool.eq_iff_iff]
  simp only [Bool.or_eq_true, Bool.and_eq_true, decide_eq_true_eq, Nat.cast_ofNat]
  omega

theorem Epoch.store_max_of_invalid (e x : Epoch) (he : e.is_valid = false) :
    e.store_max x = x := by
  simp [Epoch.store_max, he]

theorem Epoch.store_max_in_window (base e x : Epoch)
    (he : Epoch.in_window base e) (hx : Epoch.in_window base x) :
    Epoch.in_window base (e.store_max x) ∧
    Epoch.window_offset base e ≤ Epoch.window_offset base (e.store_max x) ∧
    Epoch.window_offset base x ≤ Epoch.window_offset base (e.store_max x) := by
  unfold Epoch.store_max
  rw [Epoch.before_iff_offset base e x he hx]
  have hv : e.is_valid = true := he.1
  by_cases h : Epoch.window_offset base e < Epoch.window_offset base x
  · simp only [hv, h, Bool.not_true, Bool.false_or, decide_True, if_true]
    exact ⟨hx, by omega, le_refl _⟩
  · simp only [hv, h, Bool.not_true, Bool.false_or, decide_False, Bool.false_eq_true, if_false]
    exact ⟨he, le_refl _, by omega⟩

theorem observed_epoch_max_in_window (base : Epoch) (rs : List XctAccess) (e : Epoch)
    (he : Epoch.in_window base e)
    (hrs : ∀ a ∈ rs, Epoch.in_window base a.observed_owner_id_.get_epoch) :
    Epoch.in_window base (observed_epoch_max rs e) ∧
    Epoch.window_offset base e ≤ Epoch.window_offset base (observed_epoch_max rs e) ∧
    ∀ a ∈ rs, Epoch.window_offset base a.observed_owner_id_.get_epoch
      ≤ Epoch.window_offset base (observed_epoch_max rs e) := by
  induction rs generalizing e with
  | nil => simp [observed_epoch_max, he]
  | cons b rest ih =>
    have hb := hrs b (List.mem_cons_self _ _)
    obtain ⟨h1, h2, h3⟩ := Epoch.store_max_in_window base e _ he hb
    obtain ⟨k1, k2, k3⟩ := ih _ h1 (fun a ha => hrs a (List.mem_cons_of_mem _ ha))
    have hfold : observed_epoch_max (b :: rest) e
        = observed_epoch_max rest (e.store_max b.observed_owner_id_.get_epoch) := rfl
    rw [hfold]
    refine ⟨k1, by omega, ?_⟩
    intro a ha
    rcases List.mem_cons.mp ha with hab | ha
    · subst hab
      omega
    · exact k3 a ha

/-- Inside one half-range window, the accumulation from the invalid epoch over
a non-empty read set is a valid epoch that is not before any observed epoch. -/
theorem observed_epoch_max_not_before (base : Epoch) (rs : List XctAccess)
    (hne : rs ≠ [])
    (hrs : ∀ a ∈ rs, Epoch.in_window base a.observed_owner_id_.get_epoch) :
    (observed_epoch_max rs Epoch.invalid).is_valid = true ∧
    ∀ a ∈ rs, (observed_epoch_max rs Epoch.invalid).before a.observed_owner_id_.get_epoch
      = false := by
  cases rs with
  | nil => exact absurd rfl hne
  | cons b rest =>
    have hb := hrs b (List.mem_cons_self _ _)
    have hfold : observed_epoch_max (b :: rest) Epoch.invalid
        = observed_epoch_max rest b.observed_owner_id_.get_epoch := by
      show observed_epoch_max rest (Epoch.invalid.store_max b.observed_owner_id_.get_epoch) = _
      rw [Epoch.store_max_of_invalid Epoch.invalid _ rfl]
    rw [hfold]
    obtain ⟨k1, k2, k3⟩ := observed_epoch_max_in_window base rest _ hb
      (fun a ha => hrs a (List.mem_cons_of_mem _ ha))
    refine ⟨k1.1, ?_⟩
    intro a ha
    rw [Epoch.before_iff_offset base _ _ k1 (hrs a ha)]
    have : Epoch.window_offset base a.observed_owner_id_.get_epoch
        ≤ Epoch.window_offset base (observed_epoch_max rest b.observed_owner_id_.get_epoch) := by
      rcases List.mem_cons.mp ha with hab | ha
      · subst hab
        exact k2
      · exact k3 a ha
    simp only [decide_eq_false_iff_not, not_lt]
    exact this

theorem verify_readonly_loop_true_snd (w : World) (rs : List XctAccess) (e e1 : Epoch)
    (h : verify_readonly_loop w rs e = (true, e1)) : e1 = observed_epoch_max rs e := by
  induction rs generalizing e with
  | nil =>
    simp only [verify_readonly_loop, Prod.mk.injEq, true_and] at h
    simp [observed_epoch_max, h]
  | cons a rest ih =>
    unfold verify_readonly_loop at h
    by_cases hne : a.observed_owner_id_ = w.owner_id a.record_
    · simp only [hne, ne_eq, not_true_eq_false, if_false] at h
      rw [← hne] at h
      exact ih _ h
    · simp [hne] at h

/-- The commit epoch of a read-only `precommit_xct` that returns
`kErrorCodeOk`: the accumulation of the observed epochs when that is a valid
epoch, and the durable global epoch otherwise. -/
theorem readonly_commit_epoch_eq (types : LogTypes) (dummy : WriteXctAccess)
    (context : Thread) (w : World) (commit_epoch : Epoch) (r : Result ErrorCode)
    (hactive : context.current_xct_.is_active = true)
    (hschema : context.current_xct_.is_schema_xct = false)
    (hwrite : context.current_xct_.write_set_ = [])
    (h : precommit_xct types dummy context w commit_epoch = Except.ok r)
    (hok : r.ret = ErrorCode.kErrorCodeOk) :
    r.commit_epoch
      = if (observed_epoch_max context.current_xct_.read_set_ Epoch.invalid).is_valid then
          observed_epoch_max context.current_xct_.read_set_ Epoch.invalid
        else w.durable_global_epoch_ := by
  rw [precommit_xct_readonly_eq types dummy context w commit_epoch hactive hschema hwrite] at h
  simp only [Except.ok.injEq] at h
  subst h
  rw [precommit_finish_ret] at hok
  simp only [precommit_xct_readonly, precommit_xct_verify_readonly] at hok ⊢
  rcases hl : verify_readonly_loop w context.current_xct_.read_set_ Epoch.invalid with ⟨b, e1⟩
  simp only [hl] at hok
  cases b
  · simp at hok
  · have he := verify_readonly_loop_true_snd w _ _ _ hl
    subst he
    by_cases hv : (observed_epoch_max context.current_xct_.read_set_ Epoch.invalid).is_valid = true
    · simp [precommit_finish, hv]
    · simp only [Bool.not_eq_true] at hv
      simp [precommit_finish, hv]

/-- C6, as the claim states it, fails on two inputs.  On `ctx_ro_wrap` the
read-only `precommit_xct` returns `kErrorCodeOk` with the accumulation of the
observed epochs 1, 2^31 and 2^32 - 1, which is 2^32 - 1 and is before the
observed epoch 1 in the modular order.  On `ctx_ro_invalid`, whose read set is
not empty, the accumulation is the invalid epoch and the commit epoch returned
is the durable global epoch instead. -/
theorem readonly_commit_epoch_counterexample :
    (∃ r, precommit_xct Examples.types0 Examples.dummy0 Examples.ctx_ro_wrap Examples.w_epochs
            ⟨0⟩ = Except.ok r ∧
      r.ret = ErrorCode.kErrorCodeOk ∧
      Examples.ctx_ro_wrap.current_xct_.read_set_ ≠ [] ∧
      r.commit_epoch = observed_epoch_max Examples.ctx_ro_wrap.current_xct_.read_set_
        Epoch.invalid ∧
      ∃ a ∈ Examples.ctx_ro_wrap.current_xct_.read_set_,
        r.commit_epoch.before a.observed_owner_id_.get_epoch = true) ∧
    (∃ r, precommit_xct Examples.types0 Examples.dummy0 Examples.ctx_ro_invalid
            Examples.w_epochs ⟨0⟩ = Except.ok r ∧
      r.ret = ErrorCode.kErrorCodeOk ∧
      Examples.ctx_ro_invalid.current_xct_.read_set_ ≠ [] ∧
      r.commit_epoch = Examples.w_epochs.durable_global_epoch_ ∧
      r.commit_epoch ≠ observed_epoch_max Examples.ctx_ro_invalid.current_xct_.read_set_
        Epoch.invalid) :=
  ⟨⟨_, rfl, rfl, List.cons_ne_nil _ _, rfl,
      ⟨XctId.set_clean 1 1 1, 1000, 100⟩, List.mem_cons_self _ _, rfl⟩,
    ⟨_, rfl, rfl, List.cons_ne_nil _ _, rfl, by decide⟩⟩

/-- C6, amended.  For a read-only `precommit_xct` that returns `kErrorCodeOk`
with a non-empty read set whose observed epochs are valid 32-bit epochs lying
within one half-range window (each less than 2^31 ahead of some `base`, going
around the range): the commit epoch returned is the accumulation, by
`store_max` from the invalid epoch, of the observed epochs of the read set, and
it is not before the observed epoch of any entry of the read set. -/
theorem readonly_commit_epoch_is_max_in_window (types : LogTypes) (dummy : WriteXctAccess)
    (context : Thread) (w : World) (commit_epoch : Epoch) (r : Result ErrorCode) (base : Epoch)
    (hactive : context.current_xct_.is_active = true)
    (hschema : context.current_xct_.is_schema_xct = false)
    (hwrite : context.current_xct_.write_set_ = [])
    (hread : context.current_xct_.read_set_ ≠ [])
    (hwindow : ∀ a ∈ context.current_xct_.read_set_,
      Epoch.in_window base a.observed_owner_id_.get_epoch)
    (h : precommit_xct types dummy context w commit_epoch = Except.ok r)
    (hok : r.ret = ErrorCode.kErrorCodeOk) :
    r.commit_epoch = observed_epoch_max context.current_xct_.read_set_ Epoch.invalid ∧
    ∀ a ∈ context.current_xct_.read_set_,
      r.commit_epoch.before a.observed_owner_id_.get_epoch = false := by
  have heq := readonly_commit_epoch_eq types dummy context w commit_epoch r hactive hschema
    hwrite h hok
  obtain ⟨hv, hnb⟩ := observed_epoch_max_not_before base _ hread hwindow
  rw [hv] at heq
  simp only [if_true] at heq
  rw [heq]
  exact ⟨rfl, hnb⟩

/-- Witness of the amended C6: the read-only transaction `ctx_ro` on `w0`, its
single observed epoch 5 lying in the window that starts at epoch 1. -/
theorem readonly_commit_epoch_is_max_in_window_witness :
    ∃ r, precommit_xct Examples.types0 Examples.dummy0 Examples.ctx_ro Examples.w0 ⟨0⟩
          = Except.ok r ∧
      r.ret = ErrorCode.kErrorCodeOk ∧
      r.commit_epoch = observed_epoch_max Examples.ctx_ro.current_xct_.read_set_ Epoch.invalid ∧
      ∀ a ∈ Examples.ctx_ro.current_xct_.read_set_,
        r.commit_epoch.before a.observed_owner_id_.get_epoch = false :=
  ⟨_, rfl, rfl,
    readonly_commit_epoch_is_max_in_window Examples.types0 Examples.dummy0 Examples.ctx_ro
      Examples.w0 ⟨0⟩ _ ⟨1⟩ rfl rfl rfl (List.cons_ne_nil _ _)
      (fun a ha => by
        have : a = ⟨Examples.idA, 1000, 100⟩ := by simpa [Examples.ctx_ro, Examples.xct_rmw] using ha
        subst this
        decide)
      rfl rfl⟩

/-! ## Epochs along the runs of the system -/

theorem Epoch.within_self (d : Nat) (g : Epoch) (hv : g.is_valid = true)
    (hlt : g.epoch_ < kEpochIntOverflow) : Epoch.within d g g := by
  refine ⟨hv, hlt, ?_⟩
  unfold Epoch.steps_to
  simp only [kEpochIntOverflow, Nat.reducePow] at *
  have : g.epoch_ + (4294967296 - 1) - g.epoch_ = 4294967295 := by omega
  rw [this]
  simp

theorem Epoch.one_more_valid (g : Epoch) :
    g.one_more.is_valid = true ∧ g.one_more.epoch_ < kEpochIntOverflow := by
  unfold Epoch.one_more Epoch.is_valid
  simp only [kEpochIntOverflow, kEpochInvalid, Nat.reducePow] at *
  by_cases h : (g.epoch_ + 1) % 4294967296 = 0
  · simp [h]
  · simp only [h, if_false]
    refine ⟨by simpa using h, Nat.mod_lt _ (by decide)⟩

theorem Epoch.within_one_more (d : Nat) (g e : Epoch)
    (hlt : g.epoch_ < kEpochIntOverflow) (h : Epoch.within d g e)
    (hd : d + 1 < kEpochIntOverflow - 1) : Epoch.within (d + 1) g.one_more e := by
  obtain ⟨h1, h2, h3⟩ := h
  refine ⟨h1, h2, ?_⟩
  unfold Epoch.steps_to Epoch.one_more at *
  unfold Epoch.is_valid at h1
  simp only [kEpochIntOverflow, kEpochInvalid, Nat.reducePow, bne_iff_ne, ne_eq] at *
  generalize g.epoch_ = x at *
  generalize e.epoch_ = y at *
  by_cases h : (x + 1) % 4294967296 = 0
  · simp only [h, if_true]
    omega
  · simp only [h, if_false]
    omega

/-- An epoch at most `2^31 - 1` steps behind the global epoch is not after it:
the global epoch is not before it in the modular order. -/
theorem Epoch.within_not_before (d : Nat) (g e : Epoch)
    (hlt : g.epoch_ < kEpochIntOverflow) (h : Epoch.within d g e)
    (hd : d ≤ kEpochIntHalf - 1) : g.before e = false := by
  obtain ⟨h1, h2, h3⟩ := h
  unfold Epoch.steps_to at h3
  unfold Epoch.is_valid at h1
  unfold Epoch.before
  simp only [kEpochIntOverflow, kEpochIntHalf, kEpochInvalid, Nat.reducePow, bne_iff_ne,
    ne_eq] at *
  generalize g.epoch_ = x at *
  generalize e.epoch_ = y at *
  rw [Bool.eq_false_iff]
  simp only [ne_eq, Bool.or_eq_true, Bool.and_eq_true, decide_eq_true_eq, Nat.cast_ofNat]
  omega

theorem Epoch.within_mono (d d1 : Nat) (g e : Epoch) (h : Epoch.within d g e) (hd : d ≤ d1) :
    Epoch.within d1 g e :=
  ⟨h.1, h.2.1, le_trans h.2.2 hd⟩

/-! ## What `precommit_xct` does to the epochs of the owner ids -/

theorem schema_loop_frame (types : LogTypes) (new_xct_id : XctId) (context : Thread)
    (logs : List Nat) (w w1 : World)
    (h : schema_loop types new_xct_id context logs w = Except.ok w1) :
    w1.records_ = w.records_ ∧ w1.current_global_epoch_ = w.current_global_epoch_ ∧
    w1.durable_global_epoch_ = w.durable_global_epoch_ := by
  induction logs generalizing w with
  | nil =>
    simp only [schema_loop, Except.ok.injEq] at h
    simp [h]
  | cons entry rest ih =>
    unfold schema_loop at h
    simp only at h
    split at h
    · exact ih _ h
    · split at h
      · have := ih _ h
        simp only [log.invoke_apply_engine] at this
        split at this
        · exact this
        · split at this <;> exact this
      · split at h
        · have := ih _ h
          simp only [log.invoke_apply_storage] at this
          split at this
          · exact this
          · split at this <;> exact this
        · cases h

theorem apply_loop_frame (types : LogTypes) (new_xct_id : XctId) (context : Thread)
    (ws : List WriteXctAccess) (w : World) :
    (apply_loop types new_xct_id context ws w).current_global_epoch_ = w.current_global_epoch_ ∧
    (apply_loop types new_xct_id context ws w).durable_global_epoch_
      = w.durable_global_epoch_ := by
  induction ws generalizing w with
  | nil => simp [apply_loop]
  | cons a rest ih =>
    unfold apply_loop
    have := ih (log.invoke_apply_record types new_xct_id a.log_entry_ context a.storage_
      a.record_ w).2
    rw [this.1, this.2]
    simp only [log.invoke_apply_record]
    split
    · simp
    · split <;> simp [World.set_record]

/-- Under the apply contract, the apply loop leaves in every record either the
owner id it had or the new id. -/
theorem apply_loop_owner_id_cases (types : LogTypes) (hpub : types.apply_record_publishes)
    (new_xct_id : XctId) (context : Thread) (ws : List WriteXctAccess) (w : World) (x : Nat) :
    (apply_loop types new_xct_id context ws w).owner_id x = w.owner_id x ∨
    (apply_loop types new_xct_id context ws w).owner_id x = new_xct_id := by
  induction ws generalizing w with
  | nil => simp [apply_loop]
  | cons a rest ih =>
    unfold apply_loop
    have hstep : (log.invoke_apply_record types new_xct_id a.log_entry_ context a.storage_
        a.record_ w).2.owner_id x = w.owner_id x ∨
        (log.invoke_apply_record types new_xct_id a.log_entry_ context a.storage_
          a.record_ w).2.owner_id x = new_xct_id := by
      simp only [log.invoke_apply_record]
      split
      · left; rfl
      · split
        · rename_i c hc
          by_cases hx : x = a.record_
          · right
            subst hx
            simp [World.owner_id, World.set_record, hpub _ c hc]
          · left
            simp [World.owner_id, World.set_record, hx]
        · left; rfl
    rcases ih (log.invoke_apply_record types new_xct_id a.log_entry_ context a.storage_
      a.record_ w).2 with h1 | h1
    · rw [h1]
      exact hstep
    · right
      exact h1
theorem precommit_finish_world (r : Result Bool) : (precommit_finish r).world = r.world := by
  unfold precommit_finish
  by_cases h : r.ret = true <;> simp [h]

theorem precommit_finish_commit_epoch (r : Result Bool) :
    (precommit_finish r).commit_epoch = r.commit_epoch := by
  unfold precommit_finish
  by_cases h : r.ret = true <;> simp [h]

theorem precommit_finish_read_set (r : Result Bool) :
    (precommit_finish r).context.current_xct_.read_set_ = [] := by
  unfold precommit_finish
  by_cases h : r.ret = true <;> simp [h, Xct.deactivate]

/-- The world left by the read-write path once phase 1 has its locks: the
global epoch is the one of the call, and under the apply contract every record
carries an owner id of the epoch it had or of the global epoch. -/
theorem readwrite_guarded_epochs (types : LogTypes) (hpub : types.apply_record_publishes)
    (dummy : WriteXctAccess) (context : Thread) (w w1 : World)
    (hl : lock_loop (sort_write_set context).current_xct_.write_set_ w = Except.ok w1) :
    (readwrite_guarded types dummy (guard_enter (sort_write_set context) w1) w1).world.current_global_epoch_
      = w.current_global_epoch_ ∧
    (readwrite_guarded types dummy (guard_enter (sort_write_set context) w1) w1).commit_epoch
      = w.current_global_epoch_ ∧
    ∀ x,
      ((readwrite_guarded types dummy (guard_enter (sort_write_set context) w1) w1).world.owner_id
          x).get_epoch = (w.owner_id x).get_epoch ∨
      ((readwrite_guarded types dummy (guard_enter (sort_write_set context) w1) w1).world.owner_id
          x).get_epoch = w.current_global_epoch_ := by
  have hfr := lock_loop_frame _ w w1 hl
  cases hv : precommit_xct_verify_readwrite dummy (guard_enter (sort_write_set context) w1) w1
  · rw [readwrite_guarded_of_failed types dummy _ w1 hv]
    have hw : precommit_xct_unlock (guard_enter (sort_write_set context) w1) w1 = w :=
      unlock_loop_lock_loop _ w w1 hl
    exact ⟨by simp only [hw], by simp only [hfr.1], fun x => Or.inl (by simp only [hw])⟩
  · rw [readwrite_guarded_of_verified types dummy _ w1 hv]
    simp only [precommit_xct_apply]
    refine ⟨?_, hfr.1, ?_⟩
    · rw [(apply_loop_frame _ _ _ _ _).1, hfr.1]
    · intro x
      rcases apply_loop_owner_id_cases types hpub
        ((guard_enter (sort_write_set context) w1).current_xct_.issue_next_id
          w1.current_global_epoch_).get_id
        { guard_enter (sort_write_set context) w1 with
          current_xct_ := (guard_enter (sort_write_set context) w1).current_xct_.issue_next_id
            w1.current_global_epoch_ }
        ((guard_enter (sort_write_set context) w1).current_xct_.issue_next_id
          w1.current_global_epoch_).write_set_ w1 x with h1 | h1
      · left
        rw [h1, lock_loop_owner_id _ w w1 hl x]
        by_cases hm : x ∈ (sort_write_set context).current_xct_.write_set_.map
            (fun a => a.record_)
        · simp [hm, XctId.with_keylock, XctId.get_epoch]
        · simp [hm]
      · right
        rw [h1, ← hfr.1]
        simp [Xct.issue_next_id, Xct.get_id, XctId.get_epoch]

/-- What any return of `precommit_xct` leaves: the global epoch of the call;
under the apply contract, in every record an owner id of the epoch it had or of
the global epoch; and a context that is the one of the call or has an empty
read set. -/
theorem precommit_xct_epochs (types : LogTypes) (hpub : types.apply_record_publishes)
    (dummy : WriteXctAccess) (context : Thread) (w : World) (commit_epoch : Epoch)
    (r : Result ErrorCode)
    (h : precommit_xct types dummy context w commit_epoch = Except.ok r) :
    r.world.current_global_epoch_ = w.current_global_epoch_ ∧
    (∀ x, (r.world.owner_id x).get_epoch = (w.owner_id x).get_epoch ∨
      (r.world.owner_id x).get_epoch = w.current_global_epoch_) ∧
    (r.context = context ∨ r.context.current_xct_.read_set_ = []) := by
  by_cases hactive : context.current_xct_.is_active = true
  · by_cases hschema : context.current_xct_.is_schema_xct = true
    · simp only [precommit_xct, hactive, hschema, Bool.not_true, Bool.false_eq_true, if_false,
        if_true, precommit_xct_schema] at h
      split at h
      · cases h
      · rename_i r0 hs
        split at hs
        · cases hs
        · rename_i w1 hloop
          simp only [Except.ok.injEq] at hs h
          subst hs
          subst h
          have hfr := schema_loop_frame _ _ _ _ _ _ hloop
          refine ⟨?_, ?_, Or.inr (precommit_finish_read_set _)⟩
          · rw [precommit_finish_world]
            exact hfr.2.1
          · intro x
            left
            rw [precommit_finish_world]
            simp [guard_exit, World.owner_id, hfr.1]
    · simp only [Bool.not_eq_true] at hschema
      by_cases hwrite : context.current_xct_.write_set_ = []
      · rw [precommit_xct_readonly_eq types dummy context w commit_epoch hactive hschema hwrite]
          at h
        simp only [Except.ok.injEq] at h
        subst h
        refine ⟨?_, ?_, Or.inr (precommit_finish_read_set _)⟩
        · rw [precommit_finish_world]
        · intro x
          left
          rw [precommit_finish_world]
      · obtain ⟨w1, hl, hr⟩ := precommit_xct_readwrite_ok types dummy context w commit_epoch r
          hactive hschema hwrite h
        subst hr
        obtain ⟨h1, _, h3⟩ := readwrite_guarded_epochs types hpub dummy context w w1 hl
        refine ⟨?_, ?_, Or.inr (precommit_finish_read_set _)⟩
        · rw [precommit_finish_world]
          exact h1
        · intro x
          rw [precommit_finish_world]
          exact h3 x
  · simp only [Bool.not_eq_true] at hactive
    simp only [precommit_xct, hactive, Bool.not_false, if_true, Except.ok.injEq] at h
    subst h
    exact ⟨rfl, fun x => Or.inl rfl, Or.inl rfl⟩
/-! ## The epochs of the system stay within reach of the global epoch -/

theorem begin_xct_read_set (context : Thread) (isolation_level : IsolationLevel) :
    (begin_xct context isolation_level).2 = context ∨
    (begin_xct context isolation_level).2.current_xct_.read_set_ = [] := by
  unfold begin_xct
  by_cases h : context.current_xct_.is_active = true
  · left; simp [h]
  · right; simp [h, Xct.activate]

theorem begin_schema_xct_read_set (context : Thread) :
    (begin_schema_xct context).2 = context ∨
    (begin_schema_xct context).2.current_xct_.read_set_ = [] := by
  unfold begin_schema_xct
  by_cases h : context.current_xct_.is_active = true
  · left; simp [h]
  · right; simp [h, Xct.activate]

theorem abort_xct_read_set (context : Thread) :
    (abort_xct context).2 = context ∨ (abort_xct context).2.current_xct_.read_set_ = [] := by
  unfold abort_xct
  by_cases h : context.current_xct_.is_active = true
  · right; simp [h, Xct.deactivate]
  · left; simp [h]

theorem storage_write_read_set (context : Thread) (w : World) (storage record : Nat)
    (entry : LogEntry) :
    (storage_write context w storage record entry).2.current_xct_.read_set_
      = context.current_xct_.read_set_ := by
  unfold storage_write Xct.add_to_write_set
  by_cases h : context.current_xct_.max_write_set_size_ ≤ context.current_xct_.write_set_.length
  · simp [h]
  · simp [h]

theorem storage_read_read_set (context : Thread) (w : World) (storage record : Nat)
    (code : ErrorCode) (c : Thread)
    (h : storage_read context w storage record = Except.ok (code, c)) :
    ∀ a ∈ c.current_xct_.read_set_,
      a ∈ context.current_xct_.read_set_ ∨ a.observed_owner_id_ = w.owner_id record := by
  unfold storage_read at h
  by_cases hk : (w.owner_id record).is_keylocked = true
  · simp [hk] at h
  · simp only [hk, Bool.false_eq_true, if_false, Except.ok.injEq, Prod.mk.injEq] at h
    obtain ⟨_, hc⟩ := h
    subst hc
    intro a ha
    unfold Xct.add_to_read_set at ha
    by_cases hfull : context.current_xct_.max_read_set_size_ ≤ context.current_xct_.read_set_.length
    · left
      simpa [hfull] using ha
    · simp only [hfull, if_false, List.mem_append, List.mem_singleton] at ha
      rcases ha with ha | ha
      · exact Or.inl ha
      · right
        rw [ha]

theorem System.epochs_within_set_thread (d : Nat) (s : System) (t : Nat) (c : Thread)
    (hinv : s.epochs_within d)
    (hc : ∀ a ∈ c.current_xct_.read_set_,
      Epoch.within d s.world.current_global_epoch_ a.observed_owner_id_.get_epoch) :
    (s.set_thread t c).epochs_within d := by
  refine ⟨hinv.global_valid, hinv.global_lt, hinv.records, ?_⟩
  intro i a ha
  unfold System.set_thread at ha
  by_cases hi : i = t
  · simp only [hi, if_true] at ha
    exact hc a ha
  · simp only [hi, if_false] at ha
    exact hinv.read_sets i a ha

/-- No step of a worker moves an epoch out of reach: the bound `d` on the
distance to the global epoch is kept. -/
theorem System.step_epochs_within (types : LogTypes) (hpub : types.apply_record_publishes)
    (d : Nat) (s s1 : System) (h : System.step types s s1) (hinv : s.epochs_within d) :
    s1.epochs_within d := by
  cases h with
  | begin_xct t isolation_level =>
    apply System.epochs_within_set_thread d s t _ hinv
    intro a ha
    rcases begin_xct_read_set (s.threads t) isolation_level with h1 | h1
    · rw [h1] at ha
      exact hinv.read_sets t a ha
    · rw [h1] at ha
      cases ha
  | begin_schema_xct t =>
    apply System.epochs_within_set_thread d s t _ hinv
    intro a ha
    rcases begin_schema_xct_read_set (s.threads t) with h1 | h1
    · rw [h1] at ha
      exact hinv.read_sets t a ha
    · rw [h1] at ha
      cases ha
  | read t storage record code c hread =>
    apply System.epochs_within_set_thread d s t _ hinv
    intro a ha
    rcases storage_read_read_set _ _ _ _ _ _ hread a ha with h1 | h1
    · exact hinv.read_sets t a h1
    · rw [h1]
      exact hinv.records record
  | write t storage record entry =>
    apply System.epochs_within_set_thread d s t _ hinv
    intro a ha
    rw [storage_write_read_set] at ha
    exact hinv.read_sets t a ha
  | precommit_xct t dummy commit_epoch r hpre =>
    obtain ⟨hg, hrec, hctx⟩ := precommit_xct_epochs types hpub dummy _ _ commit_epoch r hpre
    have hbase : ({ s with world := r.world } : System).epochs_within d := by
      refine ⟨?_, ?_, ?_, ?_⟩
      · show r.world.current_global_epoch_.is_valid = true
        rw [hg]
        exact hinv.global_valid
      · show r.world.current_global_epoch_.epoch_ < kEpochIntOverflow
        rw [hg]
        exact hinv.global_lt
      · intro x
        show Epoch.within d r.world.current_global_epoch_ (r.world.owner_id x).get_epoch
        rw [hg]
        rcases hrec x with h1 | h1
        · rw [h1]
          exact hinv.records x
        · rw [h1]
          exact Epoch.within_self d _ hinv.global_valid hinv.global_lt
      · intro i a ha
        show Epoch.within d r.world.current_global_epoch_ a.observed_owner_id_.get_epoch
        rw [hg]
        exact hinv.read_sets i a ha
    apply System.epochs_within_set_thread d _ t _ hbase
    intro a ha
    show Epoch.within d r.world.current_global_epoch_ a.observed_owner_id_.get_epoch
    rw [hg]
    rcases hctx with h1 | h1
    · rw [h1] at ha
      exact hinv.read_sets t a ha
    · rw [h1] at ha
      cases ha
  | abort_xct t =>
    apply System.epochs_within_set_thread d s t _ hinv
    intro a ha
    rcases abort_xct_read_set (s.threads t) with h1 | h1
    · rw [h1] at ha
      exact hinv.read_sets t a ha
    · rw [h1] at ha
      cases ha

/-- One round of the epoch advancer moves every epoch one step further behind
the global epoch. -/
theorem System.advance_epochs_within (d : Nat) (s : System) (hinv : s.epochs_within d)
    (hd : d + 1 < kEpochIntOverflow - 1) : s.advance.epochs_within (d + 1) := by
  have hv := Epoch.one_more_valid s.world.current_global_epoch_
  refine ⟨hv.1, hv.2, ?_, ?_⟩
  · intro x
    exact Epoch.within_one_more d _ _ hinv.global_lt (hinv.records x) hd
  · intro t a ha
    exact Epoch.within_one_more d _ _ hinv.global_lt (hinv.read_sets t a ha) hd

/-- After `n` rounds of the epoch advancer from an initial state whose epochs
are within `d0` steps, the epochs are within `d0 + n` steps of the global
epoch, as long as that is less than a full turn of the epoch counter. -/
theorem System.reachable_epochs_within (types : LogTypes) (hpub : types.apply_record_publishes)
    (d0 n : Nat) (s : System) (h : System.reachable types d0 n s)
    (hd : d0 + n < kEpochIntOverflow - 1) : s.epochs_within (d0 + n) := by
  induction h with
  | init s hinit => exact hinit.epochs
  | step n s s1 _ hstep ih => exact System.step_epochs_within types hpub _ s s1 hstep (ih hd)
  | advance n s _ ih =>
    have := System.advance_epochs_within (d0 + n) s (ih (by omega)) (by omega)
    exact this

theorem System.reachable_iterate (types : LogTypes) (d0 n : Nat) (s : System) (k : Nat)
    (h : System.reachable types d0 n s) :
    System.reachable types d0 (n + k) (Nat.iterate System.advance k s) := by
  induction k with
  | zero => exact h
  | succ k ih =>
    rw [Function.iterate_succ_apply']
    exact System.reachable.advance (n + k) _ ih

theorem System.advance_iterate (k : Nat) (s : System)
    (h1 : 1 ≤ s.world.current_global_epoch_.epoch_)
    (h2 : s.world.current_global_epoch_.epoch_ + k < kEpochIntOverflow) :
    Nat.iterate System.advance k s
      = { s with world := { s.world with
            current_global_epoch_ := ⟨s.world.current_global_epoch_.epoch_ + k⟩ } } := by
  induction k with
  | zero => rfl
  | succ k ih =>
    rw [Function.iterate_succ_apply', ih (by omega)]
    simp only [kEpochIntOverflow, Nat.reducePow] at h2
    have hmod : (s.world.current_global_epoch_.epoch_ + k + 1) % 4294967296
        = s.world.current_global_epoch_.epoch_ + k + 1 := Nat.mod_eq_of_lt (by omega)
    simp only [System.advance, handle_epoch_advance_step, get_current_global_epoch,
      Epoch.one_more, kEpochIntOverflow, kEpochInvalid, Nat.reducePow, hmod]
    have hne : ¬ s.world.current_global_epoch_.epoch_ + k + 1 = 0 := by omega
    simp only [hne, if_false]
    rfl

theorem Examples.types0_publishes : Examples.types0.apply_record_publishes := by
  intro code c h id entry storage rec
  unfold Examples.types0 at h
  simp only at h
  split at h
  · cases h
    rfl
  · cases h

theorem Examples.sys_init_initial : Examples.sys_init.initial 0 where
  epochs :=
    { global_valid := rfl
      global_lt := by decide
      records := fun _ =>
        ⟨rfl, (by decide : (1 : Nat) < kEpochIntOverflow),
          (by decide : Epoch.steps_to ⟨1⟩ ⟨1⟩ ≤ 0)⟩
      read_sets := fun _ a ha => by cases ha }
  idle := fun _ => rfl
  no_reads := fun _ => rfl

theorem Examples.sys_written_reachable :
    System.reachable Examples.types0 0 0 Examples.sys_written :=
  System.reachable.step 0 _ _
    (System.reachable.step 0 _ _
      (System.reachable.step 0 _ _
        (System.reachable.init _ Examples.sys_init_initial)
        (System.step.begin_xct Examples.sys_init 0 IsolationLevel.kSerializable))
      (System.step.read Examples.sys_begun 0 1000 100 ErrorCode.kErrorCodeOk
        (storage_read_context (Examples.sys_begun.threads 0) Examples.sys_begun.world 1000 100)
        rfl))
    (System.step.write Examples.sys_read 0 1000 200 ⟨⟨1, 16, 3⟩, [42]⟩)

theorem Examples.sys_late_reachable :
    System.reachable Examples.types0 0 2147483648 Examples.sys_late := by
  have h := System.reachable_iterate Examples.types0 0 0 Examples.sys_written 2147483648
    Examples.sys_written_reachable
  rw [System.advance_iterate 2147483648 Examples.sys_written (by decide) (by decide)] at h
  simpa using h

/-- C7, as the claim states it, fails in a reachable state.  From the initial
state `sys_init` (epoch 1) worker 0 begins a transaction, reads the record at
address 100 (observing epoch 1) and writes the record at address 200; the epoch
advancer then makes 2^31 rounds.  In the state `sys_late` so reached the global
epoch only advanced and no owner id was written, `precommit_xct` of worker 0
returns `kErrorCodeOk` with the commit epoch 2^31 + 1 latched from the global
epoch, and that epoch is before the observed epoch 1 in the modular order. -/
theorem readwrite_commit_epoch_counterexample :
    Examples.types0.apply_record_publishes ∧
    System.reachable Examples.types0 0 2147483648 Examples.sys_late ∧
    (Examples.sys_late.threads 0).current_xct_.is_active = true ∧
    (Examples.sys_late.threads 0).current_xct_.is_schema_xct = false ∧
    (Examples.sys_late.threads 0).current_xct_.write_set_ ≠ [] ∧
    ∃ r, precommit_xct Examples.types0 Examples.dummy0 (Examples.sys_late.threads 0)
          Examples.sys_late.world ⟨0⟩ = Except.ok r ∧
      r.ret = ErrorCode.kErrorCodeOk ∧
      r.commit_epoch = Examples.sys_late.world.current_global_epoch_ ∧
      ∃ a ∈ (Examples.sys_late.threads 0).current_xct_.read_set_,
        r.commit_epoch.before a.observed_owner_id_.get_epoch = true :=
  ⟨Examples.types0_publishes, Examples.sys_late_reachable, rfl, rfl, List.cons_ne_nil _ _,
    _, rfl, rfl, rfl, ⟨XctId.set_clean 1 0 0, 1000, 100⟩, List.mem_cons_self _ _, rfl⟩

/-- C7, amended.  Let the record log types keep the apply contract (owner ids
are written by commits only, each publishing its new id), and let `s` be a
state reached from an initial state whose epochs are at most `d0` steps behind
the global epoch by worker steps and `n` rounds of the epoch advancer, with
`d0 + n ≤ 2^31 - 1`.  Then for every read-write `precommit_xct` in `s` that
returns `kErrorCodeOk`, the commit epoch returned is the global epoch of `s`
and is not before the observed epoch of any entry of the read set of the
transaction. -/
theorem readwrite_commit_epoch_not_before_observed (types : LogTypes)
    (hpub : types.apply_record_publishes) (d0 n : Nat) (s : System) (t : Nat)
    (dummy : WriteXctAccess) (commit_epoch : Epoch) (r : Result ErrorCode)
    (hreach : System.reachable types d0 n s)
    (hbound : d0 + n ≤ kEpochIntHalf - 1)
    (hactive : (s.threads t).current_xct_.is_active = true)
    (hschema : (s.threads t).current_xct_.is_schema_xct = false)
    (hwrite : (s.threads t).current_xct_.write_set_ ≠ [])
    (h : precommit_xct types dummy (s.threads t) s.world commit_epoch = Except.ok r)
    (_hok : r.ret = ErrorCode.kErrorCodeOk) :
    r.commit_epoch = s.world.current_global_epoch_ ∧
    ∀ a ∈ (s.threads t).current_xct_.read_set_,
      r.commit_epoch.before a.observed_owner_id_.get_epoch = false := by
  have hinv := System.reachable_epochs_within types hpub d0 n s hreach (by
    simp only [kEpochIntHalf, kEpochIntOverflow, Nat.reducePow] at *
    omega)
  obtain ⟨w1, hl, hr⟩ := precommit_xct_readwrite_ok types dummy _ _ commit_epoch r hactive
    hschema hwrite h
  have hce : r.commit_epoch = s.world.current_global_epoch_ := by
    rw [hr, precommit_finish_commit_epoch]
    exact (readwrite_guarded_epochs types hpub dummy _ _ w1 hl).2.1
  refine ⟨hce, fun a ha => ?_⟩
  rw [hce]
  exact Epoch.within_not_before (d0 + n) _ _ hinv.global_lt (hinv.read_sets t a ha) hbound

/-- Witness of the amended C7: worker 0 of `sys_written`, a state reached from
`sys_init` without any round of the epoch advancer. -/
theorem readwrite_commit_epoch_not_before_observed_witness :
    ∃ r, precommit_xct Examples.types0 Examples.dummy0 (Examples.sys_written.threads 0)
          Examples.sys_written.world ⟨0⟩ = Except.ok r ∧
      r.ret = ErrorCode.kErrorCodeOk ∧
      r.commit_epoch = Examples.sys_written.world.current_global_epoch_ ∧
      ∀ a ∈ (Examples.sys_written.threads 0).current_xct_.read_set_,
        r.commit_epoch.before a.observed_owner_id_.get_epoch = false :=
  ⟨_, rfl, rfl,
    readwrite_commit_epoch_not_before_observed Examples.types0 Examples.types0_publishes 0 0
      Examples.sys_written 0 Examples.dummy0 ⟨0⟩ _ Examples.sys_written_reachable (by decide)
      rfl rfl (List.cons_ne_nil _ _) rfl rfl⟩

/-! ## The lifecycle operations -/

/-- C11. `begin_xct` and `begin_schema_xct` return
`kErrorCodeXctAlreadyRunning` exactly when the context is already active, and
then leave the context (active flag, schema flag, isolation level, read set,
write set) as it was; otherwise they return `kErrorCodeOk` with the context
active, both sets empty, the isolation level requested (`kSerializable` for
`begin_schema_xct`), and the schema flag set by `begin_schema_xct` only. -/
theorem begin_returns_already_running_iff_active (context : Thread)
    (isolation_level : IsolationLevel) :
    (((begin_xct context isolation_level).1 = ErrorCode.kErrorCodeXctAlreadyRunning ↔
        context.current_xct_.is_active = true) ∧
      (context.current_xct_.is_active = true →
        (begin_xct context isolation_level).2 = context) ∧
      (context.current_xct_.is_active = false →
        (begin_xct context isolation_level).1 = ErrorCode.kErrorCodeOk ∧
        (begin_xct context isolation_level).2.current_xct_.is_active = true ∧
        (begin_xct context isolation_level).2.current_xct_.read_set_ = [] ∧
        (begin_xct context isolation_level).2.current_xct_.write_set_ = [] ∧
        (begin_xct context isolation_level).2.current_xct_.isolation_level_ = isolation_level ∧
        (begin_xct context isolation_level).2.current_xct_.is_schema_xct = false)) ∧
    (((begin_schema_xct context).1 = ErrorCode.kErrorCodeXctAlreadyRunning ↔
        context.current_xct_.is_active = true) ∧
      (context.current_xct_.is_active = true → (begin_schema_xct context).2 = context) ∧
      (context.current_xct_.is_active = false →
        (begin_schema_xct context).1 = ErrorCode.kErrorCodeOk ∧
        (begin_schema_xct context).2.current_xct_.is_active = true ∧
        (begin_schema_xct context).2.current_xct_.read_set_ = [] ∧
        (begin_schema_xct context).2.current_xct_.write_set_ = [] ∧
        (begin_schema_xct context).2.current_xct_.isolation_level_
          = IsolationLevel.kSerializable ∧
        (begin_schema_xct context).2.current_xct_.is_schema_xct = true)) := by
  unfold begin_xct begin_schema_xct Xct.is_active Xct.is_schema_xct
  cases h : context.current_xct_.active_ <;> simp [h, Xct.activate]

/-- C12. `abort_xct` on an inactive context returns `kErrorCodeXctNoXct` and
leaves the context as it was; on an active context it returns `kErrorCodeOk`,
the context is inactive afterwards, the tail of the log buffer is back at the
committed cursor (which did not move), and in both cases the shared state of
the system, the owner id and the key-lock of every record included, is the one
before the call. -/
theorem abort_deactivates_and_discards (s : System) (t : Nat) :
    ((s.threads t).current_xct_.is_active = false →
      abort_xct (s.threads t) = (ErrorCode.kErrorCodeXctNoXct, s.threads t)) ∧
    ((s.threads t).current_xct_.is_active = true →
      (abort_xct (s.threads t)).1 = ErrorCode.kErrorCodeOk ∧
      (abort_xct (s.threads t)).2.current_xct_.is_active = false ∧
      (abort_xct (s.threads t)).2.thread_log_buffer_.get_offset_tail
        = (s.threads t).thread_log_buffer_.get_offset_committed ∧
      (abort_xct (s.threads t)).2.thread_log_buffer_.get_offset_committed
        = (s.threads t).thread_log_buffer_.get_offset_committed) ∧
    (s.set_thread t (abort_xct (s.threads t)).2).world = s.world ∧
    (∀ x, (s.set_thread t (abort_xct (s.threads t)).2).world.owner_id x = s.world.owner_id x) := by
  refine ⟨?_, ?_, rfl, fun _ => rfl⟩
  · intro h
    simp [abort_xct, h]
  · intro h
    simp [abort_xct, h, Xct.deactivate, ThreadLogBuffer.discard_current_xct_log,
      ThreadLogBuffer.get_offset_tail, ThreadLogBuffer.get_offset_committed]
    rfl

/-! ## The schema path -/

theorem schema_loop_calls (types : LogTypes) (new_xct_id : XctId) (context : Thread)
    (logs : List Nat) (w : World)
    (hok : ∀ e ∈ logs, schema_entry_ok types context.thread_log_buffer_ e) :
    ∃ w1, schema_loop types new_xct_id context logs w = Except.ok w1 ∧
      w1.applied_ = w.applied_ ++
        schema_apply_calls types new_xct_id context.thread_log_buffer_ logs
          w.storage_manager_ := by
  induction logs generalizing w with
  | nil => exact ⟨w, rfl, by simp [schema_apply_calls]⟩
  | cons entry rest ih =>
    have hrest : ∀ e ∈ rest, schema_entry_ok types context.thread_log_buffer_ e :=
      fun e he => hok e (List.mem_cons_of_mem _ he)
    have he := hok entry (List.mem_cons_self _ _)
    unfold schema_entry_ok at he
    unfold schema_loop schema_apply_calls
    rcases he with hm | ⟨hk, hcode, hreg⟩
    · simp only [hm, if_true]
      exact ih w hrest
    · obtain ⟨c, hc⟩ := Option.isSome_iff_exists.mp hreg
      rcases hk with hk | hk
      · simp only [hk, if_true, reduceCtorEq, if_false]
        obtain ⟨w1, h1, h2⟩ := ih (log.invoke_apply_engine types new_xct_id entry context w).2 hrest
        refine ⟨w1, h1, ?_⟩
        rw [h2]
        simp [log.invoke_apply_engine, hcode, hc, schema_apply_effect]
      · simp only [hk, if_true, reduceCtorEq, if_false]
        obtain ⟨w1, h1, h2⟩ := ih (log.invoke_apply_storage types new_xct_id entry context
          (w.storage_manager_.storages_
            (context.thread_log_buffer_.entries_ entry).header.storage_id_) w).2 hrest
        refine ⟨w1, h1, ?_⟩
        rw [h2]
        simp [log.invoke_apply_storage, hcode, hc, schema_apply_effect]

theorem schema_apply_calls_entries (types : LogTypes) (new_xct_id : XctId)
    (b : ThreadLogBuffer) (logs : List Nat) (sm : StorageManager)
    (hok : ∀ e ∈ logs, schema_entry_ok types b e) :
    (schema_apply_calls types new_xct_id b logs sm).map ApplyCall.entry
      = logs.filter (fun e =>
          decide (types.get_log_code_kind (b.entries_ e).header.log_type_code_
            ≠ LogCodeKind.kMarkerLogs)) := by
  induction logs generalizing sm with
  | nil => simp [schema_apply_calls]
  | cons entry rest ih =>
    have hrest : ∀ e ∈ rest, schema_entry_ok types b e :=
      fun e he => hok e (List.mem_cons_of_mem _ he)
    have he := hok entry (List.mem_cons_self _ _)
    unfold schema_entry_ok at he
    unfold schema_apply_calls
    rcases he with hm | ⟨hk | hk, _, _⟩
    · simp [hm, ih _ hrest]
    · simp [hk, ih _ hrest, ApplyCall.entry]
    · simp [hk, ih _ hrest, ApplyCall.entry]

theorem schema_apply_calls_xct_id (types : LogTypes) (new_xct_id : XctId)
    (b : ThreadLogBuffer) (logs : List Nat) (sm : StorageManager) :
    ∀ c ∈ schema_apply_calls types new_xct_id b logs sm, c.xct_id = new_xct_id := by
  induction logs generalizing sm with
  | nil => simp [schema_apply_calls]
  | cons entry rest ih =>
    unfold schema_apply_calls
    cases types.get_log_code_kind (b.entries_ entry).header.log_type_code_ with
    | kMarkerLogs => exact ih sm
    | kEngineLogs =>
      intro c hc
      rcases List.mem_cons.mp hc with h | h
      · rw [h]; rfl
      · exact ih _ c h
    | kStorageLogs =>
      intro c hc
      rcases List.mem_cons.mp hc with h | h
      · rw [h]; rfl
      · exact ih _ c h
    | kRecordLogs => simp

/-- C17. `XctAccess::compare` and `WriteXctAccess::compare` are strict weak
orderings: no access is less than itself, `compare a b` excludes `compare b a`,
`compare` is transitive, and so is incomparability (neither `compare a b` nor
`compare b a`); an access with the smaller record address compares less than
one with the larger record address. -/
theorem compare_strict_weak_ordering :
    ((∀ a : XctAccess, XctAccess.compare a a = false) ∧
      (∀ a b : XctAccess, XctAccess.compare a b = true → XctAccess.compare b a = false) ∧
      (∀ a b c : XctAccess, XctAccess.compare a b = true → XctAccess.compare b c = true →
        XctAccess.compare a c = true) ∧
      (∀ a b c : XctAccess,
        XctAccess.compare a b = false ∧ XctAccess.compare b a = false →
        XctAccess.compare b c = false ∧ XctAccess.compare c b = false →
        XctAccess.compare a c = false ∧ XctAccess.compare c a = false) ∧
      (∀ a b : XctAccess, a.record_ < b.record_ → XctAccess.compare a b = true)) ∧
    ((∀ a : WriteXctAccess, WriteXctAccess.compare a a = false) ∧
      (∀ a b : WriteXctAccess, WriteXctAccess.compare a b = true →
        WriteXctAccess.compare b a = false) ∧
      (∀ a b c : WriteXctAccess, WriteXctAccess.compare a b = true →
        WriteXctAccess.compare b c = true → WriteXctAccess.compare a c = true) ∧
      (∀ a b c : WriteXctAccess,
        WriteXctAccess.compare a b = false ∧ WriteXctAccess.compare b a = false →
        WriteXctAccess.compare b c = false ∧ WriteXctAccess.compare c b = false →
        WriteXctAccess.compare a c = false ∧ WriteXctAccess.compare c a = false) ∧
      (∀ a b : WriteXctAccess, a.record_ < b.record_ → WriteXctAccess.compare a b = true)) := by
  have key : ∀ a b : WriteXctAccess, WriteXctAccess.compare a b = true ↔
      (a.record_ < b.record_ ∨ (a.record_ = b.record_ ∧ a.log_entry_ < b.log_entry_)) := by
    intro a b
    unfold WriteXctAccess.compare
    by_cases h : a.record_ = b.record_
    · simp [h]
    · simp only [ne_eq, h, not_false_eq_true, if_true, decide_eq_true_eq, false_and, or_false]
  have keyf : ∀ a b : WriteXctAccess, WriteXctAccess.compare a b = false ↔
      ¬ (a.record_ < b.record_ ∨ (a.record_ = b.record_ ∧ a.log_entry_ < b.log_entry_)) := by
    intro a b
    rw [← key, Bool.not_eq_true]
  refine ⟨⟨?_, ?_, ?_, ?_, ?_⟩, ⟨?_, ?_, ?_, ?_, ?_⟩⟩
  · intro a
    simp [XctAccess.compare]
  · intro a b
    simp only [XctAccess.compare, decide_eq_true_eq, decide_eq_false_iff_not]
    omega
  · intro a b c
    simp only [XctAccess.compare, decide_eq_true_eq]
    omega
  · intro a b c
    simp only [XctAccess.compare, decide_eq_false_iff_not]
    omega
  · intro a b h
    simpa [XctAccess.compare] using h
  · intro a
    rw [keyf]
    omega
  · intro a b
    rw [key, keyf]
    omega
  · intro a b c
    rw [key, key, key]
    omega
  · intro a b c
    rw [keyf, keyf, keyf, keyf, keyf, keyf]
    omega
  · intro a b h
    rw [key]
    exact Or.inl h

/-! ## Sorting the sets -/

theorem std_sort_insert_pairwise {α : Type} (comp : α → α → Bool)
    (hasymm : ∀ a b, comp a b = true → comp b a = false)
    (htrans : ∀ a b c, comp a b = true → comp b c = true → comp a c = true)
    (x : α) (l : List α) (hl : l.Pairwise (fun a b => comp b a = false)) :
    (std_sort_insert comp x l).Pairwise (fun a b => comp b a = false) := by
  induction l with
  | nil => simp [std_sort_insert]
  | cons y ys ih =>
    unfold std_sort_insert
    rw [List.pairwise_cons] at hl
    by_cases h : comp x y = true
    · simp only [h, if_true]
      rw [List.pairwise_cons]
      refine ⟨?_, List.pairwise_cons.mpr hl⟩
      intro z hz
      rcases List.mem_cons.mp hz with hzy | hz
      · rw [hzy]
        exact hasymm x y h
      · cases hzx : comp z x
        · rfl
        · have := htrans z x y hzx h
          rw [hl.1 z hz] at this
          cases this
    · simp only [h, Bool.false_eq_true, if_false]
      rw [List.pairwise_cons]
      refine ⟨?_, ih hl.2⟩
      intro z hz
      have hz2 := (std_sort_insert_perm comp x ys).mem_iff.mp hz
      rcases List.mem_cons.mp hz2 with hzx | hz3
      · rw [hzx]
        simpa using h
      · exact hl.1 z hz3

/-- The output of `std::sort` is in order: no element is less than an element
before it, for a comparison that is asymmetric and transitive. -/
theorem std_sort_pairwise {α : Type} (comp : α → α → Bool)
    (hasymm : ∀ a b, comp a b = true → comp b a = false)
    (htrans : ∀ a b c, comp a b = true → comp b c = true → comp a c = true)
    (l : List α) : (std_sort comp l).Pairwise (fun a b => comp b a = false) := by
  induction l with
  | nil => simp [std_sort]
  | cons x xs ih =>
    unfold std_sort
    exact std_sort_insert_pairwise comp hasymm htrans x _ ih

theorem XctAccess.compare_asymm (a b : XctAccess) (h : XctAccess.compare a b = true) :
    XctAccess.compare b a = false := by
  simp only [XctAccess.compare, decide_eq_true_eq, decide_eq_false_iff_not] at *
  omega

theorem XctAccess.compare_trans (a b c : XctAccess) (h1 : XctAccess.compare a b = true)
    (h2 : XctAccess.compare b c = true) : XctAccess.compare a c = true := by
  simp only [XctAccess.compare, decide_eq_true_eq] at *
  omega

theorem WriteXctAccess.compare_iff (a b : WriteXctAccess) :
    WriteXctAccess.compare a b = true ↔
      (a.record_ < b.record_ ∨ (a.record_ = b.record_ ∧ a.log_entry_ < b.log_entry_)) := by
  unfold WriteXctAccess.compare
  by_cases h : a.record_ = b.record_
  · simp [h]
  · simp only [ne_eq, h, not_false_eq_true, if_true, decide_eq_true_eq, false_and, or_false]

theorem WriteXctAccess.write_compare_asymm (a b : WriteXctAccess)
    (h : WriteXctAccess.compare a b = true) : WriteXctAccess.compare b a = false := by
  rw [← Bool.not_eq_true, WriteXctAccess.compare_iff]
  rw [WriteXctAccess.compare_iff] at h
  omega

theorem WriteXctAccess.write_compare_trans (a b c : WriteXctAccess)
    (h1 : WriteXctAccess.compare a b = true) (h2 : WriteXctAccess.compare b c = true) :
    WriteXctAccess.compare a c = true := by
  rw [WriteXctAccess.compare_iff] at *
  omega

/-- A list in the order of a comparison that refines the order of the keys, with
pairwise distinct keys, has its keys in strictly ascending order. -/
theorem pairwise_lt_of_sorted_nodup {α : Type} (comp : α → α → Bool) (key : α → Nat)
    (hkey : ∀ a b, comp b a = false → key a ≤ key b) (l : List α)
    (hsorted : l.Pairwise (fun a b => comp b a = false)) (hnodup : (l.map key).Nodup) :
    (l.map key).Pairwise (fun x y => x < y) := by
  rw [List.pairwise_map]
  have hne : l.Pairwise (fun a b => key a ≠ key b) := by
    have := hnodup
    rw [List.Nodup, List.pairwise_map] at this
    exact this
  exact (hsorted.and hne).imp (fun h => lt_of_le_of_ne (hkey _ _ h.1) h.2)

/-- C18. Sorting preserves and orders the set.  For a read set whose entries
have pairwise distinct record addresses, and for a write set whose entries have
pairwise distinct record addresses and pairwise distinct log-entry pointers,
`std::sort` with the compare of the set returns a permutation of the entries
(each entry whole: storage, record, observed owner id and log entry stay
together) whose record addresses are in strictly ascending order; the write set
that `precommit_xct_lock` locks is that sorted list. -/
theorem sort_permutes_and_orders (read_set : List XctAccess) (context : Thread)
    (hread : (read_set.map (fun a => a.record_)).Nodup)
    (hwrite : (context.current_xct_.write_set_.map (fun a => a.record_)).Nodup)
    (_hlogs : (context.current_xct_.write_set_.map (fun a => a.log_entry_)).Nodup) :
    ((std_sort XctAccess.compare read_set).Perm read_set ∧
      ((std_sort XctAccess.compare read_set).map (fun a => a.record_)).Pairwise
        (fun x y => x < y)) ∧
    ((std_sort WriteXctAccess.compare context.current_xct_.write_set_).Perm
        context.current_xct_.write_set_ ∧
      ((std_sort WriteXctAccess.compare context.current_xct_.write_set_).map
        (fun a => a.record_)).Pairwise (fun x y => x < y)) ∧
    (sort_write_set context).current_xct_.write_set_
      = std_sort WriteXctAccess.compare context.current_xct_.write_set_ := by
  refine ⟨⟨std_sort_perm _ _, ?_⟩, ⟨std_sort_perm _ _, ?_⟩, rfl⟩
  · apply pairwise_lt_of_sorted_nodup XctAccess.compare
    · intro a b h
      simp only [XctAccess.compare, decide_eq_false_iff_not] at h
      omega
    · exact std_sort_pairwise _ XctAccess.compare_asymm XctAccess.compare_trans _
    · exact (((std_sort_perm XctAccess.compare read_set).map _).nodup_iff).mpr hread
  · apply pairwise_lt_of_sorted_nodup WriteXctAccess.compare
    · intro a b h
      rw [← Bool.not_eq_true, WriteXctAccess.compare_iff] at h
      omega
    · exact std_sort_pairwise _ WriteXctAccess.write_compare_asymm WriteXctAccess.write_compare_trans _
    · exact (((std_sort_perm WriteXctAccess.compare _).map _).nodup_iff).mpr hwrite

/-- The tests `SortReadSet` and `SortWriteSet`: the seven accesses come out in
the order 4, 7, 9, 11, 19, 20, 40. -/
theorem Examples.test_sort_sets :
    std_sort XctAccess.compare (Examples.test_order.map Examples.create_access)
      = [4, 7, 9, 11, 19, 20, 40].map Examples.create_access ∧
    std_sort WriteXctAccess.compare (Examples.test_order.map Examples.create_write_access)
      = [4, 7, 9, 11, 19, 20, 40].map Examples.create_write_access := by
  constructor <;> decide

/-- Witness of C18: the arrays of the tests `SortReadSet` and `SortWriteSet`. -/
theorem sort_permutes_and_orders_witness :
    ((std_sort XctAccess.compare (Examples.test_order.map Examples.create_access)).Perm
        (Examples.test_order.map Examples.create_access) ∧
      ((std_sort XctAccess.compare (Examples.test_order.map Examples.create_access)).map
        (fun a => a.record_)).Pairwise (fun x y => x < y)) ∧
    ((std_sort WriteXctAccess.compare
          (Examples.test_order.map Examples.create_write_access)).Perm
        (Examples.test_order.map Examples.create_write_access) ∧
      ((std_sort WriteXctAccess.compare
          (Examples.test_order.map Examples.create_write_access)).map
        (fun a => a.record_)).Pairwise (fun x y => x < y)) :=
  match sort_permutes_and_orders (Examples.test_order.map Examples.create_access)
      ⟨0, { Examples.xct_rmw with
            write_set_ := Examples.test_order.map Examples.create_write_access },
        Examples.buf0⟩ (by decide) (by decide) (by decide) with
  | ⟨h1, h2, _⟩ => ⟨h1, h2⟩

/-! ## The epoch clock operations -/

/-- C19, as the claim states it, fails in both directions on the world `w0`,
whose global epoch is 7: for the commit epoch 9, which is after the global
epoch, `wait_for_commit` does not wake the advancer; for the commit epoch 5,
which is not after the global epoch, it does. -/
theorem wait_for_commit_counterexample :
    (Examples.w0.current_global_epoch_.before ⟨9⟩ = true ∧
      (wait_for_commit Examples.wait_times_out Examples.w0 ⟨0⟩ ⟨9⟩ 1000).2.wakeups_ = 0) ∧
    (Examples.w0.current_global_epoch_.before ⟨5⟩ = false ∧
      (wait_for_commit Examples.wait_times_out Examples.w0 ⟨0⟩ ⟨5⟩ 1000).2.wakeups_ = 1) := by
  decide

/-- C19, amended.  `wait_for_commit(commit_epoch, timeout)` wakes the epoch
advancer (once) exactly when the commit epoch is before the current global
epoch, and otherwise leaves it alone; in every case it returns the result of
`wait_until_durable(commit_epoch, timeout)` of the log manager unchanged. -/
theorem wait_for_commit_wakes_iff_before (wait_until_durable : Epoch → Int → ErrorCode)
    (w : World) (epoch_advance_thread : StoppableThread) (commit_epoch : Epoch)
    (wait_microseconds : Int) :
    ((wait_for_commit wait_until_durable w epoch_advance_thread commit_epoch
        wait_microseconds).2.wakeups_ = epoch_advance_thread.wakeups_ + 1 ↔
      commit_epoch.before w.current_global_epoch_ = true) ∧
    ((wait_for_commit wait_until_durable w epoch_advance_thread commit_epoch
        wait_microseconds).2 = epoch_advance_thread ↔
      commit_epoch.before w.current_global_epoch_ = false) ∧
    (wait_for_commit wait_until_durable w epoch_advance_thread commit_epoch
        wait_microseconds).1 = wait_until_durable commit_epoch wait_microseconds := by
  unfold wait_for_commit get_current_global_epoch StoppableThread.wakeup
  cases h : commit_epoch.before w.current_global_epoch_
  · simp
  · cases epoch_advance_thread
    simp

/-- C20, evaluated on the schedule `epoch_slow`: the global epoch is 7 at the
first three looks and becomes 8 at the fifth.  The call reads 7, finds the
epoch unchanged, wakes the advancer, reads 7 again, skips the wait because the
epoch does not differ yet, and returns after the third look, at which the
global epoch still equals the epoch read at the start. -/
theorem advance_returns_before_epoch_differs :
    advance_current_global_epoch Examples.epoch_slow 10 ⟨0⟩ = (some 2, ⟨1⟩) ∧
    Examples.epoch_slow 2 = Examples.epoch_slow 0 := by
  decide

/-- Whenever the global epoch is unchanged at the first three looks, the call
returns after the third without waiting, whatever the epoch does later. -/
theorem advance_skips_wait (epoch_at : Nat → Epoch) (fuel : Nat)
    (epoch_advance_thread : StoppableThread)
    (h1 : epoch_at 1 = epoch_at 0) (h2 : epoch_at 2 = epoch_at 0) :
    advance_current_global_epoch epoch_at fuel epoch_advance_thread
      = (some 2, epoch_advance_thread.wakeup) := by
  simp [advance_current_global_epoch, h1, h2]

/-! ## A committed write, then a read of it by the same worker -/

/-- The apply loop leaves alone every record that is not in the write set. -/
theorem apply_loop_records_of_not_mem (types : LogTypes) (new_xct_id : XctId) (context : Thread)
    (ws : List WriteXctAccess) (w : World) (x : Nat)
    (hx : x ∉ ws.map (fun a => a.record_)) :
    (apply_loop types new_xct_id context ws w).records_ x = w.records_ x := by
  induction ws generalizing w with
  | nil => rfl
  | cons a rest ih =>
    simp only [List.map_cons, List.mem_cons, not_or] at hx
    unfold apply_loop
    rw [ih _ hx.2]
    simp only [log.invoke_apply_record]
    split
    · rfl
    · split
      · simp [World.set_record, hx.1]
      · rfl

/-- When the records of the write set are pairwise distinct, the apply loop
leaves in the record of an entry with a registered log type what `apply_record`
of that type makes of the record found there. -/
theorem apply_loop_records_of_mem (types : LogTypes) (new_xct_id : XctId) (context : Thread)
    (ws : List WriteXctAccess) (w : World) (wr : WriteXctAccess) (c : LogType)
    (hnodup : (ws.map (fun a => a.record_)).Nodup) (hwr : wr ∈ ws)
    (hcode : (context.thread_log_buffer_.entries_ wr.log_entry_).header.log_type_code_
      ≠ LOG_TYPE_INVALID)
    (hc : types.xmacro (context.thread_log_buffer_.entries_ wr.log_entry_).header.log_type_code_
      = some c) :
    (apply_loop types new_xct_id context ws w).records_ wr.record_
      = (c.apply_record new_xct_id (context.thread_log_buffer_.entries_ wr.log_entry_)
          wr.storage_ (w.records_ wr.record_)).2 := by
  induction ws generalizing w with
  | nil => simp at hwr
  | cons a rest ih =>
    simp only [List.map_cons, List.nodup_cons] at hnodup
    unfold apply_loop
    rcases List.mem_cons.mp hwr with heq | hmem
    · subst heq
      rw [apply_loop_records_of_not_mem _ _ _ _ _ _ hnodup.1]
      simp [log.invoke_apply_record, hcode, hc, World.set_record]
    · have hne : wr.record_ ≠ a.record_ := by
        intro h
        apply hnodup.1
        rw [← h]
        exact List.mem_map_of_mem _ hmem
      rw [ih _ hnodup.2 hmem]
      congr 1
      simp only [log.invoke_apply_record]
      split
      · rfl
      · split
        · simp [World.set_record, hne]
        · rfl
/-- The apply loop reads the context through its log buffer only. -/
theorem apply_loop_context (types : LogTypes) (new_xct_id : XctId) (context context1 : Thread)
    (hbuf : context1.thread_log_buffer_ = context.thread_log_buffer_)
    (ws : List WriteXctAccess) (w : World) :
    apply_loop types new_xct_id context1 ws w = apply_loop types new_xct_id context ws w := by
  induction ws generalizing w with
  | nil => rfl
  | cons a rest ih =>
    unfold apply_loop
    rw [ih]
    simp only [log.invoke_apply_record, hbuf]

/-- What a read-write `precommit_xct` that returns `kErrorCodeOk` leaves: the
commit epoch is the global epoch, the context is inactive and holds the id
issued for the commit, and the world is the one the apply loop makes of the
locked world with that id. -/
theorem precommit_xct_readwrite_commit (types : LogTypes) (dummy : WriteXctAccess)
    (context : Thread) (w : World) (commit_epoch : Epoch) (r : Result ErrorCode)
    (hactive : context.current_xct_.is_active = true)
    (hschema : context.current_xct_.is_schema_xct = false)
    (hwrite : context.current_xct_.write_set_ ≠ [])
    (h : precommit_xct types dummy context w commit_epoch = Except.ok r)
    (hok : r.ret = ErrorCode.kErrorCodeOk) :
    ∃ w1, lock_loop (sort_write_set context).current_xct_.write_set_ w = Except.ok w1 ∧
      r.commit_epoch = w.current_global_epoch_ ∧
      r.context.current_xct_.id_
        = (context.current_xct_.issue_next_id w.current_global_epoch_).id_ ∧
      r.context.current_xct_.active_ = false ∧
      r.context.current_xct_.max_read_set_size_ = context.current_xct_.max_read_set_size_ ∧
      r.context.current_xct_.thread_id_ = context.current_xct_.thread_id_ ∧
      r.context.thread_id_ = context.thread_id_ ∧
      r.world = apply_loop types (context.current_xct_.issue_next_id w.current_global_epoch_).id_
        context (sort_write_set context).current_xct_.write_set_ w1 := by
  obtain ⟨w1, hl, hreq⟩ :=
    precommit_xct_readwrite_ok types dummy context w commit_epoch r hactive hschema hwrite h
  subst hreq
  rw [precommit_finish_ret] at hok
  have hv : precommit_xct_verify_readwrite dummy (guard_enter (sort_write_set context) w1) w1
      = true := by
    cases hv : precommit_xct_verify_readwrite dummy (guard_enter (sort_write_set context) w1) w1
    · simp [guard_exit, readwrite_guarded_ret, hv] at hok
    · rfl
  have hepoch := (lock_loop_frame _ w w1 hl).1
  refine ⟨w1, hl, ?_⟩
  rw [readwrite_guarded_of_verified types dummy _ w1 hv, hepoch]
  refine ⟨?_, ?_, ?_, ?_, ?_, ?_, ?_⟩
  · simp [precommit_finish, guard_exit]
  · simp [precommit_finish, guard_exit, precommit_xct_apply, Xct.deactivate, Xct.guard_exit,
      Xct.issue_next_id, guard_enter, Xct.guard_enter, sort_write_set]
  · simp [precommit_finish, guard_exit, precommit_xct_apply, Xct.deactivate, Xct.guard_exit,
      Xct.issue_next_id, guard_enter, Xct.guard_enter, sort_write_set]
  · simp [precommit_finish, guard_exit, precommit_xct_apply, Xct.deactivate, Xct.guard_exit,
      Xct.issue_next_id, guard_enter, Xct.guard_enter, sort_write_set]
  · simp [precommit_finish, guard_exit, precommit_xct_apply, Xct.deactivate, Xct.guard_exit,
      Xct.issue_next_id, guard_enter, Xct.guard_enter, sort_write_set]
  · simp [precommit_finish, guard_exit, precommit_xct_apply, guard_enter, sort_write_set]
  · simp only [precommit_finish_world, guard_exit, precommit_xct_apply]
    refine Eq.trans (apply_loop_context types _ context _ ?_ _ _) ?_
    · rfl
    · rfl
/-- C15. Insert then read.  `T1` is an active transaction of a worker whose write
set holds an entry `wr` on the record `R = wr.record_`, the log of the entry
being of a registered type whose `apply_record` publishes the id it is given;
its `precommit_xct` returns `kErrorCodeOk` with the commit epoch `E1`, at a
valid global epoch.  `T2` is what the same worker does next: `begin_xct`, a read
of `R`, `precommit_xct`, with the record `R` as `T1` left it at the read and its
owner id unchanged at the precommit.  Then `begin_xct` returns `kErrorCodeOk`,
the read returns `kErrorCodeOk` and records the id of `T1` as its observation,
the record it finds is what `apply_record` of `T1` made of the locked record,
and the precommit of `T2` returns `kErrorCodeOk` with a commit epoch `E2` that
equals `E1`, so `E2` is not before `E1`. -/
theorem insert_then_read_commits_not_before (types : LogTypes) (dummy dummy2 : WriteXctAccess)
    (context : Thread) (w w2 w3 : World) (commit_epoch commit_epoch2 : Epoch)
    (r1 : Result ErrorCode) (wr : WriteXctAccess) (c : LogType)
    (isolation_level : IsolationLevel) (storage : Nat)
    (hactive : context.current_xct_.is_active = true)
    (hschema : context.current_xct_.is_schema_xct = false)
    (hwr : wr ∈ context.current_xct_.write_set_)
    (hcode : (context.thread_log_buffer_.entries_ wr.log_entry_).header.log_type_code_
      ≠ LOG_TYPE_INVALID)
    (hc : types.xmacro (context.thread_log_buffer_.entries_ wr.log_entry_).header.log_type_code_
      = some c)
    (hpub : ∀ id rec, (c.apply_record id (context.thread_log_buffer_.entries_ wr.log_entry_)
      wr.storage_ rec).2.owner_id_ = id)
    (hglobal : w.current_global_epoch_.is_valid = true)
    (hsize : 0 < context.current_xct_.max_read_set_size_)
    (h1 : precommit_xct types dummy context w commit_epoch = Except.ok r1)
    (hok : r1.ret = ErrorCode.kErrorCodeOk)
    (hw2 : w2.records_ wr.record_ = r1.world.records_ wr.record_)
    (hw3 : w3.owner_id wr.record_ = w2.owner_id wr.record_) :
    (begin_xct r1.context isolation_level).1 = ErrorCode.kErrorCodeOk ∧
    ∃ c3, storage_read (begin_xct r1.context isolation_level).2 w2 storage wr.record_
        = Except.ok (ErrorCode.kErrorCodeOk, c3) ∧
      c3.current_xct_.read_set_ = [⟨r1.context.current_xct_.get_id, storage, wr.record_⟩] ∧
      w2.records_ wr.record_
        = (c.apply_record r1.context.current_xct_.get_id
            (context.thread_log_buffer_.entries_ wr.log_entry_) wr.storage_
            { w.records_ wr.record_ with owner_id_ := (w.owner_id wr.record_).with_keylock }).2 ∧
      ∃ r2, precommit_xct types dummy2 c3 w3 commit_epoch2 = Except.ok r2 ∧
        r2.ret = ErrorCode.kErrorCodeOk ∧
        r2.commit_epoch = r1.commit_epoch ∧
        r2.commit_epoch.before r1.commit_epoch = false := by
  have hwrite : context.current_xct_.write_set_ ≠ [] := List.ne_nil_of_mem hwr
  obtain ⟨w1, hl, hce, hid, hinactive, hmax, -, -, hworld⟩ :=
    precommit_xct_readwrite_commit types dummy context w commit_epoch r1 hactive hschema hwrite
      h1 hok
  have hnodup := (lock_loop_ok_pre _ w w1 hl).1
  have hmem := (mem_sorted_write_set context wr).mpr hwr
  have hlocked : w1.records_ wr.record_
      = { w.records_ wr.record_ with owner_id_ := (w.owner_id wr.record_).with_keylock } := by
    rw [lock_loop_records _ w w1 hl, if_pos (List.mem_map_of_mem _ hmem)]
  have hrec : r1.world.records_ wr.record_
      = (c.apply_record r1.context.current_xct_.get_id
          (context.thread_log_buffer_.entries_ wr.log_entry_) wr.storage_
          { w.records_ wr.record_ with owner_id_ := (w.owner_id wr.record_).with_keylock }).2 := by
    rw [hworld, apply_loop_records_of_mem types _ context _ w1 wr c hnodup hmem hcode hc,
      hlocked, Xct.get_id, hid]
  have hown : w2.owner_id wr.record_ = r1.context.current_xct_.get_id := by
    rw [World.owner_id, hw2, hrec, hpub]
  have hidepoch : r1.context.current_xct_.get_id.get_epoch = w.current_global_epoch_ := by
    rw [Xct.get_id, hid]
    rfl
  have hfree : (w2.owner_id wr.record_).is_keylocked = false := by
    rw [hown, Xct.get_id, hid]
    rfl
  have hbegin : begin_xct r1.context isolation_level
      = (ErrorCode.kErrorCodeOk,
          { r1.context with
            current_xct_ := r1.context.current_xct_.activate isolation_level false }) := by
    simp [begin_xct, Xct.is_active, hinactive]
  have hsize1 : ¬ r1.context.current_xct_.max_read_set_size_ ≤ 0 := by
    rw [hmax]
    omega
  refine ⟨by rw [hbegin], ?_⟩
  rw [hbegin]
  refine ⟨{ r1.context with
      current_xct_ :=
        { r1.context.current_xct_.activate isolation_level false with
          read_set_ := [⟨w2.owner_id wr.record_, storage, wr.record_⟩] } },
    ?_, ?_, hw2.trans hrec, ?_⟩
  · simp only [storage_read, hfree, Bool.false_eq_true, if_false, Xct.add_to_read_set,
      Xct.activate, List.length_nil, hsize1]
    rfl
  · simp [hown]
  · have hro := precommit_xct_readonly_eq types dummy2
      { r1.context with
        current_xct_ :=
          { r1.context.current_xct_.activate isolation_level false with
            read_set_ := [⟨w2.owner_id wr.record_, storage, wr.record_⟩] } }
      w3 commit_epoch2 rfl rfl rfl
    refine ⟨_, hro, ?_⟩
    have hvalid : (Epoch.invalid.store_max (w2.owner_id wr.record_).get_epoch).is_valid = true := by
      rw [Epoch.store_max_of_invalid Epoch.invalid _ rfl, hown, hidepoch]
      exact hglobal
    simp only [precommit_xct_readonly, precommit_xct_verify_readonly, Xct.activate,
      verify_readonly_loop, hw3, ne_eq, not_true_eq_false, if_false, hvalid,
      Bool.not_true, Bool.false_eq_true]
    refine ⟨?_, ?_, ?_⟩
    · simp [precommit_finish]
    · simp only [precommit_finish_commit_epoch]
      rw [Epoch.store_max_of_invalid Epoch.invalid _ rfl, hown, hidepoch, hce]
    · simp only [precommit_finish_commit_epoch]
      rw [Epoch.store_max_of_invalid Epoch.invalid _ rfl, hown, hidepoch, hce]
      exact Epoch.before_self _
/-- Witness of C15: the blind write `ctx_w` of the record at address 100 commits
on `w0` in epoch 7 and leaves the payload `[42]` under the id (7, 4, 0); the
same worker then begins a transaction, reads the record and commits, in the
world the first commit left. -/
theorem insert_then_read_commits_not_before_witness :
    ∃ r1, precommit_xct Examples.types0 Examples.dummy0 Examples.ctx_w Examples.w0 ⟨0⟩
          = Except.ok r1 ∧
      r1.ret = ErrorCode.kErrorCodeOk ∧
      r1.commit_epoch = ⟨7⟩ ∧
      r1.world.records_ 100 = ⟨XctId.set_clean 7 0 4, [42]⟩ ∧
      ∃ c3, storage_read (begin_xct r1.context IsolationLevel.kSerializable).2 r1.world 1000 100
          = Except.ok (ErrorCode.kErrorCodeOk, c3) ∧
        c3.current_xct_.read_set_ = [⟨XctId.set_clean 7 0 4, 1000, 100⟩] ∧
        ∃ r2, precommit_xct Examples.types0 Examples.dummy0 c3 r1.world ⟨0⟩ = Except.ok r2 ∧
          r2.ret = ErrorCode.kErrorCodeOk ∧
          r2.commit_epoch = r1.commit_epoch ∧
          r2.commit_epoch.before r1.commit_epoch = false :=
  ⟨_, rfl, rfl, rfl, rfl,
    match insert_then_read_commits_not_before Examples.types0 Examples.dummy0 Examples.dummy0
      Examples.ctx_w Examples.w0 _ _ ⟨0⟩ ⟨0⟩ _ ⟨Examples.idA, 1000, 100, 8⟩ Examples.rec_type
      IsolationLevel.kSerializable 1000 rfl rfl (List.mem_singleton.mpr rfl)
      (Nat.succ_ne_zero 0) rfl (fun _ _ => rfl) rfl (by decide) rfl rfl rfl rfl with
    | ⟨_, c3, hread, hset, _, r2, h2, hok2, he, hb⟩ => ⟨c3, hread, hset, r2, h2, hok2, he, hb⟩⟩

/-! ## The ids issued along a run -/

theorem Epoch.steps_to_self (base : Epoch) : Epoch.steps_to base base = 0 := by
  simp only [Epoch.steps_to, kEpochIntOverflow, Nat.reducePow]
  omega

theorem Epoch.steps_to_one_more (base g : Epoch) (n : Nat)
    (hbl : base.epoch_ < kEpochIntOverflow) (hgl : g.epoch_ < kEpochIntOverflow)
    (hn : Epoch.steps_to base g = n) (hbound : n + 1 < kEpochIntOverflow - 1) :
    Epoch.steps_to base g.one_more = n + 1 := by
  simp only [kEpochIntOverflow, Nat.reducePow] at hbl hgl hbound
  simp only [Epoch.steps_to, kEpochIntOverflow, Nat.reducePow] at hn
  simp only [Epoch.steps_to, Epoch.one_more, kEpochIntOverflow, kEpochInvalid, Nat.reducePow]
  generalize base.epoch_ = b at *
  generalize g.epoch_ = e at *
  split
  · simp only
    omega
  · simp only
    omega

theorem Epoch.steps_to_inj (base a b : Epoch) (hbl : base.epoch_ < kEpochIntOverflow)
    (hav : a.is_valid = true) (hal : a.epoch_ < kEpochIntOverflow)
    (hbv2 : b.is_valid = true) (hbl2 : b.epoch_ < kEpochIntOverflow)
    (h : Epoch.steps_to base a = Epoch.steps_to base b) : a = b := by
  simp only [Epoch.is_valid, kEpochInvalid, bne_iff_ne, ne_eq, kEpochIntOverflow,
    Nat.reducePow] at hbl hav hal hbv2 hbl2
  simp only [Epoch.steps_to, kEpochIntOverflow, Nat.reducePow] at h
  cases a with
  | mk x =>
    cases b with
    | mk y =>
      simp only at hav hal hbv2 hbl2 h
      congr 1
      omega

/-- An id stays covered when the worker it names issues its next id at the
global epoch, having an ordinal left. -/
theorem XctId.covered_by_issue (base : Epoch) (n : Nat) (o : XctId) (x : Xct) (g : Epoch)
    (hbl : base.epoch_ < kEpochIntOverflow)
    (hgv : g.is_valid = true) (hgl : g.epoch_ < kEpochIntOverflow)
    (hn : Epoch.steps_to base g = n) (hleft : x.ordinal_left g)
    (h : XctId.covered_by base n o x.id_) :
    XctId.covered_by base n o (x.issue_next_id g).id_ := by
  obtain ⟨h1, h2, h3, h4, h5, h6, h7⟩ := h
  refine ⟨h1, h2, hgv, hgl, ?_, ?_, ?_⟩
  · show Epoch.steps_to base o.epoch_ ≤ Epoch.steps_to base g
    omega
  · show Epoch.steps_to base g ≤ n
    omega
  · intro he
    have he1 : o.epoch_ = g := he
    have hc : x.id_.epoch_ = g := by
      apply Epoch.steps_to_inj base _ _ hbl h3 h4 hgv hgl
      rw [he1] at h5
      omega
    show o.ordinal_ ≤ if x.id_.epoch_ = g then (x.id_.ordinal_ + 1) % kOrdinalOverflow else 1
    rw [if_pos hc, Nat.mod_eq_of_lt (hleft hc)]
    have := h7 (he1.trans hc.symm)
    omega

/-- The id a worker that has an ordinal left issues at the global epoch is
newer than every covered id: it differs from it in serial order, and within the
same worker and epoch its ordinal is greater. -/
theorem XctId.issue_newer (base : Epoch) (n : Nat) (o : XctId) (x : Xct) (g : Epoch)
    (hbl : base.epoch_ < kEpochIntOverflow)
    (hgv : g.is_valid = true) (hgl : g.epoch_ < kEpochIntOverflow)
    (hn : Epoch.steps_to base g = n) (hleft : x.ordinal_left g)
    (h : o.ordinal_ = 0 ∨ XctId.covered_by base n o x.id_) :
    o.epoch_ = g → o.ordinal_ < (x.issue_next_id g).id_.ordinal_ := by
  intro he
  show o.ordinal_ < if x.id_.epoch_ = g then (x.id_.ordinal_ + 1) % kOrdinalOverflow else 1
  rcases h with h0 | ⟨_, _, h3, h4, h5, h6, h7⟩
  · split
    · rename_i hc
      rw [Nat.mod_eq_of_lt (hleft hc)]
      omega
    · omega
  · have hc : x.id_.epoch_ = g := by
      apply Epoch.steps_to_inj base _ _ hbl h3 h4 hgv hgl
      rw [he] at h5
      omega
    rw [if_pos hc, Nat.mod_eq_of_lt (hleft hc)]
    have := h7 (he.trans hc.symm)
    omega

theorem XctId.covered_by_mono (base : Epoch) (n : Nat) (o c : XctId)
    (h : XctId.covered_by base n o c) : XctId.covered_by base (n + 1) o c := by
  obtain ⟨h1, h2, h3, h4, h5, h6, h7⟩ := h
  exact ⟨h1, h2, h3, h4, h5, by omega, h7⟩

/-- The id issued at the global epoch is covered once the worker holds it. -/
theorem XctId.covered_by_self (base : Epoch) (n : Nat) (c : XctId)
    (hcv : c.epoch_.is_valid = true) (hcl : c.epoch_.epoch_ < kEpochIntOverflow)
    (hn : Epoch.steps_to base c.epoch_ ≤ n) :
    XctId.covered_by base n c c :=
  ⟨hcv, hcl, hcv, hcl, le_refl _, hn, fun _ => le_refl _⟩
/-- What a schema commit path that returns leaves: it succeeded, the commit
epoch is the global epoch, which is unchanged, and the context holds the next
id, issued at that epoch. -/
theorem precommit_xct_schema_ok (types : LogTypes) (context : Thread) (w : World)
    (commit_epoch : Epoch) (r0 : Result Bool)
    (h : precommit_xct_schema types context w commit_epoch = Except.ok r0) :
    r0.ret = true ∧ r0.commit_epoch = w.current_global_epoch_ ∧
    r0.world.current_global_epoch_ = w.current_global_epoch_ ∧
    r0.context.thread_id_ = context.thread_id_ ∧
    r0.context.current_xct_.thread_id_ = context.current_xct_.thread_id_ ∧
    r0.context.current_xct_.id_
      = (context.current_xct_.issue_next_id w.current_global_epoch_).id_ := by
  simp only [precommit_xct_schema] at h
  split at h
  · cases h
  · rename_i w1 hloop
    simp only [Except.ok.injEq] at h
    subst h
    have hf := schema_loop_frame _ _ _ _ _ _ hloop
    refine ⟨rfl, rfl, hf.2.1, rfl, ?_, ?_⟩
    · simp [guard_exit, guard_enter, Xct.guard_exit, Xct.issue_next_id, Xct.guard_enter]
    · simp [guard_exit, guard_enter, Xct.guard_exit, Xct.issue_next_id, Xct.guard_enter,
        get_current_global_epoch_weak]

theorem precommit_finish_context (r : Result Bool) :
    (precommit_finish r).context.thread_id_ = r.context.thread_id_ ∧
    (precommit_finish r).context.current_xct_.thread_id_ = r.context.current_xct_.thread_id_ ∧
    (precommit_finish r).context.current_xct_.id_ = r.context.current_xct_.id_ := by
  unfold precommit_finish
  split <;> exact ⟨rfl, rfl, rfl⟩

/-- What every return of `precommit_xct` leaves of the clock and of the ids:
the global epoch and the thread ids are as before, and the id held by the
context is the one held before or the next id issued at the global epoch. -/
theorem precommit_xct_id (types : LogTypes) (dummy : WriteXctAccess) (context : Thread)
    (w : World) (commit_epoch : Epoch) (r : Result ErrorCode)
    (h : precommit_xct types dummy context w commit_epoch = Except.ok r) :
    r.world.current_global_epoch_ = w.current_global_epoch_ ∧
    r.context.thread_id_ = context.thread_id_ ∧
    r.context.current_xct_.thread_id_ = context.current_xct_.thread_id_ ∧
    (r.context.current_xct_.id_ = context.current_xct_.id_ ∨
      r.context.current_xct_.id_
        = (context.current_xct_.issue_next_id w.current_global_epoch_).id_) := by
  by_cases hactive : context.current_xct_.is_active = true
  · by_cases hschema : context.current_xct_.is_schema_xct = true
    · simp only [precommit_xct, hactive, hschema, Bool.not_true, Bool.false_eq_true, if_false,
        if_true] at h
      cases hs : precommit_xct_schema types context w commit_epoch with
      | error e => simp [hs] at h
      | ok r0 =>
        simp only [hs, Except.ok.injEq] at h
        subst h
        obtain ⟨_, _, h3, h4, h5, h6⟩ := precommit_xct_schema_ok types context w commit_epoch r0 hs
        obtain ⟨f1, f2, f3⟩ := precommit_finish_context r0
        exact ⟨by rw [precommit_finish_world, h3], by rw [f1, h4], by rw [f2, h5],
          Or.inr (by rw [f3, h6])⟩
    · simp only [Bool.not_eq_true] at hschema
      by_cases hwrite : context.current_xct_.write_set_ = []
      · rw [precommit_xct_readonly_eq types dummy context w commit_epoch hactive hschema hwrite]
          at h
        simp only [Except.ok.injEq] at h
        subst h
        refine ⟨?_, ?_, ?_, Or.inl ?_⟩
        · rw [precommit_finish_world]
        · unfold precommit_finish
          split <;> rfl
        · unfold precommit_finish
          split <;> rfl
        · unfold precommit_finish
          split <;> rfl
      · obtain ⟨w1, hl, hreq⟩ :=
          precommit_xct_readwrite_ok types dummy context w commit_epoch r hactive hschema hwrite h
        subst hreq
        have hepoch := (lock_loop_frame _ w w1 hl).1
        cases hv : precommit_xct_verify_readwrite dummy (guard_enter (sort_write_set context) w1)
          w1
        · rw [readwrite_guarded_of_failed types dummy _ w1 hv]
          refine ⟨?_, ?_, ?_, Or.inl ?_⟩
          · rw [precommit_finish_world]
            simp only [guard_exit, precommit_xct_unlock]
            rw [(unlock_loop_frame _ _).1, hepoch]
          · simp [precommit_finish, guard_exit, guard_enter, sort_write_set]
          · simp [precommit_finish, guard_exit, guard_enter, sort_write_set, Xct.deactivate,
              Xct.guard_exit, Xct.guard_enter]
          · simp [precommit_finish, guard_exit, guard_enter, sort_write_set, Xct.deactivate,
              Xct.guard_exit, Xct.guard_enter]
        · rw [readwrite_guarded_of_verified types dummy _ w1 hv]
          refine ⟨?_, ?_, ?_, Or.inr ?_⟩
          · rw [precommit_finish_world]
            simp only [guard_exit, precommit_xct_apply]
            rw [(apply_loop_frame _ _ _ _ _).1, hepoch]
          · simp [precommit_finish, guard_exit, guard_enter, sort_write_set, precommit_xct_apply]
          · simp [precommit_finish, guard_exit, guard_enter, sort_write_set, precommit_xct_apply,
              Xct.deactivate, Xct.guard_exit, Xct.guard_enter, Xct.issue_next_id]
          · simp [precommit_finish, guard_exit, guard_enter, sort_write_set, precommit_xct_apply,
              Xct.deactivate, Xct.guard_exit, Xct.guard_enter, Xct.issue_next_id, hepoch]
  · simp only [Bool.not_eq_true] at hactive
    simp only [precommit_xct, hactive, Bool.not_false, if_true, Except.ok.injEq] at h
    subst h
    exact ⟨rfl, rfl, rfl, Or.inl rfl⟩

/-- A schema `precommit_xct` that returns issued the next id at the global
epoch, which is the commit epoch it returns. -/
theorem precommit_xct_schema_commit (types : LogTypes) (dummy : WriteXctAccess)
    (context : Thread) (w : World) (commit_epoch : Epoch) (r : Result ErrorCode)
    (hactive : context.current_xct_.is_active = true)
    (hschema : context.current_xct_.is_schema_xct = true)
    (h : precommit_xct types dummy context w commit_epoch = Except.ok r) :
    r.ret = ErrorCode.kErrorCodeOk ∧
    r.commit_epoch = w.current_global_epoch_ ∧
    r.context.current_xct_.id_
      = (context.current_xct_.issue_next_id w.current_global_epoch_).id_ := by
  simp only [precommit_xct, hactive, hschema, Bool.not_true, Bool.false_eq_true, if_false,
    if_true] at h
  cases hs : precommit_xct_schema types context w commit_epoch with
  | error e => simp [hs] at h
  | ok r0 =>
    simp only [hs, Except.ok.injEq] at h
    subst h
    obtain ⟨h1, h2, _, _, _, h6⟩ := precommit_xct_schema_ok types context w commit_epoch r0 hs
    obtain ⟨_, _, f3⟩ := precommit_finish_context r0
    exact ⟨by rw [precommit_finish_ret, h1]; rfl, by rw [precommit_finish_commit_epoch, h2],
      by rw [f3, h6]⟩

/-- A commit that issues an id: a schema `precommit_xct`, or a read-write one
that returns `kErrorCodeOk`.  The commit epoch returned is the global epoch and
the context holds the next id, issued at that epoch. -/
theorem precommit_xct_issues (types : LogTypes) (dummy : WriteXctAccess)
    (context : Thread) (w : World) (commit_epoch : Epoch) (r : Result ErrorCode)
    (hactive : context.current_xct_.is_active = true)
    (hissue : context.current_xct_.is_schema_xct = true ∨ context.current_xct_.write_set_ ≠ [])
    (h : precommit_xct types dummy context w commit_epoch = Except.ok r)
    (hok : r.ret = ErrorCode.kErrorCodeOk) :
    r.commit_epoch = w.current_global_epoch_ ∧
    r.context.current_xct_.id_
      = (context.current_xct_.issue_next_id w.current_global_epoch_).id_ := by
  by_cases hschema : context.current_xct_.is_schema_xct = true
  · exact (precommit_xct_schema_commit types dummy context w commit_epoch r hactive hschema h).2
  · simp only [Bool.not_eq_true] at hschema
    have hwrite : context.current_xct_.write_set_ ≠ [] := by
      rcases hissue with hs | hw
      · rw [hs] at hschema
        cases hschema
      · exact hw
    obtain ⟨_, _, hce, hid, _⟩ :=
      precommit_xct_readwrite_commit types dummy context w commit_epoch r hactive hschema hwrite
        h hok
    exact ⟨hce, hid⟩
theorem begin_xct_ids (context : Thread) (isolation_level : IsolationLevel) :
    (begin_xct context isolation_level).2.thread_id_ = context.thread_id_ ∧
    (begin_xct context isolation_level).2.current_xct_.thread_id_
      = context.current_xct_.thread_id_ ∧
    (begin_xct context isolation_level).2.current_xct_.id_ = context.current_xct_.id_ := by
  by_cases ha : context.current_xct_.is_active = true <;> simp [begin_xct, ha, Xct.activate]

theorem begin_schema_xct_ids (context : Thread) :
    (begin_schema_xct context).2.thread_id_ = context.thread_id_ ∧
    (begin_schema_xct context).2.current_xct_.thread_id_ = context.current_xct_.thread_id_ ∧
    (begin_schema_xct context).2.current_xct_.id_ = context.current_xct_.id_ := by
  by_cases ha : context.current_xct_.is_active = true <;>
    simp [begin_schema_xct, ha, Xct.activate]

theorem abort_xct_ids (context : Thread) :
    (abort_xct context).2.thread_id_ = context.thread_id_ ∧
    (abort_xct context).2.current_xct_.thread_id_ = context.current_xct_.thread_id_ ∧
    (abort_xct context).2.current_xct_.id_ = context.current_xct_.id_ := by
  by_cases ha : context.current_xct_.is_active = true <;>
    simp [abort_xct, ha, Xct.deactivate]

/-- What a step of a worker leaves of the clock and of the ids held by the
workers: the global epoch and the thread ids are as before, and the id held by
a worker is the one it held or its next id, issued at the global epoch. -/
theorem System.step_threads (types : LogTypes) (s s1 : System) (h : System.step types s s1) :
    s1.world.current_global_epoch_ = s.world.current_global_epoch_ ∧
    ∀ t, (s1.threads t).thread_id_ = (s.threads t).thread_id_ ∧
      (s1.threads t).current_xct_.thread_id_ = (s.threads t).current_xct_.thread_id_ ∧
      ((s1.threads t).current_xct_.id_ = (s.threads t).current_xct_.id_ ∨
        (s1.threads t).current_xct_.id_
          = ((s.threads t).current_xct_.issue_next_id s.world.current_global_epoch_).id_) := by
  have key : ∀ (w1 : World) (t0 : Nat) (c : Thread),
      c.thread_id_ = (s.threads t0).thread_id_ →
      c.current_xct_.thread_id_ = (s.threads t0).current_xct_.thread_id_ →
      (c.current_xct_.id_ = (s.threads t0).current_xct_.id_ ∨
        c.current_xct_.id_
          = ((s.threads t0).current_xct_.issue_next_id s.world.current_global_epoch_).id_) →
      ∀ t,
        ((({ s with world := w1 } : System).set_thread t0 c).threads t).thread_id_
            = (s.threads t).thread_id_ ∧
        ((({ s with world := w1 } : System).set_thread t0 c).threads t).current_xct_.thread_id_
            = (s.threads t).current_xct_.thread_id_ ∧
        (((({ s with world := w1 } : System).set_thread t0 c).threads t).current_xct_.id_
            = (s.threads t).current_xct_.id_ ∨
          ((({ s with world := w1 } : System).set_thread t0 c).threads t).current_xct_.id_
            = ((s.threads t).current_xct_.issue_next_id s.world.current_global_epoch_).id_) := by
    intro w1 t0 c h1 h2 h3 t
    by_cases htt : t = t0
    · subst htt
      simp only [System.set_thread, if_true]
      exact ⟨h1, h2, h3⟩
    · simp [System.set_thread, htt]
  cases h with
  | begin_xct t0 isolation_level =>
    obtain ⟨h1, h2, h3⟩ := begin_xct_ids (s.threads t0) isolation_level
    exact ⟨rfl, fun t => key s.world t0 _ h1 h2 (Or.inl h3) t⟩
  | begin_schema_xct t0 =>
    obtain ⟨h1, h2, h3⟩ := begin_schema_xct_ids (s.threads t0)
    exact ⟨rfl, fun t => key s.world t0 _ h1 h2 (Or.inl h3) t⟩
  | read t0 storage record code c hread =>
    have hc : c.thread_id_ = (s.threads t0).thread_id_ ∧
        c.current_xct_.thread_id_ = (s.threads t0).current_xct_.thread_id_ ∧
        c.current_xct_.id_ = (s.threads t0).current_xct_.id_ := by
      unfold storage_read at hread
      split at hread
      · cases hread
      · simp only [Except.ok.injEq, Prod.mk.injEq] at hread
        rw [← hread.2]
        unfold Xct.add_to_read_set
        split <;> exact ⟨rfl, rfl, rfl⟩
    exact ⟨rfl, fun t => key s.world t0 _ hc.1 hc.2.1 (Or.inl hc.2.2) t⟩
  | write t0 storage record entry =>
    have hc : (storage_write (s.threads t0) s.world storage record entry).2.thread_id_
          = (s.threads t0).thread_id_ ∧
        (storage_write (s.threads t0) s.world storage record entry).2.current_xct_.thread_id_
          = (s.threads t0).current_xct_.thread_id_ ∧
        (storage_write (s.threads t0) s.world storage record entry).2.current_xct_.id_
          = (s.threads t0).current_xct_.id_ := by
      unfold storage_write Xct.add_to_write_set
      split <;> simp
    exact ⟨rfl, fun t => key s.world t0 _ hc.1 hc.2.1 (Or.inl hc.2.2) t⟩
  | precommit_xct t0 dummy commit_epoch r hr =>
    obtain ⟨h1, h2, h3, h4⟩ := precommit_xct_id types dummy _ _ commit_epoch r hr
    exact ⟨h1, fun t => key r.world t0 _ h2 h3 h4 t⟩
  | abort_xct t0 =>
    obtain ⟨h1, h2, h3⟩ := abort_xct_ids (s.threads t0)
    exact ⟨rfl, fun t => key s.world t0 _ h1 h2 (Or.inl h3) t⟩

theorem System.step_clock (types : LogTypes) (base : Epoch) (n : Nat) (s s1 : System)
    (h : System.step types s s1) (hc : s.clock base n) : s1.clock base n := by
  obtain ⟨hg, ht⟩ := System.step_threads types s s1 h
  refine ⟨fun t => ?_, hc.base_lt, ?_, ?_, ?_⟩
  · rw [(ht t).1, (ht t).2.1]
    exact hc.thread_ids t
  · rw [hg]
    exact hc.global_valid
  · rw [hg]
    exact hc.global_lt
  · rw [hg]
    exact hc.global_steps

theorem System.advance_clock (base : Epoch) (n : Nat) (s : System) (hc : s.clock base n)
    (hn : n + 1 < kEpochIntOverflow - 1) : s.advance.clock base (n + 1) :=
  ⟨hc.thread_ids, hc.base_lt, (Epoch.one_more_valid _).1, (Epoch.one_more_valid _).2,
    Epoch.steps_to_one_more base _ n hc.base_lt hc.global_lt hc.global_steps hn⟩

/-- A covered id stays covered along a step of a worker in which ordinals are
kept. -/
theorem System.step_covers (types : LogTypes) (base : Epoch) (n : Nat) (s s1 : System)
    (h : System.step types s s1) (hkeep : System.ordinals_kept s s1) (hc : s.clock base n)
    (o : XctId) (ho : s.covers base n o) : s1.covers base n o := by
  rcases ho with h0 | hcov
  · exact Or.inl h0
  · right
    by_cases hsame : (s1.threads o.thread_id_).current_xct_.id_
        = (s.threads o.thread_id_).current_xct_.id_
    · rw [hsame]
      exact hcov
    · rcases ((System.step_threads types s s1 h).2 o.thread_id_).2.2 with hid | hid
      · exact absurd hid hsame
      · rw [hid]
        exact XctId.covered_by_issue base n o _ _ hc.base_lt hc.global_valid hc.global_lt
          hc.global_steps (hkeep _ hsame) hcov

theorem System.advance_covers (base : Epoch) (n : Nat) (s : System) (o : XctId)
    (ho : s.covers base n o) : s.advance.covers base (n + 1) o := by
  rcases ho with h0 | hcov
  · exact Or.inl h0
  · exact Or.inr (XctId.covered_by_mono base n o _ hcov)
/-- Along a run of `k` rounds of the epoch advancer that stays within one
cycle of the epochs and inside the ordinal field, the clock moves `k` steps and
covered ids stay covered. -/
theorem System.reaches_clock (types : LogTypes) (base : Epoch) (n0 k : Nat) (s s1 : System)
    (h : System.reaches_ordinals types s k s1) (hc : s.clock base n0)
    (hbound : n0 + k < kEpochIntOverflow - 1) :
    s1.clock base (n0 + k) ∧ ∀ o, s.covers base n0 o → s1.covers base (n0 + k) o := by
  induction h with
  | refl => exact ⟨hc, fun _ ho => ho⟩
  | step n s1 s2 _ hstep hkeep ih =>
    obtain ⟨hc1, hcov⟩ := ih hbound
    exact ⟨System.step_clock types base _ s1 s2 hstep hc1,
      fun o ho => System.step_covers types base _ s1 s2 hstep hkeep hc1 o (hcov o ho)⟩
  | advance n s1 _ ih =>
    have hb1 : n0 + n + 1 < kEpochIntOverflow - 1 := hbound
    obtain ⟨hc1, hcov⟩ := ih (by omega)
    exact ⟨System.advance_clock base (n0 + n) s1 hc1 hb1,
      fun o ho => System.advance_covers base (n0 + n) s1 o (hcov o ho)⟩

/-- The id issued by `issue_next_id` to a context that has an ordinal left: the
epoch given, the thread id of the context, an ordinal above 0, all status bits
zero. -/
theorem Xct.issue_next_id_wellformed (x : Xct) (epoch : Epoch) (hleft : x.ordinal_left epoch) :
    (x.issue_next_id epoch).get_id.get_thread_id = x.thread_id_ ∧
    (x.issue_next_id epoch).get_id.get_epoch = epoch ∧
    0 < (x.issue_next_id epoch).get_id.get_ordinal ∧
    (x.issue_next_id epoch).get_id.is_status_bits_off = true := by
  refine ⟨rfl, rfl, ?_, rfl⟩
  show 0 < if x.id_.epoch_ = epoch then (x.id_.ordinal_ + 1) % kOrdinalOverflow else 1
  split
  · rename_i hc
    rw [Nat.mod_eq_of_lt (hleft hc)]
    omega
  · omega

/-- A `precommit_xct` of a worker that has an ordinal left keeps the ordinals. -/
theorem System.ordinals_kept_set_thread (s : System) (t : Nat) (w1 : World) (c : Thread)
    (hleft : (s.threads t).current_xct_.ordinal_left s.world.current_global_epoch_) :
    System.ordinals_kept s (({ s with world := w1 } : System).set_thread t c) := by
  intro u hu
  by_cases hut : u = t
  · subst hut
    exact hleft
  · simp [System.set_thread, hut] at hu

/-- A run inside the ordinal field is a run. -/
theorem System.reaches_of_ordinals (types : LogTypes) (s0 s : System) (n : Nat)
    (h : System.reaches_ordinals types s0 n s) : System.reaches types s0 n s := by
  induction h with
  | refl => exact System.reaches.refl
  | step n s1 s2 _ hstep _ ih => exact System.reaches.step n s1 s2 ih hstep
  | advance n s1 _ ih => exact System.reaches.advance n s1 ih

theorem System.set_thread_threads (s : System) (t : Nat) (c : Thread) :
    (s.set_thread t c).threads t = c := by
  simp [System.set_thread]

/-- A step that leaves the id of the worker as it was keeps the ordinals. -/
theorem System.ordinals_kept_of_id (s : System) (t : Nat) (c : Thread)
    (h : c.current_xct_.id_ = (s.threads t).current_xct_.id_) :
    System.ordinals_kept s (s.set_thread t c) := by
  intro u hu
  by_cases hut : u = t
  · subst hut
    rw [System.set_thread_threads] at hu
    exact absurd h hu
  · simp [System.set_thread, hut] at hu

theorem System.reaches_precommit (types : LogTypes) (dummy : WriteXctAccess) (s0 s : System)
    (n t : Nat) (commit_epoch : Epoch)
    (hleft : (s.threads t).current_xct_.ordinal_left s.world.current_global_epoch_)
    (h : System.reaches_ordinals types s0 n s) :
    System.reaches_ordinals types s0 n (s.precommit types dummy t commit_epoch) := by
  unfold System.precommit
  cases hr : XctManagerPimpl.precommit_xct types dummy (s.threads t) s.world commit_epoch with
  | error e => exact h
  | ok r =>
    exact System.reaches_ordinals.step n s _ h
      (System.step.precommit_xct s t dummy commit_epoch r hr)
      (System.ordinals_kept_set_thread s t r.world r.context hleft)

theorem System.reaches_iterate (types : LogTypes) (s0 s : System) (n k : Nat)
    (h : System.reaches_ordinals types s0 n s) :
    System.reaches_ordinals types s0 (n + k) (Nat.iterate System.advance k s) := by
  induction k with
  | zero => exact h
  | succ k ih =>
    rw [Function.iterate_succ_apply']
    exact System.reaches_ordinals.advance (n + k) _ ih

theorem storage_write_ids (context : Thread) (w : World) (storage record : Nat)
    (entry : LogEntry) :
    (storage_write context w storage record entry).2.current_xct_.id_
      = context.current_xct_.id_ := by
  unfold storage_write Xct.add_to_write_set
  split <;> simp

theorem Examples.reaches_begin_write (s0 s : System) (n t record : Nat)
    (h : System.reaches_ordinals Examples.types0 s0 n s) :
    System.reaches_ordinals Examples.types0 s0 n (Examples.begin_write s t record) := by
  have hb := System.reaches_ordinals.step n _ _ h
    (System.step.begin_xct s t IsolationLevel.kSerializable)
    (System.ordinals_kept_of_id s t _
      (begin_xct_ids (s.threads t) IsolationLevel.kSerializable).2.2)
  have hw : System.step Examples.types0 _ _ := System.step.write
    (s.set_thread t (XctManagerPimpl.begin_xct (s.threads t) IsolationLevel.kSerializable).2)
    t 1000 record ⟨⟨1, 16, 3⟩, [42]⟩
  have hk := System.ordinals_kept_of_id
    (s.set_thread t (XctManagerPimpl.begin_xct (s.threads t) IsolationLevel.kSerializable).2)
    t _ (storage_write_ids
      ((s.set_thread t
        (XctManagerPimpl.begin_xct (s.threads t) IsolationLevel.kSerializable).2).threads t)
      s.world 1000 record ⟨⟨1, 16, 3⟩, [42]⟩)
  rw [System.set_thread_threads] at hw hk
  exact System.reaches_ordinals.step n _ _ hb hw hk

theorem Examples.sys_c3_pre_reaches :
    System.reaches_ordinals Examples.types0 Examples.sys_c1 4294967295 Examples.sys_c3_pre := by
  have h1 : System.reaches_ordinals Examples.types0 Examples.sys_c1 0 Examples.sys_c1_read :=
    System.reaches_ordinals.step 0 _ _
      (System.reaches_ordinals.step 0 _ _ System.reaches_ordinals.refl
        (System.step.begin_xct Examples.sys_c1 1 IsolationLevel.kSerializable)
        (System.ordinals_kept_of_id _ 1 _ rfl))
      (System.step.read _ 1 1000 200 ErrorCode.kErrorCodeOk _ rfl)
      (System.ordinals_kept_of_id _ 1 _ rfl)
  have h2 : System.reaches_ordinals Examples.types0 Examples.sys_c1 1 Examples.sys_c2 :=
    System.reaches_precommit _ _ _ _ _ _ _ (by decide)
      (Examples.reaches_begin_write _ _ _ 0 300 (System.reaches_ordinals.advance 0 _ h1))
  have h3 := System.reaches_iterate Examples.types0 _ _ 1 4294967293 h2
  rw [System.advance_iterate 4294967293 Examples.sys_c2 (by decide) (by decide)] at h3
  have h4 : System.reaches_ordinals Examples.types0 Examples.sys_c1 4294967295
      Examples.sys_wrap :=
    System.reaches_ordinals.advance _ _ h3
  exact Examples.reaches_begin_write _ _ _ 0 200 h4

theorem Examples.sys_c1_pre_thread_ids (t : Nat) :
    (Examples.sys_c1_pre.threads t).thread_id_ = t ∧
    (Examples.sys_c1_pre.threads t).current_xct_.thread_id_ = t := by
  by_cases h : t = 0
  · subst h
    exact ⟨rfl, rfl⟩
  · simp [Examples.sys_c1_pre, Examples.begin_write, System.set_thread, h, Examples.sys_workers,
      Examples.ctx_worker]

theorem Examples.sys_c2_pre_reaches :
    System.reaches_ordinals Examples.types0 Examples.sys_c1 1 Examples.sys_c2_pre :=
  Examples.reaches_begin_write _ _ _ 0 300
    (System.reaches_ordinals.advance 0 _
      (System.reaches_ordinals.step 0 _ _
        (System.reaches_ordinals.step 0 _ _ System.reaches_ordinals.refl
          (System.step.begin_xct Examples.sys_c1 1 IsolationLevel.kSerializable)
          (System.ordinals_kept_of_id _ 1 _ rfl))
        (System.step.read _ 1 1000 200 ErrorCode.kErrorCodeOk _ rfl)
        (System.ordinals_kept_of_id _ 1 _ rfl)))

theorem XctId.equals_serial_order_iff (x y : XctId) :
    x.equals_serial_order y = true ↔
      x.epoch_ = y.epoch_ ∧ x.ordinal_ = y.ordinal_ ∧ x.thread_id_ = y.thread_id_ := by
  simp [XctId.equals_serial_order, and_assoc]

/-- What any return of `precommit_xct` leaves in the owner id of a record,
under the apply contract: an id equal in serial order to the one before, or the
id issued for the commit, which the context then holds. -/
theorem precommit_xct_owner_ids (types : LogTypes) (hpub : types.apply_record_publishes)
    (dummy : WriteXctAccess) (context : Thread) (w : World) (commit_epoch : Epoch)
    (r : Result ErrorCode)
    (h : precommit_xct types dummy context w commit_epoch = Except.ok r) (x : Nat) :
    (w.owner_id x).equals_serial_order (r.world.owner_id x) = true ∨
    (r.world.owner_id x = (context.current_xct_.issue_next_id w.current_global_epoch_).id_ ∧
      r.context.current_xct_.id_
        = (context.current_xct_.issue_next_id w.current_global_epoch_).id_) := by
  have hrefl : ∀ y : XctId, y.equals_serial_order y = true := fun y =>
    (XctId.equals_serial_order_iff y y).mpr ⟨rfl, rfl, rfl⟩
  by_cases hactive : context.current_xct_.is_active = true
  · by_cases hschema : context.current_xct_.is_schema_xct = true
    · left
      simp only [precommit_xct, hactive, hschema, Bool.not_true, Bool.false_eq_true, if_false,
        if_true, precommit_xct_schema] at h
      split at h
      · cases h
      · rename_i r0 hs
        split at hs
        · cases hs
        · rename_i w1 hloop
          simp only [Except.ok.injEq] at hs h
          subst hs
          subst h
          have hfr := schema_loop_frame _ _ _ _ _ _ hloop
          rw [precommit_finish_world]
          simp only [guard_exit, World.owner_id, hfr.1]
          exact hrefl _
    · simp only [Bool.not_eq_true] at hschema
      by_cases hwrite : context.current_xct_.write_set_ = []
      · left
        rw [precommit_xct_readonly_eq types dummy context w commit_epoch hactive hschema hwrite]
          at h
        simp only [Except.ok.injEq] at h
        subst h
        rw [precommit_finish_world]
        exact hrefl _
      · obtain ⟨w1, hl, hr⟩ := precommit_xct_readwrite_ok types dummy context w commit_epoch r
          hactive hschema hwrite h
        subst hr
        have hfr := lock_loop_frame _ w w1 hl
        have hlock : (w.owner_id x).equals_serial_order (w1.owner_id x) = true := by
          rw [lock_loop_owner_id _ w w1 hl x]
          split
          · rw [XctId.equals_serial_order_with_keylock]
            exact hrefl _
          · exact hrefl _
        cases hv : precommit_xct_verify_readwrite dummy (guard_enter (sort_write_set context) w1)
          w1
        · left
          rw [readwrite_guarded_of_failed types dummy _ w1 hv, precommit_finish_world]
          have hw : precommit_xct_unlock (guard_enter (sort_write_set context) w1) w1 = w :=
            unlock_loop_lock_loop _ w w1 hl
          simp only [guard_exit, hw]
          exact hrefl _
        · rw [readwrite_guarded_of_verified types dummy _ w1 hv, precommit_finish_world]
          simp only [guard_exit, precommit_xct_apply]
          rcases apply_loop_owner_id_cases types hpub
            ((guard_enter (sort_write_set context) w1).current_xct_.issue_next_id
              w1.current_global_epoch_).get_id
            { guard_enter (sort_write_set context) w1 with
              current_xct_ := (guard_enter (sort_write_set context) w1).current_xct_.issue_next_id
                w1.current_global_epoch_ }
            ((guard_enter (sort_write_set context) w1).current_xct_.issue_next_id
              w1.current_global_epoch_).write_set_ w1 x with h1 | h1
          · left
            rw [h1]
            exact hlock
          · right
            rw [h1, hfr.1]
            constructor
            · simp [Xct.issue_next_id, Xct.get_id, guard_enter, Xct.guard_enter, sort_write_set]
            · simp [precommit_finish, Xct.deactivate, Xct.guard_exit, Xct.issue_next_id,
                guard_enter, Xct.guard_enter, sort_write_set]
  · left
    simp only [Bool.not_eq_true] at hactive
    simp only [precommit_xct, hactive, Bool.not_false, if_true, Except.ok.injEq] at h
    subst h
    exact hrefl _
/-- Covering looks at the serial-order part of an id only. -/
theorem System.covers_congr (base : Epoch) (n : Nat) (s : System) (o o1 : XctId)
    (h : o.equals_serial_order o1 = true) (ho : s.covers base n o) : s.covers base n o1 := by
  obtain ⟨he, hord, ht⟩ := (XctId.equals_serial_order_iff o o1).mp h
  unfold System.covers XctId.covered_by at ho ⊢
  rw [← he, ← hord, ← ht]
  exact ho

theorem System.ids_covered_set_thread (base : Epoch) (n : Nat) (s s1 : System) (w1 : World)
    (t0 : Nat) (c : Thread)
    (hs1 : s1 = ({ s with world := w1 } : System).set_thread t0 c)
    (hcov : ∀ o, s.covers base n o → s1.covers base n o)
    (hk : s.ids_covered base n)
    (hrec : ∀ x, s.covers base n (w1.owner_id x) ∨ s1.covers base n (w1.owner_id x))
    (hread : ∀ a ∈ c.current_xct_.read_set_, s.covers base n a.observed_owner_id_) :
    s1.ids_covered base n := by
  constructor
  · intro x
    have hw : s1.world = w1 := by rw [hs1]; rfl
    rw [hw]
    rcases hrec x with h | h
    · exact hcov _ h
    · exact h
  · intro t a ha
    apply hcov
    by_cases ht : t = t0
    · subst ht
      rw [hs1, System.set_thread_threads] at ha
      exact hread a ha
    · have hthr : s1.threads t = s.threads t := by
        rw [hs1]
        simp [System.set_thread, ht]
      rw [hthr] at ha
      exact hk.read_sets t a ha

/-- Under the apply contract a step of a worker keeps every owner id and every
observation covered. -/
theorem System.step_ids_covered (types : LogTypes) (hpub : types.apply_record_publishes)
    (base : Epoch) (n : Nat) (s s1 : System) (h : System.step types s s1)
    (hkeep : System.ordinals_kept s s1)
    (hc : s.clock base n) (hk : s.ids_covered base n) : s1.ids_covered base n := by
  have hcov : ∀ o, s.covers base n o → s1.covers base n o :=
    fun o => System.step_covers types base n s s1 h hkeep hc o
  have hc1 := System.step_clock types base n s s1 h hc
  cases h with
  | begin_xct t0 isolation_level =>
    apply System.ids_covered_set_thread base n s _ s.world t0 _ rfl hcov hk
      (fun x => Or.inl (hk.records x))
    intro a ha
    rcases begin_xct_read_set (s.threads t0) isolation_level with h1 | h1
    · rw [h1] at ha
      exact hk.read_sets t0 a ha
    · rw [h1] at ha
      cases ha
  | begin_schema_xct t0 =>
    apply System.ids_covered_set_thread base n s _ s.world t0 _ rfl hcov hk
      (fun x => Or.inl (hk.records x))
    intro a ha
    rcases begin_schema_xct_read_set (s.threads t0) with h1 | h1
    · rw [h1] at ha
      exact hk.read_sets t0 a ha
    · rw [h1] at ha
      cases ha
  | read t0 storage record code c hread =>
    apply System.ids_covered_set_thread base n s _ s.world t0 _ rfl hcov hk
      (fun x => Or.inl (hk.records x))
    intro a ha
    rcases storage_read_read_set _ _ _ _ _ _ hread a ha with h1 | h1
    · exact hk.read_sets t0 a h1
    · rw [h1]
      exact hk.records record
  | write t0 storage record entry =>
    apply System.ids_covered_set_thread base n s _ s.world t0 _ rfl hcov hk
      (fun x => Or.inl (hk.records x))
    intro a ha
    rw [storage_write_read_set] at ha
    exact hk.read_sets t0 a ha
  | precommit_xct t0 dummy commit_epoch r hr =>
    apply System.ids_covered_set_thread base n s _ r.world t0 _ rfl hcov hk
    · intro x
      rcases precommit_xct_owner_ids types hpub dummy _ _ commit_epoch r hr x with h1 | ⟨h1, h2⟩
      · exact Or.inl (System.covers_congr base n s _ _ h1 (hk.records x))
      · right
        rw [h1]
        right
        have hthread : ((s.threads t0).current_xct_.issue_next_id
            s.world.current_global_epoch_).id_.thread_id_ = t0 := (hc.thread_ids t0).2
        rw [hthread]
        simp only [System.set_thread, if_true]
        rw [h2]
        exact XctId.covered_by_self base n _ hc.global_valid hc.global_lt
          (le_of_eq hc.global_steps)
    · intro a ha
      rcases (precommit_xct_epochs types hpub dummy _ _ commit_epoch r hr).2.2 with h1 | h1
      · rw [h1] at ha
        exact hk.read_sets t0 a ha
      · rw [h1] at ha
        cases ha
  | abort_xct t0 =>
    apply System.ids_covered_set_thread base n s _ s.world t0 _ rfl hcov hk
      (fun x => Or.inl (hk.records x))
    intro a ha
    rcases abort_xct_read_set (s.threads t0) with h1 | h1
    · rw [h1] at ha
      exact hk.read_sets t0 a ha
    · rw [h1] at ha
      cases ha

theorem System.advance_ids_covered (base : Epoch) (n : Nat) (s : System)
    (hk : s.ids_covered base n) : s.advance.ids_covered base (n + 1) :=
  ⟨fun x => System.advance_covers base n s _ (hk.records x),
    fun t a ha => System.advance_covers base n s _ (hk.read_sets t a ha)⟩

/-- Right after initialisation the clock stands at the global epoch and every
id is covered. -/
theorem System.fresh_start_covered (s : System) (h : s.fresh_start) :
    s.clock s.world.current_global_epoch_ 0 ∧ s.ids_covered s.world.current_global_epoch_ 0 :=
  ⟨⟨h.thread_ids, h.global_lt, h.global_valid, h.global_lt, Epoch.steps_to_self _⟩,
    ⟨fun x => Or.inl (h.ordinals x), fun t a ha => by rw [h.no_reads t] at ha; cases ha⟩⟩

/-- Along a run within one cycle of the epochs and inside the ordinal field,
under the apply contract, every owner id and every observation stays covered. -/
theorem System.reaches_ids_covered (types : LogTypes) (hpub : types.apply_record_publishes)
    (base : Epoch) (n0 k : Nat) (s s1 : System) (h : System.reaches_ordinals types s k s1)
    (hc : s.clock base n0) (hk : s.ids_covered base n0)
    (hbound : n0 + k < kEpochIntOverflow - 1) :
    s1.ids_covered base (n0 + k) := by
  induction h with
  | refl => exact hk
  | step n s1 s2 hrun hstep hkeep ih =>
    exact System.step_ids_covered types hpub base _ s1 s2 hstep hkeep
      (System.reaches_clock types base n0 n s s1 hrun hc hbound).1 (ih hbound)
  | advance n s1 _ ih =>
    have hb1 : n0 + n + 1 < kEpochIntOverflow - 1 := hbound
    exact System.advance_ids_covered base (n0 + n) s1 (ih (by omega))
/-- The id issued differs from the last id of the context: the ordinal field has
more than one value. -/
theorem Xct.issue_next_id_ne (x : Xct) (g : Epoch) : (x.issue_next_id g).id_ ≠ x.id_ := by
  intro h
  have he : g = x.id_.epoch_ := congrArg XctId.epoch_ h
  have ho : (if x.id_.epoch_ = g then (x.id_.ordinal_ + 1) % kOrdinalOverflow else 1)
      = x.id_.ordinal_ := congrArg XctId.ordinal_ h
  rw [if_pos he.symm] at ho
  simp only [kOrdinalOverflow, Nat.reducePow] at ho
  omega

/-- The next id that a worker with an ordinal left issues at the global epoch
differs in serial order from every covered id. -/
theorem System.issue_not_serial (base : Epoch) (n : Nat) (s : System) (hc : s.clock base n)
    (o : XctId) (ho : s.covers base n o) (t0 : Nat)
    (hleft : (s.threads t0).current_xct_.ordinal_left s.world.current_global_epoch_) :
    o.equals_serial_order
      ((s.threads t0).current_xct_.issue_next_id s.world.current_global_epoch_).id_ = false := by
  rw [← Bool.not_eq_true, XctId.equals_serial_order_iff]
  rintro ⟨he, hord, ht⟩
  have ht0 : o.thread_id_ = t0 := ht.trans (hc.thread_ids t0).2
  have hlt := XctId.issue_newer base n o (s.threads t0).current_xct_
    s.world.current_global_epoch_ hc.base_lt hc.global_valid hc.global_lt hc.global_steps
    hleft (by rw [← ht0]; exact ho) he
  omega

theorem XctId.equals_serial_order_trans_false (o x y : XctId)
    (hxy : x.equals_serial_order y = true) (hox : o.equals_serial_order x = false) :
    o.equals_serial_order y = false := by
  rw [← Bool.not_eq_true, XctId.equals_serial_order_iff] at hox ⊢
  rw [XctId.equals_serial_order_iff] at hxy
  intro h
  exact hox ⟨h.1.trans hxy.1.symm, h.2.1.trans hxy.2.1.symm, h.2.2.trans hxy.2.2.symm⟩

/-- A covered id that a record does not carry in serial order is not carried
by it after a step of a worker either, under the apply contract, when the step
keeps the ordinals. -/
theorem System.step_stale (types : LogTypes) (hpub : types.apply_record_publishes)
    (base : Epoch) (n : Nat) (s s1 : System) (h : System.step types s s1)
    (hkeep : System.ordinals_kept s s1)
    (hc : s.clock base n) (o : XctId) (record : Nat) (ho : s.covers base n o)
    (hstale : o.equals_serial_order (s.world.owner_id record) = false) :
    o.equals_serial_order (s1.world.owner_id record) = false := by
  cases h with
  | begin_xct t0 isolation_level => exact hstale
  | begin_schema_xct t0 => exact hstale
  | read t0 storage record code c hread => exact hstale
  | write t0 storage record entry => exact hstale
  | precommit_xct t0 dummy commit_epoch r hr =>
    rcases precommit_xct_owner_ids types hpub dummy _ _ commit_epoch r hr record with h1 | ⟨h1, h2⟩
    · exact XctId.equals_serial_order_trans_false o _ _ h1 hstale
    · show o.equals_serial_order (r.world.owner_id record) = false
      rw [h1]
      refine System.issue_not_serial base n s hc o ho t0 (hkeep t0 ?_)
      rw [System.set_thread_threads, h2]
      exact Xct.issue_next_id_ne _ _
  | abort_xct t0 => exact hstale

theorem System.advance_stale (s : System) (o : XctId) (record : Nat)
    (hstale : o.equals_serial_order (s.world.owner_id record) = false) :
    o.equals_serial_order (s.advance.world.owner_id record) = false := hstale

/-- Along a run within one cycle of the epochs and inside the ordinal field,
under the apply contract, a record never takes again, in serial order, a
covered id it does not carry. -/
theorem System.reaches_stale (types : LogTypes) (hpub : types.apply_record_publishes)
    (base : Epoch) (n0 k : Nat) (s s1 : System) (h : System.reaches_ordinals types s k s1)
    (hc : s.clock base n0) (hbound : n0 + k < kEpochIntOverflow - 1)
    (o : XctId) (record : Nat) (ho : s.covers base n0 o)
    (hstale : o.equals_serial_order (s.world.owner_id record) = false) :
    o.equals_serial_order (s1.world.owner_id record) = false := by
  induction h with
  | refl => exact hstale
  | step n s1 s2 hrun hstep hkeep ih =>
    obtain ⟨hc1, hcov⟩ := System.reaches_clock types base n0 n s s1 hrun hc hbound
    exact System.step_stale types hpub base _ s1 s2 hstep hkeep hc1 o record (hcov o ho)
      (ih hbound)
  | advance n s1 _ ih =>
    have hb1 : n0 + n + 1 < kEpochIntOverflow - 1 := hbound
    exact System.advance_stale s1 o record (ih (by omega))

/-- A transaction with a read-set entry whose record no longer carries the
observed id in serial order: every return of `precommit_xct` is
`kErrorCodeXctRaceAbort`, and `precommit_xct` returns when the write set is
empty or its records are pairwise distinct and not key-locked. -/
theorem precommit_xct_stale_read (types : LogTypes) (dummy : WriteXctAccess) (context : Thread)
    (w : World) (commit_epoch : Epoch)
    (hactive : context.current_xct_.is_active = true)
    (hschema : context.current_xct_.is_schema_xct = false)
    (a : XctAccess) (ha : a ∈ context.current_xct_.read_set_)
    (hstale : a.observed_owner_id_.equals_serial_order (w.owner_id a.record_) = false) :
    (∀ r, precommit_xct types dummy context w commit_epoch = Except.ok r →
      r.ret = ErrorCode.kErrorCodeXctRaceAbort) ∧
    ((context.current_xct_.write_set_.map (fun a => a.record_)).Nodup →
      (∀ wr ∈ context.current_xct_.write_set_, (w.owner_id wr.record_).is_keylocked = false) →
      ∃ r, precommit_xct types dummy context w commit_epoch = Except.ok r ∧
        r.ret = ErrorCode.kErrorCodeXctRaceAbort) := by
  have part1 : ∀ r, precommit_xct types dummy context w commit_epoch = Except.ok r →
      r.ret = ErrorCode.kErrorCodeXctRaceAbort := by
    intro r h
    by_cases hwrite : context.current_xct_.write_set_ = []
    · rw [precommit_xct_readonly_eq types dummy context w commit_epoch hactive hschema hwrite]
        at h
      simp only [Except.ok.injEq] at h
      subst h
      have hne : a.observed_owner_id_ ≠ w.owner_id a.record_ := by
        intro heq
        rw [← heq] at hstale
        have := (XctId.equals_serial_order_iff a.observed_owner_id_ a.observed_owner_id_).mpr
          ⟨rfl, rfl, rfl⟩
        rw [this] at hstale
        cases hstale
      have hf := (verify_readonly_loop_false_iff w context.current_xct_.read_set_
        Epoch.invalid).mpr ⟨a, ha, hne⟩
      rw [precommit_finish_ret]
      simp [precommit_xct_readonly, precommit_xct_verify_readonly_fst, hf]
    · obtain ⟨w1, hl, hr⟩ :=
        precommit_xct_readwrite_ok types dummy context w commit_epoch r hactive hschema hwrite h
      subst hr
      rw [precommit_finish_ret]
      have hv : precommit_xct_verify_readwrite dummy (guard_enter (sort_write_set context) w1) w1
          = false := by
        cases hv : precommit_xct_verify_readwrite dummy (guard_enter (sort_write_set context) w1)
          w1
        · rfl
        · exfalso
          have h1 := (verify_readwrite_loop_true dummy w1 _ _ hv a ha).1
          rw [lock_loop_owner_id _ w w1 hl a.record_] at h1
          split at h1
          · rw [XctId.equals_serial_order_with_keylock, hstale] at h1
            cases h1
          · rw [hstale] at h1
            cases h1
      simp [guard_exit, readwrite_guarded_ret, hv]
  refine ⟨part1, fun hnodup hfree => ?_⟩
  by_cases hwrite : context.current_xct_.write_set_ = []
  · exact ⟨_, precommit_xct_readonly_eq types dummy context w commit_epoch hactive hschema hwrite,
      part1 _ (precommit_xct_readonly_eq types dummy context w commit_epoch hactive hschema
        hwrite)⟩
  · obtain ⟨w1, hl⟩ := lock_sorted_of_pre context w hnodup hfree
    have h := precommit_xct_readwrite_of_lock types dummy context w w1 commit_epoch hactive
      hschema hwrite hl
    exact ⟨_, h, part1 _ h⟩

theorem verify_readwrite_loop_of_clean (dummy : WriteXctAccess) (w : World)
    (ws : List WriteXctAccess) (rs : List XctAccess)
    (h : ∀ a ∈ rs, a.observed_owner_id_.equals_serial_order (w.owner_id a.record_) = true ∧
      (w.owner_id a.record_).is_keylocked = false) :
    verify_readwrite_loop dummy w ws rs = true := by
  induction rs with
  | nil => rfl
  | cons b rest ih =>
    unfold verify_readwrite_loop
    obtain ⟨h1, h2⟩ := h b (List.mem_cons_self _ _)
    simp only [h1, h2, Bool.not_true, Bool.false_eq_true, if_false]
    exact ih (fun a ha => h a (List.mem_cons_of_mem _ ha))

/-- A transaction that is not interfered with commits: when every record of
the read set still carries the id observed, not key-locked, and the records of
the write set are pairwise distinct, not key-locked and not among the records
read, `precommit_xct` returns `kErrorCodeOk`. -/
theorem precommit_xct_clean (types : LogTypes) (dummy : WriteXctAccess) (context : Thread)
    (w : World) (commit_epoch : Epoch)
    (hactive : context.current_xct_.is_active = true)
    (hschema : context.current_xct_.is_schema_xct = false)
    (hreads : ∀ b ∈ context.current_xct_.read_set_,
      b.observed_owner_id_ = w.owner_id b.record_ ∧
      (w.owner_id b.record_).is_keylocked = false)
    (hnodup : (context.current_xct_.write_set_.map (fun a => a.record_)).Nodup)
    (hfree : ∀ wr ∈ context.current_xct_.write_set_,
      (w.owner_id wr.record_).is_keylocked = false)
    (hdisjoint : ∀ b ∈ context.current_xct_.read_set_, ∀ wr ∈ context.current_xct_.write_set_,
      wr.record_ ≠ b.record_) :
    ∃ r, precommit_xct types dummy context w commit_epoch = Except.ok r ∧
      r.ret = ErrorCode.kErrorCodeOk := by
  by_cases hwrite : context.current_xct_.write_set_ = []
  · refine ⟨_, precommit_xct_readonly_eq types dummy context w commit_epoch hactive hschema
      hwrite, ?_⟩
    have hno : ¬ ∃ a ∈ context.current_xct_.read_set_,
        a.observed_owner_id_ ≠ w.owner_id a.record_ := by
      rintro ⟨a, ha, hne⟩
      exact hne (hreads a ha).1
    rw [precommit_finish_ret]
    simp only [precommit_xct_readonly, precommit_xct_verify_readonly_fst]
    have := (verify_readonly_loop_false_iff w context.current_xct_.read_set_
      Epoch.invalid).not.mpr hno
    simp at this
    simp [this]
  · obtain ⟨w1, hl⟩ := lock_sorted_of_pre context w hnodup hfree
    refine ⟨_, precommit_xct_readwrite_of_lock types dummy context w w1 commit_epoch hactive
      hschema hwrite hl, ?_⟩
    have hv : precommit_xct_verify_readwrite dummy (guard_enter (sort_write_set context) w1) w1
        = true := by
      apply verify_readwrite_loop_of_clean
      intro b hb
      have hb1 : b ∈ context.current_xct_.read_set_ := hb
      have hnm : b.record_ ∉ (sort_write_set context).current_xct_.write_set_.map
          (fun a => a.record_) := by
        intro hm
        obtain ⟨wr, hwr, heq⟩ := List.mem_map.mp hm
        exact hdisjoint b hb1 wr ((mem_sorted_write_set context wr).mp hwr) heq
      rw [lock_loop_owner_id _ w w1 hl b.record_, if_neg hnm, ← (hreads b hb1).1]
      refine ⟨(XctId.equals_serial_order_iff _ _).mpr ⟨rfl, rfl, rfl⟩, ?_⟩
      rw [(hreads b hb1).1]
      exact (hreads b hb1).2
    rw [precommit_finish_ret]
    simp [guard_exit, readwrite_guarded_ret, hv]
/-! ## The read-write path over the order of the write set -/

theorem verify_readwrite_loop_by_compare (dummy : WriteXctAccess) (w : World)
    (ws : List WriteXctAccess) (rs : List XctAccess) :
    verify_readwrite_loop_by WriteXctAccess.compare dummy w ws rs
      = verify_readwrite_loop dummy w ws rs := by
  induction rs with
  | nil => rfl
  | cons a rest ih =>
    unfold verify_readwrite_loop_by verify_readwrite_loop
    rw [ih]

/-- With the order that the spec gives for `WriteXctAccess::compare`, the
functions over the order are the functions of the manager. -/
theorem precommit_xct_by_compare (types : LogTypes) (dummy : WriteXctAccess) (context : Thread)
    (w : World) (commit_epoch : Epoch) :
    precommit_xct_by types WriteXctAccess.compare dummy context w commit_epoch
      = precommit_xct types dummy context w commit_epoch := by
  have hg : ∀ c w1, readwrite_guarded_by types WriteXctAccess.compare dummy c w1
      = readwrite_guarded types dummy c w1 := by
    intro c w1
    unfold readwrite_guarded_by readwrite_guarded precommit_xct_verify_readwrite_by
      precommit_xct_verify_readwrite
    simp only [verify_readwrite_loop_by_compare]
  have hrw : precommit_xct_readwrite_by types WriteXctAccess.compare dummy context w commit_epoch
      = precommit_xct_readwrite types dummy context w commit_epoch := by
    unfold precommit_xct_readwrite_by precommit_xct_readwrite precommit_xct_lock_by
      precommit_xct_lock
    have hs : sort_write_set_by WriteXctAccess.compare context = sort_write_set context := rfl
    simp only [hs, hg]
  unfold precommit_xct_by precommit_xct
  rw [hrw]

theorem WriteXctAccess.compare_strict_weak : strict_weak_order WriteXctAccess.compare where
  asymm := WriteXctAccess.write_compare_asymm
  trans := WriteXctAccess.write_compare_trans
  cotrans := by
    intro a b c h
    simp only [WriteXctAccess.compare_iff] at *
    omega

theorem WriteXctAccess.compare_record_strict_weak :
    strict_weak_order WriteXctAccess.compare_record where
  asymm := by
    intro a b h
    simp only [WriteXctAccess.compare_record, decide_eq_true_eq, decide_eq_false_iff_not] at *
    omega
  trans := by
    intro a b c h1 h2
    simp only [WriteXctAccess.compare_record, decide_eq_true_eq] at *
    omega
  cotrans := by
    intro a b c h
    simp only [WriteXctAccess.compare_record, decide_eq_true_eq] at *
    omega

/-- Under the order by record address alone the probe is equivalent to every
entry on its record. -/
theorem WriteXctAccess.equiv_by_compare_record (dummy : WriteXctAccess) (a : XctAccess)
    (wr : WriteXctAccess) (h : wr.record_ = a.record_) :
    WriteXctAccess.equiv_by WriteXctAccess.compare_record wr (dummy.probe a) := by
  simp [WriteXctAccess.equiv_by, WriteXctAccess.compare_record, WriteXctAccess.probe, h]

/-- Under the order by record address and then log-entry address the probe is
equivalent to the entries on its record whose log-entry address is the value of
the field `log_entry_` of the probe, and to no other. -/
theorem WriteXctAccess.equiv_by_compare_iff (dummy : WriteXctAccess) (a : XctAccess)
    (wr : WriteXctAccess) :
    WriteXctAccess.equiv_by WriteXctAccess.compare wr (dummy.probe a) ↔
      wr.record_ = a.record_ ∧ wr.log_entry_ = dummy.log_entry_ := by
  constructor
  · intro h
    exact WriteXctAccess.compare_equiv wr (dummy.probe a) h.1 h.2
  · rintro ⟨h1, h2⟩
    simp [WriteXctAccess.equiv_by, WriteXctAccess.compare, WriteXctAccess.probe, h1, h2]

/-- The elements before the lower bound are less than the value searched, in a
range that is in order. -/
theorem std_lower_bound_loop_lower {α : Type} (comp : α → α → Bool)
    (hcotrans : ∀ a b c, comp a c = true → comp a b = true ∨ comp b c = true)
    (l : List α) (hsorted : l.Pairwise (fun a b => comp b a = false)) (val : α)
    (fuel first len : Nat) (hfuel : len ≤ fuel) (hlen : first + len ≤ l.length) :
    first ≤ std_lower_bound_loop comp l val fuel first len ∧
    ∀ j x, first ≤ j → j < std_lower_bound_loop comp l val fuel first len →
      l[j]? = some x → comp x val = true := by
  induction fuel generalizing first len with
  | zero =>
    refine ⟨Nat.le_refl _, ?_⟩
    intro j x h1 h2
    simp only [std_lower_bound_loop] at h2
    omega
  | succ fuel ih =>
    unfold std_lower_bound_loop
    by_cases h0 : len = 0
    · simp only [h0, if_true]
      refine ⟨Nat.le_refl _, ?_⟩
      intro j x h1 h2
      omega
    · simp only [h0, if_false]
      have hhalf : len / 2 < len := Nat.div_lt_self (Nat.pos_of_ne_zero h0) (by decide)
      have hmid : first + len / 2 < l.length := by omega
      have hget : l[first + len / 2]? = some (l.get ⟨first + len / 2, hmid⟩) := by
        simp [List.getElem?_eq_getElem hmid]
      rw [hget]
      simp only
      by_cases hc : comp (l.get ⟨first + len / 2, hmid⟩) val = true
      · simp only [hc, if_true]
        obtain ⟨hle, hlow⟩ := ih (first + len / 2 + 1) (len - len / 2 - 1) (by omega) (by omega)
        refine ⟨by omega, ?_⟩
        intro j x h1 h2 hx
        by_cases hj : first + len / 2 + 1 ≤ j
        · exact hlow j x hj h2 hx
        · by_cases hjm : j = first + len / 2
          · subst hjm
            rw [hget] at hx
            cases hx
            exact hc
          · have hjlt : j < first + len / 2 := by omega
            have hjl : j < l.length := by omega
            have hxj : x = l.get ⟨j, hjl⟩ := by
              rw [List.getElem?_eq_getElem hjl] at hx
              exact (Option.some.inj hx).symm
            have hord : comp (l.get ⟨first + len / 2, hmid⟩) x = false := by
              rw [hxj]
              exact List.pairwise_iff_get.mp hsorted ⟨j, hjl⟩ ⟨first + len / 2, hmid⟩ hjlt
            rcases hcotrans _ x _ hc with h | h
            · rw [hord] at h
              cases h
            · exact h
      · simp only [hc, Bool.false_eq_true, if_false]
        obtain ⟨hle, hlow⟩ := ih first (len / 2) (by omega) (by omega)
        exact ⟨hle, hlow⟩

/-- In a range that is in order, `std::binary_search` answers `true` whenever
the range holds an element equivalent to the value searched. -/
theorem std_binary_search_complete {α : Type} (comp : α → α → Bool)
    (hcotrans : ∀ a b c, comp a c = true → comp a b = true ∨ comp b c = true)
    (l : List α) (hsorted : l.Pairwise (fun a b => comp b a = false)) (val x : α)
    (hx : x ∈ l) (h1 : comp x val = false) (h2 : comp val x = false) :
    std_binary_search comp l val = true := by
  obtain ⟨j, hj, hjx⟩ := List.getElem_of_mem hx
  have hlow := (std_lower_bound_loop_lower comp hcotrans l hsorted val (l.length + 1) 0 l.length
    (by omega) (by omega)).2
  have hspec := std_lower_bound_loop_spec comp l val (l.length + 1) 0 l.length (by omega)
    (by omega)
  simp only [Nat.zero_add] at hspec
  change _ ∧ (std_lower_bound comp l val = _ ∨ ∃ y, l[std_lower_bound comp l val]? = _ ∧ _)
    at hspec
  change ∀ j x, 0 ≤ j → j < std_lower_bound comp l val → _ at hlow
  have hge : std_lower_bound comp l val ≤ j := by
    by_contra hlt
    have := hlow j x (Nat.zero_le _) (by omega) (by rw [List.getElem?_eq_getElem hj, hjx])
    rw [h1] at this
    cases this
  rcases hspec.2 with heq | ⟨y, hy, hcy⟩
  · omega
  · unfold std_binary_search
    simp only [hy, Bool.not_eq_true']
    by_cases hrj : std_lower_bound comp l val = j
    · rw [hrj, List.getElem?_eq_getElem hj, hjx] at hy
      cases hy
      exact h2
    · have hlt : std_lower_bound comp l val < j := by omega
      have hrl : std_lower_bound comp l val < l.length := by omega
      have hyr : y = l.get ⟨std_lower_bound comp l val, hrl⟩ := by
        rw [List.getElem?_eq_getElem hrl] at hy
        exact (Option.some.inj hy).symm
      have hord : comp x y = false := by
        rw [hyr, ← hjx]
        exact List.pairwise_iff_get.mp hsorted ⟨_, hrl⟩ ⟨j, hj⟩ hlt
      cases hvy : comp val y
      · rfl
      · rcases hcotrans val x y hvy with h | h
        · rw [h2] at h
          cases h
        · rw [hord] at h
          cases h

theorem mem_sort_write_set_by (comp : WriteXctAccess → WriteXctAccess → Bool) (context : Thread)
    (a : WriteXctAccess) :
    a ∈ (sort_write_set_by comp context).current_xct_.write_set_
      ↔ a ∈ context.current_xct_.write_set_ :=
  (std_sort_perm comp context.current_xct_.write_set_).mem_iff

theorem readwrite_guarded_by_ret (types : LogTypes)
    (comp : WriteXctAccess → WriteXctAccess → Bool) (dummy : WriteXctAccess) (context : Thread)
    (w : World) :
    (readwrite_guarded_by types comp dummy context w).ret
      = precommit_xct_verify_readwrite_by comp dummy context w := by
  unfold readwrite_guarded_by
  by_cases h : precommit_xct_verify_readwrite_by comp dummy context w = true <;> simp [h]

/-- The shape of a read-write `precommit_xct` that returns, over the order
`comp`. -/
theorem precommit_xct_by_readwrite_ok (types : LogTypes)
    (comp : WriteXctAccess → WriteXctAccess → Bool) (dummy : WriteXctAccess) (context : Thread)
    (w : World) (commit_epoch : Epoch) (r : Result ErrorCode)
    (hactive : context.current_xct_.is_active = true)
    (hschema : context.current_xct_.is_schema_xct = false)
    (hwrite : context.current_xct_.write_set_ ≠ [])
    (h : precommit_xct_by types comp dummy context w commit_epoch = Except.ok r) :
    ∃ w1, lock_loop (sort_write_set_by comp context).current_xct_.write_set_ w = Except.ok w1 ∧
      r = precommit_finish (guard_exit
            (readwrite_guarded_by types comp dummy
              (guard_enter (sort_write_set_by comp context) w1) w1)) := by
  have hsz : ¬ context.current_xct_.get_write_set_size = 0 := by
    simpa [Xct.get_write_set_size] using hwrite
  simp only [precommit_xct_by, hactive, hschema, hsz, Bool.not_true, Bool.false_eq_true,
    if_false, decide_False, precommit_xct_readwrite_by, precommit_xct_lock_by] at h
  cases hl : lock_loop (sort_write_set_by comp context).current_xct_.write_set_ w with
  | error e => simp [hl] at h
  | ok w1 =>
    simp only [hl, Except.ok.injEq] at h
    exact ⟨w1, rfl, h.symm⟩

/-- A read-write `precommit_xct` returns as soon as phase 1 gets its locks,
over the order `comp`. -/
theorem precommit_xct_by_of_lock (types : LogTypes)
    (comp : WriteXctAccess → WriteXctAccess → Bool) (dummy : WriteXctAccess)
    (context : Thread) (w w1 : World) (commit_epoch : Epoch)
    (hactive : context.current_xct_.is_active = true)
    (hschema : context.current_xct_.is_schema_xct = false)
    (hwrite : context.current_xct_.write_set_ ≠ [])
    (hl : lock_loop (sort_write_set_by comp context).current_xct_.write_set_ w = Except.ok w1) :
    precommit_xct_by types comp dummy context w commit_epoch
      = Except.ok (precommit_finish (guard_exit
          (readwrite_guarded_by types comp dummy
            (guard_enter (sort_write_set_by comp context) w1) w1))) := by
  have hsz : ¬ context.current_xct_.get_write_set_size = 0 := by
    simpa [Xct.get_write_set_size] using hwrite
  simp [precommit_xct_by, hactive, hschema, hsz, precommit_xct_readwrite_by,
    precommit_xct_lock_by, hl]

theorem lock_sorted_by_of_pre (comp : WriteXctAccess → WriteXctAccess → Bool) (context : Thread)
    (w : World)
    (hnodup : (context.current_xct_.write_set_.map (fun a => a.record_)).Nodup)
    (hfree : ∀ a ∈ context.current_xct_.write_set_, (w.owner_id a.record_).is_keylocked = false) :
    ∃ w1, lock_loop (sort_write_set_by comp context).current_xct_.write_set_ w = Except.ok w1 := by
  apply lock_loop_ok_of_pre
  · have hp := std_sort_perm comp context.current_xct_.write_set_
    exact ((hp.map (fun a => a.record_)).nodup_iff).mpr hnodup
  · intro a ha
    exact hfree a ((mem_sort_write_set_by comp context a).mp ha)

/-- The read-write verification loop answers `true` when every read-set entry
equals its record in serial order and the write set, which is in order, holds
an entry equivalent to the probe for every key-locked record of the read set. -/
theorem verify_readwrite_loop_by_of_equiv (comp : WriteXctAccess → WriteXctAccess → Bool)
    (hcomp : strict_weak_order comp) (dummy : WriteXctAccess) (w : World)
    (ws : List WriteXctAccess) (hsorted : ws.Pairwise (fun a b => comp b a = false))
    (rs : List XctAccess)
    (h : ∀ a ∈ rs, a.observed_owner_id_.equals_serial_order (w.owner_id a.record_) = true ∧
      ((w.owner_id a.record_).is_keylocked = true →
        ∃ wr ∈ ws, WriteXctAccess.equiv_by comp wr (dummy.probe a))) :
    verify_readwrite_loop_by comp dummy w ws rs = true := by
  induction rs with
  | nil => rfl
  | cons b rest ih =>
    unfold verify_readwrite_loop_by
    have hb := h b (List.mem_cons_self _ _)
    have hrest := ih (fun a ha => h a (List.mem_cons_of_mem _ ha))
    simp only [hb.1, Bool.not_true, Bool.false_eq_true, if_false]
    by_cases hk : (w.owner_id b.record_).is_keylocked = true
    · obtain ⟨wr, hwr, h1, h2⟩ := hb.2 hk
      have hfound := std_binary_search_complete comp hcomp.cotrans ws hsorted (dummy.probe b) wr
        hwr h1 h2
      unfold WriteXctAccess.probe at hfound
      simp only [hk, if_true, hfound, Bool.not_true, Bool.false_eq_true, if_false]
      exact hrest
    · simp only [hk, Bool.false_eq_true, if_false]
      exact hrest

/-- Phase 2 after phase 1, over the order `comp`: when every read-set entry
equals its record in serial order, every key-locked record of the read set is a
record of the write set, and the write set holds an entry equivalent to the
probe for every record that is both read and written, the binary search finds
every key-locked record of the read set and the verification succeeds. -/
theorem precommit_xct_verify_readwrite_by_self (comp : WriteXctAccess → WriteXctAccess → Bool)
    (hcomp : strict_weak_order comp) (dummy : WriteXctAccess) (context : Thread) (w w1 : World)
    (hreads : ∀ a ∈ context.current_xct_.read_set_,
      a.observed_owner_id_.equals_serial_order (w.owner_id a.record_) = true)
    (hlocked : ∀ a ∈ context.current_xct_.read_set_,
      (w.owner_id a.record_).is_keylocked = true →
      ∃ wr ∈ context.current_xct_.write_set_, wr.record_ = a.record_)
    (hprobe : ∀ a ∈ context.current_xct_.read_set_,
      (∃ wr ∈ context.current_xct_.write_set_, wr.record_ = a.record_) →
      ∃ wr ∈ context.current_xct_.write_set_, WriteXctAccess.equiv_by comp wr (dummy.probe a))
    (hl : lock_loop (sort_write_set_by comp context).current_xct_.write_set_ w = Except.ok w1) :
    (∀ a ∈ context.current_xct_.read_set_, (w1.owner_id a.record_).is_keylocked = true →
      std_binary_search comp (sort_write_set_by comp context).current_xct_.write_set_
        (dummy.probe a) = true) ∧
    precommit_xct_verify_readwrite_by comp dummy
      (guard_enter (sort_write_set_by comp context) w1) w1 = true := by
  have hsorted : (sort_write_set_by comp context).current_xct_.write_set_.Pairwise
      (fun a b => comp b a = false) :=
    std_sort_pairwise comp hcomp.asymm hcomp.trans _
  have hequiv : ∀ a ∈ context.current_xct_.read_set_,
      (w1.owner_id a.record_).is_keylocked = true →
      ∃ wr ∈ (sort_write_set_by comp context).current_xct_.write_set_,
        WriteXctAccess.equiv_by comp wr (dummy.probe a) := by
    intro a ha hk
    have hself : ∃ wr ∈ context.current_xct_.write_set_, wr.record_ = a.record_ := by
      rw [lock_loop_owner_id _ w w1 hl a.record_] at hk
      by_cases hm : a.record_ ∈ (sort_write_set_by comp context).current_xct_.write_set_.map
          (fun a => a.record_)
      · obtain ⟨wr, hwr, heq⟩ := List.mem_map.mp hm
        exact ⟨wr, (mem_sort_write_set_by comp context wr).mp hwr, heq⟩
      · rw [if_neg hm] at hk
        exact hlocked a ha hk
    obtain ⟨wr, hwr, he⟩ := hprobe a ha hself
    exact ⟨wr, (mem_sort_write_set_by comp context wr).mpr hwr, he⟩
  refine ⟨?_, ?_⟩
  · intro a ha hk
    obtain ⟨wr, hwr, h1, h2⟩ := hequiv a ha hk
    exact std_binary_search_complete comp hcomp.cotrans _ hsorted (dummy.probe a) wr hwr h1 h2
  · apply verify_readwrite_loop_by_of_equiv comp hcomp dummy w1 _ hsorted
    intro a ha
    have ha1 : a ∈ context.current_xct_.read_set_ := ha
    refine ⟨?_, hequiv a ha1⟩
    rw [lock_loop_owner_id _ w w1 hl a.record_]
    split
    · rw [XctId.equals_serial_order_with_keylock]
      exact hreads a ha1
    · exact hreads a ha1

/-- A transaction that nothing interferes with commits, over the order `comp`:
every record of its read set still carries the word observed, without
key-lock, the records of its write set are pairwise distinct and not
key-locked, and the write set holds an entry equivalent to the probe for every
record that is both read and written. -/
theorem precommit_xct_by_undisturbed (types : LogTypes)
    (comp : WriteXctAccess → WriteXctAccess → Bool) (hcomp : strict_weak_order comp)
    (dummy : WriteXctAccess) (context : Thread) (w : World) (commit_epoch : Epoch)
    (hactive : context.current_xct_.is_active = true)
    (hschema : context.current_xct_.is_schema_xct = false)
    (hreads : ∀ b ∈ context.current_xct_.read_set_,
      b.observed_owner_id_ = w.owner_id b.record_ ∧
      (w.owner_id b.record_).is_keylocked = false)
    (hnodup : (context.current_xct_.write_set_.map (fun a => a.record_)).Nodup)
    (hfree : ∀ wr ∈ context.current_xct_.write_set_,
      (w.owner_id wr.record_).is_keylocked = false)
    (hprobe : ∀ b ∈ context.current_xct_.read_set_,
      (∃ wr ∈ context.current_xct_.write_set_, wr.record_ = b.record_) →
      ∃ wr ∈ context.current_xct_.write_set_, WriteXctAccess.equiv_by comp wr (dummy.probe b)) :
    ∃ r, precommit_xct_by types comp dummy context w commit_epoch = Except.ok r ∧
      r.ret = ErrorCode.kErrorCodeOk := by
  by_cases hwrite : context.current_xct_.write_set_ = []
  · obtain ⟨r, hr, hok⟩ := precommit_xct_clean types dummy context w commit_epoch hactive
      hschema hreads hnodup hfree (by rw [hwrite]; intro _ _ x hx; cases hx)
    refine ⟨r, ?_, hok⟩
    rw [← hr]
    simp [precommit_xct_by, precommit_xct, hactive, hschema, Xct.get_write_set_size, hwrite]
  · obtain ⟨w1, hl⟩ := lock_sorted_by_of_pre comp context w hnodup hfree
    refine ⟨_, precommit_xct_by_of_lock types comp dummy context w w1 commit_epoch hactive
      hschema hwrite hl, ?_⟩
    have hv := (precommit_xct_verify_readwrite_by_self comp hcomp dummy context w w1
      (fun a ha => by
        rw [(hreads a ha).1]
        exact (XctId.equals_serial_order_iff _ _).mpr ⟨rfl, rfl, rfl⟩)
      (fun a ha hk => by
        rw [(hreads a ha).2] at hk
        cases hk)
      hprobe hl).2
    rw [precommit_finish_ret]
    simp [guard_exit, readwrite_guarded_by_ret, hv]

theorem System.reaches_trans (types : LogTypes) (s0 s1 s2 : System) (n k : Nat)
    (h1 : System.reaches_ordinals types s0 n s1) (h2 : System.reaches_ordinals types s1 k s2) :
    System.reaches_ordinals types s0 (n + k) s2 := by
  induction h2 with
  | refl => exact h1
  | step m s3 s4 _ hstep hkeep ih =>
    exact System.reaches_ordinals.step (n + m) s3 s4 ih hstep hkeep
  | advance m s3 _ ih => exact System.reaches_ordinals.advance (n + m) s3 ih

theorem storage_read_ids (context : Thread) (w : World) (storage record : Nat)
    (code : ErrorCode) (c : Thread)
    (h : storage_read context w storage record = Except.ok (code, c)) :
    c.current_xct_.id_ = context.current_xct_.id_ := by
  unfold storage_read at h
  split at h
  · cases h
  · simp only [Except.ok.injEq, Prod.mk.injEq] at h
    rw [← h.2]
    unfold Xct.add_to_read_set
    split <;> rfl

theorem Examples.reaches_begin_read (s0 s : System) (n t record : Nat)
    (h : System.reaches_ordinals Examples.types0 s0 n s) :
    System.reaches_ordinals Examples.types0 s0 n (Examples.begin_read s t record) := by
  have hb := System.reaches_ordinals.step n _ _ h
    (System.step.begin_xct s t IsolationLevel.kSerializable)
    (System.ordinals_kept_of_id s t _
      (begin_xct_ids (s.threads t) IsolationLevel.kSerializable).2.2)
  unfold Examples.begin_read storage_read_context
  cases hr : storage_read (XctManagerPimpl.begin_xct (s.threads t) IsolationLevel.kSerializable).2
      s.world 1000 record with
  | error e =>
    have hsame : (s.set_thread t
          (XctManagerPimpl.begin_xct (s.threads t) IsolationLevel.kSerializable).2).set_thread t
          (XctManagerPimpl.begin_xct (s.threads t) IsolationLevel.kSerializable).2
        = s.set_thread t
          (XctManagerPimpl.begin_xct (s.threads t) IsolationLevel.kSerializable).2 := by
      simp only [System.set_thread]
      congr 1
      funext i
      by_cases hi : i = t <;> simp [hi]
    simp only [hsame]
    exact hb
  | ok r =>
    have hstep : System.step Examples.types0 _ _ := System.step.read
      (s.set_thread t (XctManagerPimpl.begin_xct (s.threads t) IsolationLevel.kSerializable).2)
      t 1000 record r.1 r.2 (by rw [System.set_thread_threads]; exact hr)
    refine System.reaches_ordinals.step n _ _ hb hstep ?_
    apply System.ordinals_kept_of_id
    rw [System.set_thread_threads]
    exact storage_read_ids _ _ _ _ r.1 r.2 hr

theorem Examples.sys_workers_fresh_start : Examples.sys_workers.fresh_start where
  thread_ids := fun _ => ⟨rfl, rfl⟩
  global_valid := rfl
  global_lt := by decide
  no_reads := fun _ => rfl
  ordinals := fun _ => rfl

theorem Examples.sys_c1_reaches :
    System.reaches_ordinals Examples.types0 Examples.sys_workers 0 Examples.sys_c1 :=
  System.reaches_precommit _ _ _ _ _ _ _ (by decide)
    (Examples.reaches_begin_write _ _ _ 0 200 System.reaches_ordinals.refl)

theorem Examples.sys_b_pre_reaches :
    System.reaches_ordinals Examples.types0 Examples.sys_workers 0 Examples.sys_b_pre :=
  Examples.reaches_begin_write _ _ _ 0 200
    (Examples.reaches_begin_read _ _ _ 1 200 Examples.sys_c1_reaches)

/-- C24. The dispatch of the log applies is total over the type code.  With
`code` the type code in the header of the log entry: when `code` is
`LOG_TYPE_INVALID` or has no row in the log-type table, each of
`invoke_apply_engine`, `invoke_apply_storage` and `invoke_apply_record` returns
the invalid-log-type error and leaves the state as it was, the history of apply
invocations included (no apply routine ran); when `code` is another code with
the row `c`, each returns the error code that the apply routine of `c` returns,
leaves the state that this routine makes, and adds that one invocation to the
history. -/
theorem invoke_apply_dispatch (types : LogTypes) (xct_id : XctId) (buffer : Nat)
    (context : Thread) (storage : Option Nat) (record_storage record : Nat) (w : World) :
    (((context.thread_log_buffer_.entries_ buffer).header.log_type_code_ = LOG_TYPE_INVALID ∨
        types.xmacro (context.thread_log_buffer_.entries_ buffer).header.log_type_code_ = none) →
      log.invoke_apply_engine types xct_id buffer context w
        = (ErrorCode.kErrorCodeLogInvalidLogType, w) ∧
      log.invoke_apply_storage types xct_id buffer context storage w
        = (ErrorCode.kErrorCodeLogInvalidLogType, w) ∧
      log.invoke_apply_record types xct_id buffer context record_storage record w
        = (ErrorCode.kErrorCodeLogInvalidLogType, w)) ∧
    (∀ c : LogType,
      (context.thread_log_buffer_.entries_ buffer).header.log_type_code_ ≠ LOG_TYPE_INVALID →
      types.xmacro (context.thread_log_buffer_.entries_ buffer).header.log_type_code_ = some c →
      log.invoke_apply_engine types xct_id buffer context w
        = ((c.apply_engine xct_id (context.thread_log_buffer_.entries_ buffer)
              w.storage_manager_).1,
            { w with
              storage_manager_ := (c.apply_engine xct_id
                (context.thread_log_buffer_.entries_ buffer) w.storage_manager_).2,
              applied_ := w.applied_ ++ [ApplyCall.engine xct_id buffer] }) ∧
      log.invoke_apply_storage types xct_id buffer context storage w
        = ((c.apply_storage xct_id (context.thread_log_buffer_.entries_ buffer) storage
              w.storage_manager_).1,
            { w with
              storage_manager_ := (c.apply_storage xct_id
                (context.thread_log_buffer_.entries_ buffer) storage w.storage_manager_).2,
              applied_ := w.applied_ ++ [ApplyCall.storage xct_id buffer storage] }) ∧
      log.invoke_apply_record types xct_id buffer context record_storage record w
        = ((c.apply_record xct_id (context.thread_log_buffer_.entries_ buffer) record_storage
              (w.records_ record)).1,
            { w.set_record record (c.apply_record xct_id
                (context.thread_log_buffer_.entries_ buffer) record_storage
                (w.records_ record)).2 with
              applied_ := w.applied_ ++
                [ApplyCall.record xct_id buffer record_storage record] })) := by
  constructor
  · rintro (h | h)
    · simp [log.invoke_apply_engine, log.invoke_apply_storage, log.invoke_apply_record, h]
    · simp [log.invoke_apply_engine, log.invoke_apply_storage, log.invoke_apply_record, h]
  · intro c hcode hc
    simp [log.invoke_apply_engine, log.invoke_apply_storage, log.invoke_apply_record, hcode, hc]

/-! ## Initialisation and the epoch clock -/

/-- C21, evaluated where assertions are compiled out: with the storage manager
initialised and a savepoint whose current epoch is the invalid epoch,
`initialize_once` runs past its `ASSERT_ND(get_current_global_epoch().is_valid())`
and returns `kErrorCodeOk` (no error), with the epoch advance thread started and
an invalid current global epoch; where assertions are compiled in, the same
call is aborted at the assertion. -/
theorem initialize_once_accepts_invalid_epoch :
    (⟨Epoch.invalid⟩ : Savepoint).current_epoch_.is_valid = false ∧
    (∃ r, initialize_once false true ⟨Epoch.invalid⟩ Examples.w0 = Except.ok r ∧
      r.error_code = ErrorCode.kErrorCodeOk ∧
      r.epoch_advance_thread_started = true ∧
      (get_current_global_epoch r.world).is_valid = false) ∧
    initialize_once true true ⟨Epoch.invalid⟩ Examples.w0 = Except.error Halt.fatal :=
  ⟨rfl, ⟨_, rfl, rfl, rfl, rfl⟩, rfl⟩

/-- The results of `initialize_once`.  It returns the error
`kErrorCodeDepedentModuleUnavailableInit` when the storage manager is not
initialised, changing nothing.  Otherwise it loads the current epoch of the
savepoint as the current global epoch; when that epoch is valid it starts the
epoch advance thread and returns `kErrorCodeOk`; when it is invalid the call is
aborted at the assertion where assertions are compiled in, and where they are
compiled out it starts the thread and returns `kErrorCodeOk` all the same. -/
theorem initialize_once_results (assertions_enabled : Bool)
    (storage_manager_initialized : Bool) (savepoint : Savepoint) (w : World) :
    (storage_manager_initialized = false →
      initialize_once assertions_enabled storage_manager_initialized savepoint w
        = Except.ok { error_code := ErrorCode.kErrorCodeDepedentModuleUnavailableInit,
                      world := w, epoch_advance_thread_started := false }) ∧
    (storage_manager_initialized = true → savepoint.current_epoch_.is_valid = true →
      initialize_once assertions_enabled storage_manager_initialized savepoint w
        = Except.ok { error_code := ErrorCode.kErrorCodeOk,
                      world := { w with current_global_epoch_ := savepoint.current_epoch_ },
                      epoch_advance_thread_started := true }) ∧
    (storage_manager_initialized = true → savepoint.current_epoch_.is_valid = false →
      assertions_enabled = true →
      initialize_once assertions_enabled storage_manager_initialized savepoint w
        = Except.error Halt.fatal) ∧
    (storage_manager_initialized = true → savepoint.current_epoch_.is_valid = false →
      assertions_enabled = false →
      initialize_once assertions_enabled storage_manager_initialized savepoint w
        = Except.ok { error_code := ErrorCode.kErrorCodeOk,
                      world := { w with current_global_epoch_ := savepoint.current_epoch_ },
                      epoch_advance_thread_started := true }) := by
  refine ⟨?_, ?_, ?_, ?_⟩
  · intro h
    simp [initialize_once, h]
  · intro h hv
    simp [initialize_once, h, ASSERT_ND, get_current_global_epoch, hv]
  · intro h hv ha
    simp [initialize_once, h, ASSERT_ND, get_current_global_epoch, hv, ha]
  · intro h hv ha
    simp [initialize_once, h, ASSERT_ND, get_current_global_epoch, hv, ha]

theorem Epoch.one_more_after (e : Epoch) (hlt : e.epoch_ < kEpochIntOverflow) :
    e.one_more ≠ e ∧ e.before e.one_more = true := by
  cases e with
  | mk x =>
    simp only [kEpochIntOverflow, Nat.reducePow] at hlt
    simp only [Epoch.one_more, Epoch.before, kEpochIntOverflow, kEpochInvalid, kEpochIntHalf,
      Nat.reducePow]
    split
    · rename_i h0
      constructor
      · intro h
        simp only [Epoch.mk.injEq] at h
        omega
      · simp only [Bool.or_eq_true, Bool.and_eq_true, decide_eq_true_eq]
        left
        push_cast
        omega
    · rename_i h0
      constructor
      · intro h
        simp only [Epoch.mk.injEq] at h
        omega
      · simp only [Bool.or_eq_true, Bool.and_eq_true, decide_eq_true_eq]
        right
        have : (x + 1) % 4294967296 = x + 1 := by omega
        rw [this]
        push_cast
        omega

/-- Along a run the global epoch stays a valid 32-bit epoch. -/
theorem System.reaches_global_valid (types : LogTypes) (s0 s : System) (n : Nat)
    (h : System.reaches types s0 n s)
    (hv : s0.world.current_global_epoch_.is_valid = true)
    (hlt : s0.world.current_global_epoch_.epoch_ < kEpochIntOverflow) :
    s.world.current_global_epoch_.is_valid = true ∧
    s.world.current_global_epoch_.epoch_ < kEpochIntOverflow := by
  induction h with
  | refl => exact ⟨hv, hlt⟩
  | step n s1 s2 _ hstep ih =>
    rw [(System.step_threads types s1 s2 hstep).1]
    exact ih
  | advance n s1 _ _ => exact Epoch.one_more_valid _

/-- C25. One round of the epoch advancer replaces the current global epoch by
its successor `one_more()`, which is a valid 32-bit epoch, differs from the
previous one and is after it in the order of the epochs.  Hence along every
run of worker steps and rounds of the advancer that starts in a state whose
global epoch is a valid 32-bit epoch, as `initialize_once` leaves it when the
epoch of the savepoint is one, the global epoch is valid in every state, which
is what the advancer asserts before each round. -/
theorem epoch_advance_keeps_valid :
    (∀ w : World, w.current_global_epoch_.epoch_ < kEpochIntOverflow →
      get_current_global_epoch (handle_epoch_advance_step w)
        = (get_current_global_epoch w).one_more ∧
      (get_current_global_epoch (handle_epoch_advance_step w)).is_valid = true ∧
      (get_current_global_epoch (handle_epoch_advance_step w)).epoch_ < kEpochIntOverflow ∧
      get_current_global_epoch (handle_epoch_advance_step w) ≠ get_current_global_epoch w ∧
      (get_current_global_epoch w).before
        (get_current_global_epoch (handle_epoch_advance_step w)) = true) ∧
    (∀ (types : LogTypes) (s0 s : System) (n : Nat),
      s0.world.current_global_epoch_.is_valid = true →
      s0.world.current_global_epoch_.epoch_ < kEpochIntOverflow →
      System.reaches types s0 n s →
      (get_current_global_epoch s.world).is_valid = true) ∧
    (∀ (types : LogTypes) (assertions_enabled : Bool) (savepoint : Savepoint) (w : World)
      (r : InitResult) (threads : Nat → Thread) (s : System) (n : Nat),
      savepoint.current_epoch_.is_valid = true →
      savepoint.current_epoch_.epoch_ < kEpochIntOverflow →
      initialize_once assertions_enabled true savepoint w = Except.ok r →
      System.reaches types ⟨r.world, threads⟩ n s →
      (get_current_global_epoch s.world).is_valid = true) := by
  refine ⟨?_, ?_, ?_⟩
  · intro w hlt
    have h1 := Epoch.one_more_valid w.current_global_epoch_
    have h2 := Epoch.one_more_after w.current_global_epoch_ hlt
    exact ⟨rfl, h1.1, h1.2, h2.1, h2.2⟩
  · intro types s0 s n hv hlt hrun
    exact (System.reaches_global_valid types s0 s n hrun hv hlt).1
  · intro types assertions_enabled savepoint w r threads s n hv hlt hinit hrun
    have hr : r.world.current_global_epoch_ = savepoint.current_epoch_ := by
      simp only [initialize_once, Bool.not_true, Bool.false_eq_true, if_false, ASSERT_ND,
        get_current_global_epoch, hv, Bool.and_false, Except.ok.injEq] at hinit
      rw [← hinit]
    exact (System.reaches_global_valid types ⟨r.world, threads⟩ s n hrun
      (by rw [hr]; exact hv) (by rw [hr]; exact hlt)).1

/-! ## The in-commit log epoch of the context -/

theorem precommit_finish_in_commit_log_epoch (r : Result Bool) :
    (precommit_finish r).context.current_xct_.in_commit_log_epoch_
      = r.context.current_xct_.in_commit_log_epoch_ := by
  unfold precommit_finish
  split <;> rfl

theorem readwrite_guarded_in_commit_log_epoch (types : LogTypes) (dummy : WriteXctAccess)
    (context : Thread) (w : World) :
    (readwrite_guarded types dummy context w).context.current_xct_.in_commit_log_epoch_
      = context.current_xct_.in_commit_log_epoch_ := by
  cases hv : precommit_xct_verify_readwrite dummy context w
  · rw [readwrite_guarded_of_failed types dummy context w hv]
  · rw [readwrite_guarded_of_verified types dummy context w hv]
    rfl

/-- C22. The in-commit log epoch of the context is cleared on every exit of the
read-write path and of the schema path: after any return of `precommit_xct`
from one of them the field `in_commit_log_epoch_` is the invalid epoch.  On the
read-write path the guard installs the global epoch read in the state `w1`
that the lock phase left: the context on which phase 2 and then the apply or
the unlock run (`readwrite_guarded`), the context that the apply loop is given
and the context these leave before the guard is destroyed all hold that epoch.
On the schema path the context on which the schema log is applied holds the
global epoch read at the construction of the guard. -/
theorem in_commit_log_epoch_cleared_on_exit (types : LogTypes) (dummy : WriteXctAccess)
    (context : Thread) (w : World) (commit_epoch : Epoch) (r : Result ErrorCode)
    (hactive : context.current_xct_.is_active = true)
    (hpath : context.current_xct_.is_schema_xct = true ∨ context.current_xct_.write_set_ ≠ [])
    (h : precommit_xct types dummy context w commit_epoch = Except.ok r) :
    r.context.current_xct_.in_commit_log_epoch_ = Epoch.invalid ∧
    (context.current_xct_.is_schema_xct = false →
      ∃ w1, precommit_xct_lock context w = Except.ok (sort_write_set context, w1) ∧
        r = precommit_finish (guard_exit
          (readwrite_guarded types dummy (guard_enter (sort_write_set context) w1) w1)) ∧
        (guard_enter (sort_write_set context) w1).current_xct_.in_commit_log_epoch_
          = get_current_global_epoch_weak w1 ∧
        (precommit_xct_apply types (guard_enter (sort_write_set context) w1) w1
            (get_current_global_epoch_weak w1)).1.current_xct_.in_commit_log_epoch_
          = get_current_global_epoch_weak w1 ∧
        (readwrite_guarded types dummy (guard_enter (sort_write_set context) w1)
            w1).context.current_xct_.in_commit_log_epoch_
          = get_current_global_epoch_weak w1) ∧
    (context.current_xct_.is_schema_xct = true →
      ∃ w1, schema_loop types
          ((guard_enter context w).current_xct_.issue_next_id
            (get_current_global_epoch_weak w)).get_id
          { guard_enter context w with
            current_xct_ := (guard_enter context w).current_xct_.issue_next_id
              (get_current_global_epoch_weak w) }
          context.thread_log_buffer_.list_uncommitted_logs w = Except.ok w1 ∧
        r.world = w1 ∧
        ((guard_enter context w).current_xct_.issue_next_id
          (get_current_global_epoch_weak w)).in_commit_log_epoch_
          = get_current_global_epoch_weak w) := by
  by_cases hschema : context.current_xct_.is_schema_xct = true
  · have h0 := h
    simp only [precommit_xct, hactive, hschema, Bool.not_true, Bool.false_eq_true, if_false,
      if_true, precommit_xct_schema] at h
    split at h
    · cases h
    · rename_i r0 hs
      split at hs
      · cases hs
      · rename_i w1 hloop
        simp only [Except.ok.injEq] at hs h
        subst hs
        subst h
        refine ⟨?_, fun hf => ?_, fun _ => ⟨w1, hloop, ?_, rfl⟩⟩
        · rw [precommit_finish_in_commit_log_epoch]
          rfl
        · rw [hschema] at hf
          cases hf
        · rw [precommit_finish_world]
          rfl
  · simp only [Bool.not_eq_true] at hschema
    have hwrite : context.current_xct_.write_set_ ≠ [] := by
      rcases hpath with hs | hw
      · rw [hs] at hschema
        cases hschema
      · exact hw
    obtain ⟨w1, hl, hr⟩ :=
      precommit_xct_readwrite_ok types dummy context w commit_epoch r hactive hschema hwrite h
    refine ⟨?_, fun _ => ⟨w1, ?_, hr, rfl, rfl, ?_⟩, fun hs => ?_⟩
    · rw [hr, precommit_finish_in_commit_log_epoch]
      rfl
    · simp only [precommit_xct_lock, hl]
    · rw [readwrite_guarded_in_commit_log_epoch]
      rfl
    · rw [hs] at hschema
      cases hschema

/-- Witness of C22: the blind write `ctx_w` on `w0`, whose commit installs the
global epoch 7 while it applies and leaves the invalid epoch. -/
theorem in_commit_log_epoch_cleared_on_exit_witness :
    (guard_enter (sort_write_set Examples.ctx_w)
      Examples.w0).current_xct_.in_commit_log_epoch_ = ⟨7⟩ ∧
    ∃ r, precommit_xct Examples.types0 Examples.dummy0 Examples.ctx_w Examples.w0 ⟨0⟩
          = Except.ok r ∧
      r.ret = ErrorCode.kErrorCodeOk ∧
      r.context.current_xct_.in_commit_log_epoch_ = Epoch.invalid :=
  ⟨rfl, _, rfl, rfl,
    (in_commit_log_epoch_cleared_on_exit Examples.types0 Examples.dummy0 Examples.ctx_w
      Examples.w0 ⟨0⟩ _ rfl (Or.inr (List.cons_ne_nil _ _)) rfl).1⟩

/-! ## Status bits in the two verifications -/

theorem storage_read_unlocked (context : Thread) (w : World) (storage record : Nat)
    (code : ErrorCode) (c : Thread)
    (h : storage_read context w storage record = Except.ok (code, c)) :
    (w.owner_id record).is_keylocked = false := by
  unfold storage_read at h
  split at h
  · cases h
  · rename_i hk
    simpa using hk

/-- The context that any return of `precommit_xct` leaves is the context of the
call, or has an empty read set. -/
theorem precommit_xct_read_set (types : LogTypes) (dummy : WriteXctAccess) (context : Thread)
    (w : World) (commit_epoch : Epoch) (r : Result ErrorCode)
    (h : precommit_xct types dummy context w commit_epoch = Except.ok r) :
    r.context = context ∨ r.context.current_xct_.read_set_ = [] := by
  by_cases hactive : context.current_xct_.is_active = true
  · right
    rcases precommit_xct_ok_cases types dummy context w commit_epoch r h with h1 | ⟨r0, h1⟩
    · exfalso
      simp only [precommit_xct, hactive, Bool.not_true, Bool.false_eq_true, if_false] at h
      split at h
      · split at h
        · cases h
        · simp only [Except.ok.injEq] at h
          rw [← h, precommit_finish_ret] at h1
          split at h1 <;> cases h1
      · split at h
        · simp only [Except.ok.injEq] at h
          rw [← h, precommit_finish_ret] at h1
          split at h1 <;> cases h1
        · split at h
          · cases h
          · simp only [Except.ok.injEq] at h
            rw [← h, precommit_finish_ret] at h1
            split at h1 <;> cases h1
    · rw [h1]
      exact precommit_finish_read_set r0
  · left
    simp only [Bool.not_eq_true] at hactive
    simp only [precommit_xct, hactive, Bool.not_false, if_true, Except.ok.injEq] at h
    rw [← h]

/-- A step of a worker keeps the observations of the read sets free of the
key-lock bit. -/
theorem System.step_reads_unlocked (types : LogTypes) (s s1 : System)
    (h : System.step types s s1) (hs : s.reads_unlocked) : s1.reads_unlocked := by
  have key : ∀ (w1 : World) (t0 : Nat) (c : Thread),
      (∀ a ∈ c.current_xct_.read_set_, a.observed_owner_id_.is_keylocked = false) →
      (({ s with world := w1 } : System).set_thread t0 c).reads_unlocked := by
    intro w1 t0 c hc t a ha
    by_cases ht : t = t0
    · subst ht
      rw [System.set_thread_threads] at ha
      exact hc a ha
    · simp only [System.set_thread, ht, if_false] at ha
      exact hs t a ha
  cases h with
  | begin_xct t0 isolation_level =>
    apply key s.world t0
    intro a ha
    rcases begin_xct_read_set (s.threads t0) isolation_level with h1 | h1
    · rw [h1] at ha
      exact hs t0 a ha
    · rw [h1] at ha
      cases ha
  | begin_schema_xct t0 =>
    apply key s.world t0
    intro a ha
    rcases begin_schema_xct_read_set (s.threads t0) with h1 | h1
    · rw [h1] at ha
      exact hs t0 a ha
    · rw [h1] at ha
      cases ha
  | read t0 storage record code c hread =>
    apply key s.world t0
    intro a ha
    rcases storage_read_read_set _ _ _ _ _ _ hread a ha with h1 | h1
    · exact hs t0 a h1
    · rw [h1]
      exact storage_read_unlocked _ _ _ _ _ _ hread
  | write t0 storage record entry =>
    apply key s.world t0
    intro a ha
    rw [storage_write_read_set] at ha
    exact hs t0 a ha
  | precommit_xct t0 dummy commit_epoch r hr =>
    apply key r.world t0
    intro a ha
    rcases precommit_xct_read_set types dummy _ _ commit_epoch r hr with h1 | h1
    · rw [h1] at ha
      exact hs t0 a ha
    · rw [h1] at ha
      cases ha
  | abort_xct t0 =>
    apply key s.world t0
    intro a ha
    rcases abort_xct_read_set (s.threads t0) with h1 | h1
    · rw [h1] at ha
      exact hs t0 a ha
    · rw [h1] at ha
      cases ha

theorem System.reaches_reads_unlocked (types : LogTypes) (s0 s : System) (n : Nat)
    (h : System.reaches types s0 n s) (hs : s0.reads_unlocked) : s.reads_unlocked := by
  induction h with
  | refl => exact hs
  | step n s1 s2 _ hstep ih => exact System.step_reads_unlocked types s1 s2 hstep ih
  | advance n s1 _ ih => exact ih

/-- Any return of a read-only `precommit_xct` with a read-set entry whose
record carries another word than the one observed is `kErrorCodeXctRaceAbort`. -/
theorem precommit_xct_readonly_mismatch (types : LogTypes) (dummy : WriteXctAccess)
    (context : Thread) (w : World) (commit_epoch : Epoch)
    (hactive : context.current_xct_.is_active = true)
    (hschema : context.current_xct_.is_schema_xct = false)
    (hwrite : context.current_xct_.write_set_ = [])
    (a : XctAccess) (ha : a ∈ context.current_xct_.read_set_)
    (hne : a.observed_owner_id_ ≠ w.owner_id a.record_) :
    ∃ r, precommit_xct types dummy context w commit_epoch = Except.ok r ∧
      r.ret = ErrorCode.kErrorCodeXctRaceAbort := by
  refine ⟨_, precommit_xct_readonly_eq types dummy context w commit_epoch hactive hschema hwrite,
    ?_⟩
  have hf := (verify_readonly_loop_false_iff w context.current_xct_.read_set_
    Epoch.invalid).mpr ⟨a, ha, hne⟩
  rw [precommit_finish_ret]
  simp [precommit_xct_readonly, precommit_xct_verify_readonly_fst, hf]
/-- C27. The two verifications disagree on status bits.  In `w_deleted` the
record at address 100 carries the id `idA` with the delete bit set, and the
read-set entry that observed `idA` on that record differs from it in that bit
only: the read-only `precommit_xct` of `ctx_ro`, which holds the entry, returns
`kErrorCodeXctRaceAbort`, while the read-write verification of `ctx_rw`, which
holds the same entry, passes and its `precommit_xct` returns `kErrorCodeOk`.
In general, for an entry whose record is not key-locked and equals the
observed id in serial order but not as a word, the read-only loop fails and the
read-write loop passes.  And a read-only `precommit_xct` never passes an entry
whose record is key-locked: the entry was recorded without the key-lock bit, as
all entries are in the states of a run that starts without read-set entries,
and the call returns `kErrorCodeXctRaceAbort`. -/
theorem verifications_disagree_on_status_bits :
    (Examples.w_deleted.owner_id 100 = { Examples.idA with deleted_ := true } ∧
      Examples.idA.deleted_ = false ∧
      Examples.ctx_ro.current_xct_.read_set_ = [⟨Examples.idA, 1000, 100⟩] ∧
      Examples.ctx_rw.current_xct_.read_set_ = [⟨Examples.idA, 1000, 100⟩] ∧
      (precommit_xct_verify_readonly Examples.ctx_ro Examples.w_deleted Epoch.invalid).1
        = false ∧
      (∃ r, precommit_xct Examples.types0 Examples.dummy0 Examples.ctx_ro Examples.w_deleted
          ⟨0⟩ = Except.ok r ∧ r.ret = ErrorCode.kErrorCodeXctRaceAbort) ∧
      precommit_xct_verify_readwrite Examples.dummy0 Examples.ctx_rw Examples.w_deleted
        = true ∧
      (∃ r, precommit_xct Examples.types0 Examples.dummy0 Examples.ctx_rw Examples.w_deleted
          ⟨0⟩ = Except.ok r ∧ r.ret = ErrorCode.kErrorCodeOk)) ∧
    (∀ (dummy : WriteXctAccess) (w : World) (ws : List WriteXctAccess) (a : XctAccess),
      a.observed_owner_id_.equals_serial_order (w.owner_id a.record_) = true →
      (w.owner_id a.record_).is_keylocked = false →
      a.observed_owner_id_ ≠ w.owner_id a.record_ →
      (verify_readonly_loop w [a] Epoch.invalid).1 = false ∧
      verify_readwrite_loop dummy w ws [a] = true) ∧
    (∀ (types : LogTypes) (dummy : WriteXctAccess) (context : Thread) (w : World)
      (commit_epoch : Epoch) (a : XctAccess),
      context.current_xct_.is_active = true →
      context.current_xct_.is_schema_xct = false →
      context.current_xct_.write_set_ = [] →
      a ∈ context.current_xct_.read_set_ →
      a.observed_owner_id_.is_keylocked = false →
      (w.owner_id a.record_).is_keylocked = true →
      ∃ r, precommit_xct types dummy context w commit_epoch = Except.ok r ∧
        r.ret = ErrorCode.kErrorCodeXctRaceAbort) ∧
    (∀ (types : LogTypes) (s0 s : System) (n t : Nat) (dummy : WriteXctAccess)
      (commit_epoch : Epoch) (a : XctAccess),
      (∀ u, (s0.threads u).current_xct_.read_set_ = []) →
      System.reaches types s0 n s →
      (s.threads t).current_xct_.is_active = true →
      (s.threads t).current_xct_.is_schema_xct = false →
      (s.threads t).current_xct_.write_set_ = [] →
      a ∈ (s.threads t).current_xct_.read_set_ →
      (s.world.owner_id a.record_).is_keylocked = true →
      ∃ r, precommit_xct types dummy (s.threads t) s.world commit_epoch = Except.ok r ∧
        r.ret = ErrorCode.kErrorCodeXctRaceAbort) := by
  have hlocked : ∀ (types : LogTypes) (dummy : WriteXctAccess) (context : Thread) (w : World)
      (commit_epoch : Epoch) (a : XctAccess),
      context.current_xct_.is_active = true →
      context.current_xct_.is_schema_xct = false →
      context.current_xct_.write_set_ = [] →
      a ∈ context.current_xct_.read_set_ →
      a.observed_owner_id_.is_keylocked = false →
      (w.owner_id a.record_).is_keylocked = true →
      ∃ r, precommit_xct types dummy context w commit_epoch = Except.ok r ∧
        r.ret = ErrorCode.kErrorCodeXctRaceAbort := by
    intro types dummy context w commit_epoch a hactive hschema hwrite ha hobs hk
    apply precommit_xct_readonly_mismatch types dummy context w commit_epoch hactive hschema
      hwrite a ha
    intro heq
    rw [heq, hk] at hobs
    cases hobs
  refine ⟨⟨rfl, rfl, rfl, rfl, rfl, ⟨_, rfl, rfl⟩, rfl, ⟨_, rfl, rfl⟩⟩, ?_, hlocked, ?_⟩
  · intro dummy w ws a hser hfree hne
    constructor
    · exact (verify_readonly_loop_false_iff w [a] Epoch.invalid).mpr
        ⟨a, List.mem_singleton.mpr rfl, hne⟩
    · apply verify_readwrite_loop_of_clean
      intro b hb
      rw [List.mem_singleton.mp hb]
      exact ⟨hser, hfree⟩
  · intro types s0 s n t dummy commit_epoch a hstart hrun hactive hschema hwrite ha hk
    have h0 : s0.reads_unlocked := by
      intro u b hb
      rw [hstart u] at hb
      cases hb
    exact hlocked types dummy (s.threads t) s.world commit_epoch a hactive hschema hwrite ha
      (System.reaches_reads_unlocked types s0 s n hrun h0 t a ha) hk

/-! ## The log buffer between transactions -/

theorem precommit_finish_inactive (r : Result Bool) :
    (precommit_finish r).context.current_xct_.is_active = false := by
  unfold precommit_finish
  split <;> rfl

/-- What a return of `precommit_xct` from an active context leaves of the log
buffer: the tail at the committed cursor, or, on the read-only path that
succeeds, the log buffer as it was. -/
theorem precommit_xct_log_buffer (types : LogTypes) (dummy : WriteXctAccess) (context : Thread)
    (w : World) (commit_epoch : Epoch) (r : Result ErrorCode)
    (hactive : context.current_xct_.is_active = true)
    (h : precommit_xct types dummy context w commit_epoch = Except.ok r) :
    r.context.current_xct_.is_active = false ∧
    (r.context.thread_log_buffer_.get_offset_tail
        = r.context.thread_log_buffer_.get_offset_committed ∨
      (context.current_xct_.is_schema_xct = false ∧ context.current_xct_.write_set_ = [] ∧
        r.ret = ErrorCode.kErrorCodeOk ∧
        r.context.thread_log_buffer_ = context.thread_log_buffer_)) := by
  by_cases hschema : context.current_xct_.is_schema_xct = true
  · simp only [precommit_xct, hactive, hschema, Bool.not_true, Bool.false_eq_true, if_false,
      if_true, precommit_xct_schema] at h
    split at h
    · cases h
    · rename_i r0 hs
      split at hs
      · cases hs
      · simp only [Except.ok.injEq] at hs h
        subst hs
        subst h
        exact ⟨precommit_finish_inactive _, Or.inl rfl⟩
  · simp only [Bool.not_eq_true] at hschema
    by_cases hwrite : context.current_xct_.write_set_ = []
    · rw [precommit_xct_readonly_eq types dummy context w commit_epoch hactive hschema hwrite]
        at h
      simp only [Except.ok.injEq] at h
      subst h
      refine ⟨precommit_finish_inactive _, ?_⟩
      cases hv : (precommit_xct_readonly context w commit_epoch).1
      · left
        simp [precommit_finish, hv, ThreadLogBuffer.discard_current_xct_log,
          ThreadLogBuffer.get_offset_tail, ThreadLogBuffer.get_offset_committed]
      · right
        simp [precommit_finish, hv, hschema, hwrite]
    · obtain ⟨w1, hl, hr⟩ :=
        precommit_xct_readwrite_ok types dummy context w commit_epoch r hactive hschema hwrite h
      subst hr
      refine ⟨precommit_finish_inactive _, Or.inl ?_⟩
      cases hv : precommit_xct_verify_readwrite dummy (guard_enter (sort_write_set context) w1)
        w1
      · rw [readwrite_guarded_of_failed types dummy _ w1 hv]
        simp [precommit_finish, guard_exit, ThreadLogBuffer.discard_current_xct_log,
          ThreadLogBuffer.get_offset_tail, ThreadLogBuffer.get_offset_committed]
      · rw [readwrite_guarded_of_verified types dummy _ w1 hv]
        simp [precommit_finish, guard_exit, ThreadLogBuffer.publish_committed_log,
          ThreadLogBuffer.get_offset_tail, ThreadLogBuffer.get_offset_committed]

theorem precommit_xct_log_buffer_ok (types : LogTypes) (dummy : WriteXctAccess)
    (context : Thread) (w : World) (commit_epoch : Epoch) (r : Result ErrorCode)
    (h : precommit_xct types dummy context w commit_epoch = Except.ok r)
    (hok : context.log_buffer_ok) : r.context.log_buffer_ok := by
  by_cases hactive : context.current_xct_.is_active = true
  · obtain ⟨_, h2⟩ := precommit_xct_log_buffer types dummy context w commit_epoch r hactive h
    intro _
    rcases h2 with h2 | ⟨hs, hw, _, hb⟩
    · exact h2
    · rw [hb]
      exact hok (Or.inr ⟨hs, hw⟩)
  · simp only [Bool.not_eq_true] at hactive
    simp only [precommit_xct, hactive, Bool.not_false, if_true, Except.ok.injEq] at h
    rw [← h]
    exact hok

theorem begin_xct_log_buffer_ok (context : Thread) (isolation_level : IsolationLevel)
    (hok : context.log_buffer_ok) : (begin_xct context isolation_level).2.log_buffer_ok := by
  by_cases hactive : context.current_xct_.is_active = true
  · simpa [begin_xct, hactive] using hok
  · simp only [Bool.not_eq_true] at hactive
    intro _
    have := hok (Or.inl hactive)
    simpa [begin_xct, hactive] using this

theorem begin_schema_xct_log_buffer_ok (context : Thread)
    (hok : context.log_buffer_ok) : (begin_schema_xct context).2.log_buffer_ok := by
  by_cases hactive : context.current_xct_.is_active = true
  · simpa [begin_schema_xct, hactive] using hok
  · simp only [Bool.not_eq_true] at hactive
    intro _
    have := hok (Or.inl hactive)
    simpa [begin_schema_xct, hactive] using this

theorem abort_xct_log_buffer_ok (context : Thread)
    (hok : context.log_buffer_ok) : (abort_xct context).2.log_buffer_ok := by
  by_cases hactive : context.current_xct_.is_active = true
  · intro _
    simp [abort_xct, hactive, ThreadLogBuffer.discard_current_xct_log,
      ThreadLogBuffer.get_offset_tail, ThreadLogBuffer.get_offset_committed]
  · simp only [Bool.not_eq_true] at hactive
    simpa [abort_xct, hactive] using hok

theorem storage_read_log_buffer_ok (context : Thread) (w : World) (storage record : Nat)
    (code : ErrorCode) (c : Thread)
    (h : storage_read context w storage record = Except.ok (code, c))
    (hok : context.log_buffer_ok) : c.log_buffer_ok := by
  unfold storage_read at h
  split at h
  · cases h
  · simp only [Except.ok.injEq, Prod.mk.injEq] at h
    rw [← h.2]
    unfold Xct.add_to_read_set
    split
    · exact hok
    · exact hok

theorem storage_write_log_buffer_ok (context : Thread) (w : World) (storage record : Nat)
    (entry : LogEntry) (hactive : context.current_xct_.is_active = true)
    (hok : context.log_buffer_ok) :
    (storage_write context w storage record entry).2.log_buffer_ok := by
  unfold storage_write Xct.add_to_write_set
  split
  · simp only [reduceCtorEq, if_false]
    exact hok
  · simp only [if_true]
    intro hpre
    exfalso
    rcases hpre with hp | ⟨_, hp⟩
    · simp only [Xct.is_active] at hp hactive
      rw [hactive] at hp
      cases hp
    · simp at hp
theorem System.xct_step_log_buffer_ok (types : LogTypes) (s s1 : System)
    (h : System.xct_step types s s1) (hok : ∀ t, (s.threads t).log_buffer_ok) :
    ∀ t, (s1.threads t).log_buffer_ok := by
  have key : ∀ (w1 : World) (t0 : Nat) (c : Thread), c.log_buffer_ok →
      ∀ t, ((({ s with world := w1 } : System).set_thread t0 c).threads t).log_buffer_ok := by
    intro w1 t0 c hc t
    by_cases ht : t = t0
    · subst ht
      rw [System.set_thread_threads]
      exact hc
    · simp only [System.set_thread, ht, if_false]
      exact hok t
  cases h with
  | begin_xct t0 isolation_level =>
    exact key s.world t0 _ (begin_xct_log_buffer_ok _ isolation_level (hok t0))
  | begin_schema_xct t0 =>
    exact key s.world t0 _ (begin_schema_xct_log_buffer_ok _ (hok t0))
  | read t0 storage record code c hactive hread =>
    exact key s.world t0 _ (storage_read_log_buffer_ok _ _ _ _ _ _ hread (hok t0))
  | write t0 storage record entry hactive =>
    exact key s.world t0 _ (storage_write_log_buffer_ok _ _ _ _ _ hactive (hok t0))
  | precommit_xct t0 dummy commit_epoch r hr =>
    exact key r.world t0 _ (precommit_xct_log_buffer_ok types dummy _ _ commit_epoch r hr (hok t0))
  | abort_xct t0 =>
    exact key s.world t0 _ (abort_xct_log_buffer_ok _ (hok t0))

theorem System.xct_reaches_log_buffer_ok (types : LogTypes) (s0 s : System)
    (h : System.xct_reaches types s0 s) (hok : ∀ t, (s0.threads t).log_buffer_ok) :
    ∀ t, (s.threads t).log_buffer_ok := by
  induction h with
  | refl => exact hok
  | step s1 s2 _ hstep ih => exact System.xct_step_log_buffer_ok types s1 s2 hstep ih
  | advance s1 _ ih => exact ih

theorem ThreadLogBuffer.discard_eq_self (b : ThreadLogBuffer)
    (h : b.get_offset_tail = b.get_offset_committed) : b.discard_current_xct_log = b := by
  cases b with
  | mk hd cm tl en =>
    simp only [ThreadLogBuffer.get_offset_tail, ThreadLogBuffer.get_offset_committed] at h
    simp [ThreadLogBuffer.discard_current_xct_log, h]

/-- C23. The log-buffer invariant.  Take a run of worker steps (`begin_xct`,
`begin_schema_xct`, reads and writes inside a transaction, each write appending
one log entry together with one write-set entry, `precommit_xct`, `abort_xct`)
and rounds of the epoch advancer, from a state in which every context is
inactive with the tail of its log buffer at the committed cursor.  In every
state of the run: an inactive context has tail == committed; a `begin_xct` or
`begin_schema_xct` that returns `kErrorCodeOk` leaves tail == committed and
both sets empty, which is what the two functions assert; and a read-only
`precommit_xct` leaves the log buffer exactly as it was (it is not published,
and the discard of the failing case finds nothing to discard), the context
inactive and tail == committed. -/
theorem log_buffer_invariant (types : LogTypes) (s0 s : System) (t : Nat)
    (hstart : ∀ u, (s0.threads u).current_xct_.is_active = false ∧
      (s0.threads u).thread_log_buffer_.get_offset_tail
        = (s0.threads u).thread_log_buffer_.get_offset_committed)
    (hrun : System.xct_reaches types s0 s) :
    ((s.threads t).current_xct_.is_active = false →
      (s.threads t).thread_log_buffer_.get_offset_tail
        = (s.threads t).thread_log_buffer_.get_offset_committed) ∧
    (∀ isolation_level,
      (begin_xct (s.threads t) isolation_level).1 = ErrorCode.kErrorCodeOk →
      (begin_xct (s.threads t) isolation_level).2.thread_log_buffer_.get_offset_tail
        = (begin_xct (s.threads t) isolation_level).2.thread_log_buffer_.get_offset_committed ∧
      (begin_xct (s.threads t) isolation_level).2.current_xct_.get_read_set_size = 0 ∧
      (begin_xct (s.threads t) isolation_level).2.current_xct_.get_write_set_size = 0) ∧
    ((begin_schema_xct (s.threads t)).1 = ErrorCode.kErrorCodeOk →
      (begin_schema_xct (s.threads t)).2.thread_log_buffer_.get_offset_tail
        = (begin_schema_xct (s.threads t)).2.thread_log_buffer_.get_offset_committed ∧
      (begin_schema_xct (s.threads t)).2.current_xct_.get_read_set_size = 0 ∧
      (begin_schema_xct (s.threads t)).2.current_xct_.get_write_set_size = 0) ∧
    (∀ (dummy : WriteXctAccess) (commit_epoch : Epoch) (r : Result ErrorCode),
      (s.threads t).current_xct_.is_active = true →
      (s.threads t).current_xct_.is_schema_xct = false →
      (s.threads t).current_xct_.write_set_ = [] →
      precommit_xct types dummy (s.threads t) s.world commit_epoch = Except.ok r →
      r.context.thread_log_buffer_ = (s.threads t).thread_log_buffer_ ∧
      r.context.current_xct_.is_active = false ∧
      r.context.thread_log_buffer_.get_offset_tail
        = r.context.thread_log_buffer_.get_offset_committed) := by
  have h0 : ∀ u, (s0.threads u).log_buffer_ok := fun u _ => (hstart u).2
  have hinv := System.xct_reaches_log_buffer_ok types s0 s hrun h0 t
  refine ⟨fun hi => hinv (Or.inl hi), ?_, ?_, ?_⟩
  · intro isolation_level hok
    by_cases hactive : (s.threads t).current_xct_.is_active = true
    · simp [begin_xct, hactive] at hok
    · simp only [Bool.not_eq_true] at hactive
      have := hinv (Or.inl hactive)
      simp only [begin_xct, hactive, Bool.false_eq_true, if_false]
      exact ⟨this, rfl, rfl⟩
  · intro hok
    by_cases hactive : (s.threads t).current_xct_.is_active = true
    · simp [begin_schema_xct, hactive] at hok
    · simp only [Bool.not_eq_true] at hactive
      have := hinv (Or.inl hactive)
      simp only [begin_schema_xct, hactive, Bool.false_eq_true, if_false]
      exact ⟨this, rfl, rfl⟩
  · intro dummy commit_epoch r hactive hschema hwrite h
    have htail := hinv (Or.inr ⟨hschema, hwrite⟩)
    rw [precommit_xct_readonly_eq types dummy _ _ commit_epoch hactive hschema hwrite] at h
    simp only [Except.ok.injEq] at h
    subst h
    have hb : (precommit_finish
        { ret := (precommit_xct_readonly (s.threads t) s.world commit_epoch).1,
          context := s.threads t, world := s.world,
          commit_epoch := (precommit_xct_readonly (s.threads t) s.world
            commit_epoch).2 }).context.thread_log_buffer_
        = (s.threads t).thread_log_buffer_ := by
      unfold precommit_finish
      split
      · rfl
      · exact ThreadLogBuffer.discard_eq_self _ htail
    exact ⟨hb, precommit_finish_inactive _, by rw [hb]; exact htail⟩

theorem Examples.sys_c1_xct_reaches :
    System.xct_reaches Examples.types0 Examples.sys_workers Examples.sys_c1 :=
  System.xct_reaches.step _ _
    (System.xct_reaches.step _ _
      (System.xct_reaches.step _ _ System.xct_reaches.refl
        (System.xct_step.begin_xct Examples.sys_workers 0 IsolationLevel.kSerializable))
      (System.xct_step.write _ 0 1000 200 ⟨⟨1, 16, 3⟩, [42]⟩ rfl))
    (System.xct_step.precommit_xct Examples.sys_c1_pre 0 Examples.dummy0 ⟨0⟩ _ rfl)

/-- Witness of C23: from `sys_workers` worker 0 begins a transaction, writes a
record and commits (`sys_c1`); its context is then inactive with the tail and
the committed cursor of its log buffer both at 24, and its next `begin_xct`
returns `kErrorCodeOk` with both sets empty. -/
theorem log_buffer_invariant_witness :
    (Examples.sys_c1.threads 0).current_xct_.is_active = false ∧
    (Examples.sys_c1.threads 0).thread_log_buffer_.get_offset_committed = 24 ∧
    (Examples.sys_c1.threads 0).thread_log_buffer_.get_offset_tail
      = (Examples.sys_c1.threads 0).thread_log_buffer_.get_offset_committed ∧
    (begin_xct (Examples.sys_c1.threads 0) IsolationLevel.kSerializable).1
      = ErrorCode.kErrorCodeOk ∧
    (begin_xct (Examples.sys_c1.threads 0)
      IsolationLevel.kSerializable).2.current_xct_.get_write_set_size = 0 :=
  ⟨rfl, rfl,
    (log_buffer_invariant Examples.types0 Examples.sys_workers Examples.sys_c1 0
      (fun _ => ⟨rfl, rfl⟩) Examples.sys_c1_xct_reaches).1 rfl,
    rfl,
    ((log_buffer_invariant Examples.types0 Examples.sys_workers Examples.sys_c1 0
      (fun _ => ⟨rfl, rfl⟩) Examples.sys_c1_xct_reaches).2.1
        IsolationLevel.kSerializable rfl).2.2⟩

/-! ## The free-page chunk of a core -/

theorem List.dropLast_append_getLastD (l : List Nat) (h : l ≠ []) :
    l.dropLast ++ [l.getLastD 0] = l ∧ l.getLastD 0 ∈ l := by
  rcases List.eq_nil_or_concat l with h0 | ⟨l1, a, h1⟩
  · exact absurd h0 h
  · subst h1
    simp

theorem PagePoolOffsetChunk.pop_back_spec (c : PagePoolOffsetChunk) (h : c.empty = false) :
    c.chunk_ = c.pop_back.2.chunk_ ++ [c.pop_back.1] ∧ c.pop_back.1 ∈ c.chunk_ ∧
    c.pop_back.2.capacity = c.capacity ∧ c.pop_back.2.size + 1 = c.size := by
  have hne : c.chunk_ ≠ [] := by
    intro h0
    simp [PagePoolOffsetChunk.empty, PagePoolOffsetChunk.size, h0] at h
  obtain ⟨h1, h2⟩ := List.dropLast_append_getLastD c.chunk_ hne
  refine ⟨h1.symm, h2, rfl, ?_⟩
  simp only [PagePoolOffsetChunk.pop_back, PagePoolOffsetChunk.size, List.length_dropLast]
  have : 0 < c.chunk_.length := List.length_pos.mpr hne
  omega

theorem Examples.page_pool_contract : Examples.page_pool.contract := by
  refine ⟨?_, ?_, ?_⟩
  · intro n c _
    refine ⟨(List.range n).map (fun i => i + 100), rfl, by simp, ?_, ?_⟩
    · intro hn h0
      simp only [List.map_eq_nil_iff, List.range_eq_nil] at h0
      omega
    · intro p hp
      simp only [List.mem_map, List.mem_range] at hp
      obtain ⟨i, _, hi⟩ := hp
      omega
  · intro n c h
    exact absurd rfl h
  · intro n c
    rfl

/-- The two operations at the capacity 1, on a pool that keeps the contract.  An
empty chunk of capacity 1 asks the pool for (1 - 0) / 2 = 0 pages; the `grab`
succeeds and adds nothing, and `assert(!free_pool_chunk_->empty())` fails.  A
full chunk of capacity 1 gives 1 / 2 = 0 pages back and stays full:
`assert(!free_pool_chunk_->full())` fails, and the `push_back` behind it would
leave 2 offsets in a chunk of capacity 1. -/
theorem free_page_chunk_capacity_one_asserts_fail :
    Examples.page_pool.contract ∧
    (⟨1, []⟩ : PagePoolOffsetChunk).empty = true ∧
    (NumaCoreMemory.grab_free_pages_from_engine Examples.page_pool ⟨1, []⟩)
      = (ErrorCode.kErrorCodeOk, ⟨1, []⟩) ∧
    NumaCoreMemory.grab_free_page Examples.page_pool ⟨1, []⟩ = none ∧
    (⟨1, [5]⟩ : PagePoolOffsetChunk).full = true ∧
    NumaCoreMemory.release_free_pages_to_engine Examples.page_pool ⟨1, [5]⟩ = ⟨1, [5]⟩ ∧
    NumaCoreMemory.release_free_page Examples.page_pool ⟨1, [5]⟩ 6 = none ∧
    ((NumaCoreMemory.release_free_pages_to_engine Examples.page_pool ⟨1, [5]⟩).push_back 6).size
      = 2 :=
  ⟨Examples.page_pool_contract, by decide, by decide, by decide, by decide, by decide,
    by decide, by decide⟩

/-- In a write set whose record addresses are strictly ascending, an earlier
entry has the smaller record address. -/
theorem pairwise_lt_of_index (ws : List WriteXctAccess)
    (h : (ws.map (fun a => a.record_)).Pairwise (fun x y => x < y))
    (j i : Nat) (a b : WriteXctAccess) (hj : ws[j]? = some a) (hi : ws[i]? = some b)
    (hji : j < i) : a.record_ < b.record_ := by
  rw [List.pairwise_map, List.pairwise_iff_getElem] at h
  obtain ⟨h1, e1⟩ := List.getElem?_eq_some.mp hj
  obtain ⟨h2, e2⟩ := List.getElem?_eq_some.mp hi
  have h3 := h j i h1 h2 hji
  rw [e1, e2] at h3
  exact h3

/-- The write set that `precommit_xct_lock` goes through is in ascending order
of the record addresses. -/
theorem sort_write_set_ascending (context : Thread) :
    ((sort_write_set context).current_xct_.write_set_.map (fun a => a.record_)).Pairwise
      (fun x y => x ≤ y) := by
  rw [List.pairwise_map]
  have hs := std_sort_pairwise WriteXctAccess.compare WriteXctAccess.write_compare_asymm
    WriteXctAccess.write_compare_trans context.current_xct_.write_set_
  refine hs.imp ?_
  intro a b h
  rw [← Bool.not_eq_true, WriteXctAccess.compare_iff] at h
  omega

/-- With pairwise distinct records the order is strict. -/
theorem sort_write_set_strict (context : Thread)
    (hwrite : (context.current_xct_.write_set_.map (fun a => a.record_)).Nodup) :
    ((sort_write_set context).current_xct_.write_set_.map (fun a => a.record_)).Pairwise
      (fun x y => x < y) := by
  apply pairwise_lt_of_sorted_nodup WriteXctAccess.compare
  · intro a b h
    rw [← Bool.not_eq_true, WriteXctAccess.compare_iff] at h
    omega
  · exact std_sort_pairwise _ WriteXctAccess.write_compare_asymm
      WriteXctAccess.write_compare_trans _
  · exact (((std_sort_perm WriteXctAccess.compare _).map _).nodup_iff).mpr hwrite

/-- What follows the locking loop leaves the records outside the write set as
they are. -/
theorem readwrite_guarded_records_of_not_mem (types : LogTypes) (dummy : WriteXctAccess)
    (context : Thread) (w : World) (x : Nat)
    (hx : x ∉ context.current_xct_.write_set_.map (fun a => a.record_)) :
    (readwrite_guarded types dummy (guard_enter context w) w).world.records_ x
      = w.records_ x := by
  unfold readwrite_guarded
  by_cases hv : precommit_xct_verify_readwrite dummy (guard_enter context w) w = true
  · simp only [hv, if_true]
    exact apply_loop_records_of_not_mem _ _ _ _ _ _ hx
  · simp only [hv, Bool.false_eq_true, if_false]
    unfold precommit_xct_unlock
    rw [unlock_loop_records]
    exact if_neg hx

/-- What follows the locking loop leaves the records of the write set without
the key-lock: the apply routine published the new id, or the unlock loop
released the lock. -/
theorem readwrite_guarded_unlocks (types : LogTypes) (hpub : types.apply_record_publishes)
    (dummy : WriteXctAccess) (context : Thread) (w : World) (x : Nat)
    (hnodup : (context.current_xct_.write_set_.map (fun a => a.record_)).Nodup)
    (hreg : ∀ a ∈ context.current_xct_.write_set_,
      Committing.log_type_code context a ≠ LOG_TYPE_INVALID ∧
      (types.xmacro (Committing.log_type_code context a)).isSome = true)
    (hx : x ∈ context.current_xct_.write_set_.map (fun a => a.record_)) :
    ((readwrite_guarded types dummy (guard_enter context w) w).world.owner_id x).is_keylocked
      = false := by
  obtain ⟨a, ha, rfl⟩ := List.mem_map.mp hx
  unfold readwrite_guarded
  by_cases hv : precommit_xct_verify_readwrite dummy (guard_enter context w) w = true
  · simp only [hv, if_true]
    obtain ⟨hcode, hsome⟩ := hreg a ha
    obtain ⟨c, hc⟩ := Option.isSome_iff_exists.mp hsome
    have key := apply_loop_records_of_mem types
      ((guard_enter context w).current_xct_.issue_next_id (get_current_global_epoch_weak w)).get_id
      { guard_enter context w with
        current_xct_ :=
          (guard_enter context w).current_xct_.issue_next_id (get_current_global_epoch_weak w) }
      context.current_xct_.write_set_ w a c hnodup ha hcode hc
    refine Eq.trans (congrArg (fun r => r.owner_id_.is_keylocked) key) ?_
    simp only
    rw [hpub _ c hc]
    rfl
  · simp only [hv, Bool.false_eq_true, if_false]
    unfold precommit_xct_unlock World.owner_id
    rw [unlock_loop_records, if_pos (by exact hx)]
    rfl
namespace Committing

theorem holds_lock (s : Committing) (t : Nat) (w1 : World) (u r : Nat) :
    (s.lock t w1).holds u r ↔
      s.holds u r ∨
      (u = t ∧ s.ret t = none ∧ ∃ a, (s.write_set t)[s.i t]? = some a ∧ a.record_ = r) := by
  unfold holds lock write_set
  simp only
  by_cases hu : u = t
  · subst hu
    simp only [if_true, true_and]
    constructor
    · rintro ⟨hret, j, a, hj, ha, har⟩
      by_cases hji : j < s.i u
      · exact Or.inl ⟨hret, j, a, hji, ha, har⟩
      · have hje : j = s.i u := by omega
        subst hje
        exact Or.inr ⟨hret, a, ha, har⟩
    · rintro (⟨hret, j, a, hj, ha, har⟩ | ⟨hret, a, ha, har⟩)
      · exact ⟨hret, j, a, by omega, ha, har⟩
      · exact ⟨hret, s.i u, a, by omega, ha, har⟩
  · simp [hu]

theorem holds_finish (types : LogTypes) (dummy : WriteXctAccess) (s : Committing)
    (t u r : Nat) : (s.finish types dummy t).holds u r ↔ u ≠ t ∧ s.holds u r := by
  unfold holds finish write_set
  by_cases hu : u = t
  · subst hu
    simp
  · simp [hu]

theorem holds_mem (s : Committing) (t r : Nat) (h : s.holds t r) :
    r ∈ (s.write_set t).map (fun a => a.record_) := by
  obtain ⟨_, j, a, _, ha, har⟩ := h
  exact List.mem_map.mpr ⟨a, List.mem_iff_getElem?.mpr ⟨j, ha⟩, har⟩

theorem holds_of_mem (s : Committing) (t r : Nat) (hret : s.ret t = none)
    (hi : ¬ s.i t < (s.write_set t).length)
    (hr : r ∈ (s.write_set t).map (fun a => a.record_)) : s.holds t r := by
  obtain ⟨a, ha, har⟩ := List.mem_map.mp hr
  obtain ⟨j, hj, e⟩ := List.getElem_of_mem ha
  exact ⟨hret, j, a, by omega, by rw [List.getElem?_eq_getElem hj, e], har⟩

/-- At the start the bookkeeping of the locks taken holds. -/
theorem start_locks_sound (n : Nat) (w : World) (contexts : Nat → Thread)
    (hdistinct : ∀ t, t < n →
      ((contexts t).current_xct_.write_set_.map (fun a => a.record_)).Nodup) :
    (start w contexts).locks_sound n where
  outside := fun _ _ => rfl
  bound := fun _ _ => Nat.zero_le _
  sorted := fun t ht _ => sort_write_set_strict (contexts t) (hdistinct t ht)
  locked := by
    rintro t r ⟨_, j, a, hj, _, _⟩
    exact absurd hj (Nat.not_lt_zero j)
  exclusive := by
    rintro t u r ⟨_, j, a, hj, _, _⟩
    exact absurd hj (Nat.not_lt_zero j)

/-- The key-lock bits after a round of a locking loop. -/
theorem keylock_unconditional_ok (w w1 : World) (x : Nat)
    (hlock : keylock_unconditional w x = Except.ok w1) :
    (w.owner_id x).is_keylocked = false ∧
    ∀ r, (w1.owner_id r).is_keylocked = true ↔
      (r = x ∨ (w.owner_id r).is_keylocked = true) := by
  unfold keylock_unconditional at hlock
  by_cases hl : (w.owner_id x).is_keylocked = true
  · simp [hl] at hlock
  simp only [hl, Bool.false_eq_true, if_false, Except.ok.injEq] at hlock
  refine ⟨by simpa using hl, ?_⟩
  intro r
  rw [← hlock, World.owner_id_set_owner_id]
  by_cases hr : r = x
  · simp [hr, XctId.with_keylock, XctId.is_keylocked]
  · simp [hr]

/-- A round of a locking loop keeps the bookkeeping of the locks taken. -/
theorem lock_locks_sound (n : Nat) (s : Committing) (t : Nat)
    (a : WriteXctAccess) (w1 : World) (H : s.locks_sound n) (ht : t < n)
    (ha : (s.write_set t)[s.i t]? = some a)
    (hlock : keylock_unconditional s.world a.record_ = Except.ok w1) :
    (s.lock t w1).locks_sound n := by
  obtain ⟨hl, hw⟩ := keylock_unconditional_ok s.world w1 a.record_ hlock
  have hl : ¬ (s.world.owner_id a.record_).is_keylocked = true := by simp [hl]
  obtain ⟨hlen, _⟩ := List.getElem?_eq_some.mp ha
  refine ⟨?_, ?_, ?_, ?_, ?_⟩
  · intro u hu
    have hne : u ≠ t := by omega
    simpa [lock, hne] using H.outside u hu
  · intro u hu
    by_cases hut : u = t
    · subst hut
      simpa [lock] using hlen
    · simpa [lock, hut] using H.bound u hu
  · exact fun u hu hr => H.sorted u hu hr
  · intro u r hh
    rw [show (s.lock t w1).world = w1 from rfl, hw]
    rcases (holds_lock s t w1 u r).mp hh with h | ⟨_, _, b, hb, hbr⟩
    · exact Or.inr (H.locked u r h)
    · rw [ha] at hb
      cases hb
      exact Or.inl hbr.symm
  · intro u v r hu hv
    rcases (holds_lock s t w1 u r).mp hu with h1 | ⟨e1, _, b1, hb1, hr1⟩
    · rcases (holds_lock s t w1 v r).mp hv with h2 | ⟨_, _, b2, hb2, hr2⟩
      · exact H.exclusive u v r h1 h2
      · rw [ha] at hb2
        cases hb2
        rw [← hr2] at h1
        exact absurd (H.locked u _ h1) hl
    · rw [ha] at hb1
      cases hb1
      rcases (holds_lock s t w1 v r).mp hv with h2 | ⟨e2, _, _, _, _⟩
      · rw [← hr1] at h2
        exact absurd (H.locked v _ h2) hl
      · rw [e1, e2]

theorem finish_world (types : LogTypes) (dummy : WriteXctAccess) (s : Committing) (t : Nat) :
    (s.finish types dummy t).world
      = (readwrite_guarded types dummy (guard_enter (s.threads t) s.world) s.world).world := by
  unfold finish
  simp only
  rw [precommit_finish_world]
  rfl

/-- What follows a locking loop keeps the bookkeeping of the locks taken: it
leaves the records outside the write set of the worker as they are. -/
theorem finish_locks_sound (types : LogTypes) (dummy : WriteXctAccess) (n : Nat)
    (s : Committing) (t : Nat) (H : s.locks_sound n) (hret : s.ret t = none)
    (hi : ¬ s.i t < (s.write_set t).length) :
    (s.finish types dummy t).locks_sound n := by
  have hother : ∀ u, u ≠ t → (s.finish types dummy t).threads u = s.threads u ∧
      (s.finish types dummy t).ret u = s.ret u := by
    intro u hu
    simp [finish, hu]
  have hself : (s.finish types dummy t).ret t ≠ none := by
    simp [finish]
  refine ⟨?_, ?_, ?_, ?_, ?_⟩
  · exact fun u hu => H.outside u hu
  · intro u hu
    by_cases hut : u = t
    · subst hut
      exact absurd hu hself
    · have h := hother u hut
      rw [h.2] at hu
      simpa [write_set, h.1] using H.bound u hu
  · intro u hun hu
    by_cases hut : u = t
    · subst hut
      exact absurd hu hself
    · have h := hother u hut
      rw [h.2] at hu
      simpa [write_set, h.1] using H.sorted u hun hu
  · intro u r hh
    obtain ⟨hut, hh⟩ := (holds_finish types dummy s t u r).mp hh
    have hr : r ∉ (s.write_set t).map (fun a => a.record_) := by
      intro hr
      exact hut (H.exclusive u t r hh (holds_of_mem s t r hret hi hr))
    rw [finish_world]
    unfold World.owner_id
    rw [readwrite_guarded_records_of_not_mem types dummy (s.threads t) s.world r hr]
    exact H.locked u r hh
  · intro u v r hu hv
    exact H.exclusive u v r ((holds_finish types dummy s t u r).mp hu).2
      ((holds_finish types dummy s t v r).mp hv).2

theorem step_locks_sound (types : LogTypes) (dummy : WriteXctAccess) (n : Nat)
    (s s1 : Committing) (H : s.locks_sound n) (hstep : step types dummy n s s1) :
    s1.locks_sound n := by
  cases hstep with
  | lock t a w1 ht hret ha hlock => exact lock_locks_sound n s t a w1 H ht ha hlock
  | finish t ht hret hi => exact finish_locks_sound types dummy n s t H hret hi

theorem reaches_locks_sound (types : LogTypes) (dummy : WriteXctAccess) (n : Nat)
    (s0 : Committing) (H : s0.locks_sound n) (k : Nat) (s : Committing)
    (hrun : reaches types dummy n s0 k s) : s.locks_sound n := by
  induction hrun with
  | refl => exact H
  | step k s1 s2 _ hstep ih => exact step_locks_sound types dummy n s1 s2 ih hstep

/-- At the start, with no record key-locked, every key-lock has its holder. -/
theorem start_locks_held (types : LogTypes) (n : Nat) (w : World) (contexts : Nat → Thread)
    (hunlocked : ∀ r, (w.owner_id r).is_keylocked = false)
    (hdistinct : ∀ t, t < n →
      ((contexts t).current_xct_.write_set_.map (fun a => a.record_)).Nodup)
    (hregistered : ∀ t, t < n → ∀ a ∈ (contexts t).current_xct_.write_set_,
      log_type_code (contexts t) a ≠ LOG_TYPE_INVALID ∧
      (types.xmacro (log_type_code (contexts t) a)).isSome = true) :
    (start w contexts).locks_held types n where
  sound := start_locks_sound n w contexts hdistinct
  registered := fun t ht _ a ha =>
    hregistered t ht a ((mem_sorted_write_set (contexts t) a).mp ha)
  holder := by
    intro r hr
    have h := hunlocked r
    rw [show (start w contexts).world = w from rfl] at hr
    rw [h] at hr
    cases hr

/-- A round of a locking loop keeps a holder for every key-lock. -/
theorem lock_locks_held (types : LogTypes) (n : Nat) (s : Committing) (t : Nat)
    (a : WriteXctAccess) (w1 : World) (H : s.locks_held types n) (ht : t < n)
    (hret : s.ret t = none) (ha : (s.write_set t)[s.i t]? = some a)
    (hlock : keylock_unconditional s.world a.record_ = Except.ok w1) :
    (s.lock t w1).locks_held types n := by
  obtain ⟨_, hw⟩ := keylock_unconditional_ok s.world w1 a.record_ hlock
  refine ⟨lock_locks_sound n s t a w1 H.sound ht ha hlock, ?_, ?_⟩
  · exact fun u hu hr => H.registered u hu hr
  · intro r hr
    rw [show (s.lock t w1).world = w1 from rfl, hw] at hr
    rcases hr with hr | hr
    · exact ⟨t, (holds_lock s t w1 t r).mpr (Or.inr ⟨rfl, hret, a, ha, hr.symm⟩)⟩
    · obtain ⟨u, hu⟩ := H.holder r hr
      exact ⟨u, (holds_lock s t w1 u r).mpr (Or.inl hu)⟩

/-- What follows a locking loop keeps a holder for every key-lock: under the
apply contract it leaves the records of the write set without key-lock. -/
theorem finish_locks_held (types : LogTypes) (hpub : types.apply_record_publishes)
    (dummy : WriteXctAccess) (n : Nat) (s : Committing) (t : Nat)
    (H : s.locks_held types n) (ht : t < n) (hret : s.ret t = none)
    (hi : ¬ s.i t < (s.write_set t).length) :
    (s.finish types dummy t).locks_held types n := by
  have hnodup : ((s.write_set t).map (fun a => a.record_)).Nodup :=
    (H.sound.sorted t ht hret).imp (fun h => Nat.ne_of_lt h)
  have hother : ∀ u, u ≠ t → (s.finish types dummy t).threads u = s.threads u ∧
      (s.finish types dummy t).ret u = s.ret u := by
    intro u hu
    simp [finish, hu]
  have hself : (s.finish types dummy t).ret t ≠ none := by
    simp [finish]
  refine ⟨finish_locks_sound types dummy n s t H.sound hret hi, ?_, ?_⟩
  · intro u hun hu
    by_cases hut : u = t
    · subst hut
      exact absurd hu hself
    · have h := hother u hut
      rw [h.2] at hu
      simpa [write_set, h.1] using H.registered u hun hu
  · intro r hr
    rw [finish_world] at hr
    have hnot : r ∉ (s.write_set t).map (fun a => a.record_) := by
      intro hmem
      have h := readwrite_guarded_unlocks types hpub dummy (s.threads t) s.world r hnodup
        (H.registered t ht hret) hmem
      rw [h] at hr
      cases hr
    unfold World.owner_id at hr
    rw [readwrite_guarded_records_of_not_mem types dummy (s.threads t) s.world r hnot] at hr
    obtain ⟨u, hu⟩ := H.holder r hr
    have hut : u ≠ t := by
      intro e
      subst e
      exact hnot (holds_mem s u r hu)
    exact ⟨u, (holds_finish types dummy s t u r).mpr ⟨hut, hu⟩⟩

theorem step_locks_held (types : LogTypes) (hpub : types.apply_record_publishes)
    (dummy : WriteXctAccess) (n : Nat) (s s1 : Committing) (H : s.locks_held types n)
    (hstep : step types dummy n s s1) : s1.locks_held types n := by
  cases hstep with
  | lock t a w1 ht hret ha hlock => exact lock_locks_held types n s t a w1 H ht hret ha hlock
  | finish t ht hret hi => exact finish_locks_held types hpub dummy n s t H ht hret hi

theorem reaches_locks_held (types : LogTypes) (hpub : types.apply_record_publishes)
    (dummy : WriteXctAccess) (n : Nat) (s0 : Committing) (H : s0.locks_held types n)
    (k : Nat) (s : Committing) (hrun : reaches types dummy n s0 k s) :
    s.locks_held types n := by
  induction hrun with
  | refl => exact H
  | step k s1 s2 _ hstep ih => exact step_locks_held types hpub dummy n s1 s2 ih hstep

end Committing
namespace Committing

/-- A worker that waits has a record to lock next, and whoever it waits for and
waits itself has a next record at a higher address. -/
theorem waits_for_lt (s : Committing) (t u : Nat)
    (hsorted : ((s.write_set u).map (fun a => a.record_)).Pairwise (fun x y => x < y))
    (h : s.waits_for t u) :
    ∃ a, (s.write_set t)[s.i t]? = some a ∧
      ∀ b, (s.write_set u)[s.i u]? = some b → a.record_ < b.record_ := by
  obtain ⟨_, a, ha, _, j, c, hj, hc, hca⟩ := h
  refine ⟨a, ha, ?_⟩
  intro b hb
  rw [← hca]
  exact pairwise_lt_of_index _ hsorted j (s.i u) c b hc hb hj

/-- Along a chain of waiting workers the address of the next record grows. -/
theorem waits_chain_lt (s : Committing)
    (hsorted : ∀ u, 0 < s.i u → s.ret u = none →
      ((s.write_set u).map (fun a => a.record_)).Pairwise (fun x y => x < y))
    (t u : Nat) (h : Relation.TransGen s.waits_for t u) :
    ∃ a, (s.write_set t)[s.i t]? = some a ∧
      ∀ b, (s.write_set u)[s.i u]? = some b → a.record_ < b.record_ := by
  have hone : ∀ v x, s.waits_for v x →
      ((s.write_set x).map (fun a => a.record_)).Pairwise (fun x y => x < y) := by
    rintro v x ⟨_, a, _, hretx, j, c, hj, _, _⟩
    exact hsorted x (by omega) hretx
  induction h with
  | single h1 => exact waits_for_lt s t _ (hone _ _ h1) h1
  | tail _ h2 ih =>
    obtain ⟨a, ha, hlt⟩ := ih
    obtain ⟨b, hb, hlt2⟩ := waits_for_lt s _ _ (hone _ _ h2) h2
    exact ⟨a, ha, fun c hc => Nat.lt_trans (hlt b hb) (hlt2 c hc)⟩

/-- No cycle of waiting workers, when the write sets of the workers that hold a
key-lock are strictly ascending. -/
theorem no_wait_cycle (s : Committing)
    (hsorted : ∀ u, 0 < s.i u → s.ret u = none →
      ((s.write_set u).map (fun a => a.record_)).Pairwise (fun x y => x < y))
    (t : Nat) : ¬ Relation.TransGen s.waits_for t t := by
  intro h
  obtain ⟨a, ha, hlt⟩ := waits_chain_lt s hsorted t t h
  exact Nat.lt_irrefl _ (hlt a ha)

/-- While a worker is in its commit, some worker has a step. -/
theorem locks_held_progress (types : LogTypes) (dummy : WriteXctAccess) (n : Nat)
    (s : Committing) (H : s.locks_held types n) (hsome : ∃ t, t < n ∧ s.ret t = none) :
    ∃ s1, step types dummy n s s1 := by
  classical
  by_contra hstuck
  have hno : ∀ s1, ¬ step types dummy n s s1 := fun s1 h1 => hstuck ⟨s1, h1⟩
  -- every worker in its commit waits for a record that somebody holds
  have hwait : ∀ t, t < n → s.ret t = none →
      ∃ a, (s.write_set t)[s.i t]? = some a ∧
        (s.world.owner_id a.record_).is_keylocked = true := by
    intro t ht hret
    by_cases hi : s.i t < (s.write_set t).length
    · refine ⟨(s.write_set t)[s.i t], List.getElem?_eq_getElem hi, ?_⟩
      by_contra hl
      refine hno _ (step.lock s t ((s.write_set t)[s.i t])
        (s.world.set_owner_id ((s.write_set t)[s.i t]).record_
          (s.world.owner_id ((s.write_set t)[s.i t]).record_).with_keylock) ht hret
        (List.getElem?_eq_getElem hi) ?_)
      unfold keylock_unconditional
      simp only [hl, Bool.false_eq_true, if_false]
    · exact absurd (step.finish s t ht hret hi) (hno _)
  let key : Nat → Nat := fun t =>
    match (s.write_set t)[s.i t]? with
    | some a => a.record_
    | none => 0
  let S : Finset Nat := (Finset.range n).filter (fun t => s.ret t = none)
  have hS : S.Nonempty := by
    obtain ⟨t, ht, hret⟩ := hsome
    exact ⟨t, Finset.mem_filter.mpr ⟨Finset.mem_range.mpr ht, hret⟩⟩
  obtain ⟨t, htS, hmax⟩ := Finset.exists_max_image S key hS
  obtain ⟨htn, hret⟩ := Finset.mem_filter.mp htS
  obtain ⟨a, ha, hl⟩ := hwait t (Finset.mem_range.mp htn) hret
  obtain ⟨u, hu⟩ := H.holder a.record_ hl
  obtain ⟨hretu, j, c, hj, hc, hca⟩ := hu
  have hun : u < n := by
    by_contra hge
    have h0 := H.sound.outside u (by omega)
    omega
  obtain ⟨b, hb, _⟩ := hwait u hun hretu
  have hlt : c.record_ < b.record_ :=
    pairwise_lt_of_index _ (H.sound.sorted u hun hretu) j (s.i u) c b hc hb hj
  have hle := hmax u (Finset.mem_filter.mpr ⟨Finset.mem_range.mpr hun, hretu⟩)
  simp only [key, ha, hb] at hle
  omega

/-- The steps left to the workers other than `t` do not depend on `t`. -/
theorem steps_left_congr (s s1 : Committing) (n : Nat)
    (h : ∀ u, u < n → s1.remaining u = s.remaining u) : s1.steps_left n = s.steps_left n := by
  induction n with
  | zero => rfl
  | succ m ih =>
    unfold steps_left
    rw [ih (fun u hu => h u (by omega)), h m (by omega)]

/-- A step of worker `t` takes one from the steps left. -/
theorem steps_left_pred (s s1 : Committing) (n t : Nat) (ht : t < n)
    (hother : ∀ u, u ≠ t → s1.remaining u = s.remaining u)
    (hself : s1.remaining t + 1 = s.remaining t) :
    s1.steps_left n + 1 = s.steps_left n := by
  induction n with
  | zero => omega
  | succ m ih =>
    unfold steps_left
    by_cases htm : t = m
    · subst htm
      rw [steps_left_congr s s1 t (fun u hu => hother u (by omega))]
      omega
    · have h1 := ih (by omega)
      rw [hother m (fun e => htm e.symm)]
      omega

theorem step_steps_left (types : LogTypes) (dummy : WriteXctAccess) (n : Nat)
    (s s1 : Committing) (hstep : step types dummy n s s1) :
    s1.steps_left n + 1 = s.steps_left n := by
  cases hstep with
  | lock t a w1 ht hret ha hlock =>
    obtain ⟨hlen, _⟩ := List.getElem?_eq_some.mp ha
    apply steps_left_pred s _ n t ht
    · intro u hu
      simp [remaining, lock, write_set, hu]
    · simp only [remaining, lock, write_set, if_true, hret]
      change (s.threads t).current_xct_.write_set_.length - (s.i t + 1) + 1 + 1
        = (s.threads t).current_xct_.write_set_.length - s.i t + 1
      unfold write_set at hlen
      omega
  | finish t ht hret hi =>
    apply steps_left_pred s _ n t ht
    · intro u hu
      simp [remaining, finish, write_set, hu]
    · simp only [remaining, finish, write_set, if_true, hret]
      unfold write_set at hi
      omega

/-- A run of `k` steps takes `k` from the steps left. -/
theorem reaches_steps_left (types : LogTypes) (dummy : WriteXctAccess) (n : Nat)
    (s0 : Committing) (k : Nat) (s : Committing) (hrun : reaches types dummy n s0 k s) :
    k + s.steps_left n = s0.steps_left n := by
  induction hrun with
  | refl => omega
  | step k s1 s2 _ hstep ih =>
    have h := step_steps_left types dummy n s1 s2 hstep
    omega

/-- The context of a worker stays as it entered the lock phase until the worker
returns. -/
theorem reaches_threads (types : LogTypes) (dummy : WriteXctAccess) (n : Nat)
    (s0 : Committing) (k : Nat) (s : Committing) (hrun : reaches types dummy n s0 k s)
    (t : Nat) (hret : s.ret t = none) : s.threads t = s0.threads t ∧ s0.ret t = none := by
  induction hrun with
  | refl => exact ⟨rfl, hret⟩
  | step k s1 s2 _ hstep ih =>
    cases hstep with
    | lock u a w1 hu hretu ha hlock => exact ih hret
    | finish u hu hretu hi =>
      by_cases htu : t = u
      · subst htu
        simp [finish] at hret
      · have h : (s1.finish types dummy u).ret t = s1.ret t := by simp [finish, htu]
        rw [h] at hret
        have h2 : (s1.finish types dummy u).threads t = s1.threads t := by simp [finish, htu]
        rw [h2]
        exact ih hret

end Committing
/-- The run in which worker 0 goes first: six steps, after which both workers
returned `kErrorCodeOk` and no record is left with a key-lock. -/
theorem Examples.commit_opposite_run :
    Committing.reaches Examples.types0 Examples.dummy0 2 Examples.commit_start 6
      Examples.commit_done ∧
    Examples.commit_done.ret 0 = some ErrorCode.kErrorCodeOk ∧
    Examples.commit_done.ret 1 = some ErrorCode.kErrorCodeOk ∧
    (Examples.commit_done.world.owner_id 100).is_keylocked = false ∧
    (Examples.commit_done.world.owner_id 200).is_keylocked = false := by
  refine ⟨?_, rfl, rfl, rfl, rfl⟩
  have h0 : Committing.reaches Examples.types0 Examples.dummy0 2 Examples.commit_start 0
      Examples.commit_start := Committing.reaches.refl
  have h1 := Committing.reaches.step 0 _ _ h0
    (Committing.step.lock Examples.commit_start 0 ⟨Examples.idA, 1000, 100, 8⟩ _
      (by decide) rfl rfl rfl)
  have h2 := Committing.reaches.step 1 _ _ h1
    (Committing.step.lock _ 0 ⟨Examples.idA, 1000, 200, 24⟩ _ (by decide) rfl rfl rfl)
  have h3 := Committing.reaches.step 2 _ _ h2
    (Committing.step.finish _ 0 (by decide) rfl (by decide))
  have h4 := Committing.reaches.step 3 _ _ h3
    (Committing.step.lock _ 1 ⟨Examples.idA, 1000, 100, 24⟩ _ (by decide) rfl rfl rfl)
  have h5 := Committing.reaches.step 4 _ _ h4
    (Committing.step.lock _ 1 ⟨Examples.idA, 1000, 200, 8⟩ _ (by decide) rfl rfl rfl)
  exact Committing.reaches.step 5 _ _ h5
    (Committing.step.finish _ 1 (by decide) rfl (by decide))
/-- The rounds of the locking loop of worker `t`, from the round it stands
before to the end of its write set, are steps of the workers when the loop gets
its locks. -/
theorem Committing.reaches_lock_loop (types : LogTypes) (dummy : WriteXctAccess) (n : Nat)
    (s0 : Committing) (t : Nat) (ht : t < n) (rest : List WriteXctAccess) (k : Nat)
    (s : Committing) (hrun : Committing.reaches types dummy n s0 k s) (hret : s.ret t = none)
    (w1 : World) (hrest : (s.write_set t).drop (s.i t) = rest)
    (hl : lock_loop rest s.world = Except.ok w1) :
    ∃ s1, Committing.reaches types dummy n s0 (k + rest.length) s1 ∧ s1.world = w1 ∧
      s1.threads = s.threads ∧ s1.ret = s.ret ∧ s1.i t = s.i t + rest.length := by
  induction rest generalizing k s with
  | nil =>
    simp only [lock_loop, Except.ok.injEq] at hl
    exact ⟨s, hrun, hl, rfl, rfl, rfl⟩
  | cons a rest ih =>
    have h0 : ((s.write_set t).drop (s.i t))[0]? = some a := by rw [hrest]; simp
    rw [List.getElem?_drop] at h0
    have htail : (s.write_set t).drop (s.i t + 1) = rest := by
      rw [← List.tail_drop, hrest]
      rfl
    unfold lock_loop at hl
    cases hk : keylock_unconditional s.world a.record_ with
    | error e => simp [hk] at hl
    | ok w2 =>
      simp only [hk] at hl
      rw [Nat.add_zero] at h0
      have hstep : Committing.step types dummy n s (s.lock t w2) :=
        Committing.step.lock s t a w2 ht hret h0 hk
      have hrun2 := Committing.reaches.step k s _ hrun hstep
      have hi2 : (s.lock t w2).i t = s.i t + 1 := by simp [Committing.lock]
      obtain ⟨s1, h1, h2, h3, h4, h5⟩ := ih (k + 1) (s.lock t w2) hrun2 hret
        (by rw [hi2]; exact htail) hl
      refine ⟨s1, ?_, h2, h3, h4, ?_⟩
      · have : k + (a :: rest).length = k + 1 + rest.length := by
          simp only [List.length_cons]
          omega
        rw [this]
        exact h1
      · rw [h5, hi2]
        simp only [List.length_cons]
        omega

/-- One worker alone in the lock phase does what `precommit_xct` does: when the
read-write `precommit_xct` of the context returns on the state `w`, the steps of
the worker, one round of the locking loop for each entry of the write set and
then the rest of the commit, lead to the state that `precommit_xct` leaves, to
the context it leaves and to the value it returns. -/
theorem Committing.reaches_of_precommit_xct (types : LogTypes) (dummy : WriteXctAccess)
    (context : Thread) (w : World) (commit_epoch : Epoch) (r : Result ErrorCode)
    (hactive : context.current_xct_.is_active = true)
    (hschema : context.current_xct_.is_schema_xct = false)
    (hwrite : context.current_xct_.write_set_ ≠ [])
    (h : precommit_xct types dummy context w commit_epoch = Except.ok r) :
    ∃ s, Committing.reaches types dummy 1 (Committing.start w (fun _ => context))
        (context.current_xct_.write_set_.length + 1) s ∧
      s.world = r.world ∧ s.threads 0 = r.context ∧ s.ret 0 = some r.ret := by
  obtain ⟨w1, hl, hr⟩ :=
    precommit_xct_readwrite_ok types dummy context w commit_epoch r hactive hschema hwrite h
  obtain ⟨s1, h1, h2, h3, h4, h5⟩ := Committing.reaches_lock_loop types dummy 1
    (Committing.start w (fun _ => context)) 0 (by decide)
    (sort_write_set context).current_xct_.write_set_ 0 _ Committing.reaches.refl rfl w1 rfl hl
  have hlen : (sort_write_set context).current_xct_.write_set_.length
      = context.current_xct_.write_set_.length :=
    (std_sort_perm WriteXctAccess.compare context.current_xct_.write_set_).length_eq
  have hth : s1.threads 0 = sort_write_set context := by rw [h3]; rfl
  have hret : s1.ret 0 = none := by rw [h4]; rfl
  have hi : ¬ s1.i 0 < (s1.write_set 0).length := by
    unfold Committing.write_set
    rw [h5, hth]
    show ¬ 0 + _ < _
    omega
  have hstep : Committing.step types dummy 1 s1 (s1.finish types dummy 0) :=
    Committing.step.finish s1 0 (by decide) hret hi
  refine ⟨s1.finish types dummy 0, ?_, ?_, ?_, ?_⟩
  · have h6 := Committing.reaches.step _ _ _ h1 hstep
    rw [Nat.zero_add, hlen] at h6
    exact h6
  · rw [hr]
    simp only [Committing.finish, hth, h2]
  · rw [hr]
    simp only [Committing.finish, hth, h2, if_true]
  · rw [hr]
    simp only [Committing.finish, hth, h2, if_true]

/-- When every worker has returned no step is left. -/
theorem Committing.steps_left_of_returned (s : Committing) (n : Nat)
    (h : ∀ t, t < n → s.ret t ≠ none) : s.steps_left n = 0 := by
  induction n with
  | zero => rfl
  | succ m ih =>
    unfold Committing.steps_left
    rw [ih (fun t ht => h t (by omega))]
    have hm := h m (by omega)
    unfold Committing.remaining
    cases hr : s.ret m with
    | none => exact absurd hr hm
    | some _ => rfl

/-- A write set that names one record twice, which the uniqueness that
`precommit_xct_lock` assumes of the write set excludes: the worker that wrote
the record at address 100 twice sorts its write set to the order 100, 100,
locks the record in the first round of the loop, and in the second round waits
for the key-lock that it holds itself.  The state has no step although the
worker has not returned, and `precommit_xct` as a whole does not return. -/
theorem Examples.commit_twice_self_wait :
    Committing.reaches Examples.types0 Examples.dummy0 1
      (Committing.start Examples.w0 Examples.ctx_twice) 1 Examples.commit_twice ∧
    (Examples.commit_twice.write_set 0).map (fun a => a.record_) = [100, 100] ∧
    Examples.commit_twice.ret 0 = none ∧
    Examples.commit_twice.waits_for 0 0 ∧
    Relation.TransGen Examples.commit_twice.waits_for 0 0 ∧
    (∀ s1, ¬ Committing.step Examples.types0 Examples.dummy0 1 Examples.commit_twice s1) ∧
    precommit_xct Examples.types0 Examples.dummy0 (Examples.ctx_twice 0) Examples.w0 ⟨0⟩
      = Except.error Halt.spin := by
  have hw : Examples.commit_twice.waits_for 0 0 :=
    ⟨rfl, ⟨Examples.idA, 1000, 100, 24⟩, rfl, rfl, 0, ⟨Examples.idA, 1000, 100, 8⟩,
      by decide, rfl, rfl⟩
  refine ⟨?_, rfl, rfl, hw, Relation.TransGen.single hw, ?_, rfl⟩
  · exact Committing.reaches.step 0 _ _ Committing.reaches.refl
      (Committing.step.lock _ 0 ⟨Examples.idA, 1000, 100, 8⟩ _ (by decide) rfl rfl rfl)
  · intro s1 h
    generalize hs : Examples.commit_twice = s at h
    cases h with
    | lock t a w1 ht hret ha hlock =>
      subst hs
      have ht0 : t = 0 := by omega
      subst ht0
      have ha2 : a = ⟨Examples.idA, 1000, 100, 24⟩ := by
        have h2 : (Examples.commit_twice.write_set 0)[Examples.commit_twice.i 0]?
            = some ⟨Examples.idA, 1000, 100, 24⟩ := rfl
        rw [h2] at ha
        cases ha
        rfl
      subst ha2
      have h3 : keylock_unconditional Examples.commit_twice.world 100
          = Except.error Halt.spin := rfl
      rw [show (⟨Examples.idA, 1000, 100, 24⟩ : WriteXctAccess).record_ = 100 from rfl,
        h3] at hlock
      cases hlock
    | finish t ht hret hi =>
      subst hs
      have ht0 : t = 0 := by omega
      subst ht0
      exact hi (by decide)

/-- In `commit_stuck` no worker has a step. -/
theorem Examples.commit_stuck_no_step (s1 : Committing) :
    ¬ Committing.step Examples.types0 Examples.dummy0 2 Examples.commit_stuck s1 := by
  intro h
  have hret0 : Examples.commit_stuck.ret 0 = some ErrorCode.kErrorCodeOk := rfl
  generalize hs : Examples.commit_stuck = s at h
  cases h with
  | lock t a w1 ht hret ha hlock =>
    subst hs
    have ht01 : t = 0 ∨ t = 1 := by omega
    rcases ht01 with ht0 | ht1
    · subst ht0
      rw [hret0] at hret
      cases hret
    · subst ht1
      have ha2 : a = ⟨Examples.idA, 1000, 100, 24⟩ := by
        have h2 : (Examples.commit_stuck.write_set 1)[Examples.commit_stuck.i 1]?
            = some ⟨Examples.idA, 1000, 100, 24⟩ := rfl
        rw [h2] at ha
        cases ha
        rfl
      subst ha2
      have h3 : keylock_unconditional Examples.commit_stuck.world 100
          = Except.error Halt.spin := rfl
      rw [show (⟨Examples.idA, 1000, 100, 24⟩ : WriteXctAccess).record_ = 100 from rfl,
        h3] at hlock
      cases hlock
  | finish t ht hret hi =>
    subst hs
    have ht01 : t = 0 ∨ t = 1 := by omega
    rcases ht01 with ht0 | ht1
    · subst ht0
      rw [hret0] at hret
      cases hret
    · subst ht1
      exact hi (by decide)

/-- The size of the write set array is not changed by `precommit_xct`. -/
theorem precommit_xct_max_write_set_size (types : LogTypes) (dummy : WriteXctAccess)
    (context : Thread) (w : World) (commit_epoch : Epoch) (r : Result ErrorCode)
    (hactive : context.current_xct_.is_active = true)
    (hschema : context.current_xct_.is_schema_xct = false)
    (hwrite : context.current_xct_.write_set_ ≠ [])
    (h : precommit_xct types dummy context w commit_epoch = Except.ok r) :
    r.context.current_xct_.max_write_set_size_ = context.current_xct_.max_write_set_size_ := by
  obtain ⟨w1, hl, hreq⟩ :=
    precommit_xct_readwrite_ok types dummy context w commit_epoch r hactive hschema hwrite h
  subst hreq
  cases hv : precommit_xct_verify_readwrite dummy (guard_enter (sort_write_set context) w1) w1
  · rw [readwrite_guarded_of_failed types dummy _ w1 hv]
    simp [precommit_finish, guard_exit, guard_enter, sort_write_set, Xct.deactivate,
      Xct.guard_exit, Xct.guard_enter]
  · rw [readwrite_guarded_of_verified types dummy _ w1 hv]
    simp [precommit_finish, guard_exit, guard_enter, sort_write_set, precommit_xct_apply,
      Xct.deactivate, Xct.guard_exit, Xct.guard_enter, Xct.issue_next_id]

/-- One more commit of worker 0 in epoch 1: it returns `kErrorCodeOk`, the id
issued is of epoch 1, thread 0, with the ordinal of the last id bumped inside
the ordinal field, and worker 0 is idle again. -/
theorem Examples.commit_write_spec (s : System) (h : Examples.idle_in_epoch_one s) :
    ∃ r, precommit_xct Examples.types0 Examples.dummy0
        ((Examples.begin_write s 0 200).threads 0) (Examples.begin_write s 0 200).world ⟨0⟩
        = Except.ok r ∧
      r.ret = ErrorCode.kErrorCodeOk ∧
      r.commit_epoch = ⟨1⟩ ∧
      r.context.current_xct_.get_id.get_thread_id = 0 ∧
      r.context.current_xct_.get_id.get_ordinal
        = ((s.threads 0).current_xct_.id_.ordinal_ + 1) % kOrdinalOverflow ∧
      ((Examples.begin_write s 0 200).threads 0).current_xct_.id_
        = (s.threads 0).current_xct_.id_ ∧
      (Examples.begin_write s 0 200).world.current_global_epoch_ = ⟨1⟩ ∧
      Examples.commit_write s
        = (({ Examples.begin_write s 0 200 with world := r.world } : System).set_thread 0
            r.context) ∧
      Examples.idle_in_epoch_one (Examples.commit_write s) ∧
      r.world.owner_id 200 = r.context.current_xct_.id_ ∧
      r.context.current_xct_.id_
        = ⟨⟨1⟩, ((s.threads 0).current_xct_.id_.ordinal_ + 1) % kOrdinalOverflow, 0, false,
            false, 0⟩ ∧
      (∀ t, t ≠ 0 → (Examples.begin_write s 0 200).threads t = s.threads t) ∧
      (∀ t, t ≠ 0 → (Examples.commit_write s).threads t = s.threads t) ∧
      ((Examples.begin_write s 0 200).threads 0).current_xct_.is_active = true ∧
      ((Examples.begin_write s 0 200).threads 0).current_xct_.is_schema_xct = false ∧
      ((Examples.begin_write s 0 200).threads 0).current_xct_.write_set_.map
        (fun x => x.record_) = [200] := by
  have hina : (s.threads 0).current_xct_.is_active = false := h.inactive
  have hroom : ¬ (s.threads 0).current_xct_.max_write_set_size_ ≤ 0 := by
    rw [h.room]
    omega
  have hctx : (Examples.begin_write s 0 200).threads 0
      = { (s.threads 0) with
          current_xct_ :=
            { ((s.threads 0).current_xct_.activate IsolationLevel.kSerializable false) with
              write_set_ := [⟨s.world.owner_id 200, 1000, 200,
                (s.threads 0).thread_log_buffer_.offset_tail_⟩] },
          thread_log_buffer_ :=
            ((s.threads 0).thread_log_buffer_.append ⟨⟨1, 16, 3⟩, [42]⟩).2 } := by
    simp [Examples.begin_write, System.set_thread, begin_xct, hina, storage_write,
      Xct.add_to_write_set, Xct.activate, hroom, ThreadLogBuffer.append]
  have hworld : (Examples.begin_write s 0 200).world = s.world := rfl
  have hactive : ((Examples.begin_write s 0 200).threads 0).current_xct_.is_active = true := by
    rw [hctx]
    rfl
  have hschema : ((Examples.begin_write s 0 200).threads 0).current_xct_.is_schema_xct
      = false := by
    rw [hctx]
    rfl
  have hws : ((Examples.begin_write s 0 200).threads 0).current_xct_.write_set_
      = [⟨s.world.owner_id 200, 1000, 200, (s.threads 0).thread_log_buffer_.offset_tail_⟩] := by
    rw [hctx]
  have hrs : ((Examples.begin_write s 0 200).threads 0).current_xct_.read_set_ = [] := by
    rw [hctx]
    rfl
  have hid : ((Examples.begin_write s 0 200).threads 0).current_xct_.id_
      = (s.threads 0).current_xct_.id_ := by
    rw [hctx]
    rfl
  obtain ⟨r, hr, hok⟩ := precommit_xct_clean Examples.types0 Examples.dummy0
    ((Examples.begin_write s 0 200).threads 0) (Examples.begin_write s 0 200).world ⟨0⟩
    hactive hschema (by rw [hrs]; intro b hb; cases hb) (by rw [hws]; simp)
    (by
      rw [hws, hworld]
      intro wr hwr
      rw [List.mem_singleton.mp hwr]
      exact h.unlocked)
    (by rw [hrs]; intro b hb; cases hb)
  have hwrite : ((Examples.begin_write s 0 200).threads 0).current_xct_.write_set_ ≠ [] := by
    rw [hws]
    exact List.cons_ne_nil _ _
  obtain ⟨w1, hl, hce, hrid, hract, _, hrthread, _, hrworld⟩ :=
    precommit_xct_readwrite_commit Examples.types0 Examples.dummy0 _ _ ⟨0⟩ r hactive hschema
      hwrite hr hok
  have hmax := precommit_xct_max_write_set_size Examples.types0 Examples.dummy0 _ _ ⟨0⟩ r
    hactive hschema hwrite hr
  have hepoch := (precommit_xct_id Examples.types0 Examples.dummy0 _ _ ⟨0⟩ r hr).1
  have hg : (Examples.begin_write s 0 200).world.current_global_epoch_ = ⟨1⟩ := h.epoch
  have hnew : r.context.current_xct_.id_
      = ⟨⟨1⟩, ((s.threads 0).current_xct_.id_.ordinal_ + 1) % kOrdinalOverflow, 0, false,
          false, 0⟩ := by
    rw [hrid, hg]
    simp only [Xct.issue_next_id, hid, h.id_epoch, if_true]
    rw [hctx]
    simp [Xct.activate, h.thread]
  have hcommit : Examples.commit_write s
      = (({ Examples.begin_write s 0 200 with world := r.world } : System).set_thread 0
          r.context) := by
    unfold Examples.commit_write System.precommit
    rw [hr]
  have hmem : (⟨s.world.owner_id 200, 1000, 200,
      (s.threads 0).thread_log_buffer_.offset_tail_⟩ : WriteXctAccess)
      ∈ (sort_write_set ((Examples.begin_write s 0 200).threads 0)).current_xct_.write_set_ := by
    rw [mem_sorted_write_set, hws]
    exact List.mem_singleton.mpr rfl
  have hcode : (((Examples.begin_write s 0 200).threads 0).thread_log_buffer_.entries_
      (s.threads 0).thread_log_buffer_.offset_tail_).header.log_type_code_ = 1 := by
    rw [hctx]
    simp [ThreadLogBuffer.append]
  have hrec := apply_loop_records_of_mem Examples.types0
    (((Examples.begin_write s 0 200).threads 0).current_xct_.issue_next_id
      (Examples.begin_write s 0 200).world.current_global_epoch_).id_
    ((Examples.begin_write s 0 200).threads 0)
    (sort_write_set ((Examples.begin_write s 0 200).threads 0)).current_xct_.write_set_ w1
    ⟨s.world.owner_id 200, 1000, 200, (s.threads 0).thread_log_buffer_.offset_tail_⟩
    Examples.rec_type (lock_loop_ok_pre _ _ w1 hl).1 hmem
    (by rw [hcode]; decide) (by rw [hcode]; rfl)
  have howner : r.world.owner_id 200 = r.context.current_xct_.id_ := by
    rw [World.owner_id, hrworld, hrec, hrid]
    rfl
  have hbegin : ∀ t, t ≠ 0 → (Examples.begin_write s 0 200).threads t = s.threads t := by
    intro t ht
    simp [Examples.begin_write, System.set_thread, ht]
  have hother : ∀ t, t ≠ 0 → (Examples.commit_write s).threads t = s.threads t := by
    intro t ht
    rw [hcommit]
    simp [Examples.begin_write, System.set_thread, ht]
  refine ⟨r, hr, hok, by rw [hce, hg], ?_, ?_, hid, hg, hcommit, ?_, howner, hnew, hbegin,
    hother, hactive, hschema, by rw [hws]; rfl⟩
  · simp [Xct.get_id, XctId.get_thread_id, hnew]
  · simp [Xct.get_id, XctId.get_ordinal, hnew]
  · rw [hcommit]
    refine ⟨?_, ?_, ?_, ?_, ?_, ?_⟩
    · show r.world.current_global_epoch_ = ⟨1⟩
      rw [hepoch, hg]
    · show ((({ Examples.begin_write s 0 200 with world := r.world } : System).set_thread 0
        r.context).threads 0).current_xct_.active_ = false
      rw [System.set_thread_threads]
      exact hract
    · show ((({ Examples.begin_write s 0 200 with world := r.world } : System).set_thread 0
        r.context).threads 0).current_xct_.thread_id_ = 0
      rw [System.set_thread_threads, hrthread, hctx]
      exact h.thread
    · show ((({ Examples.begin_write s 0 200 with world := r.world } : System).set_thread 0
        r.context).threads 0).current_xct_.id_.epoch_ = ⟨1⟩
      rw [System.set_thread_threads, hnew]
    · show ((({ Examples.begin_write s 0 200 with world := r.world } : System).set_thread 0
        r.context).threads 0).current_xct_.max_write_set_size_ = 10
      rw [System.set_thread_threads, hmax, hctx]
      exact h.room
    · show (r.world.owner_id 200).is_keylocked = false
      rw [howner, hnew]
      rfl
theorem Examples.sys_workers_idle : Examples.idle_in_epoch_one Examples.sys_workers :=
  ⟨rfl, rfl, rfl, rfl, rfl, rfl⟩

theorem Examples.commits_succ (s : System) (n : Nat) :
    Examples.commits s (n + 1) = Examples.commit_write (Examples.commits s n) :=
  Function.iterate_succ_apply' _ _ _

/-- After `n` commits of worker 0 in epoch 1: worker 0 is idle, the ordinal of
its last id is the one it started with, bumped `n` times inside the ordinal
field, the other workers are as they were, and after the first of the commits
the record at address 200 carries the last id of worker 0. -/
theorem Examples.commits_spec (s : System) (hidle : Examples.idle_in_epoch_one s)
    (hord : (s.threads 0).current_xct_.id_.ordinal_ < kOrdinalOverflow) (n : Nat) :
    Examples.idle_in_epoch_one (Examples.commits s n) ∧
    ((Examples.commits s n).threads 0).current_xct_.id_.ordinal_
      = ((s.threads 0).current_xct_.id_.ordinal_ + n) % kOrdinalOverflow ∧
    (∀ t, t ≠ 0 → (Examples.commits s n).threads t = s.threads t) ∧
    (0 < n → (Examples.commits s n).world.owner_id 200
      = ⟨⟨1⟩, ((s.threads 0).current_xct_.id_.ordinal_ + n) % kOrdinalOverflow, 0, false,
          false, 0⟩) := by
  induction n with
  | zero =>
    refine ⟨hidle, ?_, fun _ _ => rfl, fun h => absurd h (Nat.lt_irrefl 0)⟩
    show (s.threads 0).current_xct_.id_.ordinal_ = _
    rw [Nat.add_zero, Nat.mod_eq_of_lt hord]
  | succ n ih =>
    obtain ⟨hidle1, hord1, hother1, _⟩ := ih
    obtain ⟨r, _, _, _, _, _, _, _, hcommit, hidle2, howner, hnew, _, hother, _, _, _⟩ :=
      Examples.commit_write_spec (Examples.commits s n) hidle1
    rw [Examples.commits_succ]
    have hmod : (((s.threads 0).current_xct_.id_.ordinal_ + n) % kOrdinalOverflow + 1)
        % kOrdinalOverflow
        = ((s.threads 0).current_xct_.id_.ordinal_ + (n + 1)) % kOrdinalOverflow := by
      simp only [kOrdinalOverflow, Nat.reducePow]
      omega
    rw [hord1, hmod] at hnew
    refine ⟨hidle2, ?_, ?_, fun _ => ?_⟩
    · rw [hcommit, System.set_thread_threads, hnew]
    · intro t ht
      rw [hother t ht, hother1 t ht]
    · rw [hcommit]
      show r.world.owner_id 200 = _
      rw [howner, hnew]

/-- The commits of worker 0 stay inside the ordinal field as long as the
ordinals of the epoch are not used up. -/
theorem Examples.commits_reaches_ordinals (s0 s : System) (k : Nat)
    (hidle : Examples.idle_in_epoch_one s) (n : Nat)
    (hord : (s.threads 0).current_xct_.id_.ordinal_ + n < kOrdinalOverflow)
    (h : System.reaches_ordinals Examples.types0 s0 k s) :
    System.reaches_ordinals Examples.types0 s0 k (Examples.commits s n) := by
  induction n with
  | zero => exact h
  | succ n ih =>
    obtain ⟨hidle1, hord1, _, _⟩ := Examples.commits_spec s hidle (by omega) n
    obtain ⟨r, _, _, _, _, _, hid, _, _, _, _, _, _, _, _, _, _⟩ :=
      Examples.commit_write_spec (Examples.commits s n) hidle1
    rw [Examples.commits_succ]
    apply System.reaches_precommit
    · intro _
      rw [hid, hord1, Nat.mod_eq_of_lt (by omega)]
      omega
    · exact Examples.reaches_begin_write _ _ _ 0 200 (ih (by omega))

theorem Examples.begin_write_reaches (s0 s : System) (k t record : Nat)
    (h : System.reaches Examples.types0 s0 k s) :
    System.reaches Examples.types0 s0 k (Examples.begin_write s t record) := by
  have hb := System.reaches.step k _ _ h
    (System.step.begin_xct s t IsolationLevel.kSerializable)
  have hw : System.step Examples.types0 _ _ := System.step.write
    (s.set_thread t (XctManagerPimpl.begin_xct (s.threads t) IsolationLevel.kSerializable).2)
    t 1000 record ⟨⟨1, 16, 3⟩, [42]⟩
  rw [System.set_thread_threads] at hw
  exact System.reaches.step k _ _ hb hw

/-- The commits of worker 0 are a run of the system. -/
theorem Examples.commits_reaches (s0 s : System) (k n : Nat)
    (h : System.reaches Examples.types0 s0 k s) :
    System.reaches Examples.types0 s0 k (Examples.commits s n) := by
  induction n with
  | zero => exact h
  | succ n ih =>
    rw [Examples.commits_succ]
    have hbw := Examples.begin_write_reaches s0 _ k 0 200 ih
    unfold Examples.commit_write System.precommit
    cases hr : XctManagerPimpl.precommit_xct Examples.types0 Examples.dummy0
        ((Examples.begin_write (Examples.commits s n) 0 200).threads 0)
        (Examples.begin_write (Examples.commits s n) 0 200).world ⟨0⟩ with
    | error e => exact hbw
    | ok r => exact System.reaches.step k _ _ hbw (System.step.precommit_xct _ 0 _ ⟨0⟩ r hr)
/-! ## Ids that are issued a second time -/

theorem Examples.commits_add (s : System) (n m : Nat) :
    Examples.commits (Examples.commits s n) m = Examples.commits s (m + n) :=
  (Function.iterate_add_apply _ m n s).symm

theorem Examples.sys_c1_read_idle : Examples.idle_in_epoch_one Examples.sys_c1_read :=
  ⟨rfl, rfl, rfl, rfl, rfl, rfl⟩

end foedus
